import Mathlib

/-!
# Valhalla tile store: a shallow embedding of the accessor and tiling code

Embedded sources:
* `src/baldr/graphtile.cc`: `digits`, `dir_facet`, `GraphTile::FileSuffix`,
  `GraphTile::GetTileId`, `GraphTile::GetSigns`, `GraphTile::GetNextDeparture`,
  `GraphTile::GetTransitDeparture`, `GraphTile::GetAccessRestrictions`,
  `GraphTile::node`, `GraphTile::directededge`, `GraphTile::admin`,
  `GraphTile::GetTransitStop`, `GraphTile::GetTransitRoute`,
  `GraphTile::GetTransfers`, `GraphTile::GetTransfer`, and the constructor
  `GraphTile::GraphTile` (the section layout, with the record sizes and the
  file system as parameters);
* `src/midgard/tiles.cc`: the constructor, `Row`, `Col`, `TileId`, `Base`,
  `TileBounds`, `Center`, the neighbour functions, `Tiles::TileList`,
  `Tiles::ColorMap` and the two `Tiles::Intersect` overloads (the geometric
  predicates of the point type are parameters);
* `src/baldr/connectivity_map.cc`: the constructor (the directory scan is a
  parameter), `get_color`, `to_geojson` (the iteration order of the region
  map is a parameter) and `to_image`;
* `valhalla/baldr/traffictile.h`: `Tile::getTrafficForDirectedEdge` and
  `Tile::getIncidentsForDirectedEdge` (a failed assertion is `none`);
* `valhalla/baldr/transitdeparture.h`: the widths of the members of
  `TransitDeparture`;
* `valhalla/meili/grid_range_query.h`: `GridRangeQuery`, its constructor,
  `GridCoordinates`, `GetItemsInCell`, `AddLineSegment` and `Query` (the
  intersection of segments and the distance approximator are parameters);
* `src/sif/bicyclecost.cc`: the constructor of `BicycleCost` on the bicycle
  type and the cycling speed, `Allowed`, `GetFilter` and the index at which
  `EdgeCost` reads the table of speed factors.

The lists of indices read by the sorted lookups follow the loops of
`GetSigns`, `GetAccessRestrictions`, `GetTransfers` and `GetTransfer`.

Conventions. Strings are lists of characters. `uint32_t` values are natural
numbers reduced modulo `2^32` wherever the C++ arithmetic can wrap; `int32_t`
values are integers (signed overflow is undefined in C++ and lies outside the
model, so the section counts of the sorted lookups are taken up to `2^30` and
tile counts below `2^31`). A loop that
is not structurally recursive carries a fuel argument. The search, scan and
flood loops yield `none` when the fuel runs out; the entry points supply
enough fuel and the theorems show that `none` is never produced. The two
digit loops take the number itself as fuel, which the lemmas show to suffice.
The walk of `Tiles::Intersect` and the walk of `AddLineSegment` take their
fuel as an argument. The `float` coordinates of the tiling and of the grid, and
the speeds and factors of the bicycle costing, are exact rationals: rounding is
outside the model. The theorems on the tiling that range over all inputs of a
kind take their coordinates from a binary grid (`onGrid`), on which the
arithmetic of the code is exact and its quotients are cast alike with and
without rounding; the other theorems on floats are about given values that a
`float` holds exactly.
-/

namespace Valhalla

/-! ## Machine integers -/

/-- Conversion of an integer value to `uint32_t` (reduction modulo `2^32`). -/
def toUInt32 (z : Int) : Nat := (z % 4294967296).toNat

/-- Conversion of a `uint32_t` to `int32_t` (two's complement). -/
def toInt32 (k : Nat) : Int :=
  if k % 4294967296 < 2147483648 then ((k % 4294967296 : Nat) : Int)
  else ((k % 4294967296 : Nat) : Int) - 4294967296

/-- The value `static_cast<uint32_t>(std::pow(b, e))`. A power that does not
fit 32 bits has no defined conversion in C++; the model wraps it. -/
def powU32 (b e : Nat) : Nat := (b ^ e) % 4294967296

/-! ## Errors -/

/-- The `std::runtime_error`s thrown by the embedded functions, one constructor
per message. -/
inductive TileError where
  /-- "Could not compute FileSuffix for non-existent level" -/
  | nonexistentLevel
  /-- "File name for tile does not match hierarchy root dir" -/
  | rootDirMismatch
  /-- "Invalid tile path" -/
  | invalidTilePath
  /-- "GetSigns: offset exceeds size of text list" -/
  | signOffsetExceedsTextList
  /-- "GraphTile NodeInfo index out of bounds: ..." -/
  | nodeInfoIndexOutOfBounds
  /-- "GraphTile DirectedEdge index out of bounds: ..." -/
  | directedEdgeIndexOutOfBounds
  /-- "GraphTile Admin index out of bounds" -/
  | adminIndexOutOfBounds
  /-- "GraphTile Transit Stop index out of bounds" -/
  | transitStopIndexOutOfBounds
  /-- The `std::logic_error` of `Tiles::Intersect`, whose message is the
  subdivision. -/
  | subdivisionOutOfRange
  /-- "No connectivity map for level" -/
  | noConnectivityMapForLevel
  /-- "hierarchy level not found" -/
  | hierarchyLevelNotFound
deriving DecidableEq, Repr

instance instDecidableEqExcept {ε α : Type} [DecidableEq ε] [DecidableEq α] :
    DecidableEq (Except ε α)
  | .ok a, .ok b => if h : a = b then isTrue (by rw [h]) else isFalse (by intro e; cases e; exact h rfl)
  | .error a, .error b =>
    if h : a = b then isTrue (by rw [h]) else isFalse (by intro e; cases e; exact h rfl)
  | .ok _, .error _ => isFalse (by intro e; cases e)
  | .error _, .ok _ => isFalse (by intro e; cases e)

/-! ## Graph identifiers and the hierarchy -/

/-- Modelled from the spec: the graph identifier `GraphId(tileid, level, id)`
(`graphid.h` is not among the sources): tile index, hierarchy level and object
index, read back by `tileid()`, `level()` and `id()` as `uint32_t` values. The
fields are taken as the constructor receives them; its range check is not
modelled (the test suite builds `GraphId(6897468, 2, 0)`). -/
structure GraphId where
  tileid : Nat
  level : Nat
  id : Nat
deriving DecidableEq, Repr

/-- The tile-base id: same tile, object index 0. -/
def GraphId.Tile_Base (g : GraphId) : GraphId := { g with id := 0 }

/-- A spatial tiling: the `int32_t` members `ncolumns_` and `nrows_`, which
are all that the integer code (neighbours, colouring) reads. `BoundedTiles`
adds the bounds and the tile size. -/
structure Tiles where
  ncolumns_ : Int
  nrows_ : Int
deriving DecidableEq, Repr

/-- Modelled from the spec: a point with its two coordinates (`point2.h` is
not among the sources). The coordinates, `float` in the code, are exact
rationals. -/
structure Point2 where
  x : ℚ
  y : ℚ
deriving DecidableEq, Repr

/-- Modelled from the spec: an axis-aligned bounding box given by its minimum
and maximum corner (`aabb2.h` is not among the sources). -/
structure AABB2 where
  minx : ℚ
  miny : ℚ
  maxx : ℚ
  maxy : ℚ
deriving DecidableEq, Repr

/-- The class `Tiles` with its members `tilebounds_`, `tilesize_`,
`nsubdivisions_` (an `unsigned short`) and `subdivision_size_` next to the row
and column counts. -/
structure BoundedTiles extends Tiles where
  tilebounds_ : AABB2
  tilesize_ : ℚ
  nsubdivisions_ : Nat := 1
  subdivision_size_ : ℚ := tilesize_ / nsubdivisions_
deriving DecidableEq, Repr

/-- `world_box(PointLL(-180, -90), PointLL(180, 90))`. -/
def world_box : AABB2 := { minx := -180, miny := -90, maxx := 180, maxy := 90 }

/-- Modelled from the spec: a level of the hierarchy (`tilehierarchy.h` is not
among the sources): its number and its spatial tiling over the world box. -/
structure TileLevel where
  level : Nat
  tiles : BoundedTiles
deriving DecidableEq, Repr

/-- Modelled from the spec: the tile hierarchy (`tilehierarchy.h` is not among
the sources): the ordered map from level number to level, and the root
directory of the tile files. -/
structure TileHierarchy where
  levels : List (Nat × TileLevel)
  tile_dir : List Char

/-- `Tiles::MaxTileId(world_box, tile_size)`: `cols * rows - 1` in `uint32_t`.
The two factors are ceilings of floating-point quotients in the source; for
the world tiling of a level they are its column and row counts, which are
passed in here. -/
def MaxTileId (cols rows : Nat) : Nat :=
  (cols % 4294967296 * (rows % 4294967296) + 4294967295) % 4294967296

/-! ## `FileSuffix` -/

/-- The loop of `digits<uint32_t>`: divide by ten until the number is zero. -/
def digitsLoop : Nat → Nat → Nat → Nat
  | 0, _, d => d
  | fuel + 1, number, d =>
    if number ≠ 0 then digitsLoop fuel (number / 10) (d + 1) else d

/-- `digits<uint32_t>(number)`; the number itself bounds the iterations. Note
that `digits 0 = 0`. -/
def digits (number : Nat) : Nat := digitsLoop number number 0

/-- The padded length of `FileSuffix`: `digits(max_id)` rounded up to a
multiple of three (`if(remainder) max_length += 3 - remainder`). -/
def maxLength (max_id : Nat) : Nat :=
  let max_length := digits max_id
  let remainder := max_length % 3
  if remainder ≠ 0 then max_length + (3 - remainder) else max_length

/-- The character of a decimal digit. -/
def digitChar (d : Nat) : Char := Char.ofNat (48 + d)

/-- The three digits of a number below 1000, with leading zeroes. -/
def pad3 (k : Nat) : List Char :=
  [digitChar (k / 100 % 10), digitChar (k / 10 % 10), digitChar (k % 10)]

/-- Decimal digits of a number, most significant first, by repeated division. -/
def decimalAux : Nat → Nat → List Char
  | 0, n => [digitChar (n % 10)]
  | fuel + 1, n =>
    if n < 10 then [digitChar n] else decimalAux fuel (n / 10) ++ [digitChar (n % 10)]

/-- The decimal representation of an unsigned number. -/
def decimal (n : Nat) : List Char := decimalAux n n

/-- The grouping of `dir_facet` on the reversed digit string: after every
third digit (`do_grouping` is "\03") that is followed by a further digit comes
the separator `/` (`do_thousands_sep`). -/
def groupRev : List Char → List Char
  | a :: b :: c :: d :: rest => a :: b :: c :: '/' :: groupRev (d :: rest)
  | s => s

/-- The stream insertion `stream << n` of an unsigned number under
`dir_locale`: the decimal digits, grouped by three from the right. -/
def putGrouped (n : Nat) : List Char := (groupRev (decimal n).reverse).reverse

/-- The assignment `suffix[0] = c`. -/
def setFirst (c : Char) : List Char → List Char
  | [] => []
  | _ :: s => c :: s

/-- The literal ".gph". -/
def gph : List Char := ['.', 'g', 'p', 'h']

/-- `GraphTile::FileSuffix(graphid, hierarchy)`. -/
def FileSuffix (graphid : GraphId) (hierarchy : TileHierarchy) :
    Except TileError (List Char) :=
  match hierarchy.levels.lookup graphid.level with
  | none => .error .nonexistentLevel
  | some level =>
    let max_id := MaxTileId (toUInt32 level.tiles.ncolumns_) (toUInt32 level.tiles.nrows_)
    let max_length := maxLength max_id
    if graphid.level = 0 then
      .ok (setFirst '0' (putGrouped ((powU32 10 max_length + graphid.tileid) % 4294967296) ++ gph))
    else
      .ok (putGrouped ((graphid.level * powU32 10 max_length + graphid.tileid) % 4294967296)
            ++ gph)

/-! ## `GetTileId` -/

/-- `std::string::find`: the position of the first occurrence of `pat`, or
`none` for `npos`. -/
def find (pat : List Char) : List Char → Option Nat
  | [] => if pat = [] then some 0 else none
  | c :: s =>
    if pat.isPrefixOf (c :: s) then some 0
    else (find pat s).map (fun p => p + 1)

/-- `boost::is_any_of("/.gph")`. -/
def isAnyOfSlashDotGph (c : Char) : Bool :=
  c = '/' || c = '.' || c = 'g' || c = 'p' || c = 'h'

/-- `boost::is_any_of("/")`. -/
def isSlash (c : Char) : Bool := c = '/'

/-- `boost::algorithm::trim_if`: drop the matching characters at both ends. -/
def trim_if (p : Char → Bool) (s : List Char) : List Char :=
  ((s.dropWhile p).reverse.dropWhile p).reverse

/-- `boost::split` without token compression: cut at every matching
character; the empty string gives one empty token. -/
def split (p : Char → Bool) : List Char → List (List Char)
  | [] => [[]]
  | c :: s =>
    if p c then [] :: split p s
    else match split p s with
      | [] => [[c]]
      | t :: ts => (c :: t) :: ts

/-- `isspace` in the "C" locale. -/
def isspace (c : Char) : Bool :=
  c = ' ' || c = '\t' || c = '\n' || c = Char.ofNat 11 || c = Char.ofNat 12 || c = '\r'

/-- The digit loop of `atoi`: accumulate while the characters are digits. -/
def atoiDigits : List Char → Int → Int
  | [], acc => acc
  | c :: s, acc =>
    if c.isDigit then atoiDigits s (acc * 10 + ((c.toNat : Int) - 48)) else acc

/-- `std::atoi`: skip white space, read an optional sign, then the digits. A
value outside `int` is undefined in C; the model keeps the exact value. -/
def atoi (s : List Char) : Int :=
  match s.dropWhile isspace with
  | [] => 0
  | c :: r =>
    if c = '-' then - atoiDigits r 0
    else if c = '+' then atoiDigits r 0
    else atoiDigits (c :: r) 0

/-- The loop body of `GetTileId` over the tokens after the first:
`id += atoi(token) * multiplier; multiplier /= 1000`, in `uint32_t`. -/
def idLoop : List (List Char) → Nat → Nat → Nat
  | [], _, id => id
  | token :: rest, multiplier, id =>
    idLoop rest (multiplier / 1000) ((id + toUInt32 (atoi token * multiplier)) % 4294967296)

/-- `GraphTile::GetTileId(fname, hierarchy)`. -/
def GetTileId (fname : List Char) (hierarchy : TileHierarchy) : Except TileError GraphId :=
  match find hierarchy.tile_dir fname with
  | none => .error .rootDirMismatch
  | some pos =>
    let name := trim_if isAnyOfSlashDotGph (fname.drop (pos + hierarchy.tile_dir.length))
    let tokens := split isSlash name
    if tokens.length < 2 then .error .invalidTilePath
    else
      let id := idLoop tokens.tail (powU32 1000 (tokens.length - 2)) 0
      let level := toUInt32 (atoi (tokens.headD []))
      .ok { tileid := id, level := level, id := 0 }

/-! ## The tile accessor: records and sections -/

/-- Modelled from the spec: the sign record (`sign.h` is not among the
sources): the directed edge index, the sign type and the offset of its text in
the text list, the three accessors that `GetSigns` uses. -/
structure Sign where
  edgeindex : Nat
  type : Nat
  text_offset : Nat
deriving DecidableEq, Repr

/-- Modelled from the spec: the result record of `GetSigns` (`signinfo.h` is
not among the sources): sign type and resolved text. -/
structure SignInfo where
  type : Nat
  text : List Char
deriving DecidableEq, Repr

/-- Modelled from the spec: the access restriction record
(`accessrestriction.h` is not among the sources): edge index, type and value. -/
structure AccessRestriction where
  edgeindex : Nat
  type : Nat
  value : Nat
deriving DecidableEq, Repr

/-- The members of `TransitDeparture` (`transitdeparture.h`). -/
structure TransitDeparture where
  days : Nat
  lineid : Nat
  tripid : Nat
  routeid : Nat
  blockid : Nat
  days_of_week : Nat
  headsign_offset : Nat
  departure_time : Nat
  elapsed_time : Nat
deriving DecidableEq, Repr

/-- The widths in bits of the data members of `TransitDeparture`, in the
order of their declaration: `uint64_t days_`, the three `uint32_t` members
`lineid_`, `tripid_` and `routeid_`, the bit fields `blockid_ : 25` and
`days_of_week_ : 7`, `uint32_t headsign_offset_`, and the bit fields
`departure_time_ : 17` and `elapsed_time_ : 15`. -/
def TransitDeparture.fieldWidths : List Nat := [64, 32, 32, 32, 25, 7, 32, 17, 15]

/-- Modelled from the spec: the node record (`nodeinfo.h` is not among the
sources): the index of its first outbound directed edge and their number, the
two accessors that `GetDirectedEdges` reads. -/
structure NodeInfo where
  edge_index : Nat
  edge_count : Nat
deriving DecidableEq, Repr

/-- Modelled from the spec: the directed edge record (`directededge.h` is not
among the sources): end node, length and speed, and the attributes that the
bicycle costing reads: the use, the surface (3 bits), the weighted grade
(4 bits), the forward access mask, the two transition flags, the not-thru flag
and the local edge index. -/
structure DirectedEdge where
  endnode : GraphId
  length : Nat
  speed : Nat
  use : Nat := 0
  surface : Nat := 0
  weighted_grade : Nat := 0
  forwardaccess : Nat := 0
  trans_up : Bool := false
  trans_down : Bool := false
  not_thru : Bool := false
  localedgeidx : Nat := 0
deriving DecidableEq, Repr

/-- Modelled from the spec: the admin record (`admin.h` is not among the
sources): the text-list offsets of the country and state names and the two ISO
codes, the four accessors that `admininfo` reads. -/
structure Admin where
  country_offset : Nat
  state_offset : Nat
  country_iso : List Char
  state_iso : List Char
deriving DecidableEq, Repr

/-- The members of `TransitStop` (`transitstop.h`). -/
structure TransitStop where
  stopid : Nat
  one_stop_offset : Nat
  name_offset : Nat
  desc_offset : Nat
  parent_stopid : Nat
  fare_zoneid : Nat
deriving DecidableEq, Repr

/-- Modelled from the spec: the transit route record (`transitroute.h` is not
among the sources): the route id, the key of `GetTransitRoute`, and the
text-list offsets of its names. -/
structure TransitRoute where
  routeid : Nat
  short_name_offset : Nat
  long_name_offset : Nat
  desc_offset : Nat
deriving DecidableEq, Repr

/-- Modelled from the spec: the transfer record (`transittransfer.h` is not
among the sources): from stop, to stop, transfer type and minimum time. -/
structure TransitTransfer where
  from_stopid : Nat
  to_stopid : Nat
  type : Nat
  mintime : Nat
deriving DecidableEq, Repr

/-- Modelled from the spec: the tile header (`graphtileheader.h` is not among
the sources), with the fields that the embedded accessors read: the record
counts of the sections and the creation date, each a `u32`. -/
structure GraphTileHeader where
  departurecount : Nat
  access_restriction_count : Nat
  signcount : Nat
  date_created : Nat
  nodecount : Nat := 0
  directededgecount : Nat := 0
  admincount : Nat := 0
  stopcount : Nat := 0
  routecount : Nat := 0
  transfercount : Nat := 0
  edgeinfo_offset : Nat := 0
  textlist_offset : Nat := 0
  file_size : Nat := 0
deriving DecidableEq, Repr

/-- A loaded tile. Each section pointer is a function from index to record:
the header count bounds the section, and an index at or past the count reads
whatever follows the section in memory. The text list is its bytes
(`textlist_size_` is their number). -/
structure GraphTile where
  header_ : GraphTileHeader
  departures_ : Nat → TransitDeparture
  access_restrictions_ : Nat → AccessRestriction
  signs_ : Nat → Sign
  textlist_ : List Char
  nodes_ : Nat → NodeInfo := fun _ => { edge_index := 0, edge_count := 0 }
  directededges_ : Nat → DirectedEdge :=
    fun _ => { endnode := { tileid := 0, level := 0, id := 0 }, length := 0, speed := 0 }
  admins_ : Nat → Admin :=
    fun _ => { country_offset := 0, state_offset := 0, country_iso := [], state_iso := [] }
  transit_stops_ : Nat → TransitStop :=
    fun _ => { stopid := 0, one_stop_offset := 0, name_offset := 0, desc_offset := 0,
               parent_stopid := 0, fare_zoneid := 0 }
  transit_routes_ : Nat → TransitRoute :=
    fun _ => { routeid := 0, short_name_offset := 0, long_name_offset := 0, desc_offset := 0 }
  transit_transfers_ : Nat → TransitTransfer :=
    fun _ => { from_stopid := 0, to_stopid := 0, type := 0, mintime := 0 }

/-- The string that `textlist_ + offset` denotes: the bytes from the offset up
to the terminating NUL. -/
def GraphTile.textAt (tile : GraphTile) (offset : Nat) : List Char :=
  (tile.textlist_.drop offset).takeWhile (fun c => c ≠ Char.ofNat 0)

/-! ## Sorted lookups -/

/-- The binary search that opens every sorted lookup,
`while (low <= high) { mid = (low + high) / 2; ... }` over the key of the
records: `some (some mid)` when a record with the key is found (`found`),
`some none` when the range empties, `none` when the fuel runs out. The
callers pass `low = 0` and `high = count-1` converted to `int32_t`, which is
negative for a count above `2^31`: the loop does not run then. The operands of
the division are non-negative. With at most `2^30` records `low + high` stays
below `2^31`; beyond that the sum overflows `int32_t`, which C++ leaves
undefined and the integers here do not follow. -/
def searchLoop (key : Nat → Nat) (idx : Nat) : Nat → Int → Int → Option (Option Nat)
  | fuel, low, high =>
    if low ≤ high then
      match fuel with
      | 0 => none
      | fuel + 1 =>
        let mid := (low + high) / 2
        if key mid.toNat = idx then some (some mid.toNat)
        else if idx < key mid.toNat then searchLoop key idx fuel low (mid - 1)
        else searchLoop key idx fuel (mid + 1) high
    else some none

/-- `while (mid > 0 && key[mid-1] == idx) mid--`: back up while the prior
record has the key. -/
def backUp (key : Nat → Nat) (idx : Nat) : Nat → Nat
  | 0 => 0
  | mid + 1 => if key mid = idx then backUp key idx mid else mid + 1

/-- The collecting loop of `GetSigns`:
`while (signs_[mid].edgeindex() == idx && mid < count)`, with the bounds check
of the text offset. -/
def addSigns (tile : GraphTile) (idx : Nat) :
    Nat → Nat → List SignInfo → Option (Except TileError (List SignInfo))
  | fuel, mid, signs =>
    if (tile.signs_ mid).edgeindex = idx ∧ mid < tile.header_.signcount then
      match fuel with
      | 0 => none
      | fuel + 1 =>
        if (tile.signs_ mid).text_offset < tile.textlist_.length then
          addSigns tile idx fuel (mid + 1)
            (signs ++ [{ type := (tile.signs_ mid).type,
                         text := tile.textAt (tile.signs_ mid).text_offset }])
        else some (.error .signOffsetExceedsTextList)
    else some (.ok signs)

/-- `GraphTile::GetSigns(idx)`. The outer `none` is fuel exhaustion. -/
def GetSigns (tile : GraphTile) (idx : Nat) : Option (Except TileError (List SignInfo)) :=
  let count := tile.header_.signcount
  if count = 0 then some (.ok [])
  else
    match searchLoop (fun i => (tile.signs_ i).edgeindex) idx count 0 (toInt32 (count - 1)) with
    | none => none
    | some none => some (.ok [])
    | some (some mid) =>
      addSigns tile idx count (backUp (fun i => (tile.signs_ i).edgeindex) idx mid) []

/-- The collecting loop of `GetAccessRestrictions`:
`while (access_restrictions_[mid].edgeindex() == idx && mid < count)`. -/
def addRestrictions (tile : GraphTile) (idx : Nat) :
    Nat → Nat → List AccessRestriction → Option (List AccessRestriction)
  | fuel, mid, restrictions =>
    if (tile.access_restrictions_ mid).edgeindex = idx
        ∧ mid < tile.header_.access_restriction_count then
      match fuel with
      | 0 => none
      | fuel + 1 =>
        addRestrictions tile idx fuel (mid + 1) (restrictions ++ [tile.access_restrictions_ mid])
    else some restrictions

/-- `GraphTile::GetAccessRestrictions(idx)`. The outer `none` is fuel
exhaustion. The inner `none` is the end of the function body reached without
a `return`: the last `return restrictions;` stands inside
`if (restrictions.size() == 0)`, so a non-empty vector is never returned. -/
def GetAccessRestrictions (tile : GraphTile) (idx : Nat) :
    Option (Option (List AccessRestriction)) :=
  let count := tile.header_.access_restriction_count
  if count = 0 then some (some [])
  else
    match searchLoop (fun i => (tile.access_restrictions_ i).edgeindex) idx count 0
        (toInt32 (count - 1)) with
    | none => none
    | some none => some (some [])
    | some (some mid) =>
      match addRestrictions tile idx count
          (backUp (fun i => (tile.access_restrictions_ i).edgeindex) idx mid) [] with
      | none => none
      | some restrictions => if restrictions.length = 0 then some (some restrictions) else some none

/-- `valid_date_plus_60 = header_->date_created() + 60`, a `uint32_t`. -/
def valid_date_plus_60 (tile : GraphTile) : Nat :=
  (tile.header_.date_created + 60) % 4294967296

/-- Modelled from the spec: admission of a date by the 60-day bitmap of a
departure (`DateTime::is_service_available` is not among the sources, and its
call in `GetNextDeparture` is commented out): bit `k` of `days` stands for the
day `date_created + k`. -/
def daysBitmapAdmits (d : TransitDeparture) (date_created date : Nat) : Bool :=
  decide (date_created ≤ date) && d.days.testBit (date - date_created)

/-- The first loop of `GetNextDeparture`: back up while the prior departure
has the line id and a departure time not before the current time. -/
def backUpDeparture (tile : GraphTile) (lineid current_time : Nat) : Nat → Nat
  | 0 => 0
  | mid + 1 =>
    if (tile.departures_ mid).lineid = lineid
        ∧ (tile.departures_ mid).departure_time ≥ current_time then
      backUpDeparture tile lineid current_time mid
    else mid + 1

/-- The test in the body of the second loop of `GetNextDeparture`: whether the
departure at `mid` is returned. Within 60 days of the tile creation the
statement is empty (the service-availability call is commented out). -/
def departureSelected (tile : GraphTile) (current_time date dow mid : Nat) : Bool :=
  if (tile.departures_ mid).departure_time ≥ current_time then
    if date ≤ valid_date_plus_60 tile then false
    else if ((tile.departures_ mid).days_of_week &&& dow) > 0 then true else false
  else false

/-- The second loop of `GetNextDeparture` (`while (true)`): return the
departure if selected, else advance while the next departure has the line id. -/
def nextDepartureLoop (tile : GraphTile) (lineid current_time date dow : Nat) :
    Nat → Nat → Option (Option Nat)
  | fuel, mid =>
    if departureSelected tile current_time date dow mid then some (some mid)
    else if mid + 1 < tile.header_.departurecount
        ∧ (tile.departures_ (mid + 1)).lineid = lineid then
      match fuel with
      | 0 => none
      | fuel + 1 => nextDepartureLoop tile lineid current_time date dow fuel (mid + 1)
    else some none

/-- `GraphTile::GetNextDeparture(lineid, current_time, date, dow)`. The result
is the index of the departure pointed to, `some none` for `nullptr`; the outer
`none` is fuel exhaustion. -/
def GetNextDeparture (tile : GraphTile) (lineid current_time date dow : Nat) :
    Option (Option Nat) :=
  let count := tile.header_.departurecount
  if count = 0 then some none
  else
    match searchLoop (fun i => (tile.departures_ i).lineid) lineid count 0
        (toInt32 (count - 1)) with
    | none => none
    | some none => some none
    | some (some mid) =>
      nextDepartureLoop tile lineid current_time date dow count
        (backUpDeparture tile lineid current_time mid)

/-- The first loop of `GetTransitDeparture`:
`while (mid > 0 && departures_[mid-1].lineid() == lineid)`, returning the
departure at `mid` (left) when its trip id matches, else backing up; the
right value is `mid` when the loop ends. -/
def backUpTrip (tile : GraphTile) (lineid tripid : Nat) : Nat → Nat ⊕ Nat
  | 0 => .inr 0
  | mid + 1 =>
    if (tile.departures_ mid).lineid = lineid then
      if (tile.departures_ (mid + 1)).tripid = tripid then .inl (mid + 1)
      else backUpTrip tile lineid tripid mid
    else .inr (mid + 1)

/-- The second loop of `GetTransitDeparture`:
`while (departures_[mid].tripid() != tripid && mid < count) mid++`. -/
def forwardTrip (tile : GraphTile) (tripid : Nat) : Nat → Nat → Option Nat
  | fuel, mid =>
    if (tile.departures_ mid).tripid ≠ tripid ∧ mid < tile.header_.departurecount then
      match fuel with
      | 0 => none
      | fuel + 1 => forwardTrip tile tripid fuel (mid + 1)
    else some mid

/-- `GraphTile::GetTransitDeparture(lineid, tripid)`. The result is the index
of the departure pointed to, `some none` for `nullptr`; the outer `none` is
fuel exhaustion. -/
def GetTransitDeparture (tile : GraphTile) (lineid tripid : Nat) : Option (Option Nat) :=
  let count := tile.header_.departurecount
  if count = 0 then some none
  else
    match searchLoop (fun i => (tile.departures_ i).lineid) lineid count 0
        (toInt32 (count - 1)) with
    | none => none
    | some none => some none
    | some (some mid) =>
      match backUpTrip tile lineid tripid mid with
      | .inl found => some (some found)
      | .inr mid =>
        match forwardTrip tile tripid count mid with
        | none => none
        | some mid =>
          if (tile.departures_ mid).tripid = tripid then some (some mid) else some none

/-! ## Opening a tile: the section offsets -/

/-- The sizes in bytes, `sizeof(T)`, of the header and of the records of the
sections; the declarations of the types are not among the sources. -/
structure RecordSizes where
  GraphTileHeader : Nat
  NodeInfo : Nat
  DirectedEdge : Nat
  TransitDeparture : Nat
  TransitStop : Nat
  TransitRoute : Nat
  TransitTransfer : Nat
  AccessRestriction : Nat
  Sign : Nat
  Admin : Nat
deriving DecidableEq, Repr

/-- The members that the constructor of `GraphTile` sets: `size_`, the section
pointers as byte offsets from the start of the buffer `graphtile_`, and the
sizes of the edge-info region and of the text list. -/
structure TileLayout where
  size_ : Nat
  nodes_ : Nat
  directededges_ : Nat
  departures_ : Nat
  transit_stops_ : Nat
  transit_routes_ : Nat
  transit_transfers_ : Nat
  access_restrictions_ : Nat
  signs_ : Nat
  admins_ : Nat
  edge_cells_ : Nat
  edgeinfo_ : Nat
  edgeinfo_size_ : Nat
  textlist_ : Nat
  textlist_size_ : Nat
deriving DecidableEq, Repr

/-- The conversion of an integer to `size_t` (64 bits). -/
def toSizeT (z : Int) : Nat := (z % 18446744073709551616).toNat

/-- The body of the constructor of `GraphTile` once the file is read: `ptr`
starts behind the header and advances by `count * sizeof(record)` behind each
section. The header is the record at the start of the buffer, `filesize` the
number of bytes read. The two sizes are unsigned differences. -/
def GraphTile.layout (sz : RecordSizes) (header : GraphTileHeader) (filesize : Nat) :
    TileLayout :=
  let ptr := sz.GraphTileHeader
  let nodes_ := ptr
  let ptr := ptr + header.nodecount * sz.NodeInfo
  let directededges_ := ptr
  let ptr := ptr + header.directededgecount * sz.DirectedEdge
  let departures_ := ptr
  let ptr := ptr + header.departurecount * sz.TransitDeparture
  let transit_stops_ := ptr
  let ptr := ptr + header.stopcount * sz.TransitStop
  let transit_routes_ := ptr
  let ptr := ptr + header.routecount * sz.TransitRoute
  let transit_transfers_ := ptr
  let ptr := ptr + header.transfercount * sz.TransitTransfer
  let access_restrictions_ := ptr
  let ptr := ptr + header.access_restriction_count * sz.AccessRestriction
  let signs_ := ptr
  let ptr := ptr + header.signcount * sz.Sign
  let admins_ := ptr
  let ptr := ptr + header.admincount * sz.Admin
  let edge_cells_ := ptr
  { size_ := filesize,
    nodes_ := nodes_,
    directededges_ := directededges_,
    departures_ := departures_,
    transit_stops_ := transit_stops_,
    transit_routes_ := transit_routes_,
    transit_transfers_ := transit_transfers_,
    access_restrictions_ := access_restrictions_,
    signs_ := signs_,
    admins_ := admins_,
    edge_cells_ := edge_cells_,
    edgeinfo_ := header.edgeinfo_offset,
    edgeinfo_size_ := toSizeT ((header.textlist_offset : Int) - header.edgeinfo_offset),
    textlist_ := header.textlist_offset,
    textlist_size_ := toSizeT ((filesize : Int) - header.textlist_offset) }

/-- The constructor `GraphTile(hierarchy, graphid)`. `Is_Valid` is
`GraphId::Is_Valid` (`graphid.h` is not among the sources) and `files` the file
system: the header at the start and the size of the file under a path, `none`
where no file can be opened. The result is `none` for a tile that is not
loaded (`size_` stays 0); the error of `FileSuffix` passes through. -/
def GraphTile.load (sz : RecordSizes) (Is_Valid : GraphId → Bool)
    (files : List Char → Option (GraphTileHeader × Nat)) (hierarchy : TileHierarchy)
    (graphid : GraphId) : Except TileError (Option TileLayout) :=
  if Is_Valid graphid = false then .ok none
  else
    match FileSuffix graphid.Tile_Base hierarchy with
    | .error e => .error e
    | .ok suffix =>
      match files (hierarchy.tile_dir ++ '/' :: suffix) with
      | some (header, filesize) => .ok (some (GraphTile.layout sz header filesize))
      | none => .ok none

/-- The sizes of the sections in the words of the specification:
`count * sizeof(record)` in the order nodes, directed edges, transit
departures, transit stops, transit routes, transit transfers, access
restrictions, signs, admins. -/
def specSectionSizes (sz : RecordSizes) (header : GraphTileHeader) : List Nat :=
  [header.nodecount * sz.NodeInfo, header.directededgecount * sz.DirectedEdge,
   header.departurecount * sz.TransitDeparture, header.stopcount * sz.TransitStop,
   header.routecount * sz.TransitRoute, header.transfercount * sz.TransitTransfer,
   header.access_restriction_count * sz.AccessRestriction, header.signcount * sz.Sign,
   header.admincount * sz.Admin]

/-- The base offset of the section `k` in the words of the specification: the
size of the header plus the sizes of the sections before it. -/
def specSectionBase (sz : RecordSizes) (header : GraphTileHeader) (k : Nat) : Nat :=
  sz.GraphTileHeader + ((specSectionSizes sz header).take k).sum

/-- The section pointers of a layout in the order of the sections: nodes,
directed edges, transit departures, transit stops, transit routes, transit
transfers, access restrictions, signs, admins, edge cells. -/
def TileLayout.sections (l : TileLayout) : List Nat :=
  [l.nodes_, l.directededges_, l.departures_, l.transit_stops_, l.transit_routes_,
   l.transit_transfers_, l.access_restrictions_, l.signs_, l.admins_, l.edge_cells_]

/-- Record sizes as the specification lists them, with a header of 264
bytes, except for the transit departure, whose members take 32 bytes. -/
def exampleSizes : RecordSizes :=
  { GraphTileHeader := 264, NodeInfo := 32, DirectedEdge := 32, TransitDeparture := 32,
    TransitStop := 24, TransitRoute := 32, TransitTransfer := 16, AccessRestriction := 8,
    Sign := 12, Admin := 16 }

/-- A header with two nodes, three directed edges, one sign and one admin,
whose edge-info region starts at byte 500 and whose text list starts at byte
600, for a file of 640 bytes. -/
def exampleHeader : GraphTileHeader :=
  { departurecount := 0, access_restriction_count := 0, signcount := 1, date_created := 0,
    nodecount := 2, directededgecount := 3, admincount := 1, edgeinfo_offset := 500,
    textlist_offset := 600, file_size := 640 }

/-- A header that records five nodes and a file size of 4096 bytes. -/
def shortFileHeader : GraphTileHeader :=
  { departurecount := 0, access_restriction_count := 0, signcount := 0, date_created := 0,
    nodecount := 5, edgeinfo_offset := 424, textlist_offset := 424, file_size := 4096 }

/-- A file system with one file, of 264 bytes, the size of the header alone,
whose header is `shortFileHeader`: the file of the tile 49 of level 0 of the
usual hierarchy. -/
def shortFileSystem (path : List Char) : Option (GraphTileHeader × Nat) :=
  if path = "/data/valhalla/0/000/049.gph".toList then some (shortFileHeader, 264) else none

/-! ## Bounds-checked accessors and the transit sections -/

/-- `GraphTile::node(const size_t idx)`: the record at the index when it is
below the node count, else the out-of-bounds error. -/
def GraphTile.node (tile : GraphTile) (idx : Nat) : Except TileError NodeInfo :=
  if idx < tile.header_.nodecount then .ok (tile.nodes_ idx)
  else .error .nodeInfoIndexOutOfBounds

/-- `GraphTile::node(const GraphId& node)`: the same check on `node.id()`. -/
def GraphTile.nodeOf (tile : GraphTile) (node : GraphId) : Except TileError NodeInfo :=
  if node.id < tile.header_.nodecount then .ok (tile.nodes_ node.id)
  else .error .nodeInfoIndexOutOfBounds

/-- `GraphTile::directededge(const size_t idx)`. -/
def GraphTile.directededge (tile : GraphTile) (idx : Nat) : Except TileError DirectedEdge :=
  if idx < tile.header_.directededgecount then .ok (tile.directededges_ idx)
  else .error .directedEdgeIndexOutOfBounds

/-- `GraphTile::directededge(const GraphId& edge)`: the same check on
`edge.id()`. -/
def GraphTile.directededgeOf (tile : GraphTile) (edge : GraphId) :
    Except TileError DirectedEdge :=
  if edge.id < tile.header_.directededgecount then .ok (tile.directededges_ edge.id)
  else .error .directedEdgeIndexOutOfBounds

/-- `GraphTile::admin(const size_t idx)`. -/
def GraphTile.admin (tile : GraphTile) (idx : Nat) : Except TileError Admin :=
  if idx < tile.header_.admincount then .ok (tile.admins_ idx)
  else .error .adminIndexOutOfBounds

/-- `GraphTile::GetTransitStop(idx)`: the null pointer (`none`) when the tile
has no stops, the record at the index when it is below the stop count, else the
out-of-bounds error. -/
def GetTransitStop (tile : GraphTile) (idx : Nat) : Except TileError (Option TransitStop) :=
  let count := tile.header_.stopcount
  if count = 0 then .ok none
  else if idx < count then .ok (some (tile.transit_stops_ idx))
  else .error .transitStopIndexOutOfBounds

/-- `GraphTile::GetTransitRoute(routeid)`: the binary search over the route
ids, returning the index of the record found (`none` is the null pointer). The
outer `none` is fuel exhaustion. -/
def GetTransitRoute (tile : GraphTile) (routeid : Nat) : Option (Option Nat) :=
  let count := tile.header_.routecount
  if count = 0 then some none
  else searchLoop (fun i => (tile.transit_routes_ i).routeid) routeid count 0 (toInt32 (count - 1))

/-- The counting loop of `GetTransfers`,
`while (transit_transfers_[mid].from_stopid() == stopid && mid < count) { n++; mid++; }`. -/
def countTransfers (tile : GraphTile) (stopid : Nat) : Nat → Nat → Nat → Option Nat
  | fuel, mid, n =>
    if (tile.transit_transfers_ mid).from_stopid = stopid ∧ mid < tile.header_.transfercount then
      match fuel with
      | 0 => none
      | fuel + 1 => countTransfers tile stopid fuel (mid + 1) (n + 1)
    else some n

/-- `GraphTile::GetTransfers(stopid)`: the pair of the start pointer (an index,
`none` for the null pointer) and the number of records. The outer `none` is
fuel exhaustion. -/
def GetTransfers (tile : GraphTile) (stopid : Nat) : Option (Option Nat × Nat) :=
  let count := tile.header_.transfercount
  if count = 0 then some (none, 0)
  else
    match searchLoop (fun i => (tile.transit_transfers_ i).from_stopid) stopid count 0
        (toInt32 (count - 1)) with
    | none => none
    | some none => some (none, 0)
    | some (some mid) =>
      let start := backUp (fun i => (tile.transit_transfers_ i).from_stopid) stopid mid
      match countTransfers tile stopid count start 0 with
      | none => none
      | some n => some (some start, n)

/-- The backward loop of `GetTransfer`,
`while (mid > 0 && tr[mid-1].from_stopid() == from_stopid) { if (tr[mid-1].to_stopid() == to_stopid) return &tr[mid-1]; mid--; }`:
`some i` when it returns the record at `i`, `none` when the loop ends. -/
def backScanTransfer (tile : GraphTile) (from_stopid to_stopid : Nat) : Nat → Option Nat
  | 0 => none
  | mid + 1 =>
    if (tile.transit_transfers_ mid).from_stopid = from_stopid then
      if (tile.transit_transfers_ mid).to_stopid = to_stopid then some mid
      else backScanTransfer tile from_stopid to_stopid mid
    else none

/-- The forward loop of `GetTransfer`,
`while (tr[mid].from_stopid() == from_stopid && mid < count) { if (tr[mid].to_stopid() == to_stopid) return &tr[mid]; mid++; }`
followed by `return nullptr`. -/
def forwardScanTransfer (tile : GraphTile) (from_stopid to_stopid : Nat) :
    Nat → Nat → Option (Option Nat)
  | fuel, mid =>
    if (tile.transit_transfers_ mid).from_stopid = from_stopid ∧
        mid < tile.header_.transfercount then
      if (tile.transit_transfers_ mid).to_stopid = to_stopid then some (some mid)
      else
        match fuel with
        | 0 => none
        | fuel + 1 => forwardScanTransfer tile from_stopid to_stopid fuel (mid + 1)
    else some none

/-- `GraphTile::GetTransfer(from_stopid, to_stopid)`: the index of the record
returned (`none` is the null pointer). The outer `none` is fuel exhaustion. -/
def GetTransfer (tile : GraphTile) (from_stopid to_stopid : Nat) : Option (Option Nat) :=
  let count := tile.header_.transfercount
  if count = 0 then some none
  else
    match searchLoop (fun i => (tile.transit_transfers_ i).from_stopid) from_stopid count 0
        (toInt32 (count - 1)) with
    | none => none
    | some none => some none
    | some (some m) =>
      match backScanTransfer tile from_stopid to_stopid m with
      | some i => some (some i)
      | none => forwardScanTransfer tile from_stopid to_stopid count m

/-! ## The records that the sorted lookups read

The lists below hold, in the order of the reads, the indices at which a lookup
reads a record of its section; each follows the loops of the lookup, and an
index is listed once for each evaluation of a loop condition or body that
reads the record. -/

/-- The indices read by the binary search, `arr[mid]` in each iteration of the
loop that `searchLoop` embeds. -/
def searchReads (key : Nat → Nat) (idx : Nat) : Nat → Int → Int → List Nat
  | fuel, low, high =>
    if low ≤ high then
      match fuel with
      | 0 => []
      | fuel + 1 =>
        let mid := (low + high) / 2
        if key mid.toNat = idx then [mid.toNat]
        else if idx < key mid.toNat then mid.toNat :: searchReads key idx fuel low (mid - 1)
        else mid.toNat :: searchReads key idx fuel (mid + 1) high
    else []

/-- The indices read by `while (mid > 0 && arr[mid-1].key == idx) mid--`: the
record before `mid` is read only when `mid > 0`. -/
def backUpReads (key : Nat → Nat) (idx : Nat) : Nat → List Nat
  | 0 => []
  | mid + 1 => if key mid = idx then mid :: backUpReads key idx mid else [mid]

/-- The indices read by the forward loop
`while (arr[mid].key == idx && mid < count) { ...; mid++; }` of
`GetAccessRestrictions` and `GetTransfers`: the left operand of `&&` reads the
record at `mid` before the right operand compares `mid` with the count. -/
def scanReads (key : Nat → Nat) (idx count : Nat) : Nat → Nat → List Nat
  | fuel, mid =>
    if key mid = idx ∧ mid < count then
      match fuel with
      | 0 => [mid]
      | fuel + 1 => mid :: scanReads key idx count fuel (mid + 1)
    else [mid]

/-- The indices read by the collecting loop of `GetSigns`, which ends early
when it throws. -/
def addSignsReads (tile : GraphTile) (idx : Nat) : Nat → Nat → List Nat
  | fuel, mid =>
    if (tile.signs_ mid).edgeindex = idx ∧ mid < tile.header_.signcount then
      match fuel with
      | 0 => [mid]
      | fuel + 1 =>
        if (tile.signs_ mid).text_offset < tile.textlist_.length then
          mid :: addSignsReads tile idx fuel (mid + 1)
        else [mid]
    else [mid]

/-- The indices at which `GraphTile::GetSigns(idx)` reads `signs_`. -/
def GetSigns_reads (tile : GraphTile) (idx : Nat) : List Nat :=
  let count := tile.header_.signcount
  if count = 0 then []
  else
    searchReads (fun i => (tile.signs_ i).edgeindex) idx count 0 (toInt32 (count - 1)) ++
      match searchLoop (fun i => (tile.signs_ i).edgeindex) idx count 0 (toInt32 (count - 1)) with
      | some (some mid) =>
        backUpReads (fun i => (tile.signs_ i).edgeindex) idx mid ++
          addSignsReads tile idx count (backUp (fun i => (tile.signs_ i).edgeindex) idx mid)
      | _ => []

/-- The indices at which `GraphTile::GetAccessRestrictions(idx)` reads
`access_restrictions_`. -/
def GetAccessRestrictions_reads (tile : GraphTile) (idx : Nat) : List Nat :=
  let count := tile.header_.access_restriction_count
  if count = 0 then []
  else
    searchReads (fun i => (tile.access_restrictions_ i).edgeindex) idx count 0
        (toInt32 (count - 1)) ++
      match searchLoop (fun i => (tile.access_restrictions_ i).edgeindex) idx count 0
          (toInt32 (count - 1)) with
      | some (some mid) =>
        backUpReads (fun i => (tile.access_restrictions_ i).edgeindex) idx mid ++
          scanReads (fun i => (tile.access_restrictions_ i).edgeindex) idx count count
            (backUp (fun i => (tile.access_restrictions_ i).edgeindex) idx mid)
      | _ => []

/-- The indices at which `GraphTile::GetTransfers(stopid)` reads
`transit_transfers_`. -/
def GetTransfers_reads (tile : GraphTile) (stopid : Nat) : List Nat :=
  let count := tile.header_.transfercount
  if count = 0 then []
  else
    searchReads (fun i => (tile.transit_transfers_ i).from_stopid) stopid count 0
        (toInt32 (count - 1)) ++
      match searchLoop (fun i => (tile.transit_transfers_ i).from_stopid) stopid count 0
          (toInt32 (count - 1)) with
      | some (some mid) =>
        backUpReads (fun i => (tile.transit_transfers_ i).from_stopid) stopid mid ++
          scanReads (fun i => (tile.transit_transfers_ i).from_stopid) stopid count count
            (backUp (fun i => (tile.transit_transfers_ i).from_stopid) stopid mid)
      | _ => []

/-- The indices read by the backward loop of `GetTransfer`, which returns when
the record before `mid` has the destination stop. -/
def backScanReads (tile : GraphTile) (from_stopid to_stopid : Nat) : Nat → List Nat
  | 0 => []
  | mid + 1 =>
    if (tile.transit_transfers_ mid).from_stopid = from_stopid then
      if (tile.transit_transfers_ mid).to_stopid = to_stopid then [mid]
      else mid :: backScanReads tile from_stopid to_stopid mid
    else [mid]

/-- The indices read by the forward loop of `GetTransfer`,
`while (tr[mid].from_stopid() == from_stopid && mid < count)`, which returns
when the record at `mid` has the destination stop. -/
def forwardScanReads (tile : GraphTile) (from_stopid to_stopid : Nat) : Nat → Nat → List Nat
  | fuel, mid =>
    if (tile.transit_transfers_ mid).from_stopid = from_stopid ∧
        mid < tile.header_.transfercount then
      if (tile.transit_transfers_ mid).to_stopid = to_stopid then [mid]
      else
        match fuel with
        | 0 => [mid]
        | fuel + 1 => mid :: forwardScanReads tile from_stopid to_stopid fuel (mid + 1)
    else [mid]

/-- The indices at which `GraphTile::GetTransfer(from_stopid, to_stopid)`
reads `transit_transfers_`. -/
def GetTransfer_reads (tile : GraphTile) (from_stopid to_stopid : Nat) : List Nat :=
  let count := tile.header_.transfercount
  if count = 0 then []
  else
    searchReads (fun i => (tile.transit_transfers_ i).from_stopid) from_stopid count 0
        (toInt32 (count - 1)) ++
      match searchLoop (fun i => (tile.transit_transfers_ i).from_stopid) from_stopid count 0
          (toInt32 (count - 1)) with
      | some (some m) =>
        backScanReads tile from_stopid to_stopid m ++
          match backScanTransfer tile from_stopid to_stopid m with
          | some _ => []
          | none => forwardScanReads tile from_stopid to_stopid count m
      | _ => []

/-! ## Traffic tiles (`traffictile.h`)

The members of a traffic tile point into memory that another process may
change; a tile is embedded as the values that one query reads. -/

/-- The bit fields of `traffic::Speed`. -/
structure traffic.Speed where
  speed_kmh : Nat
  congestion_level : Nat
  is_scale : Nat
  age : Nat
  has_incident : Nat
deriving DecidableEq, Repr

/-- The bit fields of `traffic::Incident`. -/
structure traffic.Incident where
  edge_index : Nat
  incident_type : Nat
  start_location : Nat
  length : Nat
  spare : Nat
deriving DecidableEq, Repr

/-- The fields of `traffic::TileHeader`. -/
structure traffic.TileHeader where
  tile_id : Nat
  directed_edge_count : Nat
  incident_buffer_size : Nat
  active_incident_buffer : Nat
  last_update : Nat
deriving DecidableEq, Repr

/-- The class `traffic::Tile`: the header (`none` for the null pointer), the
speeds and the two incident buffers as functions from the index to the record
read there, and the values of the two incident counts. -/
structure traffic.Tile where
  header : Option traffic.TileHeader
  speeds : Nat → traffic.Speed
  incident_count_0 : Nat
  incident_count_1 : Nat
  incidents_0 : Nat → traffic.Incident
  incidents_1 : Nat → traffic.Incident

/-- The default constructor `Speed()`: every field is 0. -/
def traffic.Speed.default : traffic.Speed :=
  { speed_kmh := 0, congestion_level := 0, is_scale := 0, age := 0, has_incident := 0 }

/-- The constructor `Speed(const volatile Speed& other)`. -/
def traffic.Speed.ofVolatile (other : traffic.Speed) : traffic.Speed :=
  { speed_kmh := other.speed_kmh, congestion_level := other.congestion_level,
    is_scale := other.is_scale, age := other.age, has_incident := other.has_incident }

/-- The constructor `Incident(const volatile Incident& other)`: the spare bits
of the copy are 0. -/
def traffic.Incident.ofVolatile (other : traffic.Incident) : traffic.Incident :=
  { edge_index := other.edge_index, incident_type := other.incident_type,
    start_location := other.start_location, length := other.length, spare := 0 }

/-- The binary search of the standard library behind `std::lower_bound` and
`std::upper_bound`, over the `len` positions from `first`: halve the range,
going right of the middle where the predicate holds. The length is enough
fuel. -/
def partitionPoint (pred : Nat → Bool) : Nat → Nat → Nat → Nat
  | 0, first, _ => first
  | fuel + 1, first, len =>
    if len > 0 then
      let half := len / 2
      let middle := first + half
      if pred middle then partitionPoint pred fuel (middle + 1) (len - half - 1)
      else partitionPoint pred fuel first half
    else first

/-- The call `std::equal_range(buffer, buffer + count, edge_index, Comp{})` of
the standard library: the pair of the lower bound, found with
`comp(incident, edge_index)`, and the upper bound, found with
`!comp(edge_index, incident)`, as indices into the buffer. -/
def traffic.equal_range (buffer : Nat → traffic.Incident) (count edge_index : Nat) :
    Nat × Nat :=
  (partitionPoint (fun i => (buffer i).edge_index < edge_index) count 0 count,
   partitionPoint (fun i => ¬ edge_index < (buffer i).edge_index) count 0 count)

/-- `Tile::getTrafficForDirectedEdge(directed_edge_offset)`; `none` when the
assertion fails. -/
def traffic.Tile.getTrafficForDirectedEdge (tile : traffic.Tile) (directed_edge_offset : Nat) :
    Option traffic.Speed :=
  match tile.header with
  | none => some traffic.Speed.default
  | some header =>
    if directed_edge_offset < header.directed_edge_count then
      some (traffic.Speed.ofVolatile (tile.speeds directed_edge_offset))
    else none

/-- `Tile::getIncidentsForDirectedEdge(directed_edge_offset)`; `none` when the
assertion fails. The vector is built from the range of the volatile
records. -/
def traffic.Tile.getIncidentsForDirectedEdge (tile : traffic.Tile)
    (directed_edge_offset : Nat) : Option (List traffic.Incident) :=
  match tile.header with
  | none => some []
  | some header =>
    if directed_edge_offset < header.directed_edge_count then
      if (tile.speeds directed_edge_offset).has_incident = 0 then some []
      else
        let active_buffer := header.active_incident_buffer
        let count := if active_buffer = 0 then tile.incident_count_0 else tile.incident_count_1
        let buffer := if active_buffer = 0 then tile.incidents_0 else tile.incidents_1
        let range := traffic.equal_range buffer count directed_edge_offset
        some ((List.range' range.1 (range.2 - range.1)).map
          (fun i => traffic.Incident.ofVolatile (buffer i)))
    else none

/-- An incident on the edge with the given type. -/
def incidentOf (edge_index incident_type : Nat) : traffic.Incident :=
  { edge_index := edge_index, incident_type := incident_type, start_location := 0,
    length := 0, spare := 0 }

/-- A traffic tile of four edges whose edge 2 has incidents; the active
buffer 1 holds four incidents, for the edges 1, 2, 2 and 3, and buffer 0 holds
one, for the edge 2. -/
def trafficTile : traffic.Tile :=
  { header := some { tile_id := 7, directed_edge_count := 4, incident_buffer_size := 8,
                     active_incident_buffer := 1, last_update := 0 },
    speeds := fun i =>
      { speed_kmh := 50, congestion_level := 0, is_scale := 0, age := 0,
        has_incident := if i = 2 then 1 else 0 },
    incident_count_0 := 1,
    incident_count_1 := 4,
    incidents_0 := fun _ => incidentOf 2 9,
    incidents_1 := fun i =>
      [incidentOf 1 1, incidentOf 2 2, incidentOf 2 3, incidentOf 3 4].getD i (incidentOf 2 5) }

/-! ## Spatial tiling: neighbours and the connectivity colouring -/

/-- `Tiles::TileCount()`: `ncolumns_` times the ceiling of the row quotient,
which is `nrows_`. -/
def Tiles.TileCount (T : Tiles) : Int := T.ncolumns_ * T.nrows_

/-- `Tiles::RightNeighbor(tileid)`; the division truncates as in C++. -/
def Tiles.RightNeighbor (T : Tiles) (tileid : Int) : Int :=
  let row := tileid.tdiv T.ncolumns_
  let col := tileid - row * T.ncolumns_
  if col < T.ncolumns_ - 1 then tileid + 1 else tileid - T.ncolumns_ + 1

/-- `Tiles::LeftNeighbor(tileid)`. -/
def Tiles.LeftNeighbor (T : Tiles) (tileid : Int) : Int :=
  let row := tileid.tdiv T.ncolumns_
  let col := tileid - row * T.ncolumns_
  if col > 0 then tileid - 1 else tileid + T.ncolumns_ - 1

/-- `Tiles::TopNeighbor(tileid)`: the bound is
`static_cast<int32_t>(TileCount() - ncolumns_)`, an unsigned difference. -/
def Tiles.TopNeighbor (T : Tiles) (tileid : Int) : Int :=
  if tileid < toInt32 (toUInt32 (T.TileCount - T.ncolumns_)) then tileid + T.ncolumns_
  else tileid

/-- `Tiles::BottomNeighbor(tileid)`. -/
def Tiles.BottomNeighbor (T : Tiles) (tileid : Int) : Int :=
  if tileid < T.ncolumns_ then tileid else tileid - T.ncolumns_

/-- `Tiles::TileId(col, row)`: the tile id of a column and a row. -/
def Tiles.TileId (T : Tiles) (col row : Int) : Int := row * T.ncolumns_ + col

/-- `Tiles::GetRowColumn(tileid)`: the pair `{tileid / ncolumns_, tileid % ncolumns_}`
of the row and the column; `/` and `%` truncate as in C++. -/
def Tiles.GetRowColumn (T : Tiles) (tileid : Int) : Int × Int :=
  (tileid.tdiv T.ncolumns_, tileid.tmod T.ncolumns_)

/-- The connectivity map `std::unordered_map<uint32_t, size_t>`: its entries
(tile id, colour) in iteration order. -/
abbrev ConnectivityMap := List (Nat × Nat)

/-- `connectivity_map.find(key)`: the colour stored under the key. -/
def mapFind : ConnectivityMap → Nat → Option Nat
  | [], _ => none
  | (k, v) :: rest, key => if k = key then some v else mapFind rest key

/-- The assignment `itr->second = color` for the entry of `key`. -/
def mapSet (m : ConnectivityMap) (key color : Nat) : ConnectivityMap :=
  m.map (fun e => if e.1 = key then (e.1, color) else e)

/-- One neighbour check of `ColorMap`: if the neighbour is in the map with
colour 0, push it on the check list and give it the colour. -/
def visitNeighbor (color neighbor : Nat) (st : ConnectivityMap × List Nat) :
    ConnectivityMap × List Nat :=
  match mapFind st.1 neighbor with
  | some 0 => (mapSet st.1 neighbor color, st.2 ++ [neighbor])
  | _ => st

/-- The inner loop of `ColorMap`, `while (!checklist.empty())`: pop the front
tile and check its left, right, top and bottom neighbours (each converted
from `int32_t` to `uint32_t`). `none` when the fuel runs out. -/
def floodLoop (T : Tiles) (color : Nat) : Nat → ConnectivityMap → List Nat →
    Option ConnectivityMap
  | _, m, [] => some m
  | 0, _, _ :: _ => none
  | fuel + 1, m, next_tile :: checklist =>
    let s1 := visitNeighbor color (toUInt32 (T.LeftNeighbor (toInt32 next_tile))) (m, checklist)
    let s2 := visitNeighbor color (toUInt32 (T.RightNeighbor (toInt32 next_tile))) s1
    let s3 := visitNeighbor color (toUInt32 (T.TopNeighbor (toInt32 next_tile))) s2
    let s4 := visitNeighbor color (toUInt32 (T.BottomNeighbor (toInt32 next_tile))) s3
    floodLoop T color fuel s4.1 s4.2

/-- The outer loop of `ColorMap` over the entries still to visit: skip a tile
that has a colour, else give it the current colour, flood from it and
increment the colour. -/
def colorLoop (T : Tiles) : List Nat → Nat → ConnectivityMap → Option ConnectivityMap
  | [], _, m => some m
  | tile :: rest, color, m =>
    match mapFind m tile with
    | some 0 =>
      match floodLoop T color m.length (mapSet m tile color) [tile] with
      | none => none
      | some m' => colorLoop T rest (color + 1) m'
    | _ => colorLoop T rest color m

/-- `Tiles::ColorMap(connectivity_map)`: colours start at 1. The result is
the map after the call; `none` is fuel exhaustion. -/
def Tiles.ColorMap (T : Tiles) (connectivity_map : ConnectivityMap) : Option ConnectivityMap :=
  colorLoop T (connectivity_map.map Prod.fst) 1 connectivity_map

/-- `connectivity_map_t::get_color` on one level: 0 for a tile without entry. -/
def get_color (colors : ConnectivityMap) (tileid : Nat) : Nat :=
  match mapFind colors tileid with
  | none => 0
  | some color => color

/-- The four neighbours that `ColorMap` checks for a key, as keys. -/
def neighborKeys (T : Tiles) (k : Nat) : List Nat :=
  [toUInt32 (T.LeftNeighbor (toInt32 k)), toUInt32 (T.RightNeighbor (toInt32 k)),
   toUInt32 (T.TopNeighbor (toInt32 k)), toUInt32 (T.BottomNeighbor (toInt32 k))]

/-- Two keys of the map that are Left/Right/Top/Bottom neighbours. -/
def KeyStep (T : Tiles) (keys : List Nat) (a b : Nat) : Prop :=
  a ∈ keys ∧ b ∈ keys ∧ b ∈ neighborKeys T a

/-- Two keys joined by a path of keys in which each consecutive pair are
Left/Right/Top/Bottom neighbours. -/
def Connected (T : Tiles) (keys : List Nat) (a b : Nat) : Prop :=
  Relation.ReflTransGen (KeyStep T keys) a b

/-- The number of entries of colour 0. -/
def zeros (m : ConnectivityMap) : Nat := (m.filter (fun e => e.2 = 0)).length

/-- The state of the outer loop of `ColorMap` before colour `c` is used: the
colours are below `c`, every colour class is closed under neighbouring keys
and connected, and every colour from 1 below `c` is in use. -/
structure Colored (T : Tiles) (keys : List Nat) (m : ConnectivityMap) (c : Nat) : Prop where
  keys_eq : m.map Prod.fst = keys
  lt : ∀ x v, mapFind m x = some v → v < c
  closed : ∀ x v, mapFind m x = some v → v ≠ 0 →
    ∀ y, y ∈ neighborKeys T x → y ∈ keys → mapFind m y = some v
  conn : ∀ x y v, v ≠ 0 → mapFind m x = some v → mapFind m y = some v → Connected T keys x y
  used : ∀ v, 1 ≤ v → v < c → ∃ x, mapFind m x = some v

/-- The state of the inner loop of `ColorMap` flooding colour `c` from the
tile `s` of the map `m0`; `ex` lists the tiles whose neighbours may still be
unchecked. -/
structure FloodInv (T : Tiles) (keys : List Nat) (m0 : ConnectivityMap) (s c : Nat)
    (m : ConnectivityMap) (q ex : List Nat) : Prop where
  keys_eq : m.map Prod.fst = keys
  queue : ∀ x, x ∈ q → mapFind m x = some c
  done : ∀ x, mapFind m x = some c → x ∉ ex →
    ∀ y, y ∈ neighborKeys T x → y ∈ keys → mapFind m y ≠ some 0
  reach : ∀ x, mapFind m x = some c → Connected T keys s x
  fresh : ∀ x, mapFind m x = some c → mapFind m0 x = some 0
  old : ∀ x v, v ≠ 0 → v ≠ c → (mapFind m x = some v ↔ mapFind m0 x = some v)
  zero : ∀ x, mapFind m x = some 0 → mapFind m0 x = some 0

/-- The world tiling of 4 degree tiles: 90 columns, 45 rows. -/
def tiling4 : Tiles := { ncolumns_ := 90, nrows_ := 45 }

/-- Four tiles of the 4 degree tiling, all uncoloured: 100 and 101 are
neighbours, 191 is above 101, and 500 is isolated; in this iteration order. -/
def scenarioMap : ConnectivityMap := [(100, 0), (101, 0), (500, 0), (191, 0)]

/-! ## Spatial tiling: bounds, rows and columns

The coordinates, `float` in the code, are exact rationals here: the rounding
of the float operations is outside the model, and so is the overflow of the
`int32_t` results. On the values of a binary grid (`onGrid`) the operations
round nothing away. -/

/-- Modelled from the spec: the centre of a box, the midpoint of its
corners. -/
def AABB2.Center (b : AABB2) : Point2 :=
  { x := (b.minx + b.maxx) * (1 / 2), y := (b.miny + b.maxy) * (1 / 2) }

/-- Modelled from the spec: whether two boxes intersect: the other box `r`
lies neither entirely left of, right of, below nor above this one; boxes that
touch intersect. -/
def AABB2.Intersects (b r : AABB2) : Bool :=
  if b.minx > r.maxx ∨ b.maxx < r.minx ∨ b.miny > r.maxy ∨ b.maxy < r.miny then false
  else true

/-- `static_cast<int32_t>` of a float: truncation toward zero. -/
def truncInt (q : ℚ) : Int := if 0 ≤ q then ⌊q⌋ else ⌈q⌉

/-- The constructor `Tiles(bounds, tilesize, subdivisions)`: the column and
row counts are the ceilings of width and height over the tile size, and the
size of a subdivision is the tile size over their number. No argument is
checked. The number of subdivisions is 1 where it is not given. The quotients
are exact here; the code rounds them to `float`, and its division by a tile
size of zero gives an infinity whose cast to `int32_t` is undefined, where the
rationals give 0. -/
def BoundedTiles.construct (bounds : AABB2) (tilesize : ℚ) (subdivisions : Nat := 1) :
    BoundedTiles :=
  { tilebounds_ := bounds,
    tilesize_ := tilesize,
    nsubdivisions_ := subdivisions,
    subdivision_size_ := tilesize / subdivisions,
    ncolumns_ := ⌈(bounds.maxx - bounds.minx) / tilesize⌉,
    nrows_ := ⌈(bounds.maxy - bounds.miny) / tilesize⌉ }

/-- `Tiles::Row(y)`. -/
def BoundedTiles.Row (T : BoundedTiles) (y : ℚ) : Int :=
  if y < T.tilebounds_.miny ∨ y > T.tilebounds_.maxy then -1
  else if y = T.tilebounds_.maxy then T.nrows_ - 1
  else truncInt ((y - T.tilebounds_.miny) / T.tilesize_)

/-- `Tiles::Col(x)`. -/
def BoundedTiles.Col (T : BoundedTiles) (x : ℚ) : Int :=
  if x < T.tilebounds_.minx ∨ x > T.tilebounds_.maxx then -1
  else if x = T.tilebounds_.maxx then T.ncolumns_ - 1
  else
    let col := (x - T.tilebounds_.minx) / T.tilesize_
    if col ≥ 0 then truncInt col else truncInt (col - 1)

/-- `Tiles::TileId(y, x)`. -/
def BoundedTiles.TileId (T : BoundedTiles) (y x : ℚ) : Int :=
  if y < T.tilebounds_.miny ∨ x < T.tilebounds_.minx ∨
      y > T.tilebounds_.maxy ∨ x > T.tilebounds_.maxx then -1
  else T.Row y * T.ncolumns_ + T.Col x

/-- `Tiles::TileId(const coord_t& c)`. -/
def BoundedTiles.TileIdOf (T : BoundedTiles) (c : Point2) : Int := T.TileId c.y c.x

/-- `Tiles::Base(tileid)`: the minimum corner of a tile. -/
def BoundedTiles.Base (T : BoundedTiles) (tileid : Int) : Point2 :=
  let row := tileid.tdiv T.ncolumns_
  let col := tileid - row * T.ncolumns_
  { x := T.tilebounds_.minx + col * T.tilesize_,
    y := T.tilebounds_.miny + row * T.tilesize_ }

/-- `Tiles::TileBounds(tileid)`: the box of a tile. -/
def BoundedTiles.TileBounds (T : BoundedTiles) (tileid : Int) : AABB2 :=
  let base := T.Base tileid
  { minx := base.x, miny := base.y, maxx := base.x + T.tilesize_,
    maxy := base.y + T.tilesize_ }

/-- `Tiles::Center(tileid)`. -/
def BoundedTiles.Center (T : BoundedTiles) (tileid : Int) : Point2 :=
  let base := T.Base tileid
  { x := base.x + T.tilesize_ * (1 / 2), y := base.y + T.tilesize_ * (1 / 2) }

/-- One neighbour check of `TileList` on the pair of the check list and the
visited tiles (latest first): a neighbour that is not visited and whose bounds
intersect the box is pushed on the check list and inserted into the visited
tiles. -/
def checkNeighbor (T : BoundedTiles) (boundingbox : AABB2) (neighbor : Int)
    (st : List Int × List Int) : List Int × List Int :=
  if neighbor ∉ st.2 ∧ boundingbox.Intersects (T.TileBounds neighbor) = true then
    (st.1 ++ [neighbor], neighbor :: st.2)
  else st

/-- The loop of `TileList`, `while (!checklist.empty())`, on the check list,
the visited tiles and the tile list: pop the front tile, push it on the tile
list and check its left, right, top and bottom neighbours. `none` when the
fuel runs out. -/
def tileListLoop (T : BoundedTiles) (boundingbox : AABB2) :
    Nat → List Int → List Int → List Int → Option (List Int)
  | _, [], _, tilelist => some tilelist
  | 0, _ :: _, _, _ => none
  | fuel + 1, tileid :: checklist, visited_tiles, tilelist =>
    let s1 := checkNeighbor T boundingbox (T.LeftNeighbor tileid) (checklist, visited_tiles)
    let s2 := checkNeighbor T boundingbox (T.RightNeighbor tileid) s1
    let s3 := checkNeighbor T boundingbox (T.TopNeighbor tileid) s2
    let s4 := checkNeighbor T boundingbox (T.BottomNeighbor tileid) s3
    tileListLoop T boundingbox fuel s4.1 s4.2 (tilelist ++ [tileid])

/-- `Tiles::TileList(boundingbox)`: the tile list after the call, empty when
the centre of the box has no tile. The fuel is the number of tiles; `none` is
fuel exhaustion. -/
def BoundedTiles.TileList (T : BoundedTiles) (boundingbox : AABB2) : Option (List Int) :=
  let tileid := T.TileIdOf boundingbox.Center
  if tileid = -1 then some []
  else tileListLoop T boundingbox T.TileCount.toNat [tileid] [tileid] []

/-- Modelled from the spec: the width of a box. -/
def AABB2.Width (b : AABB2) : ℚ := b.maxx - b.minx

/-- Modelled from the spec: the height of a box. -/
def AABB2.Height (b : AABB2) : ℚ := b.maxy - b.miny

/-- The conversion of an integer to `unsigned short`. -/
def toUInt16 (z : Int) : Nat := (z % 65536).toNat

/-- The `do ... while` loop of `Tiles::Intersect(linestring)` for one segment,
at the global subdivision (`x_start`, `y_start`): record the tile and the
subdivision, throw when the subdivision is out of range, step in `y` when the
corner is left of the segment and in `x` otherwise, and go on while both
coordinates differ from their end. `isLeft` is `LineSegment2(u, v).IsLeft`
(`linesegment2.h` is not among the sources). The result is the list of the
recorded pairs (tile, subdivision), the entries of the map; `none` when the
fuel runs out. -/
def intersectLoop (T : BoundedTiles) (isLeft : Point2 → ℚ) (x_end y_end : Int) :
    Nat → Int → Int → List (Int × Nat) → Option (Except TileError (List (Int × Nat)))
  | fuel, x_start, y_start, intersection =>
    let tile_column := x_start.tdiv T.nsubdivisions_
    let tile_row := y_start.tdiv T.nsubdivisions_
    let tile := tile_row * T.ncolumns_ + tile_column
    let subdivision :=
      toUInt16 (y_start.tmod T.nsubdivisions_ * T.nsubdivisions_ + x_start.tmod T.nsubdivisions_)
    if subdivision ≥ T.nsubdivisions_ * T.nsubdivisions_ then some (.error .subdivisionOutOfRange)
    else
      let max_corner : Point2 :=
        { x := T.tilebounds_.minx + T.subdivision_size_ * x_start,
          y := T.tilebounds_.miny + T.subdivision_size_ * y_start }
      let x_next := if isLeft max_corner < 0 then x_start else x_start + 1
      let y_next := if isLeft max_corner < 0 then y_start + 1 else y_start
      if x_next ≠ x_end ∧ y_next ≠ y_end then
        match fuel with
        | 0 => none
        | fuel + 1 =>
          intersectLoop T isLeft x_end y_end fuel x_next y_next (intersection ++ [(tile, subdivision)])
      else some (.ok (intersection ++ [(tile, subdivision)]))

/-- The body of the loop over the segments of `Tiles::Intersect(linestring)`
for the segment from `u` to `v`: skip a segment with an end point outside the
bounds that does not intersect them (`segmentIntersects` is
`AABB2::Intersect(u, v)`, which is not among the sources), else compute the
global subdivisions of the two end points, order them in each coordinate, clamp
the ends and walk. -/
def intersectSegment (T : BoundedTiles) (isLeft : Point2 → Point2 → Point2 → ℚ)
    (segmentIntersects : Point2 → Point2 → Bool) (fuel : Nat) (u v : Point2)
    (intersection : List (Int × Nat)) : Option (Except TileError (List (Int × Nat))) :=
  if (T.TileIdOf u = -1 ∨ T.TileIdOf v = -1) ∧ segmentIntersects u v = false then
    some (.ok intersection)
  else
    let x_start := truncInt ((u.x - T.tilebounds_.minx) / T.tilebounds_.Width
      * T.ncolumns_ * T.nsubdivisions_)
    let y_start := truncInt ((u.y - T.tilebounds_.miny) / T.tilebounds_.Height
      * T.nrows_ * T.nsubdivisions_)
    let x_end := truncInt ((v.x - T.tilebounds_.minx) / T.tilebounds_.Width
      * T.ncolumns_ * T.nsubdivisions_)
    let y_end := truncInt ((v.y - T.tilebounds_.miny) / T.tilebounds_.Height
      * T.nrows_ * T.nsubdivisions_)
    let xs := if x_start > x_end then (x_end, x_start) else (x_start, x_end)
    let ys := if y_start > y_end then (y_end, y_start) else (y_start, y_end)
    let x_last := min xs.2 (T.ncolumns_ * T.nsubdivisions_ - 1)
    let y_last := min ys.2 (T.nrows_ * T.nsubdivisions_ - 1)
    intersectLoop T (isLeft u v) x_last y_last fuel xs.1 ys.1 intersection

/-- The segments that `Tiles::Intersect(linestring)` visits: each point with
its successor, and the last point with itself. -/
def segments : List Point2 → List (Point2 × Point2)
  | [] => []
  | [u] => [(u, u)]
  | u :: v :: rest => (u, v) :: segments (v :: rest)

/-- The loop over the segments of `Tiles::Intersect(linestring)`. -/
def intersectSegments (T : BoundedTiles) (isLeft : Point2 → Point2 → Point2 → ℚ)
    (segmentIntersects : Point2 → Point2 → Bool) (fuel : Nat) :
    List (Point2 × Point2) → List (Int × Nat) → Option (Except TileError (List (Int × Nat)))
  | [], intersection => some (.ok intersection)
  | (u, v) :: rest, intersection =>
    match intersectSegment T isLeft segmentIntersects fuel u v intersection with
    | some (.ok intersection) =>
      intersectSegments T isLeft segmentIntersects fuel rest intersection
    | other => other

/-- `Tiles::Intersect(linestring)`: the pairs (tile, subdivision) recorded, in
the order of their recording; the map returned holds a subdivision under a
tile exactly when the pair is in the list. The fuel bounds the steps of the
walk of one segment. -/
def BoundedTiles.Intersect (T : BoundedTiles) (isLeft : Point2 → Point2 → Point2 → ℚ)
    (segmentIntersects : Point2 → Point2 → Bool) (fuel : Nat) (linestring : List Point2) :
    Option (Except TileError (List (Int × Nat))) :=
  intersectSegments T isLeft segmentIntersects fuel (segments linestring) []

/-- `Tiles::Intersect(center, radius)`: the body of the function is commented
out, and the empty map is returned. -/
def BoundedTiles.IntersectCircle (_T : BoundedTiles) (_center : Point2) (_radius : ℚ) :
    List (Int × Nat) :=
  []

/-- The four neighbours of a tile in the order in which `TileList` checks
them. -/
def neighborTiles (T : Tiles) (tileid : Int) : List Int :=
  [T.LeftNeighbor tileid, T.RightNeighbor tileid, T.TopNeighbor tileid,
   T.BottomNeighbor tileid]

/-- The invariant of the loop of `TileList`: the visited tiles are distinct
tile ids in range whose bounds intersect the box, and the tile list followed by
the check list is the visited tiles in the order of their insertion. -/
structure TileListInv (T : BoundedTiles) (boundingbox : AABB2)
    (tilelist checklist visited_tiles : List Int) : Prop where
  nodup : visited_tiles.Nodup
  range : ∀ t ∈ visited_tiles, 0 ≤ t ∧ t < T.TileCount
  inView : ∀ t ∈ visited_tiles, boundingbox.Intersects (T.TileBounds t) = true
  order : tilelist ++ checklist = visited_tiles.reverse

/-- The tiles of the column `c` reach the box in `x`: the box neither lies
right of their maximum `x` nor left of their minimum `x`. -/
def colInView (T : BoundedTiles) (boundingbox : AABB2) (c : Int) : Prop :=
  boundingbox.minx ≤ T.tilebounds_.minx + (c : ℚ) * T.tilesize_ + T.tilesize_ ∧
    T.tilebounds_.minx + (c : ℚ) * T.tilesize_ ≤ boundingbox.maxx

/-- The tiles of the row `r` reach the box in `y`. -/
def rowInView (T : BoundedTiles) (boundingbox : AABB2) (r : Int) : Prop :=
  boundingbox.miny ≤ T.tilebounds_.miny + (r : ℚ) * T.tilesize_ + T.tilesize_ ∧
    T.tilebounds_.miny + (r : ℚ) * T.tilesize_ ≤ boundingbox.maxy

/-- The tiling of the box (0, 0) to (9, 9) with tiles of size 4: three
columns and three rows, the last of which reach beyond the box. -/
def tiling9 : BoundedTiles := BoundedTiles.construct { minx := 0, miny := 0, maxx := 9, maxy := 9 } 4

/-- The tiling of the box (0, 0) to (8, 8) with tiles of size 4 and 2
subdivisions: two columns and two rows of tiles, each of two by two
subdivisions of size 2. -/
def tiling8 : BoundedTiles :=
  BoundedTiles.construct { minx := 0, miny := 0, maxx := 8, maxy := 8 } 4 2

/-- The tiling of the world box with tiles of 4 degrees and 5 subdivisions. -/
def scenarioTiling : BoundedTiles := BoundedTiles.construct world_box 4 5

/-- The tiling of the world box with tiles of 4 degrees: 90 columns and 45
rows. -/
def worldTiling4 : BoundedTiles :=
  BoundedTiles.construct { minx := -180, miny := -90, maxx := 180, maxy := 90 } 4

/-- A value on the binary grid of step `2^-j`, `j <= 64`, with a numerator of
magnitude at most `2^20`. A `float` holds 24 significant bits, so it holds
such a value exactly, and with it every sum, difference and product that the
tiling code forms from such values: the width and height of the bounds, the
offset of a coordinate from the minimum, `col * tilesize_`, the corners of a
tile and, in steps of `2^-(j+1)`, the centres of tiles and boxes
(`grid_cell_float`). The quotient of two such values by the tile size is a
ratio of integers below `2^24`: rounded to 24 bits it is the same integer when
the ratio is an integer and stays strictly between the same two integers when
it is not (`floor_ceil_stable`), so the casts to `int32_t` and the ceilings of
the code are those of the exact quotient. -/
def onGrid (j : Nat) (q : ℚ) : Prop :=
  j ≤ 64 ∧ ∃ k : Int, q = (k : ℚ) / 2 ^ j ∧ -1048576 ≤ k ∧ k ≤ 1048576

/-- A box with its four coordinates on the grid of step `2^-j`. -/
def AABB2.onGrid (j : Nat) (b : AABB2) : Prop :=
  Valhalla.onGrid j b.minx ∧ Valhalla.onGrid j b.miny ∧ Valhalla.onGrid j b.maxx ∧
    Valhalla.onGrid j b.maxy

/-- A rational that a `float` holds exactly: `k / 2^i` with `|k| < 2^24`, the
24 significant bits, and `i <= 126`, a normal binary32 number (the magnitudes
that need a positive exponent do not occur here). -/
def isFloat (q : ℚ) : Prop :=
  ∃ (k : Int) (i : Nat), i ≤ 126 ∧ q = (k : ℚ) / 2 ^ i ∧ -16777216 < k ∧ k < 16777216

/-- The members of `connectivity_map_t` (the class is declared in
`connectivity_map.h`, which is not among the sources): the hierarchy, the
transit level and `colors`, the entries (level, map of the level) of the
`unordered_map`. -/
structure connectivity_map_t where
  tile_hierarchy : TileHierarchy
  transit_level : Nat
  colors : List (Nat × ConnectivityMap)

/-- What the constructor meets on disk under the directory of a level: no
directory, the paths of the files below it in the order of the iteration, or
such paths followed by an exception of the iteration. -/
inductive LevelScan where
  | missing
  | files (paths : List (List Char))
  | failing (paths : List (List Char))

/-- `level_colors.insert({tileid, 0})`: a key that is present keeps its
entry. A new entry goes behind the others, so the map is iterated in the order
of insertion; the order in which the `unordered_map` of the code is iterated
is that of its hash table, which the standard leaves open. -/
def insertTile (m : ConnectivityMap) (tileid : Nat) : ConnectivityMap :=
  match mapFind m tileid with
  | some _ => m
  | none => m ++ [(tileid, 0)]

/-- The loop over the files of a level: the tile id of each path is
inserted with the colour 0. The flag tells that `GetTileId` threw. -/
def scanTiles (hierarchy : TileHierarchy) :
    List (List Char) → ConnectivityMap → ConnectivityMap × Bool
  | [], m => (m, false)
  | path :: rest, m =>
    match GetTileId path hierarchy with
    | .error _ => (m, true)
    | .ok id => scanTiles hierarchy rest (insertTile m id.tileid)

/-- The `try` block of the constructor for one level: the map stored under
the level when the block is left. An exception leaves the block before
`ColorMap`; the transit level is coloured with the tiling of the last level of
the hierarchy, another level with its own. `none` when the level is not in the
hierarchy (the end iterator is dereferenced) or the fuel of `ColorMap` runs
out. -/
def levelColors (hierarchy : TileHierarchy) (transit_level : Nat) (scan : LevelScan)
    (tile_level : Nat) : Option ConnectivityMap :=
  let scanned : ConnectivityMap × Bool :=
    match scan with
    | .missing => ([], false)
    | .files paths => scanTiles hierarchy paths []
    | .failing paths => ((scanTiles hierarchy paths []).1, true)
  if scanned.2 then some scanned.1
  else
    let level :=
      if tile_level = transit_level then hierarchy.levels.getLast?.map Prod.snd
      else hierarchy.levels.lookup tile_level
    match level with
    | none => none
    | some level => level.tiles.ColorMap scanned.1

/-- The loop of the constructor over the levels. -/
def buildColors (hierarchy : TileHierarchy) (transit_level : Nat) (disk : Nat → LevelScan) :
    List Nat → Option (List (Nat × ConnectivityMap))
  | [] => some []
  | tile_level :: rest =>
    match levelColors hierarchy transit_level (disk tile_level) tile_level with
    | none => none
    | some level_colors =>
      match buildColors hierarchy transit_level disk rest with
      | none => none
      | some colors => some ((tile_level, level_colors) :: colors)

/-- The constructor `connectivity_map_t(tile_hierarchy)` on the disk `disk`,
which tells what is found under the directory of each level. `none` when the
hierarchy has no level, a level up to the last is not in the hierarchy, or the
fuel runs out. -/
def connectivity_map_t.construct (tile_hierarchy : TileHierarchy) (disk : Nat → LevelScan) :
    Option connectivity_map_t :=
  match tile_hierarchy.levels.getLast? with
  | none => none
  | some last =>
    let transit_level := last.2.level + 1
    match buildColors tile_hierarchy transit_level disk (List.range (transit_level + 1)) with
    | none => none
    | some colors =>
      some { tile_hierarchy := tile_hierarchy, transit_level := transit_level, colors := colors }

/-- `connectivity_map_t::get_color(id)`. -/
def connectivity_map_t.get_color (cm : connectivity_map_t) (id : GraphId) : Nat :=
  match cm.colors.lookup id.level with
  | none => 0
  | some level =>
    match mapFind level id.tileid with
    | none => 0
    | some color => color

/-- The level whose tiling `to_geojson` and `to_image` use:
`(hierarchy_level == transit_level) ? transit_level - 1 : hierarchy_level`, in
`uint32_t`. -/
def connectivity_map_t.tile_level (cm : connectivity_map_t) (hierarchy_level : Nat) : Nat :=
  if hierarchy_level = cm.transit_level then toUInt32 ((cm.transit_level : Int) - 1)
  else hierarchy_level

/-- `connectivity_map_t::to_image(hierarchy_level)`. The size of the vector is
the product `nrows() * ncolumns()` of two `int32_t`, converted to `size_t`; the
product is an integer here, which is the value of the code as long as it lies
within `int32_t`. -/
def connectivity_map_t.to_image (cm : connectivity_map_t) (hierarchy_level : Nat) :
    Except TileError (List Nat) :=
  match cm.colors.lookup hierarchy_level with
  | none => .error .noConnectivityMapForLevel
  | some level =>
    match cm.tile_hierarchy.levels.lookup (cm.tile_level hierarchy_level) with
    | none => .error .hierarchyLevelNotFound
    | some bbox =>
      .ok ((List.range (toSizeT (bbox.tiles.nrows_ * bbox.tiles.ncolumns_))).map
        (fun i =>
          match mapFind level (i % 4294967296) with
          | some color => color
          | none => 0))

/-- A feature of the collection that `to_geojson` prints: the colour of its
properties and the coordinates of its `MultiPoint` geometry. The printing as
text is not embedded (`json.h` is not among the sources). -/
structure Feature where
  color : Nat
  coordinates : List Point2
deriving DecidableEq, Repr

/-- The loop body that fills `regions`: a new region with the point for a
colour that has none, else the point pushed behind those of the colour. -/
def regionsInsert : List (Nat × List Point2) → Nat → Point2 → List (Nat × List Point2)
  | [], color, p => [(color, [p])]
  | (c, ps) :: rest, color, p =>
    if c = color then (c, ps ++ [p]) :: rest else (c, ps) :: regionsInsert rest color p

/-- `arities.emplace(size, color)` on the `multimap` ordered by `a > b`: the
entry goes behind the entries whose key is not smaller. -/
def aritiesInsert : List (Nat × Nat) → Nat → Nat → List (Nat × Nat)
  | [], size, color => [(size, color)]
  | (s, c) :: rest, size, color =>
    if s < size then (size, color) :: (s, c) :: rest
    else (s, c) :: aritiesInsert rest size color

/-- `connectivity_map_t::to_geojson(hierarchy_level)`, up to the printing: the
features in their order. `iterate` is the order in which the `unordered_map`
`regions` is iterated, applied to its entries in the order of their insertion;
the standard leaves it open. -/
def connectivity_map_t.to_geojson (cm : connectivity_map_t)
    (iterate : List (Nat × List Point2) → List (Nat × List Point2)) (hierarchy_level : Nat) :
    Except TileError (List Feature) :=
  match cm.colors.lookup hierarchy_level with
  | none => .error .noConnectivityMapForLevel
  | some level =>
    match cm.tile_hierarchy.levels.lookup (cm.tile_level hierarchy_level) with
    | none => .error .hierarchyLevelNotFound
    | some bbox =>
      let regions := level.foldl
        (fun regions tile => regionsInsert regions tile.2 (bbox.tiles.Center (toInt32 tile.1))) []
      let arities := (iterate regions).foldl
        (fun arities region => aritiesInsert arities region.2.length region.1) []
      .ok (arities.map
        (fun arity => { color := arity.2, coordinates := (regions.lookup arity.2).getD [] }))

/-- The points of a component in the words of the specification: the centres
of the tiles of the level that have the colour, in the order of the entries. -/
def componentCentres (T : BoundedTiles) (level : ConnectivityMap) (color : Nat) : List Point2 :=
  (level.filter (fun tile => tile.2 = color)).map (fun tile => T.Center (toInt32 tile.1))

/-- A hierarchy of two levels under "/data/valhalla": level 0 with 2 x 1 tiles
of 180 degrees, level 1 with 4 x 2 tiles of 90 degrees. -/
def smallHierarchy : TileHierarchy :=
  { levels :=
      [(0, { level := 0,
             tiles := { ncolumns_ := 2, nrows_ := 1, tilebounds_ := world_box,
                        tilesize_ := 180 } }),
       (1, { level := 1,
             tiles := { ncolumns_ := 4, nrows_ := 2, tilebounds_ := world_box,
                        tilesize_ := 90 } })],
    tile_dir := "/data/valhalla".toList }

/-- A disk without a directory for level 0, with the tiles 0, 2, 5 and 6 of
level 1 and the tiles 0 and 2 of the transit level 2. -/
def smallDisk (tile_level : Nat) : LevelScan :=
  if tile_level = 1 then
    .files ["/data/valhalla/1/000/000.gph".toList, "/data/valhalla/1/000/002.gph".toList,
            "/data/valhalla/1/000/005.gph".toList, "/data/valhalla/1/000/006.gph".toList]
  else if tile_level = 2 then
    .files ["/data/valhalla/2/000/000.gph".toList, "/data/valhalla/2/000/002.gph".toList]
  else .missing

/-- The connectivity map that the constructor builds for `smallHierarchy` on
`smallDisk`. -/
def smallMap : connectivity_map_t :=
  { tile_hierarchy := smallHierarchy,
    transit_level := 2,
    colors := [(0, []), (1, [(0, 1), (2, 2), (5, 2), (6, 2)]), (2, [(0, 1), (2, 2)])] }

/-- A connectivity map for `smallHierarchy` whose level 1 holds the tiles 1
and 2, neighbours in the row 0 of the 4 x 2 tiling: one component, of the
colour 1 in whichever order the tiles are visited. -/
def pairMap : connectivity_map_t :=
  { tile_hierarchy := smallHierarchy,
    transit_level := 2,
    colors := [(1, [(1, 1), (2, 1)])] }

/-! ## The grid range query (`grid_range_query.h`)

The coordinates are exact rationals. The intersection of two segments and the
distance approximator (`linesegment2.h`, `distanceapproximator.h`) are not
among the sources and are parameters. -/

/-- A line segment, the pair of its end points `a()` and `b()`. -/
abbrev LineSegment := Point2 × Point2

/-- Modelled from the spec: `AABB2::Contains(pt)`, whether the point lies in
the box. -/
def AABB2.Contains (b : AABB2) (pt : Point2) : Bool :=
  decide (b.minx ≤ pt.x ∧ pt.x ≤ b.maxx ∧ b.miny ≤ pt.y ∧ pt.y ≤ b.maxy)

/-- The members of `BoundingBoxIntersection`: the intersection point and the
direction to the cell adjacent to the intersected side. -/
structure BoundingBoxIntersection where
  point : Point2
  dx : Int
  dy : Int

/-- `BoundingBoxLineSegmentIntersections(box, segment)`: the intersections of
the segment with the bottom, right, top and left side of the box, in this
order. `Intersect s e` is `s.Intersect(e, intersect)`: the point when the call
returns true. -/
def BoundingBoxLineSegmentIntersections (Intersect : LineSegment → LineSegment → Option Point2)
    (box : AABB2) (segment : LineSegment) : List BoundingBoxIntersection :=
  let e1 : LineSegment := ({ x := box.minx, y := box.miny }, { x := box.maxx, y := box.miny })
  let e2 : LineSegment := ({ x := box.maxx, y := box.miny }, { x := box.maxx, y := box.maxy })
  let e3 : LineSegment := ({ x := box.maxx, y := box.maxy }, { x := box.minx, y := box.maxy })
  let e4 : LineSegment := ({ x := box.minx, y := box.maxy }, { x := box.minx, y := box.miny })
  ((Intersect segment e1).toList.map (fun p => { point := p, dx := 0, dy := -1 })) ++
    ((Intersect segment e2).toList.map (fun p => { point := p, dx := 1, dy := 0 })) ++
    ((Intersect segment e3).toList.map (fun p => { point := p, dx := 0, dy := 1 })) ++
    ((Intersect segment e4).toList.map (fun p => { point := p, dx := -1, dy := 0 }))

/-- `Unlerp(a, b, p)`: the `t` with `p = a + t * (b - a)`, taken along the
longer coordinate of the segment. -/
def Unlerp (a b p : Point2) : ℚ :=
  if |b.y - a.y| < |b.x - a.x| then (p.x - a.x) / (b.x - a.x)
  else (p.y - a.y) / (b.y - a.y)

/-- `InteriorLineSegment(bbox, segment, interior)`: the part of the segment
inside the box, `none` when the function returns false. The state of the loop
over the points is (`mint`, `minp`, `maxt`, `maxp`); the two points are read
only after they were assigned. -/
def InteriorLineSegment (Intersect : LineSegment → LineSegment → Option Point2)
    (bbox : AABB2) (segment : LineSegment) : Option LineSegment :=
  let a := segment.1
  let b := segment.2
  if a = b then
    if bbox.Contains a then some (a, b) else none
  else
    let intersects := BoundingBoxLineSegmentIntersections Intersect bbox (a, b)
    let points := intersects.map (fun i => i.point) ++
      (if bbox.Contains a then [a] else []) ++ (if bbox.Contains b then [b] else [])
    let st := points.foldl
      (fun (st : (ℚ × Point2) × (ℚ × Point2)) p =>
        let t := Unlerp a b p
        (if t < st.1.1 then (t, p) else st.1, if t > st.2.1 then (t, p) else st.2))
      ((1, a), (0, b))
    if st.1.1 < 1 ∧ st.2.1 > 0 then some (st.1.2, st.2.2) else none

/-- The members of `GridRangeQuery<key_t>`; the keys are numbers. -/
structure GridRangeQuery where
  bbox_ : AABB2
  cell_width_ : ℚ
  cell_height_ : ℚ
  num_rows_ : Int
  num_cols_ : Int
  items_ : List (List Nat)

/-- The four `std::invalid_argument` errors of the constructor. -/
inductive GridError where
  | invalidCellWidth
  | invalidCellHeight
  | invalidBoxWidth
  | invalidBoxHeight
deriving DecidableEq, Repr

/-- The constructor `GridRangeQuery(bbox, cell_width, cell_height)`:
`num_rows_` is the ceiling of the width of the box over the cell width,
`num_cols_` the ceiling of its height over the cell height, and `items_` has
`num_cols_ * num_rows_` empty slots. -/
def GridRangeQuery.construct (bbox : AABB2) (cell_width cell_height : ℚ) :
    Except GridError GridRangeQuery :=
  if cell_width ≤ 0 then .error .invalidCellWidth
  else if cell_height ≤ 0 then .error .invalidCellHeight
  else if bbox.Width ≤ 0 then .error .invalidBoxWidth
  else if bbox.Height ≤ 0 then .error .invalidBoxHeight
  else
    let cell_width_ := min bbox.Width cell_width
    let cell_height_ := min bbox.Height cell_height
    let num_rows_ : Int := ⌈bbox.Width / cell_width_⌉
    let num_cols_ : Int := ⌈bbox.Height / cell_height_⌉
    .ok { bbox_ := bbox, cell_width_ := cell_width_, cell_height_ := cell_height_,
          num_rows_ := num_rows_, num_cols_ := num_cols_,
          items_ := List.replicate (num_cols_ * num_rows_).toNat [] }

/-- `GridCoordinates(p)`: the pair `(i, j)` of the truncated quotients of the
offsets of the point from the minimum corner by the cell width and height. -/
def GridRangeQuery.GridCoordinates (g : GridRangeQuery) (p : Point2) : Int × Int :=
  let dx := p.x - g.bbox_.minx
  let dy := p.y - g.bbox_.miny
  (truncInt (dx / g.cell_width_), truncInt (dy / g.cell_height_))

/-- `CellBoundingBox(i, j)`. -/
def GridRangeQuery.CellBoundingBox (g : GridRangeQuery) (i j : Int) : AABB2 :=
  { minx := g.bbox_.minx + i * g.cell_width_,
    miny := g.bbox_.miny + j * g.cell_height_,
    maxx := g.bbox_.minx + (i + 1) * g.cell_width_,
    maxy := g.bbox_.miny + (j + 1) * g.cell_height_ }

/-- `CellCenter(i, j)`. -/
def GridRangeQuery.CellCenter (g : GridRangeQuery) (i j : Int) : Point2 :=
  { x := g.bbox_.minx + (i + 0.5) * g.cell_width_,
    y := g.bbox_.miny + (j + 0.5) * g.cell_height_ }

/-- The index `i + j * num_cols_` of the slot of the cell `(i, j)` in
`items_`, as `GetItemsInCell` and `ItemsInCell` compute it. -/
def GridRangeQuery.slot (g : GridRangeQuery) (i j : Int) : Int := i + j * g.num_cols_

/-- `GetItemsInCell(i, j)`, the vector `items_[i + j * num_cols_]`; `none`
when the index is outside `items_`, an access past the vector. -/
def GridRangeQuery.GetItemsInCell (g : GridRangeQuery) (i j : Int) : Option (List Nat) :=
  if 0 ≤ g.slot i j ∧ g.slot i j < g.items_.length then g.items_.get? (g.slot i j).toNat
  else none

/-- `ItemsInCell(i, j).push_back(edgeid)`: the grid after the key was appended
to the slot of the cell; `none` when the index is outside `items_`. -/
def GridRangeQuery.ItemsInCell_push_back (g : GridRangeQuery) (i j : Int) (edgeid : Nat) :
    Option GridRangeQuery :=
  match g.GetItemsInCell i j with
  | none => none
  | some items => some { g with items_ := g.items_.set (g.slot i j).toNat (items ++ [edgeid]) }

/-- `CellLineSegmentIntersections(i, j, segment)`. -/
def GridRangeQuery.CellLineSegmentIntersections (g : GridRangeQuery)
    (Intersect : LineSegment → LineSegment → Option Point2) (i j : Int) (segment : LineSegment) :
    List BoundingBoxIntersection :=
  BoundingBoxLineSegmentIntersections Intersect (g.CellBoundingBox i j) segment

/-- The loop `while (Unlerp(start, end, current_point) < 1.0)` of
`AddLineSegment`: add the key to the current cell and move to the adjacent
cell, across an intersected side, whose centre is nearest to the end and
nearer than the centre of the current cell; stop when there is none.
`DistanceSquared e p` is `DistanceApproximator(e).DistanceSquared(p)`. The
outer `none` is fuel exhaustion, the inner `none` a write outside `items_`. -/
def addLineSegmentLoop (Intersect : LineSegment → LineSegment → Option Point2)
    (DistanceSquared : Point2 → Point2 → ℚ) (edgeid : Nat) (start end_ : Point2) :
    Nat → GridRangeQuery → Point2 → Int → Int → Option (Option GridRangeQuery)
  | fuel, g, current_point, i, j =>
    if Unlerp start end_ current_point < 1 then
      match fuel with
      | 0 => none
      | fuel + 1 =>
        match g.ItemsInCell_push_back i j edgeid with
        | none => some none
        | some g1 =>
          let initiald := DistanceSquared end_ (g.CellCenter i j)
          let best := (g.CellLineSegmentIntersections Intersect i j (current_point, end_)).foldl
            (fun (st : ℚ × Option BoundingBoxIntersection) intersect =>
              let d := DistanceSquared end_ (g.CellCenter (i + intersect.dx) (j + intersect.dy))
              if d < st.1 then (d, some intersect) else st)
            (initiald, none)
          match best.2 with
          | some bestp =>
            if best.1 < initiald then
              addLineSegmentLoop Intersect DistanceSquared edgeid start end_ fuel g1
                bestp.point (i + bestp.dx) (j + bestp.dy)
            else some (some g1)
          | none => some (some g1)
    else some (some g)

/-- `AddLineSegment(edgeid, segment)`: the grid after the call. Nothing is
added for a segment outside the box; a segment of one point adds its key to
the cell of the point; else the key is added along the walk from the start to
the end of the interior part. -/
def GridRangeQuery.AddLineSegment (g : GridRangeQuery)
    (Intersect : LineSegment → LineSegment → Option Point2)
    (DistanceSquared : Point2 → Point2 → ℚ) (fuel : Nat) (edgeid : Nat) (segment : LineSegment) :
    Option (Option GridRangeQuery) :=
  match InteriorLineSegment Intersect g.bbox_ segment with
  | none => some (some g)
  | some interior =>
    let start := interior.1
    let end_ := interior.2
    let ij := g.GridCoordinates start
    if start = end_ then some (g.ItemsInCell_push_back ij.1 ij.2 edgeid)
    else addLineSegmentLoop Intersect DistanceSquared edgeid start end_ fuel g start ij.1 ij.2

/-- The integers from `lo` to `hi`, the values of `for (int i = lo; i <= hi; ++i)`. -/
def intRange (lo hi : Int) : List Int :=
  (List.range (hi - lo + 1).toNat).map (fun (k : Nat) => lo + (k : Int))

/-- `Query(range)`: the keys in the cells from the cell of the minimum corner
of the range to the cell of its maximum corner, both clamped, each key once
(the set returned, in the order of the insertions). `none` when a cell is read
outside `items_`. -/
def GridRangeQuery.Query (g : GridRangeQuery) (range : AABB2) : Option (List Nat) :=
  let min_ij := g.GridCoordinates { x := range.minx, y := range.miny }
  let max_ij := g.GridCoordinates { x := range.maxx, y := range.maxy }
  let mini := max 0 (min min_ij.1 (g.num_cols_ - 1))
  let maxi := max 0 (min max_ij.1 (g.num_cols_ - 1))
  let minj := max 0 (min min_ij.2 (g.num_rows_ - 1))
  let maxj := max 0 (min max_ij.2 (g.num_rows_ - 1))
  (intRange mini maxi).foldl
    (fun results i =>
      (intRange minj maxj).foldl
        (fun results j =>
          match results, g.GetItemsInCell i j with
          | some results, some items =>
            some (items.foldl (fun r key => if key ∈ r then r else r ++ [key]) results)
          | _, _ => none)
        results)
    (some [])

/-- The grid of the box (0, 0) to (3, 2) with cells of width and height 1:
three cells in `x` and two in `y`, for which the constructor sets `num_rows_`
to 3 and `num_cols_` to 2. -/
def grid32 : GridRangeQuery :=
  { bbox_ := { minx := 0, miny := 0, maxx := 3, maxy := 2 }, cell_width_ := 1,
    cell_height_ := 1, num_rows_ := 3, num_cols_ := 2, items_ := [[], [], [], [], [], []] }

/-- The grid of the box (0, 0) to (1, 3) with cells of width and height 1:
one cell in `x` and three in `y`, for which the constructor sets `num_rows_`
to 1 and `num_cols_` to 3. -/
def grid13 : GridRangeQuery :=
  { bbox_ := { minx := 0, miny := 0, maxx := 1, maxy := 3 }, cell_width_ := 1,
    cell_height_ := 1, num_rows_ := 1, num_cols_ := 3, items_ := [[], [], []] }

/-! ## Bicycle costing (`bicyclecost.cc`) -/

/-- `kBicycleAccess` (`graphconstants.h`). -/
def kBicycleAccess : Nat := 4

/-- `Surface::kCompacted` (`graphconstants.h`). -/
def Surface.kCompacted : Nat := 3

/-- `Surface::kDirt`. -/
def Surface.kDirt : Nat := 4

/-- `Surface::kGravel`. -/
def Surface.kGravel : Nat := 5

/-- `Surface::kPath`. -/
def Surface.kPath : Nat := 6

/-- `Surface::kImpassable`. -/
def Surface.kImpassable : Nat := 7

/-- `Use::kSteps`. -/
def Use.kSteps : Nat := 26

/-- `BicycleCost::BicycleType`. -/
inductive BicycleType where
  | kRoad
  | kCross
  | kHybrid
  | kMountain
deriving DecidableEq, Repr

/-- `kDefaultCyclingSpeed[t]`: 25, 20, 18 and 16 kph for the types 0 to 3. -/
def kDefaultCyclingSpeed : BicycleType → ℚ
  | .kRoad => 25
  | .kCross => 20
  | .kHybrid => 18
  | .kMountain => 16

/-- `kMinCyclingSpeed`. -/
def kMinCyclingSpeed : ℚ := 5

/-- `kMaxCyclingSpeed`. -/
def kMaxCyclingSpeed : ℚ := 60

/-- `kRoadSurfaceSpeedFactors`. -/
def kRoadSurfaceSpeedFactors : List ℚ := [1.0, 1.0, 0.9, 0.6, 0.0, 0.0, 0.0, 0.0]

/-- `kHybridSurfaceSpeedFactors`. -/
def kHybridSurfaceSpeedFactors : List ℚ := [1.0, 1.0, 1.0, 0.8, 0.5, 0.0, 0.0, 0.0]

/-- `kCrossSurfaceSpeedFactors`. -/
def kCrossSurfaceSpeedFactors : List ℚ := [1.0, 1.0, 1.0, 0.8, 0.7, 0.5, 0.0, 0.0]

/-- `kMountainSurfaceSpeedFactors`. -/
def kMountainSurfaceSpeedFactors : List ℚ := [1.0, 1.0, 1.0, 1.0, 0.9, 0.8, 0.7, 0.0]

/-- `kGradeBasedSpeedFactor`, indexed by the weighted grade 0 to 15. -/
def kGradeBasedSpeedFactor : List ℚ :=
  [2.5, 2.25, 2.0, 1.7, 1.4, 1.2, 1.0, 0.95, 0.85, 0.75, 0.65, 0.55, 0.5, 0.45, 0.4, 0.3]

/-- Modelled from the spec: `kSecPerHour` (`midgard/constants.h` is not among
the sources), the number of seconds of an hour. -/
def kSecPerHour : ℚ := 3600

/-- The `secs` member of `kBicycleStepsCost`. -/
def kBicycleStepsSecs : ℚ := 30

/-- The members of `BicycleCost` that the access checks and the edge time
read; `not_thru_distance_` is a member of the base class `DynamicCost`, which
is not among the sources. -/
structure BicycleCost where
  speedfactor_ : List ℚ
  speed_ : ℚ
  bicycletype_ : BicycleType
  minimal_allowed_surface_ : Nat
  surface_speed_factor_ : List ℚ
  not_thru_distance_ : ℚ

/-- The constructor `BicycleCost(pt)` on the two options `bicycle_type`
(default "Road") and `cycling_speed` (`none` when the option is absent, which
gives the default speed of the type): the type from its name, the minimal
surface and the surface factors of the type, the speed, replaced by the default
of the type when it is outside 5 to 60 kph, and the table of 100 speed
factors. -/
def BicycleCost.construct (bicycle_type : List Char) (cycling_speed : Option ℚ)
    (not_thru_distance : ℚ) : BicycleCost :=
  let bicycletype :=
    if bicycle_type = "Cross".toList then BicycleType.kCross
    else if bicycle_type = "Hybrid".toList ∨ bicycle_type = "City".toList then BicycleType.kHybrid
    else if bicycle_type = "Mountain".toList then BicycleType.kMountain
    else BicycleType.kRoad
  let speed := cycling_speed.getD (kDefaultCyclingSpeed bicycletype)
  let surface : Nat × List ℚ :=
    if bicycletype = BicycleType.kRoad then (Surface.kCompacted, kRoadSurfaceSpeedFactors)
    else if bicycletype = BicycleType.kHybrid then (Surface.kDirt, kHybridSurfaceSpeedFactors)
    else if bicycletype = BicycleType.kCross then (Surface.kGravel, kCrossSurfaceSpeedFactors)
    else (Surface.kPath, kMountainSurfaceSpeedFactors)
  { speedfactor_ :=
      (List.range 100).map
        (fun (s : Nat) => if s = 0 then kSecPerHour else kSecPerHour * 0.001 / (s : ℚ)),
    speed_ :=
      if speed < kMinCyclingSpeed ∨ speed > kMaxCyclingSpeed then kDefaultCyclingSpeed bicycletype
      else speed,
    bicycletype_ := bicycletype,
    minimal_allowed_surface_ := surface.1,
    surface_speed_factor_ := surface.2,
    not_thru_distance_ := not_thru_distance }

/-- Modelled from the spec: the label of the predecessor edge (`edgelabel.h`
is not among the sources), with the three accessors that `Allowed` reads. -/
structure EdgeLabel where
  opp_local_idx : Nat
  restrictions : Nat
  distance : ℚ

/-- `BicycleCost::Allowed(edge, pred)`. -/
def BicycleCost.Allowed (cost : BicycleCost) (edge : DirectedEdge) (pred : EdgeLabel) : Bool :=
  if (edge.forwardaccess &&& kBicycleAccess) = 0 ∨
      pred.opp_local_idx = edge.localedgeidx ∨
      (pred.restrictions &&& (1 <<< edge.localedgeidx)) ≠ 0 ∨
      (edge.not_thru = true ∧ pred.distance > cost.not_thru_distance_) then false
  else decide (edge.surface ≤ cost.minimal_allowed_surface_)

/-- The edge filter that `BicycleCost::GetFilter()` returns, applied to an
edge: `true` excludes the edge from the search. -/
def BicycleCost.GetFilter (cost : BicycleCost) (edge : DirectedEdge) : Bool :=
  let b := cost.bicycletype_
  if edge.trans_up = false ∧ edge.trans_down = false ∧
      (edge.forwardaccess &&& kBicycleAccess) ≠ 0 then
    match b with
    | .kRoad => decide (edge.surface > Surface.kCompacted)
    | .kHybrid => decide (edge.surface > Surface.kDirt)
    | .kCross => decide (edge.surface > Surface.kGravel)
    | .kMountain => decide (edge.surface ≥ Surface.kPath)
  else true

/-- The local `speed` of `BicycleCost::EdgeCost`: the speed of the costing
times the surface factor and the grade factor of the edge. The products are
exact here; the code rounds each of them to `float`. -/
def BicycleCost.EdgeCost_speed (cost : BicycleCost) (edge : DirectedEdge) : ℚ :=
  cost.speed_ * cost.surface_speed_factor_.getD edge.surface 0 *
    kGradeBasedSpeedFactor.getD edge.weighted_grade 0

/-- The index `static_cast<uint32_t>(speed + 0.5f)` at which
`BicycleCost::EdgeCost` reads `speedfactor_`. -/
def BicycleCost.EdgeCost_index (cost : BicycleCost) (edge : DirectedEdge) : Nat :=
  toUInt32 (truncInt (cost.EdgeCost_speed edge + 0.5))

/-- The `secs` member of the result of `BicycleCost::EdgeCost`: the fixed time
for steps, else the length of the edge times the entry of `speedfactor_` at the
index. `none` when the index is outside the table of 100 entries, a read past
the array. The `cost` member, `secs` times the weighting factor, is not
embedded. -/
def BicycleCost.EdgeCost_secs (cost : BicycleCost) (edge : DirectedEdge) : Option ℚ :=
  if edge.use = Use.kSteps then some kBicycleStepsSecs
  else
    match cost.speedfactor_.get? (cost.EdgeCost_index edge) with
    | none => none
    | some factor => some (edge.length * factor)

/-- An edge of the given surface and weighted grade with bicycle access. -/
def bicycleEdge (surface weighted_grade : Nat) : DirectedEdge :=
  { endnode := { tileid := 0, level := 0, id := 0 }, length := 1000, speed := 30,
    surface := surface, weighted_grade := weighted_grade, forwardaccess := kBicycleAccess }

/-! ## Auxiliary descriptions of the suffix -/

/-- The `m` low-order groups of three digits of `t`, each preceded by `/`. -/
def slashGroups : Nat → Nat → List Char
  | 0, _ => []
  | m + 1, t => slashGroups m (t / 1000) ++ '/' :: pad3 (t % 1000)

/-- The `m` low-order groups of three digits of `t`, as a list of tokens. -/
def groupTokens : Nat → Nat → List (List Char)
  | 0, _ => []
  | m + 1, t => groupTokens m (t / 1000) ++ [pad3 (t % 1000)]

/-- Cut a string into groups of three characters, from the left. -/
def chunk3 : List Char → List (List Char)
  | a :: b :: c :: rest => [a, b, c] :: chunk3 rest
  | [] => []
  | s => [s]

/-- Join groups with `/` between them. -/
def joinSlash : List (List Char) → List Char
  | [] => []
  | [c] => c
  | c :: d :: cs => c ++ '/' :: joinSlash (d :: cs)

/-- The file suffix in the words of the specification: the decimal level
number, `/`, the tile index left-padded with zeroes to `width` and cut into
groups of three digits joined by `/`, then ".gph". -/
def specSuffix (level width tile : Nat) : List Char :=
  decimal level ++ '/' :: joinSlash (chunk3 (List.leftpad width '0' (decimal tile))) ++ gph

/-- The path stem in the words of the specification: the ".gph" suffix
stripped when present. -/
def stripGph (s : List Char) : List Char :=
  if gph.isSuffixOf s then s.take (s.length - 4) else s

/-- The tokens of a path in the words of the specification: the non-empty
`/`-separated pieces of what follows the root directory, once the ".gph"
suffix is stripped ("/7.gph" has the one token "7", "/" has none). -/
def specTokens (rest : List Char) : List (List Char) :=
  (split isSlash (stripGph rest)).filter (fun t => !t.isEmpty)

/-! ## Example hierarchies -/

/-- The usual hierarchy under "/data/valhalla": levels 0, 1 and 2 with world
tilings of 4, 1 and 0.25 degrees (90 x 45, 360 x 180 and 1440 x 720 tiles). -/
def exampleHierarchy : TileHierarchy :=
  { levels :=
      [(0, { level := 0,
             tiles := { ncolumns_ := 90, nrows_ := 45, tilebounds_ := world_box,
                        tilesize_ := 4 } }),
       (1, { level := 1,
             tiles := { ncolumns_ := 360, nrows_ := 180, tilebounds_ := world_box,
                        tilesize_ := 1 } }),
       (2, { level := 2,
             tiles := { ncolumns_ := 1440, nrows_ := 720, tilebounds_ := world_box,
                        tilesize_ := 1 / 4 } })],
    tile_dir := "/data/valhalla".toList }

/-- A hierarchy whose level 0 is a single tile covering the world (tile size
360 degrees: one column, one row). -/
def oneTileHierarchy : TileHierarchy :=
  { levels :=
      [(0, { level := 0,
             tiles := { ncolumns_ := 1, nrows_ := 1, tilebounds_ := world_box,
                        tilesize_ := 360 } })],
    tile_dir := "/data/valhalla".toList }

/-- A hierarchy with a level 5 of 0.25 degree tiles (1440 x 720 tiles). -/
def levelFiveHierarchy : TileHierarchy :=
  { levels :=
      [(5, { level := 5,
             tiles := { ncolumns_ := 1440, nrows_ := 720, tilebounds_ := world_box,
                        tilesize_ := 1 / 4 } })],
    tile_dir := "/data/valhalla".toList }

/-! ## Example tiles -/

/-- A tile with three signs, for the edges 7, 7 and 12, whose texts "ab",
"cd" and "ef" stand at the offsets 1, 4 and 7 of the text list. -/
def signTile : GraphTile :=
  { header_ := { departurecount := 0, access_restriction_count := 0, signcount := 3,
                 date_created := 0 },
    departures_ := fun _ =>
      { days := 0, lineid := 0, tripid := 0, routeid := 0, blockid := 0, days_of_week := 0,
        headsign_offset := 0, departure_time := 0, elapsed_time := 0 },
    access_restrictions_ := fun _ => { edgeindex := 0, type := 0, value := 0 },
    signs_ := fun i =>
      [({ edgeindex := 7, type := 1, text_offset := 1 } : Sign),
       { edgeindex := 7, type := 2, text_offset := 4 },
       { edgeindex := 12, type := 3, text_offset := 7 }].getD i
        { edgeindex := 7, type := 0, text_offset := 0 },
    textlist_ := [Char.ofNat 0, 'a', 'b', Char.ofNat 0, 'c', 'd', Char.ofNat 0, 'e', 'f',
      Char.ofNat 0] }

/-- A tile with one access restriction, for the edge 7. -/
def restrictionTile : GraphTile :=
  { header_ := { departurecount := 0, access_restriction_count := 1, signcount := 0,
                 date_created := 0 },
    departures_ := fun _ =>
      { days := 0, lineid := 0, tripid := 0, routeid := 0, blockid := 0, days_of_week := 0,
        headsign_offset := 0, departure_time := 0, elapsed_time := 0 },
    access_restrictions_ := fun _ => { edgeindex := 7, type := 2, value := 40 },
    signs_ := fun _ => { edgeindex := 0, type := 0, text_offset := 0 },
    textlist_ := [Char.ofNat 0] }

/-- A departure of the given line, trip, departure time and day-of-week mask. -/
def departureOf (lineid tripid departure_time days_of_week : Nat) : TransitDeparture :=
  { days := 0, lineid := lineid, tripid := tripid, routeid := 0, blockid := 0,
    days_of_week := days_of_week, headsign_offset := 0, departure_time := departure_time,
    elapsed_time := 0 }

/-- A tile created on day 100 with four departures, sorted by line id and
departure time: line 1 at 08:00 (trip 10, Mondays) and 09:00 (trip 11, every
day), line 2 at 07:00 (trip 20) and 10:00 (trip 21), both every day. -/
def departureTile : GraphTile :=
  { header_ := { departurecount := 4, access_restriction_count := 0, signcount := 0,
                 date_created := 100 },
    departures_ := fun i =>
      [departureOf 1 10 28800 2, departureOf 1 11 32400 127, departureOf 2 20 25200 127,
       departureOf 2 21 36000 127].getD i (departureOf 0 0 0 0),
    access_restrictions_ := fun _ => { edgeindex := 0, type := 0, value := 0 },
    signs_ := fun _ => { edgeindex := 0, type := 0, text_offset := 0 },
    textlist_ := [Char.ofNat 0] }

/-- The empty tile: every section count is 0. -/
def emptyTile : GraphTile :=
  { header_ := { departurecount := 0, access_restriction_count := 0, signcount := 0,
                 date_created := 0 },
    departures_ := fun _ => departureOf 0 0 0 0,
    access_restrictions_ := fun _ => { edgeindex := 0, type := 0, value := 0 },
    signs_ := fun _ => { edgeindex := 0, type := 0, text_offset := 0 },
    textlist_ := [] }

/-- A tile created on day 100 with one departure of line 1 at 08:00 whose
days bitmap has every one of its 64 bits set and which runs on every day of
the week. -/
def bitmapTile : GraphTile :=
  { emptyTile with
    header_ := { departurecount := 1, access_restriction_count := 0, signcount := 0,
                 date_created := 100 },
    departures_ := fun _ =>
      { days := 18446744073709551615, lineid := 1, tripid := 10, routeid := 0, blockid := 0,
        days_of_week := 127, headsign_offset := 0, departure_time := 28800,
        elapsed_time := 0 } }

/-- A transfer record with the given stops. -/
def transferOf (from_stopid to_stopid : Nat) : TransitTransfer :=
  { from_stopid := from_stopid, to_stopid := to_stopid, type := 0, mintime := 0 }

/-- A tile with two nodes, one directed edge, one admin, two stops, three
routes (ids 4, 8, 15) and five transfers sorted by from stop:
3→9, 5→2, 5→7, 5→4, 8→5. -/
def transitTile : GraphTile :=
  { emptyTile with
    header_ := { departurecount := 0, access_restriction_count := 0, signcount := 0,
                 date_created := 0, nodecount := 2, directededgecount := 1, admincount := 1,
                 stopcount := 2, routecount := 3, transfercount := 5 },
    nodes_ := fun i => { edge_index := i, edge_count := 1 },
    transit_stops_ := fun i =>
      { stopid := 10 + i, one_stop_offset := 0, name_offset := 0, desc_offset := 0,
        parent_stopid := 0, fare_zoneid := 0 },
    transit_routes_ := fun i =>
      { routeid := [4, 8, 15].getD i 16, short_name_offset := 0, long_name_offset := 0,
        desc_offset := 0 },
    transit_transfers_ := fun i =>
      [transferOf 3 9, transferOf 5 2, transferOf 5 7, transferOf 5 4, transferOf 8 5].getD i
        (transferOf 5 7) }

/-! ## Lemmas: digits and decimal output -/

theorem digitChar_mem (d : Nat) (h : d < 10) :
    digitChar d ∈ ['0', '1', '2', '3', '4', '5', '6', '7', '8', '9'] := by
  interval_cases d <;> decide

theorem digitChar_isDigit (d : Nat) (h : d < 10) : (digitChar d).isDigit = true := by
  interval_cases d <;> decide

theorem digitChar_toNat (d : Nat) (h : d < 10) : ((digitChar d).toNat : Int) - 48 = d := by
  interval_cases d <;> decide

theorem digitChar_not_sep (d : Nat) (h : d < 10) : isAnyOfSlashDotGph (digitChar d) = false := by
  interval_cases d <;> decide

theorem digitChar_not_slash (d : Nat) (h : d < 10) : isSlash (digitChar d) = false := by
  interval_cases d <;> decide

theorem digitChar_not_space (d : Nat) (h : d < 10) : isspace (digitChar d) = false := by
  interval_cases d <;> decide

theorem digitChar_ne_minus (d : Nat) (h : d < 10) : digitChar d ≠ '-' := by
  interval_cases d <;> decide

theorem digitChar_ne_plus (d : Nat) (h : d < 10) : digitChar d ≠ '+' := by
  interval_cases d <;> decide

theorem digitsLoop_eq (fuel : Nat) : ∀ n d k : Nat, n ≤ fuel → n < 10 ^ k →
    (k = 0 ∨ 10 ^ (k - 1) ≤ n) → digitsLoop fuel n d = d + k := by
  induction fuel with
  | zero =>
    intro n d k hn _ hk
    have hk0 : k = 0 := by
      rcases hk with h | h
      · exact h
      · have : 0 < 10 ^ (k - 1) := Nat.pow_pos (by norm_num)
        omega
    simp [digitsLoop, hk0]
  | succ fuel ih =>
    intro n d k hn hlt hk
    by_cases h0 : n = 0
    · have hk0 : k = 0 := by
        rcases hk with h | h
        · exact h
        · have : 0 < 10 ^ (k - 1) := Nat.pow_pos (by norm_num)
          omega
      simp [digitsLoop, h0, hk0]
    · have hk1 : 1 ≤ k := by
        rcases Nat.eq_zero_or_pos k with h | h
        · subst h; simp at hlt; omega
        · exact h
      have hge : 10 ^ (k - 1) ≤ n := by
        rcases hk with h | h
        · omega
        · exact h
      obtain ⟨j, rfl⟩ : ∃ j, k = j + 1 := ⟨k - 1, by omega⟩
      simp only [Nat.add_sub_cancel] at hge
      have h1 : n / 10 < 10 ^ j := by
        rw [Nat.div_lt_iff_lt_mul (by norm_num)]
        rw [pow_succ] at hlt
        exact hlt
      have h2 : j = 0 ∨ 10 ^ (j - 1) ≤ n / 10 := by
        rcases Nat.eq_zero_or_pos j with h | h
        · exact Or.inl h
        · right
          obtain ⟨i, rfl⟩ : ∃ i, j = i + 1 := ⟨j - 1, by omega⟩
          simp only [Nat.add_sub_cancel]
          rw [Nat.le_div_iff_mul_le (by norm_num)]
          rw [pow_succ] at hge
          exact hge
      have h3 : n / 10 ≤ fuel := by omega
      simp only [digitsLoop, ne_eq, h0, not_false_eq_true, if_true]
      rw [ih (n / 10) (d + 1) j h3 h1 h2]
      omega

theorem digits_eq (n k : Nat) (hlt : n < 10 ^ k) (hk : k = 0 ∨ 10 ^ (k - 1) ≤ n) :
    digits n = k := by
  unfold digits
  rw [digitsLoop_eq n n 0 k (le_refl n) hlt hk]
  omega

theorem digits_pos_bound (n : Nat) (hn : 1 ≤ n) : 1 ≤ digits n ∧ n < 10 ^ digits n := by
  have h1 : n < 10 ^ (Nat.log 10 n + 1) := Nat.lt_pow_succ_log_self (by norm_num) n
  have h2 : 10 ^ Nat.log 10 n ≤ n := Nat.pow_log_le_self 10 (by omega)
  have h := digits_eq n (Nat.log 10 n + 1) h1 (Or.inr (by simpa using h2))
  rw [h]
  exact ⟨by omega, h1⟩

theorem maxLength_spec (n : Nat) (hn : 1 ≤ n) :
    ∃ m, 1 ≤ m ∧ maxLength n = 3 * m ∧ n < 1000 ^ m := by
  obtain ⟨h1, h2⟩ := digits_pos_bound n hn
  refine ⟨(digits n + 2) / 3, by omega, ?_, ?_⟩
  · unfold maxLength
    simp only [ne_eq]
    split_ifs <;> omega
  · have h3 : digits n ≤ 3 * ((digits n + 2) / 3) := by omega
    calc n < 10 ^ digits n := h2
      _ ≤ 10 ^ (3 * ((digits n + 2) / 3)) := Nat.pow_le_pow_right (by norm_num) h3
      _ = 1000 ^ ((digits n + 2) / 3) := by rw [pow_mul]; norm_num

theorem decimalAux_fuel (f : Nat) : ∀ g n : Nat, n ≤ f → n ≤ g →
    decimalAux f n = decimalAux g n := by
  induction f with
  | zero =>
    intro g n hf _
    have h0 : n = 0 := by omega
    subst h0
    cases g <;> simp [decimalAux]
  | succ f ih =>
    intro g n hf hg
    cases g with
    | zero =>
      have h0 : n = 0 := by omega
      subst h0
      simp [decimalAux]
    | succ g =>
      simp only [decimalAux]
      split_ifs with h
      · rfl
      · rw [ih g (n / 10) (by omega) (by omega)]

theorem decimal_lt_ten (n : Nat) (h : n < 10) : decimal n = [digitChar n] := by
  unfold decimal
  cases n with
  | zero => simp [decimalAux]
  | succ n => simp [decimalAux, h]

theorem decimal_ge_ten (n : Nat) (h : 10 ≤ n) :
    decimal n = decimal (n / 10) ++ [digitChar (n % 10)] := by
  unfold decimal
  cases n with
  | zero => omega
  | succ n =>
    have h1 : ¬ (n + 1 < 10) := by omega
    simp only [decimalAux, h1, if_false]
    rw [decimalAux_fuel n ((n + 1) / 10) ((n + 1) / 10) (by omega) (le_refl _)]

theorem decimal_ge_thousand (n : Nat) (h : 1000 ≤ n) :
    decimal n = decimal (n / 1000) ++ pad3 (n % 1000) := by
  rw [decimal_ge_ten n (by omega), decimal_ge_ten (n / 10) (by omega),
    decimal_ge_ten (n / 10 / 10) (by omega)]
  have e1 : n / 10 / 10 / 10 = n / 1000 := by omega
  have e2 : n / 10 / 10 % 10 = n % 1000 / 100 % 10 := by omega
  have e3 : n / 10 % 10 = n % 1000 / 10 % 10 := by omega
  have e4 : n % 10 = n % 1000 % 10 := by omega
  rw [e1, e2, e3, e4]
  simp [pad3]

theorem decimal_ne_nil (n : Nat) : decimal n ≠ [] := by
  by_cases h : n < 10
  · rw [decimal_lt_ten n h]; simp
  · rw [decimal_ge_ten n (by omega)]; simp

theorem decimal_length_le (n : Nat) (h : n < 1000) : (decimal n).length ≤ 3 := by
  by_cases h1 : n < 10
  · rw [decimal_lt_ten n h1]; simp
  · rw [decimal_ge_ten n (by omega)]
    by_cases h2 : n / 10 < 10
    · rw [decimal_lt_ten _ h2]; simp
    · rw [decimal_ge_ten _ (by omega), decimal_lt_ten _ (by omega)]; simp

theorem groupRev_short (s : List Char) (h : s.length ≤ 3) : groupRev s = s := by
  match s, h with
  | [], _ => rfl
  | [_], _ => rfl
  | [_, _], _ => rfl
  | [_, _, _], _ => rfl
  | _ :: _ :: _ :: _ :: _, h => simp at h

theorem putGrouped_lt (n : Nat) (h : n < 1000) : putGrouped n = decimal n := by
  unfold putGrouped
  rw [groupRev_short _ (by simpa using decimal_length_le n h)]
  simp

theorem putGrouped_ge (n : Nat) (h : 1000 ≤ n) :
    putGrouped n = putGrouped (n / 1000) ++ '/' :: pad3 (n % 1000) := by
  unfold putGrouped
  rw [decimal_ge_thousand n h]
  have hne : (decimal (n / 1000)).reverse ≠ [] := by
    simpa using decimal_ne_nil (n / 1000)
  obtain ⟨x, r, hr⟩ := List.exists_cons_of_ne_nil hne
  simp only [pad3, List.reverse_append, List.reverse_cons, List.reverse_nil, List.nil_append,
    List.cons_append, hr, groupRev]
  simp

theorem putGrouped_level (m : Nat) : ∀ L t : Nat, 1 ≤ L → L < 1000 → t < 1000 ^ m →
    putGrouped (L * 1000 ^ m + t) = decimal L ++ slashGroups m t := by
  induction m with
  | zero =>
    intro L t _ hL ht
    simp only [pow_zero, Nat.lt_one_iff] at ht
    subst ht
    simp [slashGroups, putGrouped_lt L hL]
  | succ m ih =>
    intro L t h1 hL ht
    have hpos : 0 < 1000 ^ m := Nat.pow_pos (by norm_num)
    have hge : 1000 ≤ L * 1000 ^ (m + 1) + t := by
      rw [pow_succ]
      nlinarith
    have hdiv : (L * 1000 ^ (m + 1) + t) / 1000 = L * 1000 ^ m + t / 1000 := by
      rw [pow_succ, ← Nat.mul_assoc, Nat.add_comm, Nat.add_mul_div_right _ _ (by norm_num)]
      omega
    have hmod : (L * 1000 ^ (m + 1) + t) % 1000 = t % 1000 := by
      rw [pow_succ, ← Nat.mul_assoc, Nat.add_comm, Nat.add_mul_mod_self_right]
    have ht' : t / 1000 < 1000 ^ m := by
      rw [Nat.div_lt_iff_lt_mul (by norm_num)]
      rw [pow_succ] at ht
      exact ht
    rw [putGrouped_ge _ hge, hdiv, hmod, ih L (t / 1000) h1 hL ht']
    simp [slashGroups]

theorem FileSuffix_groups (h : TileHierarchy) (lvl : TileLevel) (t L k : Nat)
    (hl : h.levels.lookup L = some lvl)
    (hmax : 1 ≤ MaxTileId (toUInt32 lvl.tiles.ncolumns_) (toUInt32 lvl.tiles.nrows_))
    (ht : t ≤ MaxTileId (toUInt32 lvl.tiles.ncolumns_) (toUInt32 lvl.tiles.nrows_))
    (hL : L < 1000)
    (hfit : max L 1 * 10 ^ maxLength (MaxTileId (toUInt32 lvl.tiles.ncolumns_)
      (toUInt32 lvl.tiles.nrows_)) + t < 4294967296) :
    ∃ m, 1 ≤ m ∧ maxLength (MaxTileId (toUInt32 lvl.tiles.ncolumns_)
        (toUInt32 lvl.tiles.nrows_)) = 3 * m ∧ t < 1000 ^ m ∧
      max L 1 * 1000 ^ m + t < 4294967296 ∧
      FileSuffix { tileid := t, level := L, id := k } h
        = .ok (decimal L ++ slashGroups m t ++ gph) := by
  obtain ⟨m, hm1, hm, hlt⟩ := maxLength_spec _ hmax
  have hpow : (10 : Nat) ^ (3 * m) = 1000 ^ m := by rw [pow_mul]; norm_num
  rw [hm, hpow] at hfit
  refine ⟨m, hm1, hm, lt_of_le_of_lt ht hlt, hfit, ?_⟩
  have htm : t < 1000 ^ m := lt_of_le_of_lt ht hlt
  unfold FileSuffix
  simp only [hl, hm, powU32, hpow]
  by_cases h0 : L = 0
  · subst h0
    simp only [Nat.zero_max, one_mul] at hfit
    have e1 : 1000 ^ m % 4294967296 = 1000 ^ m := Nat.mod_eq_of_lt (by omega)
    have e2 : (1000 ^ m + t) % 4294967296 = 1 * 1000 ^ m + t := by
      rw [Nat.mod_eq_of_lt hfit]; omega
    simp only [if_true, e1, e2]
    rw [putGrouped_level m 1 t (le_refl 1) (by norm_num) htm]
    rw [decimal_lt_ten 1 (by norm_num), decimal_lt_ten 0 (by norm_num)]
    simp [setFirst, digitChar]
  · have hL1 : 1 ≤ L := by omega
    have hmaxL : max L 1 = L := by omega
    rw [hmaxL] at hfit
    have hpos : 0 < 1000 ^ m := Nat.pow_pos (by norm_num)
    have e1 : 1000 ^ m % 4294967296 = 1000 ^ m := by
      apply Nat.mod_eq_of_lt
      nlinarith
    have e2 : (L * 1000 ^ m + t) % 4294967296 = L * 1000 ^ m + t := Nat.mod_eq_of_lt hfit
    simp only [h0, if_false, e1, e2]
    rw [putGrouped_level m L t hL1 hL htm]

/-! ## Lemmas: parsing a path -/

theorem find_append_self (pat rest : List Char) : find pat (pat ++ rest) = some 0 := by
  cases hs : pat ++ rest with
  | nil =>
    have : pat = [] := by
      cases pat with
      | nil => rfl
      | cons a b => simp at hs
    simp [find, this]
  | cons c s =>
    have hp : pat.isPrefixOf (c :: s) = true := by
      rw [← hs]
      simp
    simp [find, hp]

theorem split_length_pos (p : Char → Bool) (s : List Char) : split p s ≠ [] := by
  cases s with
  | nil => simp [split]
  | cons c s =>
    simp only [split]
    split_ifs
    · simp
    · split <;> simp

theorem split_append_sep (p : Char → Bool) (a b : List Char) (c : Char) (hc : p c = true) :
    split p (a ++ c :: b) = split p a ++ split p b := by
  induction a with
  | nil => simp [split, hc]
  | cons x a ih =>
    by_cases hx : p x = true
    · simp [split, hx, ih]
    · obtain ⟨y, ys, hy⟩ := List.exists_cons_of_ne_nil (split_length_pos p a)
      simp [split, hx, ih, hy]

theorem split_no_sep (p : Char → Bool) (s : List Char) (h : ∀ c ∈ s, p c = false) :
    split p s = [s] := by
  induction s with
  | nil => simp [split]
  | cons x s ih =>
    have hx : p x = false := h x (by simp)
    have hs := ih (fun c hc => h c (by simp [hc]))
    simp [split, hx, hs]

theorem toUInt32_natCast (n : Nat) : toUInt32 (n : Int) = n % 4294967296 := by
  unfold toUInt32
  omega

theorem atoi_digit_head (d : Nat) (hd : d < 10) (r : List Char) :
    atoi (digitChar d :: r) = atoiDigits (digitChar d :: r) 0 := by
  unfold atoi
  simp [List.dropWhile, digitChar_not_space d hd, digitChar_ne_minus d hd,
    digitChar_ne_plus d hd]

theorem atoiDigits_digit (d : Nat) (hd : d < 10) (r : List Char) (acc : Int) :
    atoiDigits (digitChar d :: r) acc = atoiDigits r (acc * 10 + d) := by
  simp [atoiDigits, digitChar_isDigit d hd, digitChar_toNat d hd]

theorem atoi_pad3 (r : Nat) (hr : r < 1000) : atoi (pad3 r) = (r : Int) := by
  unfold pad3
  rw [atoi_digit_head _ (by omega), atoiDigits_digit _ (by omega), atoiDigits_digit _ (by omega),
    atoiDigits_digit _ (by omega)]
  simp only [atoiDigits]
  omega

theorem decimal_lt_thousand (L : Nat) (hL : L < 1000) :
    decimal L = [digitChar L] ∧ L < 10 ∨
    decimal L = [digitChar (L / 10), digitChar (L % 10)] ∧ 10 ≤ L ∧ L < 100 ∨
    decimal L = [digitChar (L / 100), digitChar (L / 10 % 10), digitChar (L % 10)] ∧ 100 ≤ L := by
  by_cases h1 : L < 10
  · exact Or.inl ⟨decimal_lt_ten L h1, h1⟩
  · by_cases h2 : L < 100
    · right; left
      rw [decimal_ge_ten L (by omega), decimal_lt_ten _ (by omega)]
      exact ⟨rfl, by omega, h2⟩
    · right; right
      rw [decimal_ge_ten L (by omega), decimal_ge_ten _ (by omega), decimal_lt_ten _ (by omega)]
      have e : L / 10 / 10 = L / 100 := by omega
      rw [e]
      exact ⟨rfl, by omega⟩

theorem atoi_decimal (L : Nat) (hL : L < 1000) : atoi (decimal L) = (L : Int) := by
  rcases decimal_lt_thousand L hL with ⟨h, h1⟩ | ⟨h, h1, h2⟩ | ⟨h, h1⟩
  · rw [h, atoi_digit_head _ h1, atoiDigits_digit _ h1]
    simp [atoiDigits]
  · rw [h, atoi_digit_head _ (by omega), atoiDigits_digit _ (by omega),
      atoiDigits_digit _ (by omega)]
    simp only [atoiDigits]
    omega
  · rw [h, atoi_digit_head _ (by omega), atoiDigits_digit _ (by omega),
      atoiDigits_digit _ (by omega), atoiDigits_digit _ (by omega)]
    simp only [atoiDigits]
    omega

theorem decimal_head (L : Nat) (hL : L < 1000) :
    ∃ d ds, d < 10 ∧ decimal L = digitChar d :: ds := by
  rcases decimal_lt_thousand L hL with ⟨h, h1⟩ | ⟨h, h1, h2⟩ | ⟨h, h1⟩
  · exact ⟨L, [], h1, h⟩
  · exact ⟨L / 10, _, by omega, h⟩
  · exact ⟨L / 100, _, by omega, h⟩

theorem decimal_no_slash (L : Nat) (hL : L < 1000) : ∀ c ∈ decimal L, isSlash c = false := by
  intro c hc
  rcases decimal_lt_thousand L hL with ⟨h, h1⟩ | ⟨h, h1, h2⟩ | ⟨h, h1⟩
  · rw [h] at hc
    simp only [List.mem_singleton] at hc
    subst hc
    exact digitChar_not_slash _ h1
  · rw [h] at hc
    simp only [List.mem_cons, List.mem_singleton, List.not_mem_nil, or_false] at hc
    rcases hc with rfl | rfl
    · exact digitChar_not_slash _ (by omega)
    · exact digitChar_not_slash _ (by omega)
  · rw [h] at hc
    simp only [List.mem_cons, List.mem_singleton, List.not_mem_nil, or_false] at hc
    rcases hc with rfl | rfl | rfl
    · exact digitChar_not_slash _ (by omega)
    · exact digitChar_not_slash _ (by omega)
    · exact digitChar_not_slash _ (by omega)

theorem pad3_no_slash (r : Nat) : ∀ c ∈ pad3 r, isSlash c = false := by
  intro c hc
  simp only [pad3, List.mem_cons, List.mem_singleton, List.not_mem_nil, or_false] at hc
  rcases hc with rfl | rfl | rfl
  · exact digitChar_not_slash _ (Nat.mod_lt _ (by norm_num))
  · exact digitChar_not_slash _ (Nat.mod_lt _ (by norm_num))
  · exact digitChar_not_slash _ (Nat.mod_lt _ (by norm_num))

theorem split_groups (L : Nat) (hL : L < 1000) (m : Nat) : ∀ t : Nat,
    split isSlash (decimal L ++ slashGroups m t) = decimal L :: groupTokens m t := by
  induction m with
  | zero =>
    intro t
    simp [slashGroups, groupTokens, split_no_sep isSlash _ (decimal_no_slash L hL)]
  | succ m ih =>
    intro t
    simp only [slashGroups, groupTokens]
    rw [← List.append_assoc, split_append_sep isSlash _ _ '/' (by decide), ih (t / 1000),
      split_no_sep isSlash _ (pad3_no_slash _)]
    simp

theorem groupTokens_length (m : Nat) : ∀ t : Nat, (groupTokens m t).length = m := by
  induction m with
  | zero => intro t; simp [groupTokens]
  | succ m ih => intro t; simp [groupTokens, ih]

theorem idLoop_append (xs : List (List Char)) : ∀ (ys : List (List Char)) (mult id : Nat),
    idLoop (xs ++ ys) mult id = idLoop ys (mult / 1000 ^ xs.length) (idLoop xs mult id) := by
  induction xs with
  | nil => intro ys mult id; simp [idLoop]
  | cons x xs ih =>
    intro ys mult id
    rw [List.cons_append]
    simp only [idLoop, List.length_cons]
    rw [ih, Nat.div_div_eq_div_mul, pow_succ, Nat.mul_comm]

theorem idLoop_groupTokens (m : Nat) : ∀ t e id : Nat, t < 1000 ^ m → m ≤ e + 1 →
    id < 4294967296 →
    idLoop (groupTokens m t) (1000 ^ e) id = (id + t * 1000 ^ (e + 1 - m)) % 4294967296 := by
  induction m with
  | zero =>
    intro t e id ht _ hid
    simp only [pow_zero, Nat.lt_one_iff] at ht
    subst ht
    simp [groupTokens, idLoop, Nat.mod_eq_of_lt hid]
  | succ m ih =>
    intro t e id ht hme hid
    have ht' : t / 1000 < 1000 ^ m := by
      rw [Nat.div_lt_iff_lt_mul (by norm_num)]
      rw [pow_succ] at ht
      exact ht
    simp only [groupTokens]
    rw [idLoop_append, ih (t / 1000) e id ht' (by omega) hid, groupTokens_length]
    have hdiv : 1000 ^ e / 1000 ^ m = 1000 ^ (e - m) :=
      Nat.pow_div (by omega) (by norm_num)
    simp only [idLoop, hdiv]
    rw [atoi_pad3 _ (Nat.mod_lt _ (by norm_num))]
    have hcast : ((t % 1000 : Nat) : Int) * ((1000 ^ (e - m) : Nat) : Int)
        = ((t % 1000 * 1000 ^ (e - m) : Nat) : Int) := by push_cast; ring
    rw [hcast, toUInt32_natCast]
    have e1 : e + 1 - m = (e - m) + 1 := by omega
    have e2 : e + 1 - (m + 1) = e - m := by omega
    rw [e1, e2, pow_succ]
    have key : t * 1000 ^ (e - m)
        = t / 1000 * (1000 ^ (e - m) * 1000) + t % 1000 * 1000 ^ (e - m) := by
      have := Nat.div_add_mod t 1000
      calc t * 1000 ^ (e - m) = (1000 * (t / 1000) + t % 1000) * 1000 ^ (e - m) := by rw [this]
        _ = _ := by ring
    rw [key]
    generalize t / 1000 * (1000 ^ (e - m) * 1000) = A
    generalize t % 1000 * 1000 ^ (e - m) = B
    omega

theorem trim_if_path (x e : Char) (mid : List Char)
    (hx : isAnyOfSlashDotGph x = false) (he : isAnyOfSlashDotGph e = false) :
    trim_if isAnyOfSlashDotGph ('/' :: (x :: mid ++ [e]) ++ gph) = x :: mid ++ [e] := by
  have h1 : isAnyOfSlashDotGph '/' = true := by decide
  have h2 : isAnyOfSlashDotGph '.' = true := by decide
  have h3 : isAnyOfSlashDotGph 'g' = true := by decide
  have h4 : isAnyOfSlashDotGph 'p' = true := by decide
  have h5 : isAnyOfSlashDotGph 'h' = true := by decide
  unfold trim_if gph
  simp [List.dropWhile, h1, h2, h3, h4, h5, hx, he]

theorem slashGroups_last (m t : Nat) (hm : 1 ≤ m) :
    ∃ S d, d < 10 ∧ slashGroups m t = S ++ [digitChar d] := by
  obtain ⟨j, rfl⟩ : ∃ j, m = j + 1 := ⟨m - 1, by omega⟩
  refine ⟨slashGroups j (t / 1000) ++ ['/', digitChar (t % 1000 / 100 % 10),
    digitChar (t % 1000 / 10 % 10)], t % 1000 % 10, Nat.mod_lt _ (by norm_num), ?_⟩
  simp [slashGroups, pad3]

theorem GetTileId_groups (h : TileHierarchy) (L t m : Nat) (hL : L < 1000) (hm : 1 ≤ m)
    (ht : t < 1000 ^ m) (hfit : 1000 ^ m + t < 4294967296) :
    GetTileId (h.tile_dir ++ '/' :: (decimal L ++ slashGroups m t ++ gph)) h
      = .ok { tileid := t, level := L, id := 0 } := by
  obtain ⟨x, ds, hx, hdec⟩ := decimal_head L hL
  obtain ⟨S, e, he, hS⟩ := slashGroups_last m t hm
  have hname : trim_if isAnyOfSlashDotGph ('/' :: (decimal L ++ slashGroups m t ++ gph))
      = decimal L ++ slashGroups m t := by
    have := trim_if_path (digitChar x) (digitChar e) (ds ++ S) (digitChar_not_sep x hx)
      (digitChar_not_sep e he)
    rw [hdec, hS]
    simpa using this
  have hpow : 1000 ^ (m - 1) ≤ 1000 ^ m := Nat.pow_le_pow_right (by norm_num) (by omega)
  unfold GetTileId
  rw [find_append_self]
  simp only [Nat.zero_add, List.drop_left, hname, split_groups L hL m t, List.length_cons,
    groupTokens_length, List.tail_cons, List.headD_cons, powU32]
  have h2 : ¬ (m + 1 < 2) := by omega
  have e1 : m + 1 - 2 = m - 1 := by omega
  have e2 : 1000 ^ (m - 1) % 4294967296 = 1000 ^ (m - 1) := Nat.mod_eq_of_lt (by omega)
  rw [if_neg h2, e1, e2, idLoop_groupTokens m t (m - 1) 0 ht (by omega) (by norm_num),
    atoi_decimal L hL, toUInt32_natCast]
  have e3 : m - 1 + 1 - m = 0 := by omega
  have e4 : L % 4294967296 = L := Nat.mod_eq_of_lt (by omega)
  have e5 : t % 4294967296 = t := Nat.mod_eq_of_lt (by omega)
  simp [e3, e4, e5]

/-! ## Lemmas: the suffix in the words of the specification -/

theorem pad3_eq_leftpad (t : Nat) (ht : t < 1000) (h1 : 1 ≤ t) :
    pad3 t = List.replicate (3 - (decimal t).length) '0' ++ decimal t := by
  have hz : digitChar 0 = '0' := by decide
  rcases decimal_lt_thousand t ht with ⟨h, h2⟩ | ⟨h, h2, h3⟩ | ⟨h, h2⟩
  · have e1 : t / 100 % 10 = 0 := by omega
    have e2 : t / 10 % 10 = 0 := by omega
    have e3 : t % 10 = t := by omega
    rw [h]
    simp [pad3, e1, e2, e3, hz, List.replicate]
  · have e1 : t / 100 % 10 = 0 := by omega
    have e2 : t / 10 % 10 = t / 10 := by omega
    rw [h]
    simp [pad3, e1, e2, hz, List.replicate]
  · have e1 : t / 100 % 10 = t / 100 := by omega
    rw [h]
    simp [pad3, e1]

theorem flatten_groupTokens (m : Nat) : ∀ t : Nat, t < 1000 ^ m →
    (groupTokens m t).flatten =
      if t = 0 then List.replicate (3 * m) '0'
      else List.replicate (3 * m - (decimal t).length) '0' ++ decimal t := by
  induction m with
  | zero =>
    intro t ht
    simp only [pow_zero, Nat.lt_one_iff] at ht
    subst ht
    simp [groupTokens]
  | succ m ih =>
    intro t ht
    have ht' : t / 1000 < 1000 ^ m := by
      rw [Nat.div_lt_iff_lt_mul (by norm_num)]
      rw [pow_succ] at ht
      exact ht
    have hz : digitChar 0 = '0' := by decide
    simp only [groupTokens, List.flatten_append, List.flatten_cons, List.flatten_nil,
      List.append_nil]
    rw [ih (t / 1000) ht']
    by_cases h1000 : 1000 ≤ t
    · have hne : t / 1000 ≠ 0 := by omega
      have hne2 : t ≠ 0 := by omega
      rw [if_neg hne, if_neg hne2, decimal_ge_thousand t h1000]
      have hl : (pad3 (t % 1000)).length = 3 := by simp [pad3]
      have e : 3 * (m + 1) - (decimal (t / 1000) ++ pad3 (t % 1000)).length
          = 3 * m - (decimal (t / 1000)).length := by
        rw [List.length_append, hl]; omega
      rw [e]
      simp
    · have hdiv : t / 1000 = 0 := by omega
      have hmod : t % 1000 = t := by omega
      rw [if_pos hdiv, hmod]
      by_cases h0 : t = 0
      · subst h0
        have e : 3 * (m + 1) = 3 * m + 3 := by ring
        rw [if_pos rfl, e, List.replicate_add]
        simp [pad3, hz, List.replicate]
      · rw [if_neg h0, pad3_eq_leftpad t (by omega) (by omega), ← List.append_assoc,
          ← List.replicate_add]
        have hlen := decimal_length_le t (by omega)
        have e : 3 * m + (3 - (decimal t).length) = 3 * (m + 1) - (decimal t).length := by
          omega
        rw [e]

theorem leftpad_groupTokens (m t : Nat) (hm : 1 ≤ m) (ht : t < 1000 ^ m) :
    List.leftpad (3 * m) '0' (decimal t) = (groupTokens m t).flatten := by
  rw [flatten_groupTokens m t ht]
  unfold List.leftpad
  by_cases h0 : t = 0
  · subst h0
    have hz : digitChar 0 = '0' := by decide
    obtain ⟨j, hj⟩ : ∃ j, 3 * m = j + 1 := ⟨3 * m - 1, by omega⟩
    rw [if_pos rfl, decimal_lt_ten 0 (by norm_num), hz, hj]
    simp only [List.length_singleton, Nat.add_sub_cancel]
    rw [List.replicate_succ']
  · rw [if_neg h0]

theorem chunk3_append : ∀ xs : List Char, xs.length % 3 = 0 → ∀ ys : List Char,
    chunk3 (xs ++ ys) = chunk3 xs ++ chunk3 ys
  | [], _, ys => by simp [chunk3]
  | [_], h, _ => by simp at h
  | [_, _], h, _ => by simp at h
  | a :: b :: c :: rest, h, ys => by
    have hr : rest.length % 3 = 0 := by
      simp only [List.length_cons] at h
      omega
    have := chunk3_append rest hr ys
    simp [chunk3, this]

theorem flatten_groupTokens_length (m : Nat) : ∀ t : Nat,
    (groupTokens m t).flatten.length = 3 * m := by
  induction m with
  | zero => intro t; simp [groupTokens]
  | succ m ih =>
    intro t
    simp only [groupTokens, List.flatten_append, List.length_append, ih]
    simp [pad3]
    ring

theorem chunk3_groupTokens (m : Nat) : ∀ t : Nat,
    chunk3 (groupTokens m t).flatten = groupTokens m t := by
  induction m with
  | zero => intro t; simp [groupTokens, chunk3]
  | succ m ih =>
    intro t
    simp only [groupTokens, List.flatten_append]
    rw [chunk3_append _ (by rw [flatten_groupTokens_length]; omega), ih]
    simp [pad3, chunk3]

theorem joinSlash_snoc : ∀ (xs : List (List Char)) (x : List Char), xs ≠ [] →
    joinSlash (xs ++ [x]) = joinSlash xs ++ '/' :: x
  | [], _, h => absurd rfl h
  | [c], x, _ => by simp [joinSlash]
  | c :: d :: cs, x, _ => by
    have := joinSlash_snoc (d :: cs) x (by simp)
    simp only [List.cons_append] at this
    simp [joinSlash, this]

theorem joinSlash_groupTokens (m : Nat) (hm : 1 ≤ m) : ∀ t : Nat,
    '/' :: joinSlash (groupTokens m t) = slashGroups m t := by
  induction m with
  | zero => omega
  | succ m ih =>
    intro t
    rcases Nat.eq_zero_or_pos m with h0 | hpos
    · subst h0
      simp [groupTokens, slashGroups, joinSlash]
    · have hne : groupTokens m (t / 1000) ≠ [] := by
        intro h
        have := groupTokens_length m (t / 1000)
        rw [h] at this
        simp at this
        omega
      simp only [groupTokens, slashGroups]
      rw [joinSlash_snoc _ _ hne, ← ih hpos (t / 1000)]
      simp

theorem specSuffix_groups (L m t : Nat) (hm : 1 ≤ m) (ht : t < 1000 ^ m) :
    specSuffix L (3 * m) t = decimal L ++ slashGroups m t ++ gph := by
  unfold specSuffix
  rw [leftpad_groupTokens m t hm ht, chunk3_groupTokens, ← joinSlash_groupTokens m hm t]

/-! ## Lemmas: rejected paths -/

theorem find_eq_none_iff (pat : List Char) : ∀ s : List Char,
    find pat s = none ↔ ¬ pat <:+: s := by
  intro s
  induction s with
  | nil =>
    by_cases h : pat = []
    · simp [find, h]
    · simp [find, h]
  | cons c s ih =>
    simp only [find]
    by_cases hp : pat.isPrefixOf (c :: s) = true
    · have : pat <:+: c :: s := (List.isPrefixOf_iff_prefix.mp hp).isInfix
      simp [hp, this]
    · have hnp : ¬ pat <+: c :: s := fun h => hp (List.isPrefixOf_iff_prefix.mpr h)
      simp only [hp, Bool.false_eq_true, if_false, Option.map_eq_none', ih,
        List.infix_cons_iff, hnp, false_or]

theorem split_length (p : Char → Bool) (s : List Char) :
    (split p s).length = (s.filter p).length + 1 := by
  induction s with
  | nil => simp [split]
  | cons c s ih =>
    by_cases hc : p c = true
    · simp [split, hc, ih]
    · obtain ⟨y, ys, hy⟩ := List.exists_cons_of_ne_nil (split_length_pos p s)
      rw [hy] at ih
      simp [split, hc, hy]
      simpa using ih

theorem trim_if_subset (p : Char → Bool) (s : List Char) : ∀ c ∈ trim_if p s, c ∈ s := by
  intro c hc
  unfold trim_if at hc
  rw [List.mem_reverse] at hc
  have h1 := (List.dropWhile_sublist p).subset hc
  rw [List.mem_reverse] at h1
  exact (List.dropWhile_sublist p).subset h1

theorem stripGph_no_slash (s : List Char) (h : ∀ c ∈ stripGph s, isSlash c = false) :
    ∀ c ∈ s, isSlash c = false := by
  intro c hc
  unfold stripGph at h
  by_cases hs : gph.isSuffixOf s = true
  · rw [if_pos hs] at h
    obtain ⟨pre, rfl⟩ := List.isSuffixOf_iff_suffix.mp hs
    have hlen : (pre ++ gph).length - 4 = pre.length := by simp [gph]
    rw [hlen, List.take_left] at h
    rcases List.mem_append.mp hc with h1 | h1
    · exact h c h1
    · simp only [gph, List.mem_cons, List.mem_singleton, List.not_mem_nil, or_false] at h1
      rcases h1 with rfl | rfl | rfl | rfl <;> decide
  · rw [if_neg hs] at h
    exact h c hc

theorem GetTileId_no_slash (h : TileHierarchy) (rest : List Char)
    (hr : ∀ c ∈ rest, isSlash c = false) :
    GetTileId (h.tile_dir ++ rest) h = .error .invalidTilePath := by
  unfold GetTileId
  rw [find_append_self]
  simp only [Nat.zero_add, List.drop_left]
  rw [split_no_sep isSlash _ (fun c hc => hr c (trim_if_subset _ _ c hc))]
  simp

theorem maxLength_eq (n d : Nat) (hge : 10 ^ (d - 1) ≤ n) (hlt : n < 10 ^ d) :
    maxLength n = 3 * ((d + 2) / 3) := by
  have hd : digits n = d := digits_eq n d hlt (Or.inr hge)
  unfold maxLength
  simp only [hd, ne_eq]
  split_ifs <;> omega

theorem split_cons_form (p : Char → Bool) (s : List Char) :
    ∃ t, (∀ c ∈ t, p c = false) ∧
      ((s = t ∧ split p s = [t]) ∨
        ∃ c s1, p c = true ∧ s = t ++ c :: s1 ∧ split p s = t :: split p s1) := by
  induction s with
  | nil => exact ⟨[], by simp, Or.inl ⟨rfl, by simp [split]⟩⟩
  | cons x s ih =>
    by_cases hx : p x = true
    · exact ⟨[], by simp, Or.inr ⟨x, s, hx, rfl, by simp [split, hx]⟩⟩
    · obtain ⟨t, ht, h | ⟨c, s1, hc, hs, hsp⟩⟩ := ih
      · refine ⟨x :: t, ?_, Or.inl ⟨by rw [h.1], by simp [split, hx, h.2]⟩⟩
        intro c hc
        rcases List.mem_cons.mp hc with rfl | h1
        · simpa using hx
        · exact ht c h1
      · refine ⟨x :: t, ?_, Or.inr ⟨c, s1, hc, by rw [hs]; rfl, by simp [split, hx, hsp]⟩⟩
        intro c hc
        rcases List.mem_cons.mp hc with rfl | h1
        · simpa using hx
        · exact ht c h1

theorem all_sep_of_no_token (p : Char → Bool) (s : List Char) :
    ((split p s).filter (fun t => !t.isEmpty)).length = 0 → ∀ c ∈ s, p c = true := by
  induction s with
  | nil => simp
  | cons x s ih =>
    intro h
    by_cases hx : p x = true
    · simp only [split, hx, if_true, List.filter_cons, List.isEmpty_nil, Bool.not_true,
        Bool.false_eq_true, if_false] at h
      intro c hc
      rcases List.mem_cons.mp hc with rfl | h1
      · exact hx
      · exact ih h c h1
    · exfalso
      obtain ⟨y, ys, hy⟩ := List.exists_cons_of_ne_nil (split_length_pos p s)
      simp [split, hx, hy] at h

theorem tokens_decompose (p : Char → Bool) (s : List Char) :
    ((split p s).filter (fun t => !t.isEmpty)).length < 2 →
      ∃ a w b, s = a ++ w ++ b ∧ (∀ c ∈ a, p c = true) ∧ (∀ c ∈ b, p c = true) ∧
        (∀ c ∈ w, p c = false) := by
  induction s with
  | nil => intro _; exact ⟨[], [], [], rfl, by simp, by simp, by simp⟩
  | cons x s ih =>
    intro h
    by_cases hx : p x = true
    · simp only [split, hx, if_true, List.filter_cons, List.isEmpty_nil, Bool.not_true,
        Bool.false_eq_true, if_false] at h
      obtain ⟨a, w, b, hs, ha, hb, hw⟩ := ih h
      refine ⟨x :: a, w, b, by rw [hs]; rfl, ?_, hb, hw⟩
      intro c hc
      rcases List.mem_cons.mp hc with rfl | h1
      · exact hx
      · exact ha c h1
    · obtain ⟨t, ht, h1 | ⟨c, s1, hc, hs, hsp⟩⟩ := split_cons_form p (x :: s)
      · exact ⟨[], t, [], by simp [h1.1], by simp, by simp, ht⟩
      · have htne : t ≠ [] := by
          rintro rfl
          simp only [List.nil_append, List.cons.injEq] at hs
          rw [hs.1] at hx
          exact hx hc
        rw [hsp] at h
        have h0 : ((split p s1).filter (fun t => !t.isEmpty)).length = 0 := by
          cases t with
          | nil => exact absurd rfl htne
          | cons y ys =>
            simp only [List.filter_cons, List.isEmpty_cons, Bool.not_false, if_true,
              List.length_cons] at h
            omega
        have hall := all_sep_of_no_token p s1 h0
        refine ⟨[], t, c :: s1, by simp [hs], by simp, ?_, ht⟩
        intro d hd
        rcases List.mem_cons.mp hd with rfl | h2
        · exact hc
        · exact hall d h2

theorem dropWhile_append_of_all (p : Char → Bool) (a l : List Char)
    (ha : ∀ c ∈ a, p c = true) : (a ++ l).dropWhile p = l.dropWhile p := by
  induction a with
  | nil => rfl
  | cons x a ih =>
    have hx : p x = true := ha x (List.mem_cons_self _ _)
    simp only [List.cons_append, List.dropWhile_cons, hx, if_true]
    exact ih (fun c hc => ha c (List.mem_cons_of_mem _ hc))

theorem trim_if_pad (p : Char → Bool) (a m b : List Char)
    (ha : ∀ c ∈ a, p c = true) (hb : ∀ c ∈ b, p c = true) :
    trim_if p (a ++ m ++ b) = trim_if p m := by
  unfold trim_if
  rw [List.append_assoc, dropWhile_append_of_all p a _ ha]
  congr 1
  induction m with
  | nil =>
    have := dropWhile_append_of_all p b [] hb
    simp only [List.append_nil] at this
    simp [this]
  | cons x m ih =>
    by_cases hx : p x = true
    · simp only [List.cons_append, List.dropWhile_cons, hx, if_true]
      exact ih
    · simp only [List.cons_append, List.dropWhile_cons, hx, Bool.false_eq_true, if_false]
      rw [show x :: (m ++ b) = (x :: m) ++ b from rfl, List.reverse_append]
      exact dropWhile_append_of_all p b.reverse _
        (fun c hc => hb c (List.mem_reverse.mp hc))

theorem stripGph_append (rest : List Char) :
    ∃ e, rest = stripGph rest ++ e ∧ ∀ c ∈ e, isAnyOfSlashDotGph c = true := by
  unfold stripGph
  by_cases hs : gph.isSuffixOf rest = true
  · rw [if_pos hs]
    obtain ⟨pre, rfl⟩ := List.isSuffixOf_iff_suffix.mp hs
    have hlen : (pre ++ gph).length - 4 = pre.length := by simp [gph]
    rw [hlen, List.take_left]
    refine ⟨gph, rfl, ?_⟩
    intro c hc
    simp only [gph, List.mem_cons, List.mem_singleton, List.not_mem_nil, or_false] at hc
    rcases hc with rfl | rfl | rfl | rfl <;> decide
  · rw [if_neg hs]
    exact ⟨[], by simp, by simp⟩

theorem GetTileId_tokens (h : TileHierarchy) (rest : List Char) :
    GetTileId (h.tile_dir ++ rest) h = .error .invalidTilePath
      ↔ (split isSlash (trim_if isAnyOfSlashDotGph rest)).length < 2 := by
  unfold GetTileId
  rw [find_append_self]
  simp only [Nat.zero_add, List.drop_left]
  split_ifs with hlt
  · simp [hlt]
  · simp [hlt]

theorem specTokens_few (rest : List Char) (hlen : (specTokens rest).length < 2) :
    (split isSlash (trim_if isAnyOfSlashDotGph rest)).length < 2 := by
  obtain ⟨a, w, b, hs, ha, hb, hw⟩ := tokens_decompose isSlash (stripGph rest) hlen
  obtain ⟨e, he, hee⟩ := stripGph_append rest
  have hsl : ∀ c, isSlash c = true → isAnyOfSlashDotGph c = true := by
    intro c hc
    simp only [isSlash, decide_eq_true_eq] at hc
    rw [hc]; decide
  have hrest : rest = a ++ w ++ (b ++ e) := by
    rw [← List.append_assoc, ← hs]; exact he
  have htrim : trim_if isAnyOfSlashDotGph rest = trim_if isAnyOfSlashDotGph w := by
    rw [hrest]
    apply trim_if_pad
    · exact fun c hc => hsl c (ha c hc)
    · intro c hc
      rcases List.mem_append.mp hc with h1 | h1
      · exact hsl c (hb c h1)
      · exact hee c h1
  rw [htrim, split_no_sep isSlash _ (fun c hc => hw c (trim_if_subset _ _ c hc))]
  simp

/-! ## Claims C1 to C3: file suffix and tile id -/

/-- C1 does not hold, by a slip in `FileSuffix`: in a hierarchy whose level 0
is a single tile (`max_id = 0`, and `digits(0)` is 0) the suffix of tile 0 is
"0.gph", without the `/` and the group of digits that the format comment of
`FileSuffix` prescribes, and `GetTileId` ("need at least level and id")
rejects the path built from it with "Invalid tile path" instead of returning
`GraphId(0, 0, 0)`. -/
theorem GetTileId_FileSuffix_one_tile :
    oneTileHierarchy.levels.lookup 0
        = some { level := 0,
                 tiles := { ncolumns_ := 1, nrows_ := 1, tilebounds_ := world_box,
                            tilesize_ := 360 } } ∧
      (0 : Nat) ≤ MaxTileId (toUInt32 1) (toUInt32 1) ∧
      FileSuffix { tileid := 0, level := 0, id := 0 } oneTileHierarchy = .ok "0.gph".toList ∧
      GetTileId (oneTileHierarchy.tile_dir ++ '/' :: "0.gph".toList) oneTileHierarchy
        = .error .invalidTilePath :=
  ⟨rfl, by decide, by decide, by decide⟩

/-- The round trip where `FileSuffix` prints what its format comment
prescribes: for every hierarchy with root directory `R`, every level
`L < 1000` of the hierarchy whose world tiling has `max_id ≥ 1`, every tile
index `t ≤ max_id` for which the number that `FileSuffix` prints,
`max(L, 1) * 10^width + t`, fits 32 bits, and every object index `k`:
`GetTileId(R + "/" + FileSuffix(GraphId(t, L, k)))` is the tile-base id
`GraphId(t, L, 0)`. -/
theorem GetTileId_FileSuffix (h : TileHierarchy) (lvl : TileLevel) (t L k : Nat)
    (hl : h.levels.lookup L = some lvl)
    (hmax : 1 ≤ MaxTileId (toUInt32 lvl.tiles.ncolumns_) (toUInt32 lvl.tiles.nrows_))
    (ht : t ≤ MaxTileId (toUInt32 lvl.tiles.ncolumns_) (toUInt32 lvl.tiles.nrows_))
    (hL : L < 1000)
    (hfit : max L 1 * 10 ^ maxLength (MaxTileId (toUInt32 lvl.tiles.ncolumns_)
      (toUInt32 lvl.tiles.nrows_)) + t < 4294967296) :
    (FileSuffix { tileid := t, level := L, id := k } h).bind
        (fun suffix => GetTileId (h.tile_dir ++ '/' :: suffix) h)
      = .ok (GraphId.Tile_Base { tileid := t, level := L, id := k }) := by
  obtain ⟨m, hm1, _, htm, hfit', hs⟩ := FileSuffix_groups h lvl t L k hl hmax ht hL hfit
  have hpos : 0 < 1000 ^ m := Nat.pow_pos (by norm_num)
  have h1 : 1000 ^ m + t < 4294967296 := by
    have : 1000 ^ m ≤ max L 1 * 1000 ^ m := Nat.le_mul_of_pos_left _ (by omega)
    omega
  rw [hs]
  simp only [Except.bind]
  rw [GetTileId_groups h L t m hL hm1 htm h1]
  rfl

/-- The round trip at level 2 of the usual hierarchy, tile 519120, object 7. -/
theorem GetTileId_FileSuffix_witness :
    (FileSuffix { tileid := 519120, level := 2, id := 7 } exampleHierarchy).bind
        (fun suffix => GetTileId (exampleHierarchy.tile_dir ++ '/' :: suffix) exampleHierarchy)
      = .ok (GraphId.Tile_Base { tileid := 519120, level := 2, id := 7 }) :=
  GetTileId_FileSuffix exampleHierarchy
    { level := 2,
      tiles := { ncolumns_ := 1440, nrows_ := 720, tilebounds_ := world_box,
                 tilesize_ := 1 / 4 } } 519120 2 7
    rfl (by decide) (by decide) (by decide) (by decide)

/-- The number that `FileSuffix` prints wraps in `uint32_t`: at level 5 of a
hierarchy with 1440 x 720 tiles (`max_id = 1036799`, seven digits, width 9)
the suffix of tile 0 is "705/032/704.gph", since `5 * 10^9` is 705032704
modulo `2^32`, and not "5/000/000/000.gph". -/
theorem FileSuffix_level_five_wraps :
    levelFiveHierarchy.levels.lookup 5
        = some { level := 5,
                 tiles := { ncolumns_ := 1440, nrows_ := 720, tilebounds_ := world_box,
                            tilesize_ := 1 / 4 } } ∧
      MaxTileId (toUInt32 1440) (toUInt32 720) = 1036799 ∧
      FileSuffix { tileid := 0, level := 5, id := 0 } levelFiveHierarchy
        = .ok "705/032/704.gph".toList ∧
      specSuffix 5 9 0 = "5/000/000/000.gph".toList :=
  ⟨rfl, by decide, by decide, by decide⟩

/-- C2 does not hold, by a slip in `FileSuffix`: in a hierarchy whose level 0
is a single tile (`max_id = 0`) the suffix of tile 0 is "0.gph", without `/`
and without a group of three digits, against the format comment of
`FileSuffix` (level, `/`, groups of three digits); the claimed string is
"0/0.gph" for the width 0 that `digits(0)` gives, and "0/000.gph" for the
width 3 of one decimal digit. -/
theorem FileSuffix_one_tile :
    oneTileHierarchy.levels.lookup 0
        = some { level := 0,
                 tiles := { ncolumns_ := 1, nrows_ := 1, tilebounds_ := world_box,
                            tilesize_ := 360 } } ∧
      MaxTileId (toUInt32 1) (toUInt32 1) = 0 ∧
      FileSuffix { tileid := 0, level := 0, id := 0 } oneTileHierarchy = .ok "0.gph".toList ∧
      specSuffix 0 0 0 = "0/0.gph".toList ∧
      specSuffix 0 3 0 = "0/000.gph".toList :=
  ⟨rfl, by decide, by decide, by decide, by decide⟩

/-- The format of `FileSuffix` where the printed number has its groups:
`FileSuffix(g, hierarchy)` fails (non-existent level) iff
`g.level` is not a level of the hierarchy; otherwise, when `max_id` of the
level has `d ≥ 1` decimal digits (`10^(d-1) ≤ max_id < 10^d`, so `max_id ≥ 1`),
`width = 3 * ceil(d / 3)`, the level is below 1000 and `max(L, 1) * 10^width + t`
fits 32 bits, then for every tile index `t ≤ max_id` the result is the decimal
level number, `/`, `t` left-padded with zeroes to `width` and cut into groups
of three digits joined by `/`, then ".gph". The three examples of the claim
hold in the usual hierarchy. -/
theorem FileSuffix_spec (h : TileHierarchy) (lvl : TileLevel) (t L k d : Nat) :
    (FileSuffix { tileid := t, level := L, id := k } h = .error .nonexistentLevel
        ↔ h.levels.lookup L = none) ∧
      (h.levels.lookup L = some lvl →
        10 ^ (d - 1) ≤ MaxTileId (toUInt32 lvl.tiles.ncolumns_) (toUInt32 lvl.tiles.nrows_) →
        MaxTileId (toUInt32 lvl.tiles.ncolumns_) (toUInt32 lvl.tiles.nrows_) < 10 ^ d →
        t ≤ MaxTileId (toUInt32 lvl.tiles.ncolumns_) (toUInt32 lvl.tiles.nrows_) →
        L < 1000 →
        max L 1 * 10 ^ (3 * ((d + 2) / 3)) + t < 4294967296 →
        FileSuffix { tileid := t, level := L, id := k } h
          = .ok (specSuffix L (3 * ((d + 2) / 3)) t)) ∧
      FileSuffix { tileid := 6897468, level := 2, id := 0 } exampleHierarchy
        = .ok "2/006/897/468.gph".toList ∧
      FileSuffix { tileid := 64799, level := 1, id := 0 } exampleHierarchy
        = .ok "1/064/799.gph".toList ∧
      FileSuffix { tileid := 49, level := 0, id := 0 } exampleHierarchy
        = .ok "0/000/049.gph".toList := by
  refine ⟨?_, ?_, by decide, by decide, by decide⟩
  · unfold FileSuffix
    cases hl : h.levels.lookup L with
    | none => simp
    | some lv =>
      simp only [reduceCtorEq, iff_false]
      split_ifs <;> simp
  · intro hl hge hlt ht hL hfit
    have hmax : 1 ≤ MaxTileId (toUInt32 lvl.tiles.ncolumns_) (toUInt32 lvl.tiles.nrows_) :=
      le_trans (Nat.pow_pos (by norm_num)) hge
    have hw := maxLength_eq _ d hge hlt
    rw [← hw] at hfit
    obtain ⟨m, hm1, hm, htm, _, hs⟩ := FileSuffix_groups h lvl t L k hl hmax ht hL hfit
    rw [hs, ← hw, hm, specSuffix_groups L m t hm1 htm]

/-- The format at level 2 of the usual hierarchy (`max_id = 1036799`, seven
digits), tile 519120. -/
theorem FileSuffix_spec_witness :
    FileSuffix { tileid := 519120, level := 2, id := 0 } exampleHierarchy
      = .ok (specSuffix 2 (3 * ((7 + 2) / 3)) 519120) :=
  (FileSuffix_spec exampleHierarchy
    { level := 2,
      tiles := { ncolumns_ := 1440, nrows_ := 720, tilebounds_ := world_box,
                 tilesize_ := 1 / 4 } }
    519120 2 0 7).2.1 rfl (by decide) (by decide) (by decide) (by decide) (by decide)

/-- C3, as stated, fails: the path "x/data/valhalla/0/000/049.gph" does not
begin with the root directory "/data/valhalla", yet `GetTileId` accepts it
(`find` locates the root anywhere in the path). -/
theorem GetTileId_root_inside_path :
    ¬ (exampleHierarchy.tile_dir <+: "x/data/valhalla/0/000/049.gph".toList) ∧
      GetTileId "x/data/valhalla/0/000/049.gph".toList exampleHierarchy
        = .ok { tileid := 49, level := 0, id := 0 } := by
  decide

/-- C3 (amended): `GetTileId` fails with "File name for tile does not match
hierarchy root dir" exactly for the paths that do not contain the root
directory (anywhere, not only at the beginning). For a path that begins with
the root directory it fails with "Invalid tile path" exactly when the
remainder, trimmed of the characters `/`, `.`, `g`, `p`, `h` at both ends,
splits at `/` into fewer than two tokens; this holds for every remainder that
has fewer than two `/`-separated tokens once the ".gph" suffix is stripped
(such as "/7.gph", "/7", "7.gph" and "/"). -/
theorem GetTileId_invalid_path (h : TileHierarchy) (fname rest : List Char) :
    (GetTileId fname h = .error .rootDirMismatch ↔ ¬ h.tile_dir <:+: fname) ∧
      (GetTileId (h.tile_dir ++ rest) h = .error .invalidTilePath
        ↔ (split isSlash (trim_if isAnyOfSlashDotGph rest)).length < 2) ∧
      ((specTokens rest).length < 2 →
        GetTileId (h.tile_dir ++ rest) h = .error .invalidTilePath) := by
  refine ⟨?_, GetTileId_tokens h rest, fun hlen =>
    (GetTileId_tokens h rest).mpr (specTokens_few rest hlen)⟩
  constructor
  · intro he
    rw [← find_eq_none_iff]
    unfold GetTileId at he
    cases hf : find h.tile_dir fname with
    | none => rfl
    | some pos =>
      rw [hf] at he
      simp only at he
      split_ifs at he
      exact absurd he (by decide)
  · intro hn
    have := (find_eq_none_iff h.tile_dir fname).mpr hn
    unfold GetTileId
    rw [this]

/-- C3 (amended), at the paths "/tmp/2/000/001.gph" (no root),
"/data/valhalla/7.gph" (the single token "7") and "/data/valhalla/" (no
token). -/
theorem GetTileId_invalid_path_witness :
    GetTileId "/tmp/2/000/001.gph".toList exampleHierarchy = .error .rootDirMismatch ∧
      GetTileId (exampleHierarchy.tile_dir ++ "/7.gph".toList) exampleHierarchy
        = .error .invalidTilePath ∧
      GetTileId (exampleHierarchy.tile_dir ++ "/".toList) exampleHierarchy
        = .error .invalidTilePath :=
  ⟨(GetTileId_invalid_path exampleHierarchy "/tmp/2/000/001.gph".toList "/7.gph".toList).1.mpr
      (by decide),
    (GetTileId_invalid_path exampleHierarchy "/tmp/2/000/001.gph".toList "/7.gph".toList).2.2
      (by decide),
    (GetTileId_invalid_path exampleHierarchy "/tmp/2/000/001.gph".toList "/".toList).2.1.mpr
      (by decide)⟩

/-! ## Lemmas: the sorted lookups -/

theorem toInt32_pred (count : Nat) (h0 : count ≠ 0) (hb : count ≤ 1073741824) :
    toInt32 (count - 1) = (count : Int) - 1 := by
  unfold toInt32
  have h1 : (count - 1) % 4294967296 = count - 1 := Nat.mod_eq_of_lt (by omega)
  rw [h1, if_pos (by omega)]
  omega

theorem searchLoop_sound (key : Nat → Nat) (idx count : Nat) (fuel : Nat) :
    ∀ low high : Int, 0 ≤ low → high < count → high - low + 1 ≤ fuel →
      ∃ r, searchLoop key idx fuel low high = some r ∧
        ∀ mid, r = some mid → mid < count ∧ key mid = idx := by
  induction fuel with
  | zero =>
    intro low high _ _ hf
    have hlt : ¬ low ≤ high := by omega
    exact ⟨none, by rw [searchLoop]; simp [hlt], by simp⟩
  | succ fuel ih =>
    intro low high hlow hhigh hf
    rw [searchLoop]
    by_cases hle : low ≤ high
    · simp only [hle, if_true]
      by_cases hk : key ((low + high) / 2).toNat = idx
      · refine ⟨some ((low + high) / 2).toNat, by simp [hk], ?_⟩
        intro mid hmid
        simp only [Option.some.injEq] at hmid
        subst hmid
        exact ⟨by omega, hk⟩
      · by_cases hlt : idx < key ((low + high) / 2).toNat
        · simp only [hk, hlt, if_true, if_false]
          exact ih low ((low + high) / 2 - 1) hlow (by omega) (by push_cast at hf ⊢; omega)
        · simp only [hk, hlt, if_false]
          exact ih ((low + high) / 2 + 1) high (by omega) hhigh (by push_cast at hf ⊢; omega)
    · exact ⟨none, by simp [hle], by simp⟩

theorem searchLoop_complete (key : Nat → Nat) (idx count : Nat)
    (hs : ∀ i j, i ≤ j → j < count → key i ≤ key j) (fuel : Nat) :
    ∀ low high : Int, 0 ≤ low → high < count →
      (∀ i, i < count → key i = idx → low ≤ i ∧ (i : Int) ≤ high) →
      searchLoop key idx fuel low high = some none → ∀ i, i < count → key i ≠ idx := by
  induction fuel with
  | zero =>
    intro low high _ _ hinv hres i hi hki
    rw [searchLoop] at hres
    by_cases hle : low ≤ high
    · simp [hle] at hres
    · have := hinv i hi hki
      omega
  | succ fuel ih =>
    intro low high hlow hhigh hinv hres
    rw [searchLoop] at hres
    by_cases hle : low ≤ high
    · simp only [hle, if_true] at hres
      by_cases hk : key ((low + high) / 2).toNat = idx
      · simp [hk] at hres
      · by_cases hlt : idx < key ((low + high) / 2).toNat
        · simp only [hk, hlt, if_true, if_false] at hres
          refine ih low ((low + high) / 2 - 1) hlow (by omega) ?_ hres
          intro i hi hki
          have h1 := hinv i hi hki
          refine ⟨h1.1, ?_⟩
          by_contra hcon
          have h2 : ((low + high) / 2).toNat ≤ i := by omega
          have h3 := hs _ _ h2 hi
          omega
        · simp only [hk, hlt, if_false] at hres
          refine ih ((low + high) / 2 + 1) high (by omega) hhigh ?_ hres
          intro i hi hki
          have h1 := hinv i hi hki
          refine ⟨?_, h1.2⟩
          by_contra hcon
          have h2 : i ≤ ((low + high) / 2).toNat := by omega
          have h3 := hs _ _ h2 (by omega)
          omega
    · intro i hi hki
      have := hinv i hi hki
      omega

theorem backUp_spec (key : Nat → Nat) (idx count : Nat)
    (hs : ∀ i j, i ≤ j → j < count → key i ≤ key j) :
    ∀ mid, mid < count → key mid = idx →
      backUp key idx mid ≤ mid ∧ key (backUp key idx mid) = idx ∧
        ∀ i, i < backUp key idx mid → key i < idx := by
  intro mid
  induction mid with
  | zero =>
    intro _ hk
    simp [backUp, hk]
  | succ mid ih =>
    intro hm hk
    by_cases hp : key mid = idx
    · obtain ⟨h1, h2, h3⟩ := ih (by omega) hp
      simp only [backUp, hp, if_true]
      exact ⟨by omega, h2, h3⟩
    · simp only [backUp, hp, if_false]
      refine ⟨le_refl _, hk, ?_⟩
      intro i hi
      have h1 := hs i mid (by omega) (by omega)
      have h2 := hs mid (mid + 1) (by omega) hm
      omega

theorem addSigns_spec (tile : GraphTile) (idx : Nat)
    (hs : ∀ i j, i ≤ j → j < tile.header_.signcount →
      (tile.signs_ i).edgeindex ≤ (tile.signs_ j).edgeindex)
    (hoff : ∀ i, i < tile.header_.signcount →
      (tile.signs_ i).text_offset < tile.textlist_.length) (fuel : Nat) :
    ∀ (mid : Nat) (acc : List SignInfo), tile.header_.signcount - mid ≤ fuel →
      (∀ i, mid ≤ i → i < tile.header_.signcount → idx ≤ (tile.signs_ i).edgeindex) →
      addSigns tile idx fuel mid acc = some (.ok (acc ++
        ((List.range' mid (tile.header_.signcount - mid)).filter
          (fun i => (tile.signs_ i).edgeindex = idx)).map
          (fun i => { type := (tile.signs_ i).type,
                      text := tile.textAt (tile.signs_ i).text_offset }))) := by
  induction fuel with
  | zero =>
    intro mid acc hf _
    have hge : ¬ mid < tile.header_.signcount := by omega
    have h0 : tile.header_.signcount - mid = 0 := by omega
    rw [addSigns]
    simp [hge, h0]
  | succ fuel ih =>
    intro mid acc hf hlow
    rw [addSigns]
    by_cases hc : (tile.signs_ mid).edgeindex = idx ∧ mid < tile.header_.signcount
    · obtain ⟨n, hn⟩ : ∃ n, tile.header_.signcount - mid = n + 1 :=
        ⟨tile.header_.signcount - mid - 1, by omega⟩
      have hn' : tile.header_.signcount - (mid + 1) = n := by omega
      simp only [hc, and_self, if_true, hoff mid hc.2]
      rw [ih (mid + 1) _ (by omega) (fun i h1 h2 => hlow i (by omega) h2), hn, hn']
      simp [List.range'_succ, List.filter_cons, hc.1]
    · simp only [hc, if_false]
      by_cases hm : mid < tile.header_.signcount
      · have hne : (tile.signs_ mid).edgeindex ≠ idx := fun h => hc ⟨h, hm⟩
        have hgt : idx < (tile.signs_ mid).edgeindex := by
          have := hlow mid (le_refl _) hm
          omega
        have hnil : (List.range' mid (tile.header_.signcount - mid)).filter
            (fun i => (tile.signs_ i).edgeindex = idx) = [] := by
          rw [List.filter_eq_nil_iff]
          intro i hi
          rw [List.mem_range'_1] at hi
          have := hs mid i hi.1 (by omega)
          simp only [decide_eq_true_eq]
          omega
        rw [hnil]
        simp
      · have h0 : tile.header_.signcount - mid = 0 := by omega
        simp [h0]

theorem filter_range_split (p : Nat → Bool) (count start : Nat) (hle : start ≤ count)
    (hp : ∀ i, i < start → p i = false) :
    (List.range count).filter p = (List.range' start (count - start)).filter p := by
  have h1 : List.range count = List.range' 0 start ++ List.range' start (count - start) := by
    rw [List.range_eq_range']
    have := List.range'_append 0 start (count - start) 1
    simp only [Nat.zero_add, Nat.one_mul] at this
    rw [this]
    congr 1
    omega
  rw [h1, List.filter_append]
  have h2 : (List.range' 0 start).filter p = [] := by
    rw [List.filter_eq_nil_iff]
    intro i hi
    rw [List.mem_range'_1] at hi
    simp [hp i (by omega)]
  rw [h2]
  simp

theorem GetSigns_eq (tile : GraphTile) (idx : Nat)
    (hs : ∀ i j, i ≤ j → j < tile.header_.signcount →
      (tile.signs_ i).edgeindex ≤ (tile.signs_ j).edgeindex)
    (hoff : ∀ i, i < tile.header_.signcount →
      (tile.signs_ i).text_offset < tile.textlist_.length)
    (hcount : tile.header_.signcount ≤ 1073741824) :
    GetSigns tile idx = some (.ok
      (((List.range tile.header_.signcount).filter
          (fun i => (tile.signs_ i).edgeindex = idx)).map
        (fun i => { type := (tile.signs_ i).type,
                    text := tile.textAt (tile.signs_ i).text_offset }))) := by
  unfold GetSigns
  by_cases h0 : tile.header_.signcount = 0
  · simp [h0]
  · simp only [h0, if_false]
    rw [toInt32_pred _ h0 hcount]
    obtain ⟨r, hr, hfound⟩ := searchLoop_sound (fun i => (tile.signs_ i).edgeindex) idx
      tile.header_.signcount tile.header_.signcount 0 ((tile.header_.signcount : Int) - 1)
      (le_refl _) (by omega) (by omega)
    rw [hr]
    cases r with
    | none =>
      have hnone := searchLoop_complete (fun i => (tile.signs_ i).edgeindex) idx
        tile.header_.signcount hs tile.header_.signcount 0
        ((tile.header_.signcount : Int) - 1) (le_refl _) (by omega)
        (fun i hi _ => ⟨by omega, by omega⟩) hr
      have hnil : (List.range tile.header_.signcount).filter
          (fun i => (tile.signs_ i).edgeindex = idx) = [] := by
        rw [List.filter_eq_nil_iff]
        intro i hi
        rw [List.mem_range] at hi
        simpa using hnone i hi
      simp [hnil]
    | some mid =>
      obtain ⟨hmid, hkey⟩ := hfound mid rfl
      obtain ⟨hle, hpk, hbefore⟩ := backUp_spec (fun i => (tile.signs_ i).edgeindex) idx
        tile.header_.signcount hs mid hmid hkey
      have hlow : ∀ i, backUp (fun i => (tile.signs_ i).edgeindex) idx mid ≤ i →
          i < tile.header_.signcount → idx ≤ (tile.signs_ i).edgeindex := by
        intro i h1 h2
        have := hs _ i h1 h2
        omega
      have hpre : ∀ i, i < backUp (fun i => (tile.signs_ i).edgeindex) idx mid →
          decide ((tile.signs_ i).edgeindex = idx) = false := by
        intro i hi
        have := hbefore i hi
        simp only [decide_eq_false_iff_not]
        omega
      simp only
      rw [addSigns_spec tile idx hs hoff tile.header_.signcount _ [] (by omega) hlow,
        filter_range_split _ tile.header_.signcount
          (backUp (fun i => (tile.signs_ i).edgeindex) idx mid) (by omega) hpre]
      simp

theorem backUpDeparture_spec (tile : GraphTile) (lineid current_time : Nat) :
    ∀ mid, (tile.departures_ mid).lineid = lineid →
      backUpDeparture tile lineid current_time mid ≤ mid ∧
      (tile.departures_ (backUpDeparture tile lineid current_time mid)).lineid = lineid ∧
      (backUpDeparture tile lineid current_time mid = 0 ∨
        ¬ ((tile.departures_ (backUpDeparture tile lineid current_time mid - 1)).lineid = lineid
          ∧ (tile.departures_ (backUpDeparture tile lineid current_time mid - 1)).departure_time
              ≥ current_time)) := by
  intro mid
  induction mid with
  | zero =>
    intro h
    simp [backUpDeparture, h]
  | succ mid ih =>
    intro h
    by_cases hc : (tile.departures_ mid).lineid = lineid
        ∧ (tile.departures_ mid).departure_time ≥ current_time
    · obtain ⟨h1, h2, h3⟩ := ih hc.1
      simp only [backUpDeparture, hc, and_self, if_true]
      exact ⟨by omega, h2, h3⟩
    · simp only [backUpDeparture, hc, if_false]
      refine ⟨le_refl _, h, Or.inr ?_⟩
      simpa using hc

theorem nextDepartureLoop_spec (tile : GraphTile) (lineid current_time date dow : Nat)
    (fuel : Nat) :
    ∀ mid, mid < tile.header_.departurecount → tile.header_.departurecount ≤ mid + fuel + 1 →
      (tile.departures_ mid).lineid = lineid →
      ∃ r, nextDepartureLoop tile lineid current_time date dow fuel mid = some r ∧
        (∀ i, r = some i → mid ≤ i ∧ i < tile.header_.departurecount ∧
          (tile.departures_ i).lineid = lineid ∧
          departureSelected tile current_time date dow i = true ∧
          ∀ j, mid ≤ j → j < i → departureSelected tile current_time date dow j = false) ∧
        (r = none → ∃ e, mid ≤ e ∧ e < tile.header_.departurecount ∧
          (∀ j, mid ≤ j → j ≤ e → departureSelected tile current_time date dow j = false) ∧
          (tile.departures_ e).lineid = lineid ∧
          (e + 1 < tile.header_.departurecount → (tile.departures_ (e + 1)).lineid ≠ lineid)) := by
  induction fuel with
  | zero =>
    intro mid hm hf hl
    rw [nextDepartureLoop]
    by_cases hsel : departureSelected tile current_time date dow mid = true
    · refine ⟨some mid, by simp [hsel], ?_, by simp⟩
      intro i hi
      simp only [Option.some.injEq] at hi
      subst hi
      exact ⟨le_refl _, hm, hl, hsel, fun j h1 h2 => by omega⟩
    · have hadv : ¬ (mid + 1 < tile.header_.departurecount
          ∧ (tile.departures_ (mid + 1)).lineid = lineid) := by omega
      refine ⟨none, by simp [hsel, hadv], by simp, ?_⟩
      intro _
      refine ⟨mid, le_refl _, hm, ?_, hl, fun h => by omega⟩
      intro j h1 h2
      have : j = mid := by omega
      subst this
      simpa using hsel
  | succ fuel ih =>
    intro mid hm hf hl
    rw [nextDepartureLoop]
    by_cases hsel : departureSelected tile current_time date dow mid = true
    · refine ⟨some mid, by simp [hsel], ?_, by simp⟩
      intro i hi
      simp only [Option.some.injEq] at hi
      subst hi
      exact ⟨le_refl _, hm, hl, hsel, fun j h1 h2 => by omega⟩
    · have hsel' : departureSelected tile current_time date dow mid = false := by
        simpa using hsel
      by_cases hadv : mid + 1 < tile.header_.departurecount
          ∧ (tile.departures_ (mid + 1)).lineid = lineid
      · obtain ⟨r, hr, hsome, hnone⟩ := ih (mid + 1) hadv.1 (by omega) hadv.2
        refine ⟨r, by simp [hsel, hadv, hr], ?_, ?_⟩
        · intro i hi
          obtain ⟨h1, h2, h3, h4, h5⟩ := hsome i hi
          refine ⟨by omega, h2, h3, h4, ?_⟩
          intro j hj1 hj2
          by_cases hjm : j = mid
          · subst hjm; exact hsel'
          · exact h5 j (by omega) hj2
        · intro hrn
          obtain ⟨e, h1, h2, h3, h4, h5⟩ := hnone hrn
          refine ⟨e, by omega, h2, ?_, h4, h5⟩
          intro j hj1 hj2
          by_cases hjm : j = mid
          · subst hjm; exact hsel'
          · exact h3 j (by omega) hj2
      · refine ⟨none, by simp [hsel, hadv], by simp, ?_⟩
        intro _
        refine ⟨mid, le_refl _, hm, ?_, hl, fun h hl' => hadv ⟨h, hl'⟩⟩
        intro j h1 h2
        have : j = mid := by omega
        subst this
        exact hsel'

theorem departureSelected_iff (tile : GraphTile) (current_time date dow i : Nat) :
    departureSelected tile current_time date dow i = true ↔
      (tile.departures_ i).departure_time ≥ current_time ∧ ¬ date ≤ valid_date_plus_60 tile ∧
        (tile.departures_ i).days_of_week &&& dow ≠ 0 := by
  unfold departureSelected
  by_cases h1 : (tile.departures_ i).departure_time ≥ current_time
  · by_cases h2 : date ≤ valid_date_plus_60 tile
    · simp [h1, h2]
    · by_cases h3 : (tile.departures_ i).days_of_week &&& dow > 0
      · simp only [h1, h2, h3, if_true, if_false, true_and, not_false_eq_true]
        simp; omega
      · simp only [h1, h2, h3, if_true, if_false, true_and, not_false_eq_true]
        simp; omega
  · simp [h1]

theorem find_range'_first (good : Nat → Bool) : ∀ (n s i : Nat), s ≤ i → i < s + n →
    good i = true → (∀ j, s ≤ j → j < i → good j = false) →
    (List.range' s n).find? good = some i := by
  intro n
  induction n with
  | zero => intro s i h1 h2; omega
  | succ n ih =>
    intro s i h1 h2 hg hbefore
    rw [List.range'_succ, List.find?_cons]
    by_cases hsi : s = i
    · subst hsi
      simp [hg]
    · rw [hbefore s (le_refl _) (by omega)]
      exact ih (s + 1) i (by omega) (by omega) hg (fun j hj1 hj2 => hbefore j (by omega) hj2)

/-! ## Lemmas: departures within 60 days of the tile creation -/

theorem departureSelected_within_60 (tile : GraphTile) (current_time date dow mid : Nat)
    (h : date ≤ valid_date_plus_60 tile) :
    departureSelected tile current_time date dow mid = false := by
  unfold departureSelected
  simp [h]

theorem nextDepartureLoop_within_60 (tile : GraphTile) (lineid current_time date dow : Nat)
    (h : date ≤ valid_date_plus_60 tile) (fuel : Nat) :
    ∀ mid i, nextDepartureLoop tile lineid current_time date dow fuel mid ≠ some (some i) := by
  induction fuel with
  | zero =>
    intro mid i
    rw [nextDepartureLoop, departureSelected_within_60 tile current_time date dow mid h]
    by_cases hc : mid + 1 < tile.header_.departurecount
        ∧ (tile.departures_ (mid + 1)).lineid = lineid <;> simp [hc]
  | succ fuel ih =>
    intro mid i
    rw [nextDepartureLoop, departureSelected_within_60 tile current_time date dow mid h]
    by_cases hc : mid + 1 < tile.header_.departurecount
        ∧ (tile.departures_ (mid + 1)).lineid = lineid
    · simpa [hc] using ih (mid + 1) i
    · simp [hc]

theorem GetNextDeparture_within_60 (tile : GraphTile) (lineid current_time date dow : Nat)
    (h : date ≤ valid_date_plus_60 tile) (i : Nat) :
    GetNextDeparture tile lineid current_time date dow ≠ some (some i) := by
  unfold GetNextDeparture
  by_cases hc : tile.header_.departurecount = 0
  · simp [hc]
  · simp only [hc, if_false]
    cases hsearch : searchLoop (fun i => (tile.departures_ i).lineid) lineid
        tile.header_.departurecount 0 (toInt32 (tile.header_.departurecount - 1)) with
    | none => simp
    | some r =>
      cases r with
      | none => simp
      | some mid =>
        exact nextDepartureLoop_within_60 tile lineid current_time date dow h _ _ i

/-! ## Claims C6 to C10: sorted lookups -/

/-- C6: for every tile whose sign array is sorted by edge index and whose sign
text offsets are all below the text-list size, and for every edge index `e`,
`GetSigns(e)` returns exactly the signs with `edgeindex == e`, each as (type,
text at its text offset), in storage order; the list is empty when no sign
has the edge index or the sign count is 0; with signs for the edges 7, 7, 12,
`GetSigns(7)` returns the first two. The sign count is at most `2^30`, so that
the `int32_t` indices of the binary search and their sum do not overflow. -/
theorem GetSigns_spec (tile : GraphTile) (idx : Nat)
    (hs : ∀ i j, i ≤ j → j < tile.header_.signcount →
      (tile.signs_ i).edgeindex ≤ (tile.signs_ j).edgeindex)
    (hoff : ∀ i, i < tile.header_.signcount →
      (tile.signs_ i).text_offset < tile.textlist_.length)
    (hcount : tile.header_.signcount ≤ 1073741824) :
    GetSigns tile idx = some (.ok
        (((List.range tile.header_.signcount).filter
            (fun i => (tile.signs_ i).edgeindex = idx)).map
          (fun i => { type := (tile.signs_ i).type,
                      text := tile.textAt (tile.signs_ i).text_offset }))) ∧
      ((tile.header_.signcount = 0 ∨
          ∀ i, i < tile.header_.signcount → (tile.signs_ i).edgeindex ≠ idx) →
        GetSigns tile idx = some (.ok [])) ∧
      GetSigns signTile 7 = some (.ok [{ type := 1, text := ['a', 'b'] },
        { type := 2, text := ['c', 'd'] }]) := by
  refine ⟨GetSigns_eq tile idx hs hoff hcount, ?_, by decide⟩
  intro h
  rw [GetSigns_eq tile idx hs hoff hcount]
  have hnil : (List.range tile.header_.signcount).filter
      (fun i => (tile.signs_ i).edgeindex = idx) = [] := by
    rw [List.filter_eq_nil_iff]
    intro i hi
    rw [List.mem_range] at hi
    rcases h with h | h
    · omega
    · simpa using h i hi
  simp [hnil]

/-- C6 at the tile with signs for the edges 7, 7, 12 and the edge index 12. -/
theorem GetSigns_spec_witness :
    GetSigns signTile 12 = some (.ok
      (((List.range signTile.header_.signcount).filter
          (fun i => (signTile.signs_ i).edgeindex = 12)).map
        (fun i => { type := (signTile.signs_ i).type,
                    text := signTile.textAt (signTile.signs_ i).text_offset }))) :=
  (GetSigns_spec signTile 12
    (fun i j hij hj => by
      have hj3 : j < 3 := hj
      interval_cases j <;> interval_cases i <;> decide)
    (fun i hi => by
      have hi3 : i < 3 := hi
      interval_cases i <;> decide)
    (by decide)).1

/-- C7 fails on the code: for the tile with one access restriction on edge 7,
`GetAccessRestrictions(7)` collects the restriction and then reaches the end
of the function without a `return` (`some none`); only the empty vector is
ever returned, as for edge 8. -/
theorem GetAccessRestrictions_no_return :
    GetAccessRestrictions restrictionTile 7 = some none ∧
      GetAccessRestrictions restrictionTile 8 = some (some []) := by
  decide

/-- C8 fails on the code: in the tile whose departures are (line 1, trip 10),
(line 1, trip 11), (line 2, trip 20), (line 2, trip 21), the query
`GetTransitDeparture(1, 20)` returns the departure at index 2, which belongs
to line 2: the forward scan compares trip ids only. -/
theorem GetTransitDeparture_other_line :
    GetTransitDeparture departureTile 1 20 = some (some 2) ∧
      (departureTile.departures_ 2).lineid = 2 ∧
      (departureTile.departures_ 2).tripid = 20 := by
  decide

/-- C9: for every tile (sorted or not) with at most `2^30` departures (the
`int32_t` indices of the binary search) and `date_created + 60` below `2^32`
(the sum is the `uint32_t` `valid_date_plus_60` of the code), and for every
query `(line_id, current_time, date, dow)`, `GetNextDeparture` returns: either
none or a departure `d` of the tile with `d.lineid == line_id`,
`d.departure_time >= current_time` and a calendar that admits the request, by
the 60-day bitmap when `date <= date_created + 60` and by
`(d.days_of_week & dow) != 0` otherwise. Within the 60 days the result is
none, so no departure is returned that the bitmap would have to admit. -/
theorem GetNextDeparture_sound (tile : GraphTile) (lineid current_time date dow : Nat)
    (hcount : tile.header_.departurecount ≤ 1073741824)
    (hcreated : tile.header_.date_created + 60 < 4294967296) :
    ∃ r, GetNextDeparture tile lineid current_time date dow = some r ∧
      (r = none ∨ ∃ i, r = some i ∧ i < tile.header_.departurecount ∧
        (tile.departures_ i).lineid = lineid ∧
        (tile.departures_ i).departure_time ≥ current_time ∧
        (if date ≤ tile.header_.date_created + 60
          then daysBitmapAdmits (tile.departures_ i) tile.header_.date_created date = true
          else (tile.departures_ i).days_of_week &&& dow ≠ 0)) ∧
      (date ≤ tile.header_.date_created + 60 → r = none) := by
  have hvalid : valid_date_plus_60 tile = tile.header_.date_created + 60 := by
    unfold valid_date_plus_60
    exact Nat.mod_eq_of_lt hcreated
  have hin : ∀ r, GetNextDeparture tile lineid current_time date dow = some r →
      date ≤ tile.header_.date_created + 60 → r = none := by
    intro r hr hd
    cases r with
    | none => rfl
    | some i =>
      exact absurd hr
        (GetNextDeparture_within_60 tile lineid current_time date dow (by rw [hvalid]; exact hd) i)
  have hmain : ∃ r, GetNextDeparture tile lineid current_time date dow = some r ∧
      (r = none ∨ ∃ i, r = some i ∧ i < tile.header_.departurecount ∧
        (tile.departures_ i).lineid = lineid ∧
        (tile.departures_ i).departure_time ≥ current_time ∧
        (if date ≤ tile.header_.date_created + 60
          then daysBitmapAdmits (tile.departures_ i) tile.header_.date_created date = true
          else (tile.departures_ i).days_of_week &&& dow ≠ 0)) := by
    unfold GetNextDeparture
    by_cases h0 : tile.header_.departurecount = 0
    · exact ⟨none, by simp [h0], Or.inl rfl⟩
    · simp only [h0, if_false]
      rw [toInt32_pred _ h0 hcount]
      obtain ⟨r, hr, hfound⟩ := searchLoop_sound (fun i => (tile.departures_ i).lineid) lineid
        tile.header_.departurecount tile.header_.departurecount 0
        ((tile.header_.departurecount : Int) - 1) (le_refl _) (by omega) (by omega)
      rw [hr]
      cases r with
      | none => exact ⟨none, rfl, Or.inl rfl⟩
      | some mid =>
        obtain ⟨hmid, hkey⟩ := hfound mid rfl
        obtain ⟨hle, hpl, _⟩ := backUpDeparture_spec tile lineid current_time mid hkey
        obtain ⟨res, hres, hsome, _⟩ := nextDepartureLoop_spec tile lineid current_time date dow
          tile.header_.departurecount _ (lt_of_le_of_lt hle hmid) (by omega) hpl
        refine ⟨res, hres, ?_⟩
        cases res with
        | none => exact Or.inl rfl
        | some i =>
          right
          obtain ⟨_, h2, h3, h4, _⟩ := hsome i rfl
          obtain ⟨h5, h6, h7⟩ := (departureSelected_iff tile current_time date dow i).mp h4
          rw [hvalid] at h6
          exact ⟨i, rfl, h2, h3, h5, by rw [if_neg h6]; exact h7⟩
  obtain ⟨r, hr, hprop⟩ := hmain
  exact ⟨r, hr, hprop, hin r hr⟩

/-- C9 at the tile created on day 100 with four departures: on day 200 (beyond
the 60 days), a Sunday, from 07:00 the lookup returns the departure of line 1
at 09:00, at index 1, and on day 110 (within the 60 days) it returns none. -/
theorem GetNextDeparture_sound_witness :
    GetNextDeparture departureTile 1 25200 200 1 = some (some 1) ∧
      GetNextDeparture departureTile 1 25200 110 1 = some none ∧
      ∃ r, GetNextDeparture departureTile 1 25200 200 1 = some r ∧
        (r = none ∨ ∃ i, r = some i ∧ i < departureTile.header_.departurecount ∧
          (departureTile.departures_ i).lineid = 1 ∧
          (departureTile.departures_ i).departure_time ≥ 25200 ∧
          (if 200 ≤ departureTile.header_.date_created + 60
            then daysBitmapAdmits (departureTile.departures_ i)
              departureTile.header_.date_created 200 = true
            else (departureTile.departures_ i).days_of_week &&& 1 ≠ 0)) ∧
        (200 ≤ departureTile.header_.date_created + 60 → r = none) :=
  ⟨by decide, by decide,
    GetNextDeparture_sound departureTile 1 25200 200 1 (by decide) (by decide)⟩

/-- C10: for every tile whose departures are sorted by (line id, departure
time) and every query with `date > date_created + 60`, `GetNextDeparture`
returns the first (lowest-index) departure of the tile with the line id, a
departure time not before `current_time` and `(days_of_week & dow) != 0`, and
none exactly when there is no such departure. The departure count is at most
`2^30`, so that the `int32_t` indices of the binary search and their sum do
not overflow. -/
theorem GetNextDeparture_first (tile : GraphTile) (lineid current_time date dow : Nat)
    (hs : ∀ i j, i ≤ j → j < tile.header_.departurecount →
      (tile.departures_ i).lineid < (tile.departures_ j).lineid ∨
        ((tile.departures_ i).lineid = (tile.departures_ j).lineid ∧
          (tile.departures_ i).departure_time ≤ (tile.departures_ j).departure_time))
    (hdate : tile.header_.date_created + 60 < date)
    (hcount : tile.header_.departurecount ≤ 1073741824) :
    GetNextDeparture tile lineid current_time date dow =
      some ((List.range tile.header_.departurecount).find? (fun i =>
        decide ((tile.departures_ i).lineid = lineid ∧
          (tile.departures_ i).departure_time ≥ current_time ∧
          (tile.departures_ i).days_of_week &&& dow ≠ 0))) := by
  have hd : ¬ date ≤ valid_date_plus_60 tile := by
    unfold valid_date_plus_60
    have := Nat.mod_le (tile.header_.date_created + 60) 4294967296
    omega
  have hmono : ∀ i j, i ≤ j → j < tile.header_.departurecount →
      (tile.departures_ i).lineid ≤ (tile.departures_ j).lineid := by
    intro i j hij hj
    rcases hs i j hij hj with h | h <;> omega
  unfold GetNextDeparture
  by_cases h0 : tile.header_.departurecount = 0
  · simp [h0]
  · simp only [h0, if_false]
    rw [toInt32_pred _ h0 hcount]
    obtain ⟨r, hr, hfound⟩ := searchLoop_sound (fun i => (tile.departures_ i).lineid) lineid
      tile.header_.departurecount tile.header_.departurecount 0
      ((tile.header_.departurecount : Int) - 1) (le_refl _) (by omega) (by omega)
    rw [hr]
    cases r with
    | none =>
      have hnone := searchLoop_complete (fun i => (tile.departures_ i).lineid) lineid
        tile.header_.departurecount hmono tile.header_.departurecount 0
        ((tile.header_.departurecount : Int) - 1) (le_refl _) (by omega)
        (fun i hi _ => ⟨by omega, by omega⟩) hr
      simp only [Option.some.injEq]
      symm
      rw [List.find?_eq_none]
      intro i hi
      rw [List.mem_range] at hi
      have := hnone i hi
      simp only [decide_eq_true_eq, not_and]
      intro h
      exact absurd h this
    | some mid =>
      obtain ⟨hmid, hkey⟩ := hfound mid rfl
      obtain ⟨hle, hpl, hstop⟩ := backUpDeparture_spec tile lineid current_time mid hkey
      obtain ⟨res, hres, hsome, hnone⟩ := nextDepartureLoop_spec tile lineid current_time date
        dow tile.header_.departurecount _ (lt_of_le_of_lt hle hmid) (by omega) hpl
      have hbefore : ∀ j, j < backUpDeparture tile lineid current_time mid →
          ¬ ((tile.departures_ j).lineid = lineid ∧
            (tile.departures_ j).departure_time ≥ current_time) := by
        intro j hj hgood
        rcases hstop with h | h
        · omega
        · apply h
          have h1 := hs j (backUpDeparture tile lineid current_time mid - 1) (by omega)
            (by omega)
          have h2 := hs (backUpDeparture tile lineid current_time mid - 1)
            (backUpDeparture tile lineid current_time mid) (by omega) (by omega)
          omega
      simp only
      rw [hres]
      simp only [Option.some.injEq]
      symm
      cases res with
      | none =>
        obtain ⟨e, he1, he2, he3, he4, he5⟩ := hnone rfl
        rw [List.find?_eq_none]
        intro j hj
        rw [List.mem_range] at hj
        simp only [decide_eq_true_eq]
        intro hgood
        by_cases hjp : j < backUpDeparture tile lineid current_time mid
        · exact hbefore j hjp ⟨hgood.1, hgood.2.1⟩
        · by_cases hje : j ≤ e
          · have h1 := he3 j (by omega) hje
            have h2 := (departureSelected_iff tile current_time date dow j).mpr
              ⟨hgood.2.1, hd, hgood.2.2⟩
            rw [h1] at h2
            exact absurd h2 (by simp)
          · have h1 := he5 (by omega)
            have h2 := hmono e (e + 1) (by omega) (by omega)
            have h3 := hmono (e + 1) j (by omega) hj
            omega
      | some i =>
        obtain ⟨h1, h2, h3, h4, h5⟩ := hsome i rfl
        obtain ⟨h6, _, h7⟩ := (departureSelected_iff tile current_time date dow i).mp h4
        rw [List.range_eq_range']
        apply find_range'_first _ _ 0 i (by omega) (by omega)
        · simp only [decide_eq_true_eq]
          exact ⟨h3, h6, h7⟩
        · intro j _ hji
          simp only [decide_eq_false_iff_not]
          intro hgood
          by_cases hjp : j < backUpDeparture tile lineid current_time mid
          · exact hbefore j hjp ⟨hgood.1, hgood.2.1⟩
          · have h8 := h5 j (by omega) hji
            have h9 := (departureSelected_iff tile current_time date dow j).mpr
              ⟨hgood.2.1, hd, hgood.2.2⟩
            rw [h8] at h9
            exact absurd h9 (by simp)

/-- C10 at the tile created on day 100 with the departures of line 1 at 08:00
(Mondays) and 09:00 (every day): on day 200, a Sunday (`dow = 1`), from 07:00. -/
theorem GetNextDeparture_first_witness :
    GetNextDeparture departureTile 1 25200 200 1 =
      some ((List.range departureTile.header_.departurecount).find? (fun i =>
        decide ((departureTile.departures_ i).lineid = 1 ∧
          (departureTile.departures_ i).departure_time ≥ 25200 ∧
          (departureTile.departures_ i).days_of_week &&& 1 ≠ 0))) :=
  GetNextDeparture_first departureTile 1 25200 200 1
    (fun i j hij hj => by
      have hj4 : j < 4 := hj
      interval_cases j <;> interval_cases i <;> decide)
    (by decide) (by decide)


/-! ## Lemmas: neighbours of the tiles of a tiling -/

theorem toInt32_of_lt (a : Nat) (h : a < 2147483648) : toInt32 a = (a : Int) := by
  unfold toInt32
  have h1 : a % 4294967296 = a := Nat.mod_eq_of_lt (by omega)
  rw [h1, if_pos h]

theorem toUInt32_eq (z : Int) (b : Nat) (h0 : 0 ≤ z) (h1 : z < 4294967296) :
    toUInt32 z = b ↔ z = (b : Int) := by
  unfold toUInt32
  omega

theorem col_eq_emod (a n : Int) (ha : 0 ≤ a) (hn : 0 < n) : a - a.tdiv n * n = a % n := by
  rw [Int.tdiv_eq_ediv ha (le_of_lt hn), Int.emod_def, Int.mul_comm]

theorem emod_decomp (y r n : Int) (h0 : 0 ≤ y) (h1 : y < n) : (y + r * n) % n = y := by
  rw [Int.add_mul_emod_self, Int.emod_eq_of_lt h0 h1]

theorem emod_succ (a n : Int) (hn : 0 < n) (h : a % n < n - 1) : (a + 1) % n = a % n + 1 := by
  have h0 := Int.emod_nonneg a (ne_of_gt hn)
  have h1 := Int.ediv_add_emod a n
  have h2 : a + 1 = (a % n + 1) + (a / n) * n := by linarith [Int.mul_comm n (a / n)]
  rw [h2, emod_decomp _ _ _ (by omega) (by omega)]

theorem emod_pred (a n : Int) (hn : 0 < n) (h : 0 < a % n) : (a - 1) % n = a % n - 1 := by
  have h0 := Int.emod_lt_of_pos a hn
  have h1 := Int.ediv_add_emod a n
  have h2 : a - 1 = (a % n - 1) + (a / n) * n := by linarith [Int.mul_comm n (a / n)]
  rw [h2, emod_decomp _ _ _ (by omega) (by omega)]

theorem emod_wrap_left (a n : Int) (hn : 0 < n) (h : a % n = 0) :
    (a + n - 1) % n = n - 1 := by
  have h1 := Int.ediv_add_emod a n
  have h2 : a + n - 1 = (n - 1) + (a / n) * n := by linarith [Int.mul_comm n (a / n)]
  rw [h2, emod_decomp _ _ _ (by omega) (by omega)]

theorem emod_wrap_right (a n : Int) (hn : 0 < n) (h : a % n = n - 1) :
    (a - n + 1) % n = 0 := by
  have h1 := Int.ediv_add_emod a n
  have h2 : a - n + 1 = 0 + (a / n) * n := by linarith [Int.mul_comm n (a / n)]
  rw [h2, emod_decomp _ _ _ (le_refl _) hn]

theorem LeftNeighbor_eq (T : Tiles) (a : Int) (ha : 0 ≤ a) (hn : 0 < T.ncolumns_) :
    T.LeftNeighbor a = if a % T.ncolumns_ > 0 then a - 1 else a + T.ncolumns_ - 1 := by
  unfold Tiles.LeftNeighbor
  simp only [col_eq_emod a _ ha hn]

theorem RightNeighbor_eq (T : Tiles) (a : Int) (ha : 0 ≤ a) (hn : 0 < T.ncolumns_) :
    T.RightNeighbor a =
      if a % T.ncolumns_ < T.ncolumns_ - 1 then a + 1 else a - T.ncolumns_ + 1 := by
  unfold Tiles.RightNeighbor
  simp only [col_eq_emod a _ ha hn]

theorem TopNeighbor_eq (T : Tiles) (a : Int) (hn : 0 < T.ncolumns_) (hr : 0 < T.nrows_)
    (hN : T.ncolumns_ * T.nrows_ < 2147483648) :
    T.TopNeighbor a =
      if a < T.ncolumns_ * T.nrows_ - T.ncolumns_ then a + T.ncolumns_ else a := by
  unfold Tiles.TopNeighbor Tiles.TileCount
  have h1 : T.ncolumns_ ≤ T.ncolumns_ * T.nrows_ := by nlinarith
  have h2 : toInt32 (toUInt32 (T.ncolumns_ * T.nrows_ - T.ncolumns_))
      = T.ncolumns_ * T.nrows_ - T.ncolumns_ := by
    have h3 : toUInt32 (T.ncolumns_ * T.nrows_ - T.ncolumns_)
        = (T.ncolumns_ * T.nrows_ - T.ncolumns_).toNat := by
      rw [toUInt32_eq _ _ (by omega) (by omega)]
      omega
    rw [h3, toInt32_of_lt _ (by omega)]
    omega
  rw [h2]

theorem emod_le_self_of_nonneg (a n : Int) (ha : 0 ≤ a) (hn : 0 < n) : a % n ≤ a := by
  have h1 := Int.ediv_add_emod a n
  have h2 : 0 ≤ a / n := Int.ediv_nonneg ha (le_of_lt hn)
  have h3 : 0 ≤ n * (a / n) := mul_nonneg (le_of_lt hn) h2
  omega

theorem eq_toUInt32 (z : Int) (b : Nat) (h0 : 0 ≤ z) (h1 : z < 4294967296) :
    b = toUInt32 z ↔ z = (b : Int) := by
  rw [eq_comm, toUInt32_eq z b h0 h1]

theorem neighborKeys_symm (T : Tiles) (hn : 0 < T.ncolumns_)
    (hN : T.ncolumns_ * T.nrows_ < 2147483648) (a b : Nat)
    (ha : (a : Int) < T.ncolumns_ * T.nrows_) (hb : (b : Int) < T.ncolumns_ * T.nrows_)
    (h : b ∈ neighborKeys T a) : a ∈ neighborKeys T b := by
  have hr : 0 < T.nrows_ := by
    by_contra hcon
    have : T.ncolumns_ * T.nrows_ ≤ 0 := by nlinarith
    omega
  have ha0 : (0 : Int) ≤ a := Int.natCast_nonneg a
  have hb0 : (0 : Int) ≤ b := Int.natCast_nonneg b
  have hcol := Int.emod_nonneg (a : Int) (ne_of_gt hn)
  have hcol' := Int.emod_lt_of_pos (a : Int) hn
  have hcola := emod_le_self_of_nonneg a _ ha0 hn
  have hcolb := emod_le_self_of_nonneg b _ hb0 hn
  have hn31 : T.ncolumns_ < 2147483648 := by nlinarith
  simp only [neighborKeys, List.mem_cons, List.mem_singleton, List.not_mem_nil, or_false,
    toInt32_of_lt a (by omega), toInt32_of_lt b (by omega),
    LeftNeighbor_eq T _ ha0 hn, RightNeighbor_eq T _ ha0 hn, TopNeighbor_eq T _ hn hr hN,
    LeftNeighbor_eq T _ hb0 hn, RightNeighbor_eq T _ hb0 hn, Tiles.BottomNeighbor] at h ⊢
  rcases h with h | h | h | h
  · -- b is the left neighbour of a: a is the right neighbour of b
    right; left
    by_cases hc : (a : Int) % T.ncolumns_ > 0
    · rw [if_pos hc, eq_toUInt32 _ _ (by omega) (by omega)] at h
      have hm := emod_pred a _ hn hc
      rw [h] at hm
      rw [if_pos (by omega), eq_toUInt32 _ _ (by omega) (by omega)]
      omega
    · rw [if_neg hc, eq_toUInt32 _ _ (by omega) (by omega)] at h
      have hm := emod_wrap_left a _ hn (by omega)
      rw [h] at hm
      rw [if_neg (by omega), eq_toUInt32 _ _ (by omega) (by omega)]
      omega
  · -- b is the right neighbour of a: a is the left neighbour of b
    left
    by_cases hc : (a : Int) % T.ncolumns_ < T.ncolumns_ - 1
    · rw [if_pos hc, eq_toUInt32 _ _ (by omega) (by omega)] at h
      have hm := emod_succ a _ hn hc
      rw [h] at hm
      rw [if_pos (by omega), eq_toUInt32 _ _ (by omega) (by omega)]
      omega
    · rw [if_neg hc, eq_toUInt32 _ _ (by omega) (by omega)] at h
      have hm := emod_wrap_right a _ hn (by omega)
      rw [h] at hm
      rw [if_neg (by omega), eq_toUInt32 _ _ (by omega) (by omega)]
      omega
  · -- b is the top neighbour of a
    by_cases hc : (a : Int) < T.ncolumns_ * T.nrows_ - T.ncolumns_
    · rw [if_pos hc, eq_toUInt32 _ _ (by omega) (by omega)] at h
      right; right; right
      rw [if_neg (by omega), eq_toUInt32 _ _ (by omega) (by omega)]
      omega
    · rw [if_neg hc, eq_toUInt32 _ _ (by omega) (by omega)] at h
      right; right; left
      rw [← h, if_neg hc, eq_toUInt32 _ _ (by omega) (by omega)]
  · -- b is the bottom neighbour of a
    by_cases hc : (a : Int) < T.ncolumns_
    · rw [if_pos hc, eq_toUInt32 _ _ (by omega) (by omega)] at h
      right; right; right
      rw [← h, if_pos hc, eq_toUInt32 _ _ (by omega) (by omega)]
    · rw [if_neg hc, eq_toUInt32 _ _ (by omega) (by omega)] at h
      right; right; left
      rw [if_pos (by omega), eq_toUInt32 _ _ (by omega) (by omega)]
      omega

/-! ## Lemmas: the connectivity map -/

theorem mapSet_cons_eq (rest : ConnectivityMap) (k ev v : Nat) :
    mapSet ((k, ev) :: rest) k v = (k, v) :: mapSet rest k v := by
  simp [mapSet]

theorem mapSet_cons_ne (rest : ConnectivityMap) (ek k ev v : Nat) (h : ek ≠ k) :
    mapSet ((ek, ev) :: rest) k v = (ek, ev) :: mapSet rest k v := by
  simp [mapSet, h]

theorem mapFind_mapSet (m : ConnectivityMap) (k v x : Nat) :
    mapFind (mapSet m k v) x
      = if x = k then (mapFind m k).map (fun _ => v) else mapFind m x := by
  induction m with
  | nil => simp [mapSet, mapFind]
  | cons e rest ih =>
    obtain ⟨ek, ev⟩ := e
    by_cases h1 : ek = k
    · subst h1
      rw [mapSet_cons_eq]
      by_cases h2 : x = ek
      · subst h2
        simp [mapFind]
      · have h3 : ¬ ek = x := fun h => h2 h.symm
        simp only [mapFind, h3, if_false, h2]
        rw [ih]
        simp [h2]
    · rw [mapSet_cons_ne _ _ _ _ _ h1]
      by_cases h2 : x = k
      · subst h2
        simp only [mapFind, h1, if_false, if_true]
        rw [ih]
        simp
      · simp only [mapFind, h2, if_false]
        rw [ih]
        simp [h2]

theorem mapSet_keys (m : ConnectivityMap) (k v : Nat) :
    (mapSet m k v).map Prod.fst = m.map Prod.fst := by
  unfold mapSet
  rw [List.map_map]
  apply List.map_congr_left
  intro e _
  simp only [Function.comp]
  split_ifs <;> rfl

theorem mapFind_some_mem (m : ConnectivityMap) (x v : Nat) (h : mapFind m x = some v) :
    x ∈ m.map Prod.fst := by
  induction m with
  | nil => simp [mapFind] at h
  | cons e rest ih =>
    obtain ⟨ek, ev⟩ := e
    by_cases h1 : ek = x
    · simp [h1]
    · simp only [mapFind, h1, if_false] at h
      simp [ih h]

theorem mapFind_of_mem (m : ConnectivityMap) (x : Nat) (h : x ∈ m.map Prod.fst) :
    ∃ v, mapFind m x = some v := by
  induction m with
  | nil => simp at h
  | cons e rest ih =>
    obtain ⟨ek, ev⟩ := e
    by_cases h1 : ek = x
    · exact ⟨ev, by simp [mapFind, h1]⟩
    · simp only [List.map_cons, List.mem_cons] at h
      rcases h with h | h
      · exact absurd h.symm h1
      · obtain ⟨v, hv⟩ := ih h
        exact ⟨v, by simp [mapFind, h1, hv]⟩

theorem mapFind_mem (m : ConnectivityMap) (x v : Nat) (h : mapFind m x = some v) :
    (x, v) ∈ m := by
  induction m with
  | nil => simp [mapFind] at h
  | cons e rest ih =>
    obtain ⟨ek, ev⟩ := e
    by_cases h1 : ek = x
    · simp only [mapFind, h1, if_true, Option.some.injEq] at h
      simp [h1, h]
    · simp only [mapFind, h1, if_false] at h
      simp [ih h]

theorem zeros_cons (e : Nat × Nat) (rest : ConnectivityMap) :
    zeros (e :: rest) = (if e.2 = 0 then 1 else 0) + zeros rest := by
  unfold zeros
  rw [List.filter_cons]
  by_cases h : e.2 = 0
  · simp [h]; omega
  · simp [h]

theorem zeros_mapSet_le (m : ConnectivityMap) (k v : Nat) (hv : v ≠ 0) :
    zeros (mapSet m k v) ≤ zeros m := by
  induction m with
  | nil => simp [mapSet, zeros]
  | cons e rest ih =>
    obtain ⟨ek, ev⟩ := e
    by_cases h1 : ek = k
    · subst h1
      rw [mapSet_cons_eq, zeros_cons, zeros_cons]
      simp only [hv, if_false]
      omega
    · rw [mapSet_cons_ne _ _ _ _ _ h1, zeros_cons, zeros_cons]
      omega

theorem zeros_mapSet_lt (m : ConnectivityMap) (k v : Nat) (hv : v ≠ 0)
    (h : mapFind m k = some 0) : zeros (mapSet m k v) + 1 ≤ zeros m := by
  induction m with
  | nil => simp [mapFind] at h
  | cons e rest ih =>
    obtain ⟨ek, ev⟩ := e
    by_cases h1 : ek = k
    · subst h1
      simp only [mapFind, if_true, Option.some.injEq] at h
      subst h
      have h2 := zeros_mapSet_le rest ek v hv
      rw [mapSet_cons_eq, zeros_cons, zeros_cons]
      simp only [hv, if_false, if_true]
      omega
    · simp only [mapFind, h1, if_false] at h
      have h2 := ih h
      rw [mapSet_cons_ne _ _ _ _ _ h1, zeros_cons, zeros_cons]
      omega

theorem zeros_le_length (m : ConnectivityMap) : zeros m ≤ m.length := by
  unfold zeros
  exact List.length_filter_le _ _

theorem length_eq_of_keys (m m' : ConnectivityMap) (h : m'.map Prod.fst = m.map Prod.fst) :
    m'.length = m.length := by
  have := congrArg List.length h
  simpa using this

/-! ## Lemmas: the flood fill -/

theorem visitNeighbor_zero (c y : Nat) (m : ConnectivityMap) (q : List Nat)
    (h : mapFind m y = some 0) : visitNeighbor c y (m, q) = (mapSet m y c, q ++ [y]) := by
  simp [visitNeighbor, h]

theorem visitNeighbor_other (c y : Nat) (m : ConnectivityMap) (q : List Nat)
    (h : mapFind m y ≠ some 0) : visitNeighbor c y (m, q) = (m, q) := by
  unfold visitNeighbor
  cases hm : mapFind m y with
  | none => rfl
  | some v =>
    cases v with
    | zero => exact absurd hm h
    | succ v => rfl

theorem visitNeighbor_inv (T : Tiles) (keys : List Nat) (m0 : ConnectivityMap) (s c : Nat)
    (hc : c ≠ 0) (m : ConnectivityMap) (q : List Nat) (x y : Nat)
    (hinv : FloodInv T keys m0 s c m q (x :: q)) (hx : mapFind m x = some c)
    (hy : y ∈ neighborKeys T x) :
    FloodInv T keys m0 s c (visitNeighbor c y (m, q)).1 (visitNeighbor c y (m, q)).2
        (x :: (visitNeighbor c y (m, q)).2) ∧
      mapFind (visitNeighbor c y (m, q)).1 x = some c ∧
      zeros (visitNeighbor c y (m, q)).1 + (visitNeighbor c y (m, q)).2.length
        ≤ zeros m + q.length ∧
      (y ∈ keys → mapFind (visitNeighbor c y (m, q)).1 y ≠ some 0) ∧
      (∀ z, mapFind m z ≠ some 0 → mapFind (visitNeighbor c y (m, q)).1 z ≠ some 0) := by
  by_cases h0 : mapFind m y = some 0
  · rw [visitNeighbor_zero c y m q h0]
    have hxy : x ≠ y := by
      intro h
      rw [h, h0] at hx
      simp only [Option.some.injEq] at hx
      exact hc hx.symm
    have hfind : ∀ z, mapFind (mapSet m y c) z = if z = y then some c else mapFind m z := by
      intro z
      rw [mapFind_mapSet, h0]
      rfl
    have hxk : x ∈ keys := by
      rw [← hinv.keys_eq]
      exact mapFind_some_mem m x c hx
    have hyk : y ∈ keys := by
      rw [← hinv.keys_eq]
      exact mapFind_some_mem m y 0 h0
    refine ⟨?_, ?_, ?_, ?_, ?_⟩
    · constructor
      · rw [mapSet_keys]; exact hinv.keys_eq
      · intro z hz
        rw [hfind]
        by_cases hzy : z = y
        · simp [hzy]
        · simp only [hzy, if_false]
          rcases List.mem_append.mp hz with h | h
          · exact hinv.queue z h
          · simp only [List.mem_singleton] at h
            exact absurd h hzy
      · intro z hz hzex w hw hwk
        simp only [List.mem_cons, List.mem_append, List.mem_singleton, not_or] at hzex
        rw [hfind] at hz
        simp only [hzex.2.2, if_false] at hz
        rw [hfind]
        by_cases hwy : w = y
        · simp only [hwy, if_true, ne_eq, Option.some.injEq]
          exact hc
        · simp only [hwy, if_false]
          exact hinv.done z hz (by simp [hzex.1, hzex.2.1]) w hw hwk
      · intro z hz
        rw [hfind] at hz
        by_cases hzy : z = y
        · subst hzy
          exact Relation.ReflTransGen.tail (hinv.reach x hx) ⟨hxk, hyk, hy⟩
        · simp only [hzy, if_false] at hz
          exact hinv.reach z hz
      · intro z hz
        rw [hfind] at hz
        by_cases hzy : z = y
        · subst hzy
          exact hinv.zero z h0
        · simp only [hzy, if_false] at hz
          exact hinv.fresh z hz
      · intro z v hv0 hvc
        rw [hfind]
        by_cases hzy : z = y
        · subst hzy
          simp only [if_true, Option.some.injEq]
          constructor
          · intro h; exact absurd h.symm hvc
          · intro h
            have := hinv.zero z h0
            rw [this] at h
            simp only [Option.some.injEq] at h
            exact absurd h.symm hv0
        · simp only [hzy, if_false]
          exact hinv.old z v hv0 hvc
      · intro z hz
        rw [hfind] at hz
        by_cases hzy : z = y
        · simp only [hzy, if_true, Option.some.injEq] at hz
          exact absurd hz hc
        · simp only [hzy, if_false] at hz
          exact hinv.zero z hz
    · rw [hfind]
      simp [hxy, hx]
    · have := zeros_mapSet_lt m y c hc h0
      simp only [List.length_append, List.length_singleton]
      omega
    · intro _
      rw [hfind]
      simp [hc]
    · intro z hz
      rw [hfind]
      by_cases hzy : z = y
      · simp [hzy, hc]
      · simp only [hzy, if_false]
        exact hz
  · rw [visitNeighbor_other c y m q h0]
    exact ⟨hinv, hx, le_refl _, fun _ => h0, fun z hz => hz⟩

theorem visits_inv (T : Tiles) (keys : List Nat) (m0 : ConnectivityMap) (s c : Nat)
    (hc : c ≠ 0) (x : Nat) (l : List Nat) :
    ∀ (m : ConnectivityMap) (q : List Nat), (∀ y, y ∈ l → y ∈ neighborKeys T x) →
      FloodInv T keys m0 s c m q (x :: q) → mapFind m x = some c →
      FloodInv T keys m0 s c (l.foldl (fun st y => visitNeighbor c y st) (m, q)).1
          (l.foldl (fun st y => visitNeighbor c y st) (m, q)).2
          (x :: (l.foldl (fun st y => visitNeighbor c y st) (m, q)).2) ∧
        zeros (l.foldl (fun st y => visitNeighbor c y st) (m, q)).1
            + (l.foldl (fun st y => visitNeighbor c y st) (m, q)).2.length
          ≤ zeros m + q.length ∧
        (∀ y, y ∈ l → y ∈ keys →
          mapFind (l.foldl (fun st y => visitNeighbor c y st) (m, q)).1 y ≠ some 0) ∧
        (∀ z, mapFind m z ≠ some 0 →
          mapFind (l.foldl (fun st y => visitNeighbor c y st) (m, q)).1 z ≠ some 0) := by
  induction l with
  | nil =>
    intro m q _ hinv _
    exact ⟨hinv, le_refl _, by simp, fun z hz => hz⟩
  | cons y l ih =>
    intro m q hl hinv hx
    obtain ⟨h1, h2, h3, h4, h5⟩ := visitNeighbor_inv T keys m0 s c hc m q x y hinv hx
      (hl y (by simp))
    obtain ⟨g1, g2, g3, g4⟩ := ih (visitNeighbor c y (m, q)).1 (visitNeighbor c y (m, q)).2
      (fun z hz => hl z (by simp [hz])) h1 h2
    simp only [Prod.mk.eta] at g1 g2 g3 g4
    simp only [List.foldl_cons]
    refine ⟨g1, by omega, ?_, fun z hz => g4 z (h5 z hz)⟩
    intro z hz hzk
    simp only [List.mem_cons] at hz
    rcases hz with hz | hz
    · subst hz
      exact g4 z (h4 hzk)
    · exact g3 z hz hzk

theorem floodLoop_step (T : Tiles) (c fuel : Nat) (m : ConnectivityMap) (x : Nat)
    (q : List Nat) :
    floodLoop T c (fuel + 1) m (x :: q)
      = floodLoop T c fuel
          ((neighborKeys T x).foldl (fun st y => visitNeighbor c y st) (m, q)).1
          ((neighborKeys T x).foldl (fun st y => visitNeighbor c y st) (m, q)).2 := by
  simp [floodLoop, neighborKeys]

theorem floodLoop_inv (T : Tiles) (keys : List Nat) (m0 : ConnectivityMap) (s c : Nat)
    (hc : c ≠ 0) (fuel : Nat) :
    ∀ (m : ConnectivityMap) (q : List Nat), FloodInv T keys m0 s c m q q →
      zeros m + q.length ≤ fuel →
      ∃ m', floodLoop T c fuel m q = some m' ∧ FloodInv T keys m0 s c m' [] [] ∧
        (∀ z, mapFind m z ≠ some 0 → mapFind m' z ≠ some 0) := by
  induction fuel with
  | zero =>
    intro m q hinv hf
    have hq : q = [] := List.eq_nil_of_length_eq_zero (by omega)
    subst hq
    exact ⟨m, by simp [floodLoop], hinv, fun z hz => hz⟩
  | succ fuel ih =>
    intro m q hinv hf
    cases q with
    | nil => exact ⟨m, by simp [floodLoop], hinv, fun z hz => hz⟩
    | cons x q =>
      have hx : mapFind m x = some c := hinv.queue x (by simp)
      have hinv' : FloodInv T keys m0 s c m q (x :: q) :=
        { keys_eq := hinv.keys_eq
          queue := fun z hz => hinv.queue z (by simp [hz])
          done := hinv.done
          reach := hinv.reach
          fresh := hinv.fresh
          old := hinv.old
          zero := hinv.zero }
      obtain ⟨g1, g2, g3, g4⟩ := visits_inv T keys m0 s c hc x (neighborKeys T x) m q
        (fun y hy => hy) hinv' hx
      have hinv2 : FloodInv T keys m0 s c
          ((neighborKeys T x).foldl (fun st y => visitNeighbor c y st) (m, q)).1
          ((neighborKeys T x).foldl (fun st y => visitNeighbor c y st) (m, q)).2
          ((neighborKeys T x).foldl (fun st y => visitNeighbor c y st) (m, q)).2 :=
        { keys_eq := g1.keys_eq
          queue := g1.queue
          done := by
            intro z hz hzq w hw hwk
            by_cases hzx : z = x
            · subst hzx
              exact g3 w hw hwk
            · exact g1.done z hz (by simp [hzx, hzq]) w hw hwk
          reach := g1.reach
          fresh := g1.fresh
          old := g1.old
          zero := g1.zero }
      simp only [List.length_cons] at hf
      obtain ⟨m', hm', hfin, hnz⟩ := ih _ _ hinv2 (by omega)
      exact ⟨m', by rw [floodLoop_step]; exact hm', hfin, fun z hz => hnz z (g4 z hz)⟩

theorem connected_symm (T : Tiles) (keys : List Nat)
    (hsym : ∀ a b, a ∈ keys → b ∈ keys → b ∈ neighborKeys T a → a ∈ neighborKeys T b)
    (a b : Nat) (h : Connected T keys a b) : Connected T keys b a := by
  have hs : Symmetric (KeyStep T keys) :=
    fun x y hxy => ⟨hxy.2.1, hxy.1, hsym x y hxy.1 hxy.2.1 hxy.2.2⟩
  exact Relation.ReflTransGen.symmetric hs h

theorem colored_path (T : Tiles) (keys : List Nat) (m : ConnectivityMap) (c : Nat)
    (hcol : Colored T keys m c) (a b v : Nat) (hv : v ≠ 0) (ha : mapFind m a = some v)
    (h : Connected T keys a b) : mapFind m b = some v := by
  induction h with
  | refl => exact ha
  | tail _ hstep ih => exact hcol.closed _ v ih hv _ hstep.2.2 hstep.2.1

theorem flood_colored (T : Tiles) (keys : List Nat)
    (hsym : ∀ a b, a ∈ keys → b ∈ keys → b ∈ neighborKeys T a → a ∈ neighborKeys T b)
    (m0 : ConnectivityMap) (s c : Nat) (hc : 1 ≤ c) (hJ : Colored T keys m0 c)
    (hs0 : mapFind m0 s = some 0) :
    ∃ m', floodLoop T c m0.length (mapSet m0 s c) [s] = some m' ∧
      Colored T keys m' (c + 1) ∧
      (∀ z, mapFind m0 z ≠ some 0 → mapFind m' z ≠ some 0) ∧
      mapFind m' s ≠ some 0 := by
  have hc0 : c ≠ 0 := by omega
  have hfresh0 : ∀ z, mapFind m0 z ≠ some c := by
    intro z hz
    have := hJ.lt z c hz
    omega
  have hfind : ∀ z, mapFind (mapSet m0 s c) z = if z = s then some c else mapFind m0 z := by
    intro z
    rw [mapFind_mapSet, hs0]
    rfl
  have hinit : FloodInv T keys m0 s c (mapSet m0 s c) [s] [s] :=
    { keys_eq := by rw [mapSet_keys]; exact hJ.keys_eq
      queue := by
        intro z hz
        simp only [List.mem_singleton] at hz
        rw [hfind]; simp [hz]
      done := by
        intro z hz hzs
        simp only [List.mem_singleton] at hzs
        rw [hfind] at hz
        simp only [hzs, if_false] at hz
        exact absurd hz (hfresh0 z)
      reach := by
        intro z hz
        rw [hfind] at hz
        by_cases hzs : z = s
        · subst hzs; exact Relation.ReflTransGen.refl
        · simp only [hzs, if_false] at hz
          exact absurd hz (hfresh0 z)
      fresh := by
        intro z hz
        rw [hfind] at hz
        by_cases hzs : z = s
        · subst hzs; exact hs0
        · simp only [hzs, if_false] at hz
          exact absurd hz (hfresh0 z)
      old := by
        intro z v hv0 hvc
        rw [hfind]
        by_cases hzs : z = s
        · subst hzs
          simp only [if_true, Option.some.injEq, hs0]
          constructor
          · intro h; exact absurd h.symm hvc
          · intro h; exact absurd h.symm hv0
        · simp only [hzs, if_false]
      zero := by
        intro z hz
        rw [hfind] at hz
        by_cases hzs : z = s
        · simp only [hzs, if_true, Option.some.injEq] at hz
          exact absurd hz hc0
        · simp only [hzs, if_false] at hz
          exact hz }
  have hfuel : zeros (mapSet m0 s c) + [s].length ≤ m0.length := by
    have h1 := zeros_mapSet_lt m0 s c hc0 hs0
    have h2 := zeros_le_length m0
    simp only [List.length_singleton]
    omega
  obtain ⟨m', hm', hfin, hnz⟩ := floodLoop_inv T keys m0 s c hc0 m0.length _ _ hinit hfuel
  have hset_nz : ∀ z, mapFind m0 z ≠ some 0 → mapFind (mapSet m0 s c) z ≠ some 0 := by
    intro z hz
    rw [hfind]
    by_cases hzs : z = s
    · simp [hzs, hc0]
    · simp only [hzs, if_false]; exact hz
  refine ⟨m', hm', ?_, fun z hz => hnz z (hset_nz z hz), ?_⟩
  · constructor
    · exact hfin.keys_eq
    · intro x v hx
      by_cases hv0 : v = 0
      · omega
      · by_cases hvc : v = c
        · omega
        · have := hJ.lt x v ((hfin.old x v hv0 hvc).mp hx)
          omega
    · intro x v hx hv0 y hy hyk
      have hxk : x ∈ keys := by
        rw [← hfin.keys_eq]; exact mapFind_some_mem m' x v hx
      by_cases hvc : v = c
      · subst hvc
        obtain ⟨w, hw⟩ := mapFind_of_mem m' y (by rw [hfin.keys_eq]; exact hyk)
        have hw0 : w ≠ 0 := by
          intro h
          rw [h] at hw
          exact hfin.done x hx (by simp) y hy hyk hw
        by_cases hwc : w = v
        · rw [hw, hwc]
        · exfalso
          have h1 := (hfin.old y w hw0 hwc).mp hw
          have h2 := hJ.closed y w h1 hw0 x (hsym x y hxk hyk hy) hxk
          have h3 := hfin.fresh x hx
          rw [h3] at h2
          simp only [Option.some.injEq] at h2
          exact hw0 h2.symm
      · have h1 := (hfin.old x v hv0 hvc).mp hx
        exact (hfin.old y v hv0 hvc).mpr (hJ.closed x v h1 hv0 y hy hyk)
    · intro x y v hv0 hx hy
      by_cases hvc : v = c
      · subst hvc
        exact Relation.ReflTransGen.trans
          (connected_symm T keys hsym s x (hfin.reach x hx)) (hfin.reach y hy)
      · exact hJ.conn x y v hv0 ((hfin.old x v hv0 hvc).mp hx) ((hfin.old y v hv0 hvc).mp hy)
    · intro v hv1 hvc
      by_cases hveq : v = c
      · subst hveq
        refine ⟨s, ?_⟩
        obtain ⟨w, hw⟩ := mapFind_of_mem m' s (by
          rw [hfin.keys_eq, ← hJ.keys_eq]; exact mapFind_some_mem m0 s 0 hs0)
        have hw0 : w ≠ 0 := by
          intro h
          rw [h] at hw
          exact hnz s (by rw [hfind]; simp [hc0]) hw
        by_cases hwv : w = v
        · rw [hw, hwv]
        · exfalso
          have h1 := (hfin.old s w hw0 hwv).mp hw
          rw [hs0] at h1
          simp only [Option.some.injEq] at h1
          exact hw0 h1.symm
      · obtain ⟨x, hx⟩ := hJ.used v hv1 (by omega)
        exact ⟨x, (hfin.old x v (by omega) hveq).mpr hx⟩
  · exact hnz s (by rw [hfind]; simp [hc0])

theorem colorLoop_cons_zero (T : Tiles) (k : Nat) (rest : List Nat) (c : Nat)
    (m : ConnectivityMap) (h : mapFind m k = some 0) :
    colorLoop T (k :: rest) c m =
      (floodLoop T c m.length (mapSet m k c) [k]).bind (fun m' => colorLoop T rest (c + 1) m') := by
  simp only [colorLoop, h]
  cases floodLoop T c m.length (mapSet m k c) [k] <;> rfl

theorem colorLoop_cons_other (T : Tiles) (k : Nat) (rest : List Nat) (c : Nat)
    (m : ConnectivityMap) (h : mapFind m k ≠ some 0) :
    colorLoop T (k :: rest) c m = colorLoop T rest c m := by
  rw [colorLoop]
  cases hm : mapFind m k with
  | none => rfl
  | some v =>
    cases v with
    | zero => exact absurd hm h
    | succ v => rfl

theorem colorLoop_spec (T : Tiles) (keys : List Nat)
    (hsym : ∀ a b, a ∈ keys → b ∈ keys → b ∈ neighborKeys T a → a ∈ neighborKeys T b)
    (ks : List Nat) :
    ∀ (c : Nat) (m : ConnectivityMap), 1 ≤ c → Colored T keys m c →
      ∃ m' c', colorLoop T ks c m = some m' ∧ 1 ≤ c' ∧ Colored T keys m' c' ∧
        (∀ z, mapFind m z ≠ some 0 → mapFind m' z ≠ some 0) ∧
        (∀ k, k ∈ ks → mapFind m' k ≠ some 0) := by
  induction ks with
  | nil =>
    intro c m hc hJ
    exact ⟨m, c, by simp [colorLoop], hc, hJ, fun z hz => hz, by simp⟩
  | cons k rest ih =>
    intro c m hc hJ
    by_cases h0 : mapFind m k = some 0
    · obtain ⟨m1, hm1, hJ1, hnz1, hk1⟩ := flood_colored T keys hsym m k c hc hJ h0
      obtain ⟨m', c', hm', hc', hJ', hnz', hks'⟩ := ih (c + 1) m1 (by omega) hJ1
      refine ⟨m', c', ?_, hc', hJ', fun z hz => hnz' z (hnz1 z hz), ?_⟩
      · rw [colorLoop_cons_zero T k rest c m h0, hm1]
        exact hm'
      · intro z hz
        simp only [List.mem_cons] at hz
        rcases hz with hz | hz
        · subst hz; exact hnz' z hk1
        · exact hks' z hz
    · obtain ⟨m', c', hm', hc', hJ', hnz', hks'⟩ := ih c m hc hJ
      refine ⟨m', c', ?_, hc', hJ', hnz', ?_⟩
      · rw [colorLoop_cons_other T k rest c m h0]
        exact hm'
      · intro z hz
        simp only [List.mem_cons] at hz
        rcases hz with hz | hz
        · subst hz; exact hnz' z h0
        · exact hks' z hz

theorem ColorMap_core (T : Tiles) (m : ConnectivityMap) (hn : 0 < T.ncolumns_)
    (hN : T.ncolumns_ * T.nrows_ < 2147483648)
    (hkeys : ∀ e, e ∈ m → (e.1 : Int) < T.ncolumns_ * T.nrows_)
    (hzero : ∀ e, e ∈ m → e.2 = 0) :
    ∃ m' c', T.ColorMap m = some m' ∧ 1 ≤ c' ∧ Colored T (m.map Prod.fst) m' c' ∧
      (∀ k, k ∈ m.map Prod.fst → ∃ v, mapFind m' k = some v ∧ 1 ≤ v ∧ v < c') := by
  have hrange : ∀ a, a ∈ m.map Prod.fst → (a : Int) < T.ncolumns_ * T.nrows_ := by
    intro a ha
    obtain ⟨e, he, rfl⟩ := List.mem_map.mp ha
    exact hkeys e he
  have hsym : ∀ a b, a ∈ m.map Prod.fst → b ∈ m.map Prod.fst → b ∈ neighborKeys T a →
      a ∈ neighborKeys T b :=
    fun a b ha hb hab => neighborKeys_symm T hn hN a b (hrange a ha) (hrange b hb) hab
  have hval : ∀ x v, mapFind m x = some v → v = 0 :=
    fun x v h => hzero (x, v) (mapFind_mem m x v h)
  have hinit : Colored T (m.map Prod.fst) m 1 :=
    { keys_eq := rfl
      lt := fun x v h => by have := hval x v h; omega
      closed := fun x v h hv => absurd (hval x v h) hv
      conn := fun x y v hv h => absurd (hval x v h) hv
      used := fun v h1 h2 => by omega }
  obtain ⟨m', c', hm', hc', hJ', _, hks'⟩ :=
    colorLoop_spec T (m.map Prod.fst) hsym (m.map Prod.fst) 1 m (le_refl 1) hinit
  refine ⟨m', c', hm', hc', hJ', ?_⟩
  intro k hk
  obtain ⟨v, hv⟩ := mapFind_of_mem m' k (by rw [hJ'.keys_eq]; exact hk)
  have hv0 : v ≠ 0 := by
    intro h
    rw [h] at hv
    exact hks' k hk hv
  exact ⟨v, hv, by omega, hJ'.lt k v hv⟩

theorem get_color_of_find (m : ConnectivityMap) (a v : Nat) (h : mapFind m a = some v) :
    get_color m a = v := by
  simp [get_color, h]

theorem scenario_reach (b : Nat)
    (h : Connected tiling4 (scenarioMap.map Prod.fst) 100 b) :
    b = 100 ∨ b = 101 ∨ b = 191 := by
  induction h with
  | refl => exact Or.inl rfl
  | tail _ hstep ih =>
    obtain ⟨_, hb, hnb⟩ := hstep
    simp only [scenarioMap, List.map_cons, List.map_nil, List.mem_cons, List.mem_singleton,
      List.not_mem_nil, or_false] at hb
    rcases hb with rfl | rfl | rfl | rfl
    · exact Or.inl rfl
    · exact Or.inr (Or.inl rfl)
    · exfalso
      rcases ih with rfl | rfl | rfl <;> revert hnb <;> decide
    · exact Or.inr (Or.inr rfl)

/-! ## Claims C4 and C5: the connectivity colouring -/

/-- C4: for every tiling (with a positive column count and a tile count that
fits `int32_t`) and every map of tile ids of the tiling (ids below
`n_rows * n_columns`) whose values are all 0, `ColorMap` returns, and after it
two keys have the same colour iff they are joined by a path of keys in which
each consecutive pair are Left/Right/Top/Bottom neighbours; `get_color`
agrees on two present tiles iff they are so joined. -/
theorem ColorMap_same_colour_iff_connected (T : Tiles) (m : ConnectivityMap)
    (hn : 0 < T.ncolumns_) (hN : T.ncolumns_ * T.nrows_ < 2147483648)
    (hkeys : ∀ e, e ∈ m → (e.1 : Int) < T.ncolumns_ * T.nrows_)
    (hzero : ∀ e, e ∈ m → e.2 = 0) :
    ∃ m', T.ColorMap m = some m' ∧
      ∀ a b, a ∈ m.map Prod.fst → b ∈ m.map Prod.fst →
        ((mapFind m' a = mapFind m' b ↔ Connected T (m.map Prod.fst) a b) ∧
          (get_color m' a = get_color m' b ↔ Connected T (m.map Prod.fst) a b)) := by
  obtain ⟨m', c', hm', _, hJ, hpos⟩ := ColorMap_core T m hn hN hkeys hzero
  refine ⟨m', hm', ?_⟩
  intro a b ha hb
  obtain ⟨va, hva, hva1, _⟩ := hpos a ha
  obtain ⟨vb, hvb, _, _⟩ := hpos b hb
  have key : va = vb ↔ Connected T (m.map Prod.fst) a b := by
    constructor
    · intro h
      rw [← h] at hvb
      exact hJ.conn a b va (by omega) hva hvb
    · intro h
      have := colored_path T _ m' c' hJ a b va (by omega) hva h
      rw [hvb] at this
      simp only [Option.some.injEq] at this
      exact this.symm
  rw [hva, hvb, get_color_of_find m' a va hva, get_color_of_find m' b vb hvb]
  simp only [Option.some.injEq]
  exact ⟨key, key⟩

/-- C4 at the four tiles 100, 101, 500 and 191 of the 4 degree tiling. -/
theorem ColorMap_same_colour_iff_connected_witness :
    ∃ m', tiling4.ColorMap scenarioMap = some m' ∧
      ∀ a b, a ∈ scenarioMap.map Prod.fst → b ∈ scenarioMap.map Prod.fst →
        ((mapFind m' a = mapFind m' b ↔ Connected tiling4 (scenarioMap.map Prod.fst) a b) ∧
          (get_color m' a = get_color m' b
            ↔ Connected tiling4 (scenarioMap.map Prod.fst) a b)) :=
  ColorMap_same_colour_iff_connected tiling4 scenarioMap (by decide) (by decide)
    (by decide) (by decide)

/-- C5: for every tiling (with a positive column count and a tile count that
fits `int32_t`) and every map of tile ids of the tiling whose values are all
0 and that has `k` connected components (given by `k` pairwise unconnected
keys to which every key is connected), `ColorMap` returns, leaves the key set
unchanged, gives every key a positive colour, and uses exactly the colours
1, 2, ..., `k`. -/
theorem ColorMap_colours (T : Tiles) (m : ConnectivityMap)
    (hn : 0 < T.ncolumns_) (hN : T.ncolumns_ * T.nrows_ < 2147483648)
    (hkeys : ∀ e, e ∈ m → (e.1 : Int) < T.ncolumns_ * T.nrows_)
    (hzero : ∀ e, e ∈ m → e.2 = 0)
    (reps : List Nat) (hreps : ∀ r, r ∈ reps → r ∈ m.map Prod.fst)
    (hsep : reps.Pairwise (fun a b => ¬ Connected T (m.map Prod.fst) a b))
    (hcover : ∀ a, a ∈ m.map Prod.fst → ∃ r, r ∈ reps ∧ Connected T (m.map Prod.fst) r a) :
    ∃ m', T.ColorMap m = some m' ∧ m'.map Prod.fst = m.map Prod.fst ∧
      (∀ a, a ∈ m.map Prod.fst → ∃ v, mapFind m' a = some v ∧ 1 ≤ v) ∧
      (∀ v, (∃ a, mapFind m' a = some v) ↔ (1 ≤ v ∧ v ≤ reps.length)) := by
  obtain ⟨m', c', hm', hc', hJ, hpos⟩ := ColorMap_core T m hn hN hkeys hzero
  have hfr : ∀ r, r ∈ reps → mapFind m' r = some (get_color m' r) ∧
      1 ≤ get_color m' r ∧ get_color m' r < c' := by
    intro r hr
    obtain ⟨v, hv, hv1, hvc⟩ := hpos r (hreps r hr)
    rw [get_color_of_find m' r v hv]
    exact ⟨hv, hv1, hvc⟩
  have hnodup : (reps.map (get_color m')).Nodup := by
    unfold List.Nodup
    rw [List.pairwise_map]
    refine List.Pairwise.imp_of_mem ?_ hsep
    intro a b ha hb hab heq
    obtain ⟨h1, h2, _⟩ := hfr a ha
    obtain ⟨h3, _, _⟩ := hfr b hb
    rw [← heq] at h3
    exact hab (hJ.conn a b _ (by omega) h1 h3)
  have hset : (reps.map (get_color m')).toFinset = Finset.Ico 1 c' := by
    ext v
    simp only [List.mem_toFinset, List.mem_map, Finset.mem_Ico]
    constructor
    · rintro ⟨r, hr, rfl⟩
      exact ⟨(hfr r hr).2.1, (hfr r hr).2.2⟩
    · rintro ⟨hv1, hvc⟩
      obtain ⟨x, hx⟩ := hJ.used v hv1 hvc
      have hxk : x ∈ m.map Prod.fst := by
        rw [← hJ.keys_eq]; exact mapFind_some_mem m' x v hx
      obtain ⟨r, hr, hconn⟩ := hcover x hxk
      refine ⟨r, hr, ?_⟩
      obtain ⟨h1, h2, _⟩ := hfr r hr
      have := colored_path T _ m' c' hJ r x _ (by omega) h1 hconn
      rw [hx] at this
      simp only [Option.some.injEq] at this
      exact this.symm
  have hlen : reps.length = c' - 1 := by
    have h1 := List.toFinset_card_of_nodup hnodup
    rw [hset, Nat.card_Ico, List.length_map] at h1
    exact h1.symm
  refine ⟨m', hm', hJ.keys_eq, ?_, ?_⟩
  · intro a ha
    obtain ⟨v, hv, hv1, _⟩ := hpos a ha
    exact ⟨v, hv, hv1⟩
  · intro v
    constructor
    · rintro ⟨a, ha⟩
      have hak : a ∈ m.map Prod.fst := by
        rw [← hJ.keys_eq]; exact mapFind_some_mem m' a v ha
      obtain ⟨w, hw, hw1, hwc⟩ := hpos a hak
      rw [ha] at hw
      simp only [Option.some.injEq] at hw
      omega
    · rintro ⟨hv1, hvk⟩
      exact hJ.used v hv1 (by omega)

/-- C5 at the four tiles 100, 101, 500 and 191 of the 4 degree tiling, whose
two components are given by the keys 100 and 500. -/
theorem ColorMap_colours_witness :
    ∃ m', tiling4.ColorMap scenarioMap = some m' ∧
      m'.map Prod.fst = scenarioMap.map Prod.fst ∧
      (∀ a, a ∈ scenarioMap.map Prod.fst → ∃ v, mapFind m' a = some v ∧ 1 ≤ v) ∧
      (∀ v, (∃ a, mapFind m' a = some v) ↔ (1 ≤ v ∧ v ≤ [100, 500].length)) :=
  ColorMap_colours tiling4 scenarioMap (by decide) (by decide) (by decide) (by decide)
    [100, 500] (by decide)
    (by
      simp only [List.pairwise_cons, List.mem_singleton, forall_eq, List.not_mem_nil,
        false_implies, implies_true, List.Pairwise.nil, and_true]
      intro h
      have := scenario_reach 500 h
      omega)
    (by
      have s1 : KeyStep tiling4 (scenarioMap.map Prod.fst) 100 101 :=
        ⟨by decide, by decide, by decide⟩
      have s2 : KeyStep tiling4 (scenarioMap.map Prod.fst) 101 191 :=
        ⟨by decide, by decide, by decide⟩
      intro a ha
      simp only [scenarioMap, List.map_cons, List.map_nil, List.mem_cons, List.mem_singleton,
        List.not_mem_nil, or_false] at ha
      rcases ha with rfl | rfl | rfl | rfl
      · exact ⟨100, by simp, Relation.ReflTransGen.refl⟩
      · exact ⟨100, by simp, Relation.ReflTransGen.single s1⟩
      · exact ⟨500, by simp, Relation.ReflTransGen.refl⟩
      · exact ⟨100, by simp,
          Relation.ReflTransGen.tail (Relation.ReflTransGen.single s1) s2⟩)

/-! ## Claims C11 to C13: calendar admission and the bounds checks -/

/-- C11 fails on the code: the tile created on day 100 holds one departure of
line 1 at 08:00 whose days bitmap has all 64 bits set, so the bitmap admits
every date; queried at time 0 on day 110, within 60 days of the creation,
`GetNextDeparture` returns the null pointer. The branch for
`date <= valid_date_plus_60` is an empty statement, so no query within the 60
days ever returns a departure; on day 161 the day-of-week branch returns the
same departure. -/
theorem GetNextDeparture_bitmap_unused :
    (bitmapTile.departures_ 0).lineid = 1 ∧
      (bitmapTile.departures_ 0).departure_time ≥ 0 ∧
      (bitmapTile.departures_ 0).days = 2 ^ 64 - 1 ∧
      110 ≤ valid_date_plus_60 bitmapTile ∧
      GetNextDeparture bitmapTile 1 0 110 8 = some none ∧
      GetNextDeparture bitmapTile 1 0 161 8 = some (some 0) ∧
      ∀ (tile : GraphTile) (lineid current_time date dow i : Nat),
        date ≤ valid_date_plus_60 tile →
          GetNextDeparture tile lineid current_time date dow ≠ some (some i) :=
  ⟨by decide, by decide, by decide, by decide, by decide, by decide,
    fun tile lineid current_time date dow i h =>
      GetNextDeparture_within_60 tile lineid current_time date dow h i⟩

/-- C12: for every tile and every index `i`, `node(i)` returns the record
`nodes_[i]` exactly when `i < nodecount` and throws the NodeInfo out-of-bounds
error exactly when `i >= nodecount`; the overload taking a `GraphId` does the
same on its id; likewise `directededge` against `directededgecount` and
`admin` against `admincount`. On the tile whose counts are all zero `node(0)`
throws. -/
theorem node_directededge_admin_bounds (tile : GraphTile) (i : Nat) (g : GraphId) :
    (tile.node i = .ok (tile.nodes_ i) ↔ i < tile.header_.nodecount) ∧
      (tile.node i = .error .nodeInfoIndexOutOfBounds ↔ tile.header_.nodecount ≤ i) ∧
      (tile.nodeOf g = .ok (tile.nodes_ g.id) ↔ g.id < tile.header_.nodecount) ∧
      (tile.nodeOf g = .error .nodeInfoIndexOutOfBounds ↔ tile.header_.nodecount ≤ g.id) ∧
      (tile.directededge i = .ok (tile.directededges_ i) ↔
        i < tile.header_.directededgecount) ∧
      (tile.directededge i = .error .directedEdgeIndexOutOfBounds ↔
        tile.header_.directededgecount ≤ i) ∧
      (tile.directededgeOf g = .ok (tile.directededges_ g.id) ↔
        g.id < tile.header_.directededgecount) ∧
      (tile.directededgeOf g = .error .directedEdgeIndexOutOfBounds ↔
        tile.header_.directededgecount ≤ g.id) ∧
      (tile.admin i = .ok (tile.admins_ i) ↔ i < tile.header_.admincount) ∧
      (tile.admin i = .error .adminIndexOutOfBounds ↔ tile.header_.admincount ≤ i) ∧
      emptyTile.header_.nodecount = 0 ∧
      emptyTile.node 0 = .error .nodeInfoIndexOutOfBounds := by
  refine ⟨?_, ?_, ?_, ?_, ?_, ?_, ?_, ?_, ?_, ?_, by decide, by decide⟩
  · unfold GraphTile.node
    by_cases h : i < tile.header_.nodecount <;> simp [h]
  · unfold GraphTile.node
    by_cases h : i < tile.header_.nodecount <;> simp [h]
    omega
  · unfold GraphTile.nodeOf
    by_cases h : g.id < tile.header_.nodecount <;> simp [h]
  · unfold GraphTile.nodeOf
    by_cases h : g.id < tile.header_.nodecount <;> simp [h]
    omega
  · unfold GraphTile.directededge
    by_cases h : i < tile.header_.directededgecount <;> simp [h]
  · unfold GraphTile.directededge
    by_cases h : i < tile.header_.directededgecount <;> simp [h]
    omega
  · unfold GraphTile.directededgeOf
    by_cases h : g.id < tile.header_.directededgecount <;> simp [h]
  · unfold GraphTile.directededgeOf
    by_cases h : g.id < tile.header_.directededgecount <;> simp [h]
    omega
  · unfold GraphTile.admin
    by_cases h : i < tile.header_.admincount <;> simp [h]
  · unfold GraphTile.admin
    by_cases h : i < tile.header_.admincount <;> simp [h]
    omega

/-- C13 as stated fails: on the tile without stops `GetTransitStop(0)` returns
the null pointer, although `0 >= stopcount`; it does not throw. -/
theorem GetTransitStop_empty_tile :
    emptyTile.header_.stopcount = 0 ∧ emptyTile.header_.stopcount ≤ 0 ∧
      GetTransitStop emptyTile 0 = .ok none ∧
      GetTransitStop emptyTile 0 ≠ .error .transitStopIndexOutOfBounds := by
  decide

/-- C13, amended: for every tile and every index `i`, `GetTransitStop(i)`
returns the null pointer exactly when the stop count is 0, returns the record
`transit_stops_[i]` exactly when `i < stopcount`, and throws the out-of-bounds
error exactly when `stopcount > 0` and `i >= stopcount`. -/
theorem GetTransitStop_bounds (tile : GraphTile) (i : Nat) :
    (GetTransitStop tile i = .ok none ↔ tile.header_.stopcount = 0) ∧
      (GetTransitStop tile i = .ok (some (tile.transit_stops_ i)) ↔
        i < tile.header_.stopcount) ∧
      (GetTransitStop tile i = .error .transitStopIndexOutOfBounds ↔
        0 < tile.header_.stopcount ∧ tile.header_.stopcount ≤ i) := by
  unfold GetTransitStop
  by_cases h0 : tile.header_.stopcount = 0
  · simp [h0]
  · by_cases h : i < tile.header_.stopcount
    · simp [h0, h]
    · simp [h0, h]
      omega

/-! ## Lemmas: the transit sections -/

theorem searchLoop_whole (key : Nat → Nat) (idx count : Nat)
    (hs : ∀ i j, i ≤ j → j < count → key i ≤ key j)
    (h0 : count ≠ 0) (hcount : count ≤ 1073741824) :
    ∃ r, searchLoop key idx count 0 (toInt32 (count - 1)) = some r ∧
      (∀ mid, r = some mid → mid < count ∧ key mid = idx) ∧
      (r = none → ∀ i, i < count → key i ≠ idx) := by
  rw [toInt32_pred _ h0 hcount]
  obtain ⟨r, hr, hsound⟩ := searchLoop_sound key idx count count 0 ((count : Int) - 1)
    (le_refl _) (by omega) (by omega)
  refine ⟨r, hr, hsound, fun hnone => ?_⟩
  subst hnone
  exact searchLoop_complete key idx count hs count 0 ((count : Int) - 1) (le_refl _)
    (by omega) (fun i hi _ => ⟨by omega, by omega⟩) hr

theorem GetTransitRoute_result (tile : GraphTile) (routeid : Nat)
    (hs : ∀ i j, i ≤ j → j < tile.header_.routecount →
      (tile.transit_routes_ i).routeid ≤ (tile.transit_routes_ j).routeid)
    (hcount : tile.header_.routecount ≤ 1073741824) :
    ∃ res, GetTransitRoute tile routeid = some res ∧
      (∀ i, res = some i →
        i < tile.header_.routecount ∧ (tile.transit_routes_ i).routeid = routeid) ∧
      (res = none → ∀ j, j < tile.header_.routecount →
        (tile.transit_routes_ j).routeid ≠ routeid) := by
  unfold GetTransitRoute
  by_cases hc : tile.header_.routecount = 0
  · refine ⟨none, by simp [hc], by simp, fun _ j hj => ?_⟩
    omega
  · simp only [hc, if_false]
    exact searchLoop_whole (fun i => (tile.transit_routes_ i).routeid) routeid
      tile.header_.routecount hs hc hcount

/-! ## Claim C16: the route lookup -/

/-- C16: for every tile whose route array is sorted by route id and every
route id `r`, `GetTransitRoute(r)` returns: its result is a record of the
array whose route id is `r` whenever it is a record, it is a record exactly
when the array holds a route with the id `r`, and it is the null pointer
exactly when the array holds none. The route count is at most `2^30`, so that
the `int32_t` indices of the binary search and their sum do not overflow. -/
theorem GetTransitRoute_spec (tile : GraphTile) (routeid : Nat)
    (hs : ∀ i j, i ≤ j → j < tile.header_.routecount →
      (tile.transit_routes_ i).routeid ≤ (tile.transit_routes_ j).routeid)
    (hcount : tile.header_.routecount ≤ 1073741824) :
    ∃ res, GetTransitRoute tile routeid = some res ∧
      (∀ i, res = some i →
        i < tile.header_.routecount ∧ (tile.transit_routes_ i).routeid = routeid) ∧
      ((∃ i, res = some i) ↔
        ∃ j, j < tile.header_.routecount ∧ (tile.transit_routes_ j).routeid = routeid) ∧
      (res = none ↔
        ∀ j, j < tile.header_.routecount → (tile.transit_routes_ j).routeid ≠ routeid) := by
  obtain ⟨res, hres, hsound, hnone⟩ := GetTransitRoute_result tile routeid hs hcount
  refine ⟨res, hres, hsound, ?_, ?_⟩
  · constructor
    · rintro ⟨i, hi⟩
      exact ⟨i, hsound i hi⟩
    · rintro ⟨j, hj, hk⟩
      cases res with
      | none => exact absurd hk (hnone rfl j hj)
      | some i => exact ⟨i, rfl⟩
  · constructor
    · exact hnone
    · intro hall
      cases res with
      | none => rfl
      | some i => exact absurd (hsound i rfl).2 (hall i (hsound i rfl).1)

/-- C16 at the tile with the routes 4, 8, 15 and the route id 8: the lookup
returns the record at index 1. -/
theorem GetTransitRoute_spec_witness :
    GetTransitRoute transitTile 8 = some (some 1) ∧
      ∃ res, GetTransitRoute transitTile 8 = some res ∧
        (∀ i, res = some i →
          i < transitTile.header_.routecount ∧
            (transitTile.transit_routes_ i).routeid = 8) ∧
        ((∃ i, res = some i) ↔
          ∃ j, j < transitTile.header_.routecount ∧
            (transitTile.transit_routes_ j).routeid = 8) ∧
        (res = none ↔
          ∀ j, j < transitTile.header_.routecount →
            (transitTile.transit_routes_ j).routeid ≠ 8) :=
  ⟨by decide, GetTransitRoute_spec transitTile 8
    (fun i j hij hj => by
      have hj3 : j < 3 := hj
      interval_cases j <;> interval_cases i <;> decide)
    (by decide)⟩

/-! ## Lemmas: the transfers of a stop -/

theorem backScanTransfer_some (tile : GraphTile) (from_stopid to_stopid : Nat) :
    ∀ mid i, backScanTransfer tile from_stopid to_stopid mid = some i →
      i < mid ∧ (tile.transit_transfers_ i).from_stopid = from_stopid ∧
        (tile.transit_transfers_ i).to_stopid = to_stopid := by
  intro mid
  induction mid with
  | zero =>
    intro i h
    simp [backScanTransfer] at h
  | succ mid ih =>
    intro i h
    rw [backScanTransfer] at h
    by_cases hf : (tile.transit_transfers_ mid).from_stopid = from_stopid
    · by_cases ht : (tile.transit_transfers_ mid).to_stopid = to_stopid
      · simp only [hf, ht, if_true, Option.some.injEq] at h
        subst h
        exact ⟨by omega, hf, ht⟩
      · simp only [hf, ht, if_true, if_false] at h
        obtain ⟨h1, h2, h3⟩ := ih i h
        exact ⟨by omega, h2, h3⟩
    · simp [hf] at h

theorem backScanTransfer_none (tile : GraphTile) (from_stopid to_stopid : Nat)
    (hs : ∀ i j, i ≤ j → j < tile.header_.transfercount →
      (tile.transit_transfers_ i).from_stopid ≤ (tile.transit_transfers_ j).from_stopid) :
    ∀ mid, mid < tile.header_.transfercount →
      (tile.transit_transfers_ mid).from_stopid = from_stopid →
      backScanTransfer tile from_stopid to_stopid mid = none →
      ∀ i, i < mid → (tile.transit_transfers_ i).from_stopid = from_stopid →
        (tile.transit_transfers_ i).to_stopid ≠ to_stopid := by
  intro mid
  induction mid with
  | zero =>
    intro _ _ _ i hi
    omega
  | succ mid ih =>
    intro hm hk h i hi hfi
    rw [backScanTransfer] at h
    by_cases hf : (tile.transit_transfers_ mid).from_stopid = from_stopid
    · by_cases ht : (tile.transit_transfers_ mid).to_stopid = to_stopid
      · simp [hf, ht] at h
      · simp only [hf, ht, if_true, if_false] at h
        by_cases him : i = mid
        · subst him
          exact ht
        · exact ih (by omega) hf h i (by omega) hfi
    · exfalso
      have h1 := hs i mid (by omega) (by omega)
      have h2 := hs mid (mid + 1) (by omega) hm
      omega

theorem forwardScanTransfer_spec (tile : GraphTile) (from_stopid to_stopid : Nat)
    (hs : ∀ i j, i ≤ j → j < tile.header_.transfercount →
      (tile.transit_transfers_ i).from_stopid ≤ (tile.transit_transfers_ j).from_stopid)
    (fuel : Nat) :
    ∀ mid, tile.header_.transfercount - mid ≤ fuel →
      (∀ i, mid ≤ i → i < tile.header_.transfercount →
        from_stopid ≤ (tile.transit_transfers_ i).from_stopid) →
      ∃ r, forwardScanTransfer tile from_stopid to_stopid fuel mid = some r ∧
        (∀ i, r = some i → mid ≤ i ∧ i < tile.header_.transfercount ∧
          (tile.transit_transfers_ i).from_stopid = from_stopid ∧
          (tile.transit_transfers_ i).to_stopid = to_stopid) ∧
        (r = none → ∀ i, mid ≤ i → i < tile.header_.transfercount →
          (tile.transit_transfers_ i).from_stopid = from_stopid →
          (tile.transit_transfers_ i).to_stopid ≠ to_stopid) := by
  induction fuel with
  | zero =>
    intro mid hf _
    have hge : ¬ mid < tile.header_.transfercount := by omega
    refine ⟨none, ?_, by simp, fun _ i h1 h2 => ?_⟩
    · rw [forwardScanTransfer]
      simp [hge]
    · omega
  | succ fuel ih =>
    intro mid hf hlow
    rw [forwardScanTransfer]
    by_cases hc : (tile.transit_transfers_ mid).from_stopid = from_stopid ∧
        mid < tile.header_.transfercount
    · by_cases ht : (tile.transit_transfers_ mid).to_stopid = to_stopid
      · refine ⟨some mid, by simp [hc, ht], ?_, by simp⟩
        intro i hi
        simp only [Option.some.injEq] at hi
        subst hi
        exact ⟨le_refl _, hc.2, hc.1, ht⟩
      · obtain ⟨r, hr, h1, h2⟩ := ih (mid + 1) (by omega)
          (fun i hi1 hi2 => hlow i (by omega) hi2)
        refine ⟨r, by simp [hc, ht, hr], ?_, ?_⟩
        · intro i hi
          obtain ⟨a, b, c, d⟩ := h1 i hi
          exact ⟨by omega, b, c, d⟩
        · intro hnone i hi1 hi2 hfi
          by_cases him : i = mid
          · subst him
            exact ht
          · exact h2 hnone i (by omega) hi2 hfi
    · refine ⟨none, by simp [hc], by simp, ?_⟩
      intro _ i hi1 hi2 hfi
      exfalso
      have hmid : mid < tile.header_.transfercount := by omega
      have hne : (tile.transit_transfers_ mid).from_stopid ≠ from_stopid :=
        fun h => hc ⟨h, hmid⟩
      have h1 := hlow mid (le_refl _) hmid
      have h2 := hs mid i hi1 hi2
      omega

theorem GetTransfer_result (tile : GraphTile) (from_stopid to_stopid : Nat)
    (hs : ∀ i j, i ≤ j → j < tile.header_.transfercount →
      (tile.transit_transfers_ i).from_stopid ≤ (tile.transit_transfers_ j).from_stopid)
    (hcount : tile.header_.transfercount ≤ 1073741824) :
    ∃ res, GetTransfer tile from_stopid to_stopid = some res ∧
      (∀ i, res = some i → i < tile.header_.transfercount ∧
        (tile.transit_transfers_ i).from_stopid = from_stopid ∧
        (tile.transit_transfers_ i).to_stopid = to_stopid) ∧
      (res = none → ∀ i, i < tile.header_.transfercount →
        (tile.transit_transfers_ i).from_stopid = from_stopid →
        (tile.transit_transfers_ i).to_stopid ≠ to_stopid) := by
  unfold GetTransfer
  by_cases hc : tile.header_.transfercount = 0
  · refine ⟨none, by simp [hc], by simp, fun _ i hi => ?_⟩
    omega
  · simp only [hc, if_false]
    obtain ⟨r, hr, hsound, hnone⟩ := searchLoop_whole
      (fun i => (tile.transit_transfers_ i).from_stopid) from_stopid
      tile.header_.transfercount hs hc hcount
    rw [hr]
    cases r with
    | none =>
      refine ⟨none, rfl, by simp, fun _ i hi hfi => ?_⟩
      exact absurd hfi (hnone rfl i hi)
    | some m =>
      obtain ⟨hm, hkm⟩ := hsound m rfl
      cases hback : backScanTransfer tile from_stopid to_stopid m with
      | some i =>
        obtain ⟨h1, h2, h3⟩ := backScanTransfer_some tile from_stopid to_stopid m i hback
        refine ⟨some i, by simp [hback], ?_, by simp⟩
        intro j hj
        simp only [Option.some.injEq] at hj
        subst hj
        exact ⟨by omega, h2, h3⟩
      | none =>
        obtain ⟨r, hr2, h1, h2⟩ := forwardScanTransfer_spec tile from_stopid to_stopid hs
          tile.header_.transfercount m (by omega)
          (fun i hi1 hi2 => by
            have := hs m i hi1 hi2
            omega)
        refine ⟨r, by simp [hback, hr2], ?_, ?_⟩
        · intro i hi
          obtain ⟨_, b, c, d⟩ := h1 i hi
          exact ⟨b, c, d⟩
        · intro hrn i hi hfi
          by_cases him : i < m
          · exact backScanTransfer_none tile from_stopid to_stopid hs m hm hkm hback i him hfi
          · exact h2 hrn i (by omega) hi hfi

/-! ## Claim C14: the transfer between two stops -/

/-- C14: for every tile whose transfer array is sorted by from-stop id and
every pair (from, to), `GetTransfer(from, to)` returns: whenever its result is
a record it is a record of the array with that from stop and that to stop, it
is a record whenever the array holds a transfer from `from` to `to`, and it is
the null pointer exactly when the array holds none. The transfer count is at
most `2^30`, so that the `int32_t` indices of the binary search and their sum
do not overflow. -/
theorem GetTransfer_spec (tile : GraphTile) (from_stopid to_stopid : Nat)
    (hs : ∀ i j, i ≤ j → j < tile.header_.transfercount →
      (tile.transit_transfers_ i).from_stopid ≤ (tile.transit_transfers_ j).from_stopid)
    (hcount : tile.header_.transfercount ≤ 1073741824) :
    ∃ res, GetTransfer tile from_stopid to_stopid = some res ∧
      (∀ i, res = some i → i < tile.header_.transfercount ∧
        (tile.transit_transfers_ i).from_stopid = from_stopid ∧
        (tile.transit_transfers_ i).to_stopid = to_stopid) ∧
      ((∃ j, j < tile.header_.transfercount ∧
          (tile.transit_transfers_ j).from_stopid = from_stopid ∧
          (tile.transit_transfers_ j).to_stopid = to_stopid) → ∃ i, res = some i) ∧
      (res = none ↔ ¬ ∃ j, j < tile.header_.transfercount ∧
          (tile.transit_transfers_ j).from_stopid = from_stopid ∧
          (tile.transit_transfers_ j).to_stopid = to_stopid) := by
  obtain ⟨res, hres, hsound, hnone⟩ :=
    GetTransfer_result tile from_stopid to_stopid hs hcount
  refine ⟨res, hres, hsound, ?_, ?_⟩
  · rintro ⟨j, hj, hf, ht⟩
    cases res with
    | none => exact absurd ht (hnone rfl j hj hf)
    | some i => exact ⟨i, rfl⟩
  · constructor
    · rintro hn ⟨j, hj, hf, ht⟩
      exact hnone hn j hj hf ht
    · intro hall
      cases res with
      | none => rfl
      | some i => exact absurd ⟨i, hsound i rfl⟩ hall

/-- C14 at the tile with the transfers 3→9, 5→2, 5→7, 5→4, 8→5 and the pair
(5, 4): the binary search lands on the record 5→7 at index 2, the backward
scan passes 5→2 and the forward scan returns the record at index 3. -/
theorem GetTransfer_spec_witness :
    GetTransfer transitTile 5 4 = some (some 3) ∧
      ∃ res, GetTransfer transitTile 5 4 = some res ∧
        (∀ i, res = some i → i < transitTile.header_.transfercount ∧
          (transitTile.transit_transfers_ i).from_stopid = 5 ∧
          (transitTile.transit_transfers_ i).to_stopid = 4) ∧
        ((∃ j, j < transitTile.header_.transfercount ∧
            (transitTile.transit_transfers_ j).from_stopid = 5 ∧
            (transitTile.transit_transfers_ j).to_stopid = 4) → ∃ i, res = some i) ∧
        (res = none ↔ ¬ ∃ j, j < transitTile.header_.transfercount ∧
            (transitTile.transit_transfers_ j).from_stopid = 5 ∧
            (transitTile.transit_transfers_ j).to_stopid = 4) :=
  ⟨by decide, GetTransfer_spec transitTile 5 4
    (fun i j hij hj => by
      have hj5 : j < 5 := hj
      interval_cases j <;> interval_cases i <;> decide)
    (by decide)⟩

/-! ## Lemmas: the run of transfers of a stop -/

theorem countTransfers_spec (tile : GraphTile) (stopid : Nat)
    (hs : ∀ i j, i ≤ j → j < tile.header_.transfercount →
      (tile.transit_transfers_ i).from_stopid ≤ (tile.transit_transfers_ j).from_stopid)
    (fuel : Nat) :
    ∀ mid n, tile.header_.transfercount - mid ≤ fuel →
      (∀ i, mid ≤ i → i < tile.header_.transfercount →
        stopid ≤ (tile.transit_transfers_ i).from_stopid) →
      ∃ k, countTransfers tile stopid fuel mid n = some (n + k) ∧
        k ≤ tile.header_.transfercount - mid ∧
        ∀ i, mid ≤ i → i < tile.header_.transfercount →
          ((tile.transit_transfers_ i).from_stopid = stopid ↔ i < mid + k) := by
  induction fuel with
  | zero =>
    intro mid n hf _
    have hge : ¬ mid < tile.header_.transfercount := by omega
    refine ⟨0, ?_, by omega, fun i h1 h2 => ?_⟩
    · rw [countTransfers]
      simp [hge]
    · omega
  | succ fuel ih =>
    intro mid n hf hlow
    rw [countTransfers]
    by_cases hc : (tile.transit_transfers_ mid).from_stopid = stopid ∧
        mid < tile.header_.transfercount
    · obtain ⟨k, hk, hle, hrun⟩ := ih (mid + 1) (n + 1) (by omega)
        (fun i hi1 hi2 => hlow i (by omega) hi2)
      refine ⟨k + 1, ?_, by omega, ?_⟩
      · simp only [hc, and_self, if_true, hk]
        congr 1
        omega
      · intro i hi1 hi2
        by_cases him : i = mid
        · subst him
          constructor
          · intro _
            omega
          · intro _
            exact hc.1
        · have := hrun i (by omega) hi2
          rw [this]
          omega
    · refine ⟨0, by simp [hc], by omega, ?_⟩
      intro i hi1 hi2
      have hmid : mid < tile.header_.transfercount := by omega
      have hne : (tile.transit_transfers_ mid).from_stopid ≠ stopid :=
        fun h => hc ⟨h, hmid⟩
      have h1 := hlow mid (le_refl _) hmid
      have h2 := hs mid i hi1 hi2
      constructor
      · intro h
        omega
      · intro h
        omega

theorem filter_range'_run (p : Nat → Bool) (s n k : Nat) (hk : k ≤ n)
    (h : ∀ i, s ≤ i → i < s + n → (p i = true ↔ i < s + k)) :
    ((List.range' s n).filter p).length = k := by
  have hsplit : List.range' s n = List.range' s k ++ List.range' (s + k) (n - k) := by
    have := List.range'_append s k (n - k) 1
    simp only [Nat.one_mul] at this
    rw [this]
    congr 1
    omega
  have h1 : (List.range' s k).filter p = List.range' s k := by
    rw [List.filter_eq_self]
    intro i hi
    rw [List.mem_range'_1] at hi
    exact (h i hi.1 (by omega)).2 hi.2
  have h2 : (List.range' (s + k) (n - k)).filter p = [] := by
    rw [List.filter_eq_nil_iff]
    intro i hi
    rw [List.mem_range'_1] at hi
    intro hp
    have := (h i (by omega) (by omega)).1 hp
    omega
  rw [hsplit, List.filter_append, h1, h2, List.append_nil, List.length_range']

theorem find_filter_of_run (p : Nat → Bool) (count start k : Nat) (hk : 0 < k)
    (hle : start + k ≤ count)
    (h : ∀ i, i < count → (p i = true ↔ start ≤ i ∧ i < start + k)) :
    (List.range count).find? p = some start ∧ ((List.range count).filter p).length = k := by
  constructor
  · rw [List.range_eq_range']
    apply find_range'_first p count 0 start (by omega) (by omega)
    · exact (h start (by omega)).2 ⟨le_refl _, by omega⟩
    · intro j _ hj
      cases hp : p j with
      | false => rfl
      | true =>
        have := (h j (by omega)).1 hp
        omega
  · rw [filter_range_split p count start (by omega)]
    · apply filter_range'_run p start (count - start) k (by omega)
      intro i hi1 hi2
      rw [h i (by omega)]
      omega
    · intro i hi
      cases hp : p i with
      | false => rfl
      | true =>
        have := (h i (by omega)).1 hp
        omega

theorem GetTransfers_result (tile : GraphTile) (stopid : Nat)
    (hs : ∀ i j, i ≤ j → j < tile.header_.transfercount →
      (tile.transit_transfers_ i).from_stopid ≤ (tile.transit_transfers_ j).from_stopid)
    (hcount : tile.header_.transfercount ≤ 1073741824) :
    (GetTransfers tile stopid = some (none, 0) ∧
        ∀ i, i < tile.header_.transfercount →
          (tile.transit_transfers_ i).from_stopid ≠ stopid) ∨
      ∃ start n, GetTransfers tile stopid = some (some start, n) ∧ 0 < n ∧
        start + n ≤ tile.header_.transfercount ∧
        ∀ i, i < tile.header_.transfercount →
          ((tile.transit_transfers_ i).from_stopid = stopid ↔ start ≤ i ∧ i < start + n) := by
  unfold GetTransfers
  by_cases hc : tile.header_.transfercount = 0
  · left
    refine ⟨by simp [hc], fun i hi => ?_⟩
    omega
  · simp only [hc, if_false]
    obtain ⟨r, hr, hsound, hnone⟩ := searchLoop_whole
      (fun i => (tile.transit_transfers_ i).from_stopid) stopid
      tile.header_.transfercount hs hc hcount
    rw [hr]
    cases r with
    | none => exact Or.inl ⟨rfl, hnone rfl⟩
    | some m =>
      right
      obtain ⟨hm, hkm⟩ := hsound m rfl
      obtain ⟨b1, b2, b3⟩ := backUp_spec (fun i => (tile.transit_transfers_ i).from_stopid)
        stopid tile.header_.transfercount hs m hm hkm
      have hstart : backUp (fun i => (tile.transit_transfers_ i).from_stopid) stopid m <
          tile.header_.transfercount := by omega
      obtain ⟨k, hk, hle, hrun⟩ := countTransfers_spec tile stopid hs
        tile.header_.transfercount
        (backUp (fun i => (tile.transit_transfers_ i).from_stopid) stopid m) 0 (by omega)
        (fun i hi1 hi2 => by
          have := hs _ i hi1 hi2
          omega)
      have hkpos : 0 < k := by
        have := (hrun _ (le_refl _) hstart).1 b2
        omega
      refine ⟨backUp (fun i => (tile.transit_transfers_ i).from_stopid) stopid m, k, ?_,
        hkpos, by omega, ?_⟩
      · simp only [hk, Nat.zero_add]
      · intro i hi
        by_cases hlt : i < backUp (fun i => (tile.transit_transfers_ i).from_stopid) stopid m
        · have := b3 i hlt
          constructor
          · intro h
            omega
          · intro h
            omega
        · rw [hrun i (by omega) hi]
          omega

/-! ## Claim C15: the transfers of a stop -/

/-- C15: for every tile whose transfer array is sorted by from-stop id and
every stop id `s`, `GetTransfers(s)` returns the pair of the first record with
`from_stopid == s` (the null pointer when there is none) and the number of
records with `from_stopid == s`; when the start is a record, those records are
exactly the run `start .. start+n-1`, which lies within the array and is not
empty; the result is (null, 0) when no transfer has `from_stopid == s`. The
transfer count is at most `2^30`, so that the `int32_t` indices of the binary
search and their sum do not overflow. -/
theorem GetTransfers_spec (tile : GraphTile) (stopid : Nat)
    (hs : ∀ i j, i ≤ j → j < tile.header_.transfercount →
      (tile.transit_transfers_ i).from_stopid ≤ (tile.transit_transfers_ j).from_stopid)
    (hcount : tile.header_.transfercount ≤ 1073741824) :
    GetTransfers tile stopid =
        some ((List.range tile.header_.transfercount).find?
                (fun i => decide ((tile.transit_transfers_ i).from_stopid = stopid)),
              ((List.range tile.header_.transfercount).filter
                (fun i => decide ((tile.transit_transfers_ i).from_stopid = stopid))).length) ∧
      (∀ start n, GetTransfers tile stopid = some (some start, n) →
        0 < n ∧ start + n ≤ tile.header_.transfercount ∧
          ∀ i, i < tile.header_.transfercount →
            ((tile.transit_transfers_ i).from_stopid = stopid ↔
              start ≤ i ∧ i < start + n)) ∧
      ((∀ i, i < tile.header_.transfercount →
          (tile.transit_transfers_ i).from_stopid ≠ stopid) →
        GetTransfers tile stopid = some (none, 0)) := by
  rcases GetTransfers_result tile stopid hs hcount with
    ⟨hres, hall⟩ | ⟨start, n, hres, hn, hle, hrun⟩
  · refine ⟨?_, ?_, fun _ => hres⟩
    · have hfind : (List.range tile.header_.transfercount).find?
          (fun i => decide ((tile.transit_transfers_ i).from_stopid = stopid)) = none := by
        rw [List.find?_eq_none]
        intro i hi
        rw [List.mem_range] at hi
        simpa using hall i hi
      have hfilter : (List.range tile.header_.transfercount).filter
          (fun i => decide ((tile.transit_transfers_ i).from_stopid = stopid)) = [] := by
        rw [List.filter_eq_nil_iff]
        intro i hi
        rw [List.mem_range] at hi
        simpa using hall i hi
      rw [hres, hfind, hfilter]
      rfl
    · intro start n h
      rw [hres] at h
      simp at h
  · obtain ⟨hfind, hfilter⟩ := find_filter_of_run
      (fun i => decide ((tile.transit_transfers_ i).from_stopid = stopid))
      tile.header_.transfercount start n hn hle
      (fun i hi => by simpa using hrun i hi)
    refine ⟨by rw [hres, hfind, hfilter], ?_, ?_⟩
    · intro start2 n2 h
      rw [hres] at h
      simp only [Option.some.injEq, Prod.mk.injEq] at h
      obtain ⟨h1, h2⟩ := h
      subst h1
      subst h2
      exact ⟨hn, hle, hrun⟩
    · intro hall
      exact absurd ((hrun start (by omega)).2 ⟨le_refl _, by omega⟩) (hall start (by omega))

/-- C15 at the tile with the transfers 3→9, 5→2, 5→7, 5→4, 8→5 and the stop 5:
the run starts at index 1 and has three records. -/
theorem GetTransfers_spec_witness :
    GetTransfers transitTile 5 = some (some 1, 3) ∧
      (∀ start n, GetTransfers transitTile 5 = some (some start, n) →
        0 < n ∧ start + n ≤ transitTile.header_.transfercount ∧
          ∀ i, i < transitTile.header_.transfercount →
            ((transitTile.transit_transfers_ i).from_stopid = 5 ↔
              start ≤ i ∧ i < start + n)) :=
  ⟨by decide, (GetTransfers_spec transitTile 5
    (fun i j hij hj => by
      have hj5 : j < 5 := hj
      interval_cases j <;> interval_cases i <;> decide)
    (by decide)).2.1⟩

/-! ## Lemmas: rows and columns of a tile id -/

theorem GetRowColumn_eq (T : Tiles) (t : Int) (h0 : 0 ≤ t) (hn : 0 < T.ncolumns_) :
    T.GetRowColumn t = (t / T.ncolumns_, t % T.ncolumns_) := by
  unfold Tiles.GetRowColumn
  rw [Int.tdiv_eq_ediv h0 (le_of_lt hn), Int.tmod_eq_emod h0 (le_of_lt hn)]

theorem row_col_bounds (n m t : Int) (hn : 0 < n) (h0 : 0 ≤ t) (ht : t < n * m) :
    t = t / n * n + t % n ∧ 0 ≤ t % n ∧ t % n < n ∧ 0 ≤ t / n ∧ t / n < m ∧
      0 ≤ t / n * n ∧ t / n * n + n ≤ n * m := by
  have h1 := Int.ediv_add_emod t n
  have h2 := Int.emod_nonneg t (ne_of_gt hn)
  have h3 := Int.emod_lt_of_pos t hn
  have h4 : 0 ≤ t / n := Int.ediv_nonneg h0 (le_of_lt hn)
  have h5 : t / n < m := Int.ediv_lt_of_lt_mul hn (by rw [Int.mul_comm]; exact ht)
  have h6 : 0 ≤ t / n * n := mul_nonneg h4 (le_of_lt hn)
  have h7 : (t / n + 1) * n ≤ m * n := Int.mul_le_mul_of_nonneg_right (by omega) (le_of_lt hn)
  refine ⟨by linarith [Int.mul_comm n (t / n)], h2, h3, h4, h5, h6, ?_⟩
  linarith [Int.mul_comm n m, Int.add_mul (t / n) 1 n]

theorem row_zero_iff (n t : Int) (hn : 0 < n) (h0 : 0 ≤ t) : t / n = 0 ↔ t < n := by
  constructor
  · intro h
    have h1 := Int.ediv_add_emod t n
    have h3 := Int.emod_lt_of_pos t hn
    rw [h] at h1
    omega
  · intro h
    exact Int.ediv_eq_zero_of_lt h0 h

theorem row_last_iff (n m t : Int) (hn : 0 < n) (h0 : 0 ≤ t) (ht : t < n * m) :
    t / n = m - 1 ↔ ¬ t < n * m - n := by
  obtain ⟨h1, h2, h3, h4, h5, h6, h7⟩ := row_col_bounds n m t hn h0 ht
  constructor
  · intro h
    rw [h] at h1
    have : (m - 1) * n = n * m - n := by ring
    omega
  · intro h
    by_contra hne
    have hle : t / n + 2 ≤ m := by omega
    have h8 : (t / n + 2) * n ≤ m * n := Int.mul_le_mul_of_nonneg_right hle (le_of_lt hn)
    have h9 : (t / n + 2) * n = t / n * n + 2 * n := by ring
    have h10 : m * n = n * m := Int.mul_comm m n
    omega

/-! ## Claim C19: the four neighbours -/

/-- C19: for every tiling with a positive column count whose tile count is an
`int32_t` value and every tile id `t` with `0 <= t < ncolumns * nrows`, with
`(r, c) = GetRowColumn(t)`: `t` is the tile at (r, c), `RightNeighbor(t)` is
the tile at (r, c+1), or (r, 0) when `c == ncolumns - 1`; `LeftNeighbor(t)` is
(r, c-1), or (r, ncolumns - 1) when `c == 0`; `TopNeighbor(t)` is (r+1, c), or
`t` when `r == nrows - 1`; `BottomNeighbor(t)` is (r-1, c), or `t` when
`r == 0`; and each of the four is a tile id in range. -/
theorem neighbors_spec (T : Tiles) (t : Int) (hn : 0 < T.ncolumns_)
    (hN : T.ncolumns_ * T.nrows_ < 2147483648) (h0 : 0 ≤ t) (ht : t < T.TileCount) :
    t = T.TileId (T.GetRowColumn t).2 (T.GetRowColumn t).1 ∧
      (0 ≤ (T.GetRowColumn t).1 ∧ (T.GetRowColumn t).1 < T.nrows_ ∧
        0 ≤ (T.GetRowColumn t).2 ∧ (T.GetRowColumn t).2 < T.ncolumns_) ∧
      T.RightNeighbor t =
        (if (T.GetRowColumn t).2 = T.ncolumns_ - 1 then T.TileId 0 (T.GetRowColumn t).1
         else T.TileId ((T.GetRowColumn t).2 + 1) (T.GetRowColumn t).1) ∧
      T.LeftNeighbor t =
        (if (T.GetRowColumn t).2 = 0 then T.TileId (T.ncolumns_ - 1) (T.GetRowColumn t).1
         else T.TileId ((T.GetRowColumn t).2 - 1) (T.GetRowColumn t).1) ∧
      T.TopNeighbor t =
        (if (T.GetRowColumn t).1 = T.nrows_ - 1 then t
         else T.TileId (T.GetRowColumn t).2 ((T.GetRowColumn t).1 + 1)) ∧
      T.BottomNeighbor t =
        (if (T.GetRowColumn t).1 = 0 then t
         else T.TileId (T.GetRowColumn t).2 ((T.GetRowColumn t).1 - 1)) ∧
      (0 ≤ T.RightNeighbor t ∧ T.RightNeighbor t < T.TileCount) ∧
      (0 ≤ T.LeftNeighbor t ∧ T.LeftNeighbor t < T.TileCount) ∧
      (0 ≤ T.TopNeighbor t ∧ T.TopNeighbor t < T.TileCount) ∧
      (0 ≤ T.BottomNeighbor t ∧ T.BottomNeighbor t < T.TileCount) := by
  unfold Tiles.TileCount at ht ⊢
  obtain ⟨h1, h2, h3, h4, h5, h6, h7⟩ := row_col_bounds T.ncolumns_ T.nrows_ t hn h0 ht
  have hlast := row_last_iff T.ncolumns_ T.nrows_ t hn h0 ht
  have hzero := row_zero_iff T.ncolumns_ t hn h0
  have hr : 0 < T.nrows_ := by omega
  have hplus : (t / T.ncolumns_ + 1) * T.ncolumns_ = t / T.ncolumns_ * T.ncolumns_ + T.ncolumns_ := by
    ring
  have hminus : (t / T.ncolumns_ - 1) * T.ncolumns_ = t / T.ncolumns_ * T.ncolumns_ - T.ncolumns_ := by
    ring
  have hR : T.RightNeighbor t =
      (if t % T.ncolumns_ = T.ncolumns_ - 1 then T.TileId 0 (t / T.ncolumns_)
       else T.TileId (t % T.ncolumns_ + 1) (t / T.ncolumns_)) := by
    rw [RightNeighbor_eq T t h0 hn]
    unfold Tiles.TileId
    split_ifs <;> omega
  have hL : T.LeftNeighbor t =
      (if t % T.ncolumns_ = 0 then T.TileId (T.ncolumns_ - 1) (t / T.ncolumns_)
       else T.TileId (t % T.ncolumns_ - 1) (t / T.ncolumns_)) := by
    rw [LeftNeighbor_eq T t h0 hn]
    unfold Tiles.TileId
    split_ifs <;> omega
  have hT : T.TopNeighbor t =
      (if t / T.ncolumns_ = T.nrows_ - 1 then t
       else T.TileId (t % T.ncolumns_) (t / T.ncolumns_ + 1)) := by
    rw [TopNeighbor_eq T t hn hr hN]
    unfold Tiles.TileId
    split_ifs <;> omega
  have hB : T.BottomNeighbor t =
      (if t / T.ncolumns_ = 0 then t
       else T.TileId (t % T.ncolumns_) (t / T.ncolumns_ - 1)) := by
    unfold Tiles.BottomNeighbor Tiles.TileId
    split_ifs <;> omega
  rw [GetRowColumn_eq T t h0 hn]
  refine ⟨h1.trans (by unfold Tiles.TileId; rfl), ⟨h4, h5, h2, h3⟩, hR, hL, hT, hB, ?_, ?_, ?_, ?_⟩
  · rw [RightNeighbor_eq T t h0 hn]
    split_ifs <;> omega
  · rw [LeftNeighbor_eq T t h0 hn]
    split_ifs <;> omega
  · rw [TopNeighbor_eq T t hn hr hN]
    split_ifs <;> omega
  · unfold Tiles.BottomNeighbor
    split_ifs <;> omega

/-- C19 on the 90 by 45 tiling at the tile 179, the last of row 1: the right
neighbour wraps to the tile 90 and the four neighbours are in range. -/
theorem neighbors_spec_witness :
    tiling4.RightNeighbor 179 = 90 ∧ tiling4.LeftNeighbor 179 = 178 ∧
      tiling4.TopNeighbor 179 = 269 ∧ tiling4.BottomNeighbor 179 = 89 ∧
      (0 ≤ tiling4.RightNeighbor 179 ∧ tiling4.RightNeighbor 179 < tiling4.TileCount) ∧
      (0 ≤ tiling4.LeftNeighbor 179 ∧ tiling4.LeftNeighbor 179 < tiling4.TileCount) ∧
      (0 ≤ tiling4.TopNeighbor 179 ∧ tiling4.TopNeighbor 179 < tiling4.TileCount) ∧
      (0 ≤ tiling4.BottomNeighbor 179 ∧ tiling4.BottomNeighbor 179 < tiling4.TileCount) :=
  ⟨by decide, by decide, by decide, by decide,
    (neighbors_spec tiling4 179 (by decide) (by decide) (by decide) (by decide)).2.2.2.2.2.2⟩

/-! ## Lemmas: rows and columns of a point -/

theorem truncInt_of_nonneg (q : ℚ) (h : 0 ≤ q) : truncInt q = ⌊q⌋ := by
  unfold truncInt
  rw [if_pos h]

theorem Row_inside (T : BoundedTiles) (hts : 0 < T.tilesize_) (y : ℚ)
    (h1 : T.tilebounds_.miny ≤ y) (h2 : y ≤ T.tilebounds_.maxy) :
    T.Row y = if y = T.tilebounds_.maxy then T.nrows_ - 1
      else ⌊(y - T.tilebounds_.miny) / T.tilesize_⌋ := by
  unfold BoundedTiles.Row
  have hout : ¬ (y < T.tilebounds_.miny ∨ y > T.tilebounds_.maxy) := by
    rintro (h | h)
    · exact absurd h (not_lt.mpr h1)
    · exact absurd h (not_lt.mpr h2)
  rw [if_neg hout]
  by_cases hy : y = T.tilebounds_.maxy
  · rw [if_pos hy, if_pos hy]
  · rw [if_neg hy, if_neg hy]
    exact truncInt_of_nonneg _ (div_nonneg (sub_nonneg.mpr h1) (le_of_lt hts))

theorem Col_inside (T : BoundedTiles) (hts : 0 < T.tilesize_) (x : ℚ)
    (h1 : T.tilebounds_.minx ≤ x) (h2 : x ≤ T.tilebounds_.maxx) :
    T.Col x = if x = T.tilebounds_.maxx then T.ncolumns_ - 1
      else ⌊(x - T.tilebounds_.minx) / T.tilesize_⌋ := by
  unfold BoundedTiles.Col
  have hout : ¬ (x < T.tilebounds_.minx ∨ x > T.tilebounds_.maxx) := by
    rintro (h | h)
    · exact absurd h (not_lt.mpr h1)
    · exact absurd h (not_lt.mpr h2)
  rw [if_neg hout]
  by_cases hx : x = T.tilebounds_.maxx
  · rw [if_pos hx, if_pos hx]
  · rw [if_neg hx, if_neg hx]
    have hq : (x - T.tilebounds_.minx) / T.tilesize_ ≥ 0 :=
      div_nonneg (sub_nonneg.mpr h1) (le_of_lt hts)
    simp only [if_pos hq]
    exact truncInt_of_nonneg _ hq

theorem TileId_inside (T : BoundedTiles) (y x : ℚ)
    (h1 : T.tilebounds_.miny ≤ y) (h2 : y ≤ T.tilebounds_.maxy)
    (h3 : T.tilebounds_.minx ≤ x) (h4 : x ≤ T.tilebounds_.maxx) :
    T.TileId y x = T.Row y * T.ncolumns_ + T.Col x := by
  unfold BoundedTiles.TileId
  have hout : ¬ (y < T.tilebounds_.miny ∨ x < T.tilebounds_.minx ∨
      y > T.tilebounds_.maxy ∨ x > T.tilebounds_.maxx) := by
    rintro (h | h | h | h)
    · exact absurd h (not_lt.mpr h1)
    · exact absurd h (not_lt.mpr h3)
    · exact absurd h (not_lt.mpr h2)
    · exact absurd h (not_lt.mpr h4)
  rw [if_neg hout]

theorem TileId_outside (T : BoundedTiles) (y x : ℚ)
    (h : (y < T.tilebounds_.miny ∨ T.tilebounds_.maxy < y) ∨
      (x < T.tilebounds_.minx ∨ T.tilebounds_.maxx < x)) : T.TileId y x = -1 := by
  unfold BoundedTiles.TileId
  have hout : y < T.tilebounds_.miny ∨ x < T.tilebounds_.minx ∨
      y > T.tilebounds_.maxy ∨ x > T.tilebounds_.maxx := by
    rcases h with (h | h) | (h | h)
    · exact Or.inl h
    · exact Or.inr (Or.inr (Or.inl h))
    · exact Or.inr (Or.inl h)
    · exact Or.inr (Or.inr (Or.inr h))
  rw [if_pos hout]

/-! ## Lemmas: the centre of a tile -/

theorem construct_counts_pos (bounds : AABB2) (tilesize : ℚ) (hts : 0 < tilesize)
    (hx : bounds.minx < bounds.maxx) (hy : bounds.miny < bounds.maxy) :
    0 < (BoundedTiles.construct bounds tilesize).ncolumns_ ∧
      0 < (BoundedTiles.construct bounds tilesize).nrows_ := by
  constructor
  · exact Int.ceil_pos.mpr (div_pos (sub_pos.mpr hx) hts)
  · exact Int.ceil_pos.mpr (div_pos (sub_pos.mpr hy) hts)

theorem Base_eq (T : BoundedTiles) (t : Int) (h0 : 0 ≤ t) (hn : 0 < T.ncolumns_) :
    T.Base t = { x := T.tilebounds_.minx + ((t % T.ncolumns_ : Int) : ℚ) * T.tilesize_,
                 y := T.tilebounds_.miny + ((t / T.ncolumns_ : Int) : ℚ) * T.tilesize_ } := by
  unfold BoundedTiles.Base
  have hcol : t - t / T.ncolumns_ * T.ncolumns_ = t % T.ncolumns_ := by
    rw [Int.emod_def, Int.mul_comm]
  simp only [Int.tdiv_eq_ediv h0 (le_of_lt hn), hcol]

theorem half_quotient (m s : ℚ) (k : Int) (hs : 0 < s) :
    (m + (k : ℚ) * s + s * (1 / 2) - m) / s = (k : ℚ) + 1 / 2 := by
  field_simp
  ring

theorem floor_half (k : Int) : ⌊(k : ℚ) + 1 / 2⌋ = k := by
  rw [Int.floor_eq_iff]
  constructor <;> linarith

theorem ceil_half (k : Int) : ⌈(k : ℚ) + 1 / 2⌉ = k + 1 := by
  rw [Int.ceil_eq_iff]
  push_cast
  constructor <;> linarith

theorem Center_eq (T : BoundedTiles) (t : Int) (h0 : 0 ≤ t) (hn : 0 < T.ncolumns_) :
    (T.Center t).x =
        T.tilebounds_.minx + ((t % T.ncolumns_ : Int) : ℚ) * T.tilesize_ +
          T.tilesize_ * (1 / 2) ∧
      (T.Center t).y =
        T.tilebounds_.miny + ((t / T.ncolumns_ : Int) : ℚ) * T.tilesize_ +
          T.tilesize_ * (1 / 2) := by
  unfold BoundedTiles.Center
  rw [Base_eq T t h0 hn]
  exact ⟨rfl, rfl⟩

theorem TileId_Center_inside (bounds : AABB2) (tilesize : ℚ) (hts : 0 < tilesize)
    (hx : bounds.minx < bounds.maxx) (hy : bounds.miny < bounds.maxy) (t : Int) (h0 : 0 ≤ t)
    (ht : t < (BoundedTiles.construct bounds tilesize).TileCount)
    (hcx : ((BoundedTiles.construct bounds tilesize).Center t).x ≤ bounds.maxx)
    (hcy : ((BoundedTiles.construct bounds tilesize).Center t).y ≤ bounds.maxy) :
    (BoundedTiles.construct bounds tilesize).TileIdOf
      ((BoundedTiles.construct bounds tilesize).Center t) = t := by
  obtain ⟨hn, hm⟩ := construct_counts_pos bounds tilesize hts hx hy
  obtain ⟨ex, ey⟩ := Center_eq (BoundedTiles.construct bounds tilesize) t h0 hn
  generalize hT : BoundedTiles.construct bounds tilesize = T at *
  have hbounds : T.tilebounds_ = bounds := by rw [← hT]; rfl
  have hsize : T.tilesize_ = tilesize := by rw [← hT]; rfl
  have hcols : T.ncolumns_ = ⌈(bounds.maxx - bounds.minx) / tilesize⌉ := by rw [← hT]; rfl
  have hrows : T.nrows_ = ⌈(bounds.maxy - bounds.miny) / tilesize⌉ := by rw [← hT]; rfl
  unfold Tiles.TileCount at ht
  obtain ⟨h1, h2, h3, h4, h5, -, -⟩ := row_col_bounds T.ncolumns_ T.nrows_ t hn h0 ht
  rw [hbounds, hsize] at ex ey
  have hc0 : (0 : ℚ) ≤ ((t % T.ncolumns_ : Int) : ℚ) := by exact_mod_cast h2
  have hr0 : (0 : ℚ) ≤ ((t / T.ncolumns_ : Int) : ℚ) := by exact_mod_cast h4
  have hxlow : bounds.minx ≤ (T.Center t).x := by
    rw [ex]
    have := mul_nonneg hc0 (le_of_lt hts)
    linarith
  have hylow : bounds.miny ≤ (T.Center t).y := by
    rw [ey]
    have := mul_nonneg hr0 (le_of_lt hts)
    linarith
  have hts2 : 0 < T.tilesize_ := by rw [hsize]; exact hts
  unfold BoundedTiles.TileIdOf
  rw [TileId_inside T _ _ (by rw [hbounds]; exact hylow) (by rw [hbounds]; exact hcy)
    (by rw [hbounds]; exact hxlow) (by rw [hbounds]; exact hcx)]
  rw [Row_inside T hts2 _ (by rw [hbounds]; exact hylow) (by rw [hbounds]; exact hcy),
    Col_inside T hts2 _ (by rw [hbounds]; exact hxlow) (by rw [hbounds]; exact hcx)]
  rw [hbounds, hsize]
  have hrow : (if (T.Center t).y = bounds.maxy then T.nrows_ - 1
      else ⌊((T.Center t).y - bounds.miny) / tilesize⌋) = t / T.ncolumns_ := by
    have hq : ((T.Center t).y - bounds.miny) / tilesize =
        ((t / T.ncolumns_ : Int) : ℚ) + 1 / 2 := by
      rw [ey]
      exact half_quotient _ _ _ hts
    by_cases hy2 : (T.Center t).y = bounds.maxy
    · rw [if_pos hy2, hrows, ← hy2, hq, ceil_half]
      omega
    · rw [if_neg hy2, hq, floor_half]
  have hcol : (if (T.Center t).x = bounds.maxx then T.ncolumns_ - 1
      else ⌊((T.Center t).x - bounds.minx) / tilesize⌋) = t % T.ncolumns_ := by
    have hq : ((T.Center t).x - bounds.minx) / tilesize =
        ((t % T.ncolumns_ : Int) : ℚ) + 1 / 2 := by
      rw [ex]
      exact half_quotient _ _ _ hts
    by_cases hx2 : (T.Center t).x = bounds.maxx
    · have hceil : T.ncolumns_ = t % T.ncolumns_ + 1 := by
        rw [← ceil_half, ← hq, hx2]
        exact hcols
      rw [if_pos hx2]
      omega
    · rw [if_neg hx2, hq, floor_half]
  rw [hrow, hcol]
  exact h1.symm

theorem Center_inside_of_multiple (bounds : AABB2) (tilesize : ℚ) (hts : 0 < tilesize)
    (hx : bounds.minx < bounds.maxx) (hy : bounds.miny < bounds.maxy) (t : Int) (h0 : 0 ≤ t)
    (ht : t < (BoundedTiles.construct bounds tilesize).TileCount)
    (hw : ∃ k : Int, bounds.maxx - bounds.minx = k * tilesize)
    (hh : ∃ m : Int, bounds.maxy - bounds.miny = m * tilesize) :
    ((BoundedTiles.construct bounds tilesize).Center t).x ≤ bounds.maxx ∧
      ((BoundedTiles.construct bounds tilesize).Center t).y ≤ bounds.maxy := by
  obtain ⟨hn, hm⟩ := construct_counts_pos bounds tilesize hts hx hy
  obtain ⟨ex, ey⟩ := Center_eq (BoundedTiles.construct bounds tilesize) t h0 hn
  obtain ⟨k, hk⟩ := hw
  obtain ⟨m, hm2⟩ := hh
  generalize hT : BoundedTiles.construct bounds tilesize = T at *
  have hbounds : T.tilebounds_ = bounds := by rw [← hT]; rfl
  have hsize : T.tilesize_ = tilesize := by rw [← hT]; rfl
  have hne : tilesize ≠ 0 := ne_of_gt hts
  have hcols : T.ncolumns_ = k := by
    have : T.ncolumns_ = ⌈(bounds.maxx - bounds.minx) / tilesize⌉ := by rw [← hT]; rfl
    rw [this, hk, mul_div_assoc, div_self hne, mul_one, Int.ceil_intCast]
  have hrows : T.nrows_ = m := by
    have : T.nrows_ = ⌈(bounds.maxy - bounds.miny) / tilesize⌉ := by rw [← hT]; rfl
    rw [this, hm2, mul_div_assoc, div_self hne, mul_one, Int.ceil_intCast]
  unfold Tiles.TileCount at ht
  obtain ⟨-, -, h3, -, h5, -, -⟩ := row_col_bounds T.ncolumns_ T.nrows_ t hn h0 ht
  rw [hbounds, hsize] at ex ey
  have h3k : t % T.ncolumns_ + 1 ≤ k := by rw [← hcols]; omega
  have h5m : t / T.ncolumns_ + 1 ≤ m := by rw [← hrows]; omega
  have hc : ((t % T.ncolumns_ : Int) : ℚ) + 1 ≤ (k : ℚ) := by exact_mod_cast h3k
  have hr : ((t / T.ncolumns_ : Int) : ℚ) + 1 ≤ (m : ℚ) := by exact_mod_cast h5m
  have hc2 := mul_le_mul_of_nonneg_right hc (le_of_lt hts)
  have hr2 := mul_le_mul_of_nonneg_right hr (le_of_lt hts)
  constructor
  · rw [ex]
    linarith
  · rw [ey]
    linarith

/-! ## Lemmas: the loop of the tile list -/

theorem neighbors_range (T : Tiles) (t : Int) (hn : 0 < T.ncolumns_)
    (hN : T.ncolumns_ * T.nrows_ < 2147483648) (h0 : 0 ≤ t) (ht : t < T.TileCount) :
    ∀ nb ∈ neighborTiles T t, 0 ≤ nb ∧ nb < T.TileCount := by
  unfold Tiles.TileCount at ht ⊢
  obtain ⟨h1, h2, h3, h4, h5, h6, h7⟩ := row_col_bounds T.ncolumns_ T.nrows_ t hn h0 ht
  have hr : 0 < T.nrows_ := by omega
  intro nb hnb
  simp only [neighborTiles, List.mem_cons, List.mem_singleton, List.not_mem_nil, or_false] at hnb
  rcases hnb with h | h | h | h
  · rw [h, LeftNeighbor_eq T t h0 hn]
    split_ifs <;> omega
  · rw [h, RightNeighbor_eq T t h0 hn]
    split_ifs <;> omega
  · rw [h, TopNeighbor_eq T t hn hr hN]
    split_ifs <;> omega
  · rw [h]
    unfold Tiles.BottomNeighbor
    split_ifs <;> omega

theorem length_le_of_nodup_range (V : List Int) (N : Int) (hV : V.Nodup)
    (hR : ∀ t ∈ V, 0 ≤ t ∧ t < N) : V.length ≤ N.toNat := by
  have hsub : V.toFinset ⊆ Finset.Ico 0 N := by
    intro t ht
    rw [List.mem_toFinset] at ht
    rw [Finset.mem_Ico]
    exact hR t ht
  have hcard := Finset.card_le_card hsub
  rw [List.toFinset_card_of_nodup hV, Int.card_Ico] at hcard
  simpa using hcard

theorem checkNeighbor_inv (T : BoundedTiles) (boundingbox : AABB2) (tilelist : List Int)
    (neighbor : Int) (hnb : 0 ≤ neighbor ∧ neighbor < T.TileCount) (st : List Int × List Int)
    (hinv : TileListInv T boundingbox tilelist st.1 st.2) :
    TileListInv T boundingbox tilelist (checkNeighbor T boundingbox neighbor st).1
        (checkNeighbor T boundingbox neighbor st).2 ∧
      (∀ t ∈ st.2, t ∈ (checkNeighbor T boundingbox neighbor st).2) ∧
      (boundingbox.Intersects (T.TileBounds neighbor) = true →
        neighbor ∈ (checkNeighbor T boundingbox neighbor st).2) := by
  unfold checkNeighbor
  by_cases hc : neighbor ∉ st.2 ∧ boundingbox.Intersects (T.TileBounds neighbor) = true
  · rw [if_pos hc]
    refine ⟨⟨?_, ?_, ?_, ?_⟩, fun t ht => List.mem_cons_of_mem _ ht,
      fun _ => List.mem_cons_self _ _⟩
    · exact List.nodup_cons.mpr ⟨hc.1, hinv.nodup⟩
    · intro t ht
      rcases List.mem_cons.mp ht with h | h
      · rw [h]
        exact hnb
      · exact hinv.range t h
    · intro t ht
      rcases List.mem_cons.mp ht with h | h
      · rw [h]
        exact hc.2
      · exact hinv.inView t h
    · simp only [List.reverse_cons]
      rw [← List.append_assoc, hinv.order]
  · rw [if_neg hc]
    refine ⟨hinv, fun t ht => ht, fun hgood => ?_⟩
    by_contra hmem
    exact hc ⟨hmem, hgood⟩

theorem tileListLoop_done (T : BoundedTiles) (boundingbox : AABB2) (V L : List Int)
    (hinv : TileListInv T boundingbox L [] V)
    (hcl : ∀ t ∈ L, ∀ nb ∈ neighborTiles T.toTiles t,
      boundingbox.Intersects (T.TileBounds nb) = true → nb ∈ V) :
    L.Nodup ∧
      (∀ t ∈ L, 0 ≤ t ∧ t < T.TileCount ∧ boundingbox.Intersects (T.TileBounds t) = true) ∧
      (∀ t ∈ V, t ∈ L) ∧
      (∀ t ∈ L, ∀ nb ∈ neighborTiles T.toTiles t,
        boundingbox.Intersects (T.TileBounds nb) = true → nb ∈ L) := by
  have hL : L = V.reverse := by
    have := hinv.order
    rwa [List.append_nil] at this
  have hmem : ∀ t, t ∈ L ↔ t ∈ V := by
    intro t
    rw [hL, List.mem_reverse]
  refine ⟨?_, ?_, fun t ht => (hmem t).2 ht, fun t ht nb hnb hgood => ?_⟩
  · rw [hL]
    exact List.nodup_reverse.mpr hinv.nodup
  · intro t ht
    have hv := (hmem t).1 ht
    exact ⟨(hinv.range t hv).1, (hinv.range t hv).2, hinv.inView t hv⟩
  · exact (hmem nb).2 (hcl t ht nb hnb hgood)

theorem tileListLoop_spec (T : BoundedTiles) (boundingbox : AABB2) (hn : 0 < T.ncolumns_)
    (hN : T.ncolumns_ * T.nrows_ < 2147483648) (fuel : Nat) :
    ∀ (C V L : List Int), TileListInv T boundingbox L C V →
      (∀ t ∈ L, ∀ nb ∈ neighborTiles T.toTiles t,
        boundingbox.Intersects (T.TileBounds nb) = true → nb ∈ V) →
      T.TileCount.toNat ≤ fuel + L.length →
      ∃ out, tileListLoop T boundingbox fuel C V L = some out ∧ out.Nodup ∧
        (∀ t ∈ out, 0 ≤ t ∧ t < T.TileCount ∧
          boundingbox.Intersects (T.TileBounds t) = true) ∧
        (∀ t ∈ V, t ∈ out) ∧
        (∀ t ∈ out, ∀ nb ∈ neighborTiles T.toTiles t,
          boundingbox.Intersects (T.TileBounds nb) = true → nb ∈ out) := by
  induction fuel with
  | zero =>
    intro C V L hinv hcl hf
    cases C with
    | nil => exact ⟨L, by rw [tileListLoop], tileListLoop_done T boundingbox V L hinv hcl⟩
    | cons t rest =>
      exfalso
      have hlen := congrArg List.length hinv.order
      simp only [List.length_append, List.length_cons, List.length_reverse] at hlen
      have := length_le_of_nodup_range V T.TileCount hinv.nodup hinv.range
      omega
  | succ fuel ih =>
    intro C V L hinv hcl hf
    cases C with
    | nil => exact ⟨L, by rw [tileListLoop], tileListLoop_done T boundingbox V L hinv hcl⟩
    | cons t rest =>
      have htV : t ∈ V := by
        rw [← List.mem_reverse, ← hinv.order]
        simp
      have htr := hinv.range t htV
      have hnbrs := neighbors_range T.toTiles t hn hN htr.1 htr.2
      have hinv0 : TileListInv T boundingbox (L ++ [t]) rest V :=
        ⟨hinv.nodup, hinv.range, hinv.inView, by
          rw [List.append_assoc, List.singleton_append]
          exact hinv.order⟩
      obtain ⟨i1, s1, g1⟩ := checkNeighbor_inv T boundingbox (L ++ [t])
        (T.LeftNeighbor t) (hnbrs _ (by simp [neighborTiles])) (rest, V) hinv0
      obtain ⟨i2, s2, g2⟩ := checkNeighbor_inv T boundingbox (L ++ [t])
        (T.RightNeighbor t) (hnbrs _ (by simp [neighborTiles])) _ i1
      obtain ⟨i3, s3, g3⟩ := checkNeighbor_inv T boundingbox (L ++ [t])
        (T.TopNeighbor t) (hnbrs _ (by simp [neighborTiles])) _ i2
      obtain ⟨i4, s4, g4⟩ := checkNeighbor_inv T boundingbox (L ++ [t])
        (T.BottomNeighbor t) (hnbrs _ (by simp [neighborTiles])) _ i3
      have hsub : ∀ x ∈ V, x ∈ (checkNeighbor T boundingbox (T.BottomNeighbor t)
          (checkNeighbor T boundingbox (T.TopNeighbor t)
            (checkNeighbor T boundingbox (T.RightNeighbor t)
              (checkNeighbor T boundingbox (T.LeftNeighbor t) (rest, V))))).2 :=
        fun x hx => s4 x (s3 x (s2 x (s1 x hx)))
      obtain ⟨out, hout, h1, h2, h3, h4⟩ := ih _ _ (L ++ [t]) i4 (by
        intro x hx nb hnb hgood
        rcases List.mem_append.mp hx with hxl | hxt
        · exact hsub nb (hcl x hxl nb hnb hgood)
        · rw [List.mem_singleton] at hxt
          subst hxt
          simp only [neighborTiles, List.mem_cons, List.mem_singleton, List.not_mem_nil,
            or_false] at hnb
          rcases hnb with h | h | h | h
          · rw [h] at hgood ⊢
            exact s4 _ (s3 _ (s2 _ (g1 hgood)))
          · rw [h] at hgood ⊢
            exact s4 _ (s3 _ (g2 hgood))
          · rw [h] at hgood ⊢
            exact s4 _ (g3 hgood)
          · rw [h] at hgood ⊢
            exact g4 hgood) (by
        rw [List.length_append, List.length_singleton]
        omega)
      refine ⟨out, ?_, h1, h2, fun x hx => h3 x (hsub x hx), h4⟩
      rw [tileListLoop]
      exact hout


/-! ## Lemmas: the tiles in view of a box -/

theorem tile_row_col (n r c : Int) (hn : 0 < n) (hr : 0 ≤ r) (hc0 : 0 ≤ c) (hc : c < n) :
    0 ≤ r * n + c ∧ (r * n + c) % n = c ∧ (r * n + c) / n = r := by
  have h1 : 0 ≤ r * n := mul_nonneg hr (le_of_lt hn)
  refine ⟨by omega, ?_, ?_⟩
  · rw [Int.add_comm]
    exact emod_decomp c r n hc0 hc
  · rw [Int.add_comm, Int.add_mul_ediv_right _ _ (ne_of_gt hn), Int.ediv_eq_zero_of_lt hc0 hc,
      Int.zero_add]

theorem Intersects_iff (T : BoundedTiles) (boundingbox : AABB2) (hn : 0 < T.ncolumns_)
    (r c : Int) (hr : 0 ≤ r) (hc0 : 0 ≤ c) (hc : c < T.ncolumns_) :
    boundingbox.Intersects (T.TileBounds (r * T.ncolumns_ + c)) = true ↔
      colInView T boundingbox c ∧ rowInView T boundingbox r := by
  obtain ⟨h0, hmod, hdiv⟩ := tile_row_col T.ncolumns_ r c hn hr hc0 hc
  unfold AABB2.Intersects BoundedTiles.TileBounds colInView rowInView
  rw [Base_eq T _ h0 hn, hmod, hdiv]
  simp only
  constructor
  · intro h
    by_contra hne
    have hcond : boundingbox.minx > T.tilebounds_.minx + (c : ℚ) * T.tilesize_ + T.tilesize_ ∨
        boundingbox.maxx < T.tilebounds_.minx + (c : ℚ) * T.tilesize_ ∨
        boundingbox.miny > T.tilebounds_.miny + (r : ℚ) * T.tilesize_ + T.tilesize_ ∨
        boundingbox.maxy < T.tilebounds_.miny + (r : ℚ) * T.tilesize_ := by
      by_contra hall
      push_neg at hall
      exact hne ⟨⟨hall.1, hall.2.1⟩, ⟨hall.2.2.1, hall.2.2.2⟩⟩
    rw [if_pos hcond] at h
    exact Bool.false_ne_true h
  · rintro ⟨⟨a1, a2⟩, ⟨b1, b2⟩⟩
    have hcond : ¬ (boundingbox.minx > T.tilebounds_.minx + (c : ℚ) * T.tilesize_ + T.tilesize_ ∨
        boundingbox.maxx < T.tilebounds_.minx + (c : ℚ) * T.tilesize_ ∨
        boundingbox.miny > T.tilebounds_.miny + (r : ℚ) * T.tilesize_ + T.tilesize_ ∨
        boundingbox.maxy < T.tilebounds_.miny + (r : ℚ) * T.tilesize_) := by
      rintro (h | h | h | h)
      · exact absurd a1 (not_le.mpr h)
      · exact absurd a2 (not_le.mpr h)
      · exact absurd b1 (not_le.mpr h)
      · exact absurd b2 (not_le.mpr h)
    rw [if_neg hcond]

theorem colInView_between (T : BoundedTiles) (boundingbox : AABB2) (hts : 0 < T.tilesize_)
    (a b c : Int) (ha : colInView T boundingbox a) (hb : colInView T boundingbox b)
    (h1 : a ≤ c) (h2 : c ≤ b) : colInView T boundingbox c := by
  unfold colInView at *
  have e1 : (a : ℚ) ≤ c := by exact_mod_cast h1
  have e2 : (c : ℚ) ≤ b := by exact_mod_cast h2
  have m1 := mul_le_mul_of_nonneg_right e1 (le_of_lt hts)
  have m2 := mul_le_mul_of_nonneg_right e2 (le_of_lt hts)
  constructor
  · linarith [ha.1]
  · linarith [hb.2]

theorem rowInView_between (T : BoundedTiles) (boundingbox : AABB2) (hts : 0 < T.tilesize_)
    (a b r : Int) (ha : rowInView T boundingbox a) (hb : rowInView T boundingbox b)
    (h1 : a ≤ r) (h2 : r ≤ b) : rowInView T boundingbox r := by
  unfold rowInView at *
  have e1 : (a : ℚ) ≤ r := by exact_mod_cast h1
  have e2 : (r : ℚ) ≤ b := by exact_mod_cast h2
  have m1 := mul_le_mul_of_nonneg_right e1 (le_of_lt hts)
  have m2 := mul_le_mul_of_nonneg_right e2 (le_of_lt hts)
  constructor
  · linarith [ha.1]
  · linarith [hb.2]


/-! ## Lemmas: walking along a row and a column -/

theorem walk_right (T : Tiles) (S good : Int → Prop) (hn : 0 < T.ncolumns_)
    (hcl : ∀ t, S t → good (T.RightNeighbor t) → S (T.RightNeighbor t))
    (r c : Int) (hr : 0 ≤ r) (hc : 0 ≤ c) (hS : S (r * T.ncolumns_ + c)) :
    ∀ k : Nat, c + k < T.ncolumns_ →
      (∀ j : Nat, j ≤ k → good (r * T.ncolumns_ + (c + j))) →
      S (r * T.ncolumns_ + (c + k)) := by
  intro k
  induction k with
  | zero =>
    intro _ _
    simpa using hS
  | succ k ih =>
    intro hk hgood
    have hprev := ih (by push_cast at hk; omega) (fun j hj => hgood j (by omega))
    push_cast at hk
    obtain ⟨h0, hmod, -⟩ := tile_row_col T.ncolumns_ r (c + k) hn hr (by omega) (by omega)
    have hnext : T.RightNeighbor (r * T.ncolumns_ + (c + k)) =
        r * T.ncolumns_ + (c + ((k + 1 : Nat) : Int)) := by
      rw [RightNeighbor_eq T _ h0 hn, hmod, if_pos (by omega)]
      push_cast
      ring
    rw [← hnext]
    apply hcl _ hprev
    rw [hnext]
    exact hgood (k + 1) (le_refl _)

theorem walk_left (T : Tiles) (S good : Int → Prop) (hn : 0 < T.ncolumns_)
    (hcl : ∀ t, S t → good (T.LeftNeighbor t) → S (T.LeftNeighbor t))
    (r c : Int) (hr : 0 ≤ r) (hc : c < T.ncolumns_) (hS : S (r * T.ncolumns_ + c)) :
    ∀ k : Nat, (k : Int) ≤ c →
      (∀ j : Nat, j ≤ k → good (r * T.ncolumns_ + (c - j))) →
      S (r * T.ncolumns_ + (c - k)) := by
  intro k
  induction k with
  | zero =>
    intro _ _
    simpa using hS
  | succ k ih =>
    intro hk hgood
    push_cast at hk
    have hprev := ih (by omega) (fun j hj => hgood j (by omega))
    obtain ⟨h0, hmod, -⟩ := tile_row_col T.ncolumns_ r (c - k) hn hr (by omega) (by omega)
    have hnext : T.LeftNeighbor (r * T.ncolumns_ + (c - k)) =
        r * T.ncolumns_ + (c - ((k + 1 : Nat) : Int)) := by
      rw [LeftNeighbor_eq T _ h0 hn, hmod, if_pos (by omega)]
      push_cast
      ring
    rw [← hnext]
    apply hcl _ hprev
    rw [hnext]
    exact hgood (k + 1) (le_refl _)

theorem walk_up (T : Tiles) (S good : Int → Prop) (hn : 0 < T.ncolumns_)
    (hN : T.ncolumns_ * T.nrows_ < 2147483648)
    (hcl : ∀ t, S t → good (T.TopNeighbor t) → S (T.TopNeighbor t))
    (r c : Int) (hr : 0 ≤ r) (hc : c < T.ncolumns_)
    (hS : S (r * T.ncolumns_ + c)) :
    ∀ k : Nat, r + k < T.nrows_ →
      (∀ j : Nat, j ≤ k → good ((r + j) * T.ncolumns_ + c)) →
      S ((r + k) * T.ncolumns_ + c) := by
  intro k
  induction k with
  | zero =>
    intro _ _
    simpa using hS
  | succ k ih =>
    intro hk hgood
    push_cast at hk
    have hprev := ih (by omega) (fun j hj => hgood j (by omega))
    have hrows : 0 < T.nrows_ := by omega
    have hle : (r + k + 2) * T.ncolumns_ ≤ T.nrows_ * T.ncolumns_ :=
      Int.mul_le_mul_of_nonneg_right (by omega) (le_of_lt hn)
    have e1 : (r + k + 2) * T.ncolumns_ = (r + k) * T.ncolumns_ + 2 * T.ncolumns_ := by ring
    have e2 : T.nrows_ * T.ncolumns_ = T.ncolumns_ * T.nrows_ := Int.mul_comm _ _
    have hnext : T.TopNeighbor ((r + k) * T.ncolumns_ + c) =
        (r + ((k + 1 : Nat) : Int)) * T.ncolumns_ + c := by
      rw [TopNeighbor_eq T _ hn hrows hN, if_pos (by omega)]
      push_cast
      ring
    rw [← hnext]
    apply hcl _ hprev
    rw [hnext]
    exact hgood (k + 1) (le_refl _)

theorem walk_down (T : Tiles) (S good : Int → Prop) (hn : 0 < T.ncolumns_)
    (hcl : ∀ t, S t → good (T.BottomNeighbor t) → S (T.BottomNeighbor t))
    (r c : Int) (hc0 : 0 ≤ c) (hS : S (r * T.ncolumns_ + c)) :
    ∀ k : Nat, (k : Int) ≤ r →
      (∀ j : Nat, j ≤ k → good ((r - j) * T.ncolumns_ + c)) →
      S ((r - k) * T.ncolumns_ + c) := by
  intro k
  induction k with
  | zero =>
    intro _ _
    simpa using hS
  | succ k ih =>
    intro hk hgood
    push_cast at hk
    have hprev := ih (by omega) (fun j hj => hgood j (by omega))
    have hle : 1 * T.ncolumns_ ≤ (r - k) * T.ncolumns_ :=
      Int.mul_le_mul_of_nonneg_right (by omega) (le_of_lt hn)
    have hnext : T.BottomNeighbor ((r - k) * T.ncolumns_ + c) =
        (r - ((k + 1 : Nat) : Int)) * T.ncolumns_ + c := by
      unfold Tiles.BottomNeighbor
      rw [if_neg (by omega)]
      push_cast
      ring
    rw [← hnext]
    apply hcl _ hprev
    rw [hnext]
    exact hgood (k + 1) (le_refl _)


theorem reach_in_view (T : BoundedTiles) (boundingbox : AABB2) (hts : 0 < T.tilesize_)
    (hn : 0 < T.ncolumns_) (hN : T.ncolumns_ * T.nrows_ < 2147483648) (S : Int → Prop)
    (hcl : ∀ t, S t → ∀ nb ∈ neighborTiles T.toTiles t,
      boundingbox.Intersects (T.TileBounds nb) = true → S nb)
    (r0 c0 r1 c1 : Int) (hr0 : 0 ≤ r0 ∧ r0 < T.nrows_) (hc0 : 0 ≤ c0 ∧ c0 < T.ncolumns_)
    (hr1 : 0 ≤ r1 ∧ r1 < T.nrows_) (hc1 : 0 ≤ c1 ∧ c1 < T.ncolumns_)
    (hstart : S (r0 * T.ncolumns_ + c0))
    (v0 : colInView T boundingbox c0) (w0 : rowInView T boundingbox r0)
    (v1 : colInView T boundingbox c1) (w1 : rowInView T boundingbox r1) :
    S (r1 * T.ncolumns_ + c1) := by
  have hrow : S (r0 * T.ncolumns_ + c1) := by
    by_cases hle : c0 ≤ c1
    · have hk : c0 + (((c1 - c0).toNat : Nat) : Int) = c1 := by
        rw [Int.toNat_of_nonneg (by omega)]
        omega
      have := walk_right T.toTiles S (fun t => boundingbox.Intersects (T.TileBounds t) = true)
        hn (fun t ht hg => hcl t ht _ (by simp [neighborTiles]) hg) r0 c0 hr0.1 hc0.1 hstart
        (c1 - c0).toNat (by omega) (fun j hj => by
          have hj2 : (j : Int) ≤ ((c1 - c0).toNat : Int) := by exact_mod_cast hj
          exact (Intersects_iff T boundingbox hn r0 (c0 + j) hr0.1 (by omega) (by omega)).2
            ⟨colInView_between T boundingbox hts c0 c1 _ v0 v1 (by omega) (by omega), w0⟩)
      rwa [hk] at this
    · have hk : c0 - (((c0 - c1).toNat : Nat) : Int) = c1 := by
        rw [Int.toNat_of_nonneg (by omega)]
        omega
      have := walk_left T.toTiles S (fun t => boundingbox.Intersects (T.TileBounds t) = true)
        hn (fun t ht hg => hcl t ht _ (by simp [neighborTiles]) hg) r0 c0 hr0.1 hc0.2 hstart
        (c0 - c1).toNat (by omega) (fun j hj => by
          have hj2 : (j : Int) ≤ ((c0 - c1).toNat : Int) := by exact_mod_cast hj
          exact (Intersects_iff T boundingbox hn r0 (c0 - j) hr0.1 (by omega) (by omega)).2
            ⟨colInView_between T boundingbox hts c1 c0 _ v1 v0 (by omega) (by omega), w0⟩)
      rwa [hk] at this
  by_cases hle : r0 ≤ r1
  · have hk : r0 + (((r1 - r0).toNat : Nat) : Int) = r1 := by
      rw [Int.toNat_of_nonneg (by omega)]
      omega
    have := walk_up T.toTiles S (fun t => boundingbox.Intersects (T.TileBounds t) = true)
      hn hN (fun t ht hg => hcl t ht _ (by simp [neighborTiles]) hg) r0 c1 hr0.1 hc1.2 hrow
      (r1 - r0).toNat (by omega) (fun j hj => by
        have hj2 : (j : Int) ≤ ((r1 - r0).toNat : Int) := by exact_mod_cast hj
        exact (Intersects_iff T boundingbox hn (r0 + j) c1 (by omega) hc1.1 hc1.2).2
          ⟨v1, rowInView_between T boundingbox hts r0 r1 _ w0 w1 (by omega) (by omega)⟩)
    rwa [hk] at this
  · have hk : r0 - (((r0 - r1).toNat : Nat) : Int) = r1 := by
      rw [Int.toNat_of_nonneg (by omega)]
      omega
    have := walk_down T.toTiles S (fun t => boundingbox.Intersects (T.TileBounds t) = true)
      hn (fun t ht hg => hcl t ht _ (by simp [neighborTiles]) hg) r0 c1 hc1.1 hrow
      (r0 - r1).toNat (by omega) (fun j hj => by
        have hj2 : (j : Int) ≤ ((r0 - r1).toNat : Int) := by exact_mod_cast hj
        exact (Intersects_iff T boundingbox hn (r0 - j) c1 (by omega) hc1.1 hc1.2).2
          ⟨v1, rowInView_between T boundingbox hts r1 r0 _ w1 w0 (by omega) (by omega)⟩)
    rwa [hk] at this


/-! ## Lemmas: the tile of a point within the bounds -/

theorem cell_of_coord (lo hi s x : ℚ) (hs : 0 < s) (hlohi : lo < hi) (h1 : lo ≤ x)
    (h2 : x ≤ hi) (k : Int)
    (hk : k = if x = hi then ⌈(hi - lo) / s⌉ - 1 else ⌊(x - lo) / s⌋) :
    0 ≤ k ∧ k < ⌈(hi - lo) / s⌉ ∧ lo + (k : ℚ) * s ≤ x ∧ x ≤ lo + (k : ℚ) * s + s := by
  have hpos : 0 < ⌈(hi - lo) / s⌉ := Int.ceil_pos.mpr (div_pos (sub_pos.mpr hlohi) hs)
  have hceil1 : (hi - lo) / s ≤ (⌈(hi - lo) / s⌉ : ℚ) := Int.le_ceil _
  have hceil2 : (⌈(hi - lo) / s⌉ : ℚ) < (hi - lo) / s + 1 := Int.ceil_lt_add_one _
  have hw1 : hi - lo ≤ (⌈(hi - lo) / s⌉ : ℚ) * s := (div_le_iff₀ hs).mp hceil1
  have hw2 : ((⌈(hi - lo) / s⌉ : ℚ) - 1) * s < hi - lo :=
    (lt_div_iff₀ hs).mp (by linarith)
  by_cases hx : x = hi
  · rw [if_pos hx] at hk
    subst hk
    refine ⟨by omega, by omega, ?_, ?_⟩
    · push_cast
      linarith
    · push_cast
      linarith
  · rw [if_neg hx] at hk
    subst hk
    have hq0 : 0 ≤ (x - lo) / s := div_nonneg (sub_nonneg.mpr h1) (le_of_lt hs)
    have hf1 : (⌊(x - lo) / s⌋ : ℚ) ≤ (x - lo) / s := Int.floor_le _
    have hf2 : (x - lo) / s < (⌊(x - lo) / s⌋ : ℚ) + 1 := Int.lt_floor_add_one _
    have hlt : x < hi := lt_of_le_of_ne h2 hx
    have hqlt : (x - lo) / s < (hi - lo) / s := div_lt_div_of_pos_right (by linarith) hs
    refine ⟨Int.floor_nonneg.mpr hq0, ?_, ?_, ?_⟩
    · rw [Int.floor_lt]
      linarith
    · have := (le_div_iff₀ hs).mp hf1
      linarith
    · have := (div_lt_iff₀ hs).mp hf2
      linarith


theorem center_tile (bounds : AABB2) (tilesize : ℚ) (hts : 0 < tilesize)
    (hx : bounds.minx < bounds.maxx) (hy : bounds.miny < bounds.maxy) (p : Point2)
    (hpx : bounds.minx ≤ p.x ∧ p.x ≤ bounds.maxx)
    (hpy : bounds.miny ≤ p.y ∧ p.y ≤ bounds.maxy) :
    ∃ r c : Int, (BoundedTiles.construct bounds tilesize).TileIdOf p =
        r * (BoundedTiles.construct bounds tilesize).ncolumns_ + c ∧
      (0 ≤ r ∧ r < (BoundedTiles.construct bounds tilesize).nrows_) ∧
      (0 ≤ c ∧ c < (BoundedTiles.construct bounds tilesize).ncolumns_) ∧
      (bounds.minx + (c : ℚ) * tilesize ≤ p.x ∧ p.x ≤ bounds.minx + (c : ℚ) * tilesize + tilesize) ∧
      (bounds.miny + (r : ℚ) * tilesize ≤ p.y ∧ p.y ≤ bounds.miny + (r : ℚ) * tilesize + tilesize) := by
  have hT : 0 < (BoundedTiles.construct bounds tilesize).tilesize_ := hts
  have hid := TileId_inside (BoundedTiles.construct bounds tilesize) p.y p.x hpy.1 hpy.2
    hpx.1 hpx.2
  have hrow := Row_inside (BoundedTiles.construct bounds tilesize) hT p.y hpy.1 hpy.2
  have hcol := Col_inside (BoundedTiles.construct bounds tilesize) hT p.x hpx.1 hpx.2
  obtain ⟨a1, a2, a3, a4⟩ := cell_of_coord bounds.miny bounds.maxy tilesize p.y hts hy
    hpy.1 hpy.2 _ hrow
  obtain ⟨b1, b2, b3, b4⟩ := cell_of_coord bounds.minx bounds.maxx tilesize p.x hts hx
    hpx.1 hpx.2 _ hcol
  exact ⟨_, _, hid, ⟨a1, a2⟩, ⟨b1, b2⟩, ⟨b3, b4⟩, ⟨a3, a4⟩⟩

theorem TileList_result (bounds : AABB2) (tilesize : ℚ) (hts : 0 < tilesize)
    (hx : bounds.minx < bounds.maxx) (hy : bounds.miny < bounds.maxy)
    (hN : (BoundedTiles.construct bounds tilesize).TileCount < 2147483648)
    (boundingbox : AABB2) (hbx : boundingbox.minx ≤ boundingbox.maxx)
    (hby : boundingbox.miny ≤ boundingbox.maxy)
    (hcx : bounds.minx ≤ boundingbox.Center.x ∧ boundingbox.Center.x ≤ bounds.maxx)
    (hcy : bounds.miny ≤ boundingbox.Center.y ∧ boundingbox.Center.y ≤ bounds.maxy) :
    ∃ out, (BoundedTiles.construct bounds tilesize).TileList boundingbox = some out ∧
      out.Nodup ∧
      ∀ t, t ∈ out ↔
        (0 ≤ t ∧ t < (BoundedTiles.construct bounds tilesize).TileCount ∧
          boundingbox.Intersects ((BoundedTiles.construct bounds tilesize).TileBounds t) =
            true) := by
  obtain ⟨hn, hm⟩ := construct_counts_pos bounds tilesize hts hx hy
  obtain ⟨r0, c0, hid, hr0, hc0, hxs, hys⟩ := center_tile bounds tilesize hts hx hy
    boundingbox.Center hcx hcy
  have hbounds : (BoundedTiles.construct bounds tilesize).tilebounds_ = bounds := rfl
  have hsize : (BoundedTiles.construct bounds tilesize).tilesize_ = tilesize := rfl
  generalize BoundedTiles.construct bounds tilesize = T at *
  unfold Tiles.TileCount at hN
  have hcxv : boundingbox.Center.x = (boundingbox.minx + boundingbox.maxx) * (1 / 2) := rfl
  have hcyv : boundingbox.Center.y = (boundingbox.miny + boundingbox.maxy) * (1 / 2) := rfl
  have v0 : colInView T boundingbox c0 := by
    unfold colInView
    rw [hbounds, hsize]
    constructor <;> linarith [hxs.1, hxs.2]
  have w0 : rowInView T boundingbox r0 := by
    unfold rowInView
    rw [hbounds, hsize]
    constructor <;> linarith [hys.1, hys.2]
  have hts2 : 0 < T.tilesize_ := by rw [hsize]; exact hts
  have hgood0 := (Intersects_iff T boundingbox hn r0 c0 hr0.1 hc0.1 hc0.2).2 ⟨v0, w0⟩
  have hstart0 : 0 ≤ r0 * T.ncolumns_ + c0 := by
    have := mul_nonneg hr0.1 (le_of_lt hn)
    omega
  have hstartN : r0 * T.ncolumns_ + c0 < T.TileCount := by
    unfold Tiles.TileCount
    have h1 : (r0 + 1) * T.ncolumns_ ≤ T.nrows_ * T.ncolumns_ :=
      Int.mul_le_mul_of_nonneg_right (by omega) (le_of_lt hn)
    have h2 : (r0 + 1) * T.ncolumns_ = r0 * T.ncolumns_ + T.ncolumns_ := by ring
    have h3 : T.nrows_ * T.ncolumns_ = T.ncolumns_ * T.nrows_ := Int.mul_comm _ _
    omega
  obtain ⟨out, hout, h1, h2, h3, h4⟩ := tileListLoop_spec T boundingbox hn hN
    T.TileCount.toNat [r0 * T.ncolumns_ + c0] [r0 * T.ncolumns_ + c0] []
    ⟨List.nodup_singleton _,
      fun t ht => by
        rw [List.mem_singleton] at ht
        rw [ht]
        exact ⟨hstart0, hstartN⟩,
      fun t ht => by
        rw [List.mem_singleton] at ht
        rw [ht]
        exact hgood0,
      rfl⟩
    (fun t ht => absurd ht (List.not_mem_nil t)) (by simp)
  refine ⟨out, ?_, h1, fun t => ⟨fun ht => h2 t ht, fun ht => ?_⟩⟩
  · unfold BoundedTiles.TileList
    simp only
    rw [hid, if_neg (by omega)]
    exact hout
  · obtain ⟨ht0, htN, htg⟩ := ht
    unfold Tiles.TileCount at htN
    obtain ⟨e1, e2, e3, e4, e5, -, -⟩ := row_col_bounds T.ncolumns_ T.nrows_ t hn ht0 htN
    rw [e1] at htg ⊢
    obtain ⟨v1, w1⟩ := (Intersects_iff T boundingbox hn _ _ e4 e2 e3).1 htg
    exact reach_in_view T boundingbox hts2 hn hN (fun t => t ∈ out) h4 r0 c0 _ _ hr0 hc0
      ⟨e4, e5⟩ ⟨e2, e3⟩ (h3 _ (List.mem_singleton_self _)) v0 w0 v1 w1

/-! ## Lemmas: float arithmetic on the binary grid -/

theorem floor_ceil_stable (a b : Int) (q : ℚ) (hb : 0 < b) (ha24 : a < 16777216)
    (hexact : b ∣ a → q = (a : ℚ) / b)
    (hnear : |q - (a : ℚ) / b| ≤ (a : ℚ) / b / 16777216) :
    ⌊q⌋ = ⌊(a : ℚ) / b⌋ ∧ ⌈q⌉ = ⌈(a : ℚ) / b⌉ := by
  by_cases hd : b ∣ a
  · rw [hexact hd]
    exact ⟨rfl, rfl⟩
  · have hbq : (0 : ℚ) < b := by exact_mod_cast hb
    have hr0 : 0 < a % b := by
      have := Int.emod_nonneg a (ne_of_gt hb)
      have hne : a % b ≠ 0 := fun h => hd (Int.dvd_of_emod_eq_zero h)
      omega
    have hrb : a % b < b := Int.emod_lt_of_pos a hb
    have hsplit : (a : ℚ) / b = ((a / b : Int) : ℚ) + ((a % b : Int) : ℚ) / b := by
      have h := Int.ediv_add_emod a b
      have h2 : (a : ℚ) = (b : ℚ) * ((a / b : Int) : ℚ) + ((a % b : Int) : ℚ) := by
        exact_mod_cast h.symm
      field_simp
      linarith
    have hlo : ((a / b : Int) : ℚ) + 1 / b ≤ (a : ℚ) / b := by
      rw [hsplit]
      have : (1 : ℚ) ≤ ((a % b : Int) : ℚ) := by exact_mod_cast hr0
      have : (1 : ℚ) / b ≤ ((a % b : Int) : ℚ) / b := by gcongr
      linarith
    have hhi : (a : ℚ) / b ≤ ((a / b : Int) : ℚ) + 1 - 1 / b := by
      rw [hsplit]
      have h1 : ((a % b : Int) : ℚ) ≤ (b : ℚ) - 1 := by
        have : a % b ≤ b - 1 := by omega
        exact_mod_cast this
      have h2 : ((a % b : Int) : ℚ) / b ≤ ((b : ℚ) - 1) / b := by gcongr
      have h3 : ((b : ℚ) - 1) / b = 1 - 1 / b := by field_simp
      linarith
    have herr : (a : ℚ) / b / 16777216 < 1 / b := by
      have h1 : (a : ℚ) < 16777216 := by exact_mod_cast ha24
      rw [div_div, div_lt_div_iff₀ (by positivity) hbq]
      nlinarith
    have habs := abs_le.mp hnear
    have hq1 : ((a / b : Int) : ℚ) < q := by linarith [habs.1]
    have hq2 : q < ((a / b : Int) : ℚ) + 1 := by linarith [habs.2]
    have hx1 : ((a / b : Int) : ℚ) < (a : ℚ) / b := by
      have : (0 : ℚ) < 1 / b := by positivity
      linarith
    have hx2 : (a : ℚ) / b < ((a / b : Int) : ℚ) + 1 := by
      have : (0 : ℚ) < 1 / b := by positivity
      linarith
    constructor
    · rw [Int.floor_eq_iff.mpr ⟨le_of_lt hq1, hq2⟩, Int.floor_eq_iff.mpr ⟨le_of_lt hx1, hx2⟩]
    · have c1 : ⌈q⌉ = a / b + 1 := by
        rw [Int.ceil_eq_iff]
        push_cast
        constructor <;> linarith
      have c2 : ⌈(a : ℚ) / b⌉ = a / b + 1 := by
        rw [Int.ceil_eq_iff]
        push_cast
        constructor <;> linarith
      rw [c1, c2]

theorem onGrid_isFloat (j : Nat) (q : ℚ) (h : onGrid j q) : isFloat q := by
  obtain ⟨hj, k, hq, h1, h2⟩ := h
  exact ⟨k, j, by omega, hq, by omega, by omega⟩

theorem onGrid_sub_isFloat (j : Nat) (a b : ℚ) (ha : onGrid j a) (hb : onGrid j b) :
    isFloat (a - b) := by
  obtain ⟨hj, ka, hqa, ha1, ha2⟩ := ha
  obtain ⟨-, kb, hqb, hb1, hb2⟩ := hb
  refine ⟨ka - kb, j, by omega, ?_, by omega, by omega⟩
  rw [hqa, hqb]
  push_cast
  ring

theorem grid_cell_float (j : Nat) (lo hi s : ℚ) (c : Int) (hlo : onGrid j lo)
    (hhi : onGrid j hi) (hs : onGrid j s) (hpos : 0 < s) (hc0 : 0 ≤ c)
    (hc : c < ⌈(hi - lo) / s⌉) :
    isFloat (c : ℚ) ∧ isFloat ((c : ℚ) * s) ∧ isFloat (lo + (c : ℚ) * s) ∧
      isFloat (lo + (c : ℚ) * s + s) ∧ isFloat (lo + (c : ℚ) * s + s * (1 / 2)) ∧
      isFloat ((c : ℚ) + 1 / 2) := by
  obtain ⟨hj, kl, hql, hl1, hl2⟩ := hlo
  obtain ⟨-, kh, hqh, hh1, hh2⟩ := hhi
  obtain ⟨-, ks, hqs, hs1, hs2⟩ := hs
  have hp : (0 : ℚ) < 2 ^ j := by positivity
  have hks : 0 < ks := by
    rw [hqs] at hpos
    have : (0 : ℚ) < ks := by
      by_contra hn
      have hle : (ks : ℚ) ≤ 0 := not_lt.mp hn
      have : (ks : ℚ) / 2 ^ j ≤ 0 := div_nonpos_of_nonpos_of_nonneg hle (le_of_lt hp)
      linarith
    exact_mod_cast this
  have hlt : (c : ℚ) < (hi - lo) / s := by
    have h1 : c + 1 ≤ ⌈(hi - lo) / s⌉ := by omega
    have h2 : ((c + 1 : Int) : ℚ) ≤ (⌈(hi - lo) / s⌉ : ℚ) := by exact_mod_cast h1
    have h3 := Int.ceil_lt_add_one ((hi - lo) / s)
    push_cast at h2
    linarith
  have hquot : (hi - lo) / s = ((kh - kl : Int) : ℚ) / ks := by
    rw [hqh, hql, hqs]
    push_cast
    field_simp
  have hcks : c * ks < kh - kl := by
    rw [hquot] at hlt
    have hksq : (0 : ℚ) < ks := by exact_mod_cast hks
    have := (lt_div_iff₀ hksq).mp hlt
    exact_mod_cast this
  have hcks0 : 0 ≤ c * ks := mul_nonneg hc0 (le_of_lt hks)
  have hcle : c ≤ c * ks := by nlinarith
  refine ⟨⟨c, 0, by omega, by simp, by omega, by omega⟩,
    ⟨c * ks, j, by omega, ?_, by omega, by omega⟩,
    ⟨kl + c * ks, j, by omega, ?_, by omega, by omega⟩,
    ⟨kl + c * ks + ks, j, by omega, ?_, by omega, by omega⟩,
    ⟨2 * kl + 2 * (c * ks) + ks, j + 1, by omega, ?_, by omega, by omega⟩,
    ⟨2 * c + 1, 1, by omega, ?_, by omega, by omega⟩⟩
  · rw [hqs]; push_cast; ring
  · rw [hql, hqs]; push_cast; ring
  · rw [hql, hqs]; push_cast; ring
  · rw [hql, hqs]; push_cast; ring
  · push_cast; ring

theorem ceil_stable (a b : Int) (q : ℚ) (hb : 0 < b) (ha1 : -16777216 < a) (ha2 : a < 16777216)
    (hexact : b ∣ a → q = (a : ℚ) / b)
    (hnear : |q - (a : ℚ) / b| ≤ |(a : ℚ) / b| / 16777216) :
    ⌈q⌉ = ⌈(a : ℚ) / b⌉ := by
  have hbq : (0 : ℚ) < b := by exact_mod_cast hb
  by_cases ha : 0 ≤ a
  · have h0 : (0 : ℚ) ≤ (a : ℚ) / b := div_nonneg (by exact_mod_cast ha) (le_of_lt hbq)
    rw [abs_of_nonneg h0] at hnear
    exact (floor_ceil_stable a b q hb ha2 hexact hnear).2
  · have hneg : (a : ℚ) / b ≤ 0 :=
      div_nonpos_of_nonpos_of_nonneg (by exact_mod_cast (by omega : a ≤ 0)) (le_of_lt hbq)
    rw [abs_of_nonpos hneg] at hnear
    have hcast : ((-a : Int) : ℚ) / b = -((a : ℚ) / b) := by
      push_cast
      ring
    have h := (floor_ceil_stable (-a) b (-q) hb (by omega)
      (fun hd => by
        rw [hcast, hexact ((Int.dvd_neg).mp hd)])
      (by
        rw [hcast]
        have : -q - -((a : ℚ) / b) = -(q - (a : ℚ) / b) := by ring
        rw [this, abs_neg]
        exact hnear)).1
    rw [hcast, Int.floor_neg, Int.floor_neg] at h
    omega

theorem grid_count_stable (j : Nat) (lo hi s : ℚ) (hlo : onGrid j lo) (hhi : onGrid j hi)
    (hs : onGrid j s) (hne : s ≠ 0) (q : ℚ)
    (hnear : |q - (hi - lo) / s| ≤ |(hi - lo) / s| / 16777216)
    (hexact : (∃ n : Int, (hi - lo) / s = n) → q = (hi - lo) / s) :
    isFloat (hi - lo) ∧ ⌈q⌉ = ⌈(hi - lo) / s⌉ := by
  refine ⟨onGrid_sub_isFloat j hi lo hhi hlo, ?_⟩
  obtain ⟨hj, kl, hql, hl1, hl2⟩ := hlo
  obtain ⟨-, kh, hqh, hh1, hh2⟩ := hhi
  obtain ⟨-, ks, hqs, hs1, hs2⟩ := hs
  have hp : (0 : ℚ) < 2 ^ j := by positivity
  have hks : ks ≠ 0 := by
    rintro rfl
    apply hne
    rw [hqs]
    simp
  have hksq : (ks : ℚ) ≠ 0 := by exact_mod_cast hks
  rcases lt_or_gt_of_ne hks with hneg | hpos
  · have hq0 : (hi - lo) / s = ((kh - kl : Int) : ℚ) / ((ks : Int) : ℚ) := by
      rw [hqh, hql, hqs]
      push_cast
      field_simp
    have hquot : (hi - lo) / s = ((kl - kh : Int) : ℚ) / ((-ks : Int) : ℚ) := by
      rw [hq0]
      push_cast
      rw [← neg_sub (kh : ℚ) (kl : ℚ), neg_div_neg_eq]
    rw [hquot] at hnear hexact ⊢
    exact ceil_stable (kl - kh) (-ks) q (by omega) (by omega) (by omega)
      (fun hd => hexact (by
        obtain ⟨n, hn⟩ := hd
        refine ⟨n, ?_⟩
        rw [hn]
        push_cast
        field_simp)) hnear
  · have hquot : (hi - lo) / s = ((kh - kl : Int) : ℚ) / ((ks : Int) : ℚ) := by
      rw [hqh, hql, hqs]
      push_cast
      field_simp
    rw [hquot] at hnear hexact ⊢
    exact ceil_stable (kh - kl) ks q hpos (by omega) (by omega)
      (fun hd => hexact (by
        obtain ⟨n, hn⟩ := hd
        refine ⟨n, ?_⟩
        rw [hn]
        push_cast
        field_simp)) hnear

theorem Center_isFloat (j : Nat) (bounds : AABB2) (tilesize : ℚ) (hts : 0 < tilesize)
    (hx : bounds.minx < bounds.maxx) (hy : bounds.miny < bounds.maxy)
    (hb : bounds.onGrid j) (hs : onGrid j tilesize) (t : Int) (h0 : 0 ≤ t)
    (ht : t < (BoundedTiles.construct bounds tilesize).TileCount) :
    (isFloat ((BoundedTiles.construct bounds tilesize).TileBounds t).minx ∧
      isFloat ((BoundedTiles.construct bounds tilesize).TileBounds t).miny ∧
      isFloat ((BoundedTiles.construct bounds tilesize).TileBounds t).maxx ∧
      isFloat ((BoundedTiles.construct bounds tilesize).TileBounds t).maxy) ∧
      (isFloat ((BoundedTiles.construct bounds tilesize).Center t).x ∧
        isFloat ((BoundedTiles.construct bounds tilesize).Center t).y) ∧
      (isFloat ((((BoundedTiles.construct bounds tilesize).Center t).x - bounds.minx) /
          tilesize) ∧
        isFloat ((((BoundedTiles.construct bounds tilesize).Center t).y - bounds.miny) /
          tilesize)) := by
  obtain ⟨hn, hm⟩ := construct_counts_pos bounds tilesize hts hx hy
  obtain ⟨ex, ey⟩ := Center_eq (BoundedTiles.construct bounds tilesize) t h0 hn
  have hbase := Base_eq (BoundedTiles.construct bounds tilesize) t h0 hn
  obtain ⟨hminx, hminy, hmaxx, hmaxy⟩ := hb
  generalize hT : BoundedTiles.construct bounds tilesize = T at *
  have hbounds : T.tilebounds_ = bounds := by rw [← hT]; rfl
  have hsize : T.tilesize_ = tilesize := by rw [← hT]; rfl
  have hcols : T.ncolumns_ = ⌈(bounds.maxx - bounds.minx) / tilesize⌉ := by rw [← hT]; rfl
  have hrows : T.nrows_ = ⌈(bounds.maxy - bounds.miny) / tilesize⌉ := by rw [← hT]; rfl
  obtain ⟨-, c0, c1, r0, r1, -, -⟩ := row_col_bounds T.ncolumns_ T.nrows_ t hn h0 ht
  have c1' : t % T.ncolumns_ < ⌈(bounds.maxx - bounds.minx) / tilesize⌉ := by
    rw [← hcols]; exact c1
  have r1' : t / T.ncolumns_ < ⌈(bounds.maxy - bounds.miny) / tilesize⌉ := by
    rw [← hrows]; exact r1
  obtain ⟨-, -, fx1, fx2, fx3, fx4⟩ := grid_cell_float j bounds.minx bounds.maxx tilesize
    (t % T.ncolumns_) hminx hmaxx hs hts c0 c1'
  obtain ⟨-, -, fy1, fy2, fy3, fy4⟩ := grid_cell_float j bounds.miny bounds.maxy tilesize
    (t / T.ncolumns_) hminy hmaxy hs hts r0 r1'
  rw [hbounds, hsize] at ex ey hbase
  have qx : ((T.Center t).x - bounds.minx) / tilesize = ((t % T.ncolumns_ : Int) : ℚ) + 1 / 2 := by
    rw [ex]
    exact half_quotient _ _ _ hts
  have qy : ((T.Center t).y - bounds.miny) / tilesize = ((t / T.ncolumns_ : Int) : ℚ) + 1 / 2 := by
    rw [ey]
    exact half_quotient _ _ _ hts
  refine ⟨?_, ⟨by rw [ex]; exact fx3, by rw [ey]; exact fy3⟩,
    ⟨by rw [qx]; exact fx4, by rw [qy]; exact fy4⟩⟩
  simp only [BoundedTiles.TileBounds, hbase, hsize]
  exact ⟨fx1, fy1, fx2, fy2⟩

theorem onGrid_int (k : Int) (h1 : -1048576 ≤ k) (h2 : k ≤ 1048576) : onGrid 0 (k : ℚ) :=
  ⟨by decide, k, by simp, h1, h2⟩

theorem world_box_onGrid :
    AABB2.onGrid 0 { minx := -180, miny := -90, maxx := 180, maxy := 90 } :=
  ⟨by simpa using onGrid_int (-180) (by decide) (by decide),
    by simpa using onGrid_int (-90) (by decide) (by decide),
    by simpa using onGrid_int 180 (by decide) (by decide),
    by simpa using onGrid_int 90 (by decide) (by decide)⟩

theorem worldTiling4_counts :
    worldTiling4.ncolumns_ = 90 ∧ worldTiling4.nrows_ = 45 ∧
      worldTiling4.TileCount < 2147483648 := by
  have hcols : worldTiling4.ncolumns_ = 90 := by
    simp only [worldTiling4, BoundedTiles.construct]
    rw [Int.ceil_eq_iff]
    norm_num
  have hrows : worldTiling4.nrows_ = 45 := by
    simp only [worldTiling4, BoundedTiles.construct]
    rw [Int.ceil_eq_iff]
    norm_num
  refine ⟨hcols, hrows, ?_⟩
  unfold Tiles.TileCount
  rw [hcols, hrows]
  decide

/-! ## Lemmas: the tiling with a negative tile size -/

/-- C17 as stated fails: the tiling of the box (0, 0) to (9, 9) with tiles of
size 4 has three columns and three rows; the centre of its tile 2, the last of
row 0, is (10, 2), to the right of the bounds, so `TileId(Center(2))` is -1.
All the numbers involved are floats, and the float operations on them are
exact. -/
theorem TileId_Center_outside :
    tiling9.ncolumns_ = 3 ∧ tiling9.nrows_ = 3 ∧ (0 : Int) ≤ 2 ∧ 2 < tiling9.TileCount ∧
      (tiling9.Center 2).x = 10 ∧ (tiling9.Center 2).y = 2 ∧
      tiling9.TileIdOf (tiling9.Center 2) = -1 ∧
      tiling9.TileIdOf (tiling9.Center 2) ≠ 2 := by
  have hcols : tiling9.ncolumns_ = 3 := by
    simp only [tiling9, BoundedTiles.construct]
    rw [Int.ceil_eq_iff]
    norm_num
  have hrows : tiling9.nrows_ = 3 := by
    simp only [tiling9, BoundedTiles.construct]
    rw [Int.ceil_eq_iff]
    norm_num
  have hcx : (tiling9.Center 2).x = 10 := by
    rw [(Center_eq tiling9 2 (by decide) (by rw [hcols]; decide)).1, hcols]
    norm_num [tiling9, BoundedTiles.construct]
  have hcy : (tiling9.Center 2).y = 2 := by
    rw [(Center_eq tiling9 2 (by decide) (by rw [hcols]; decide)).2, hcols]
    norm_num [tiling9, BoundedTiles.construct]
  have hid : tiling9.TileIdOf (tiling9.Center 2) = -1 := by
    unfold BoundedTiles.TileIdOf
    apply TileId_outside
    right
    right
    rw [hcx]
    norm_num [tiling9, BoundedTiles.construct]
  refine ⟨hcols, hrows, by decide, ?_, hcx, hcy, hid, ?_⟩
  · unfold Tiles.TileCount
    rw [hcols, hrows]
    decide
  · rw [hid]
    decide

/-- C17, amended: for every tiling built by the constructor from a box with
`minx < maxx` and `miny < maxy` and a positive tile size, with the bounds and
the tile size on a binary grid (`onGrid`) and a tile count below `2^31`, and
every tile id `t` with `0 <= t < nrows * ncolumns`: `TileId(Center(t)) == t`
exactly when the centre of the tile lies within the tiling bounds; this is the
case for every such `t` when the width and the height of the bounds are whole
multiples of the tile size. The `float` arithmetic of the code gives these
values: the corners and the centre of the tile are held exactly, and the
quotients of `Row` and `Col` at the centre, a row or column number plus one
half, are held exactly as well; the result is an `int32_t` value. -/
theorem TileId_Center_spec (j : Nat) (bounds : AABB2) (tilesize : ℚ) (hts : 0 < tilesize)
    (hx : bounds.minx < bounds.maxx) (hy : bounds.miny < bounds.maxy)
    (hb : bounds.onGrid j) (hs : onGrid j tilesize)
    (hN : (BoundedTiles.construct bounds tilesize).TileCount < 2147483648)
    (t : Int) (h0 : 0 ≤ t) (ht : t < (BoundedTiles.construct bounds tilesize).TileCount) :
    ((BoundedTiles.construct bounds tilesize).TileIdOf
        ((BoundedTiles.construct bounds tilesize).Center t) = t ↔
      ((BoundedTiles.construct bounds tilesize).Center t).x ≤ bounds.maxx ∧
        ((BoundedTiles.construct bounds tilesize).Center t).y ≤ bounds.maxy) ∧
      ((∃ k : Int, bounds.maxx - bounds.minx = k * tilesize) →
        (∃ m : Int, bounds.maxy - bounds.miny = m * tilesize) →
        (BoundedTiles.construct bounds tilesize).TileIdOf
          ((BoundedTiles.construct bounds tilesize).Center t) = t) ∧
      (BoundedTiles.construct bounds tilesize).TileIdOf
          ((BoundedTiles.construct bounds tilesize).Center t) < 2147483648 ∧
      (isFloat ((BoundedTiles.construct bounds tilesize).Center t).x ∧
        isFloat ((BoundedTiles.construct bounds tilesize).Center t).y) ∧
      (isFloat ((((BoundedTiles.construct bounds tilesize).Center t).x - bounds.minx) /
          tilesize) ∧
        isFloat ((((BoundedTiles.construct bounds tilesize).Center t).y - bounds.miny) /
          tilesize)) := by
  have hiff : (BoundedTiles.construct bounds tilesize).TileIdOf
        ((BoundedTiles.construct bounds tilesize).Center t) = t ↔
      ((BoundedTiles.construct bounds tilesize).Center t).x ≤ bounds.maxx ∧
        ((BoundedTiles.construct bounds tilesize).Center t).y ≤ bounds.maxy := by
    refine ⟨fun h => ?_, fun h => TileId_Center_inside bounds tilesize hts hx hy t h0 ht h.1 h.2⟩
    by_contra hout
    have hcase : (((BoundedTiles.construct bounds tilesize).Center t).y <
          (BoundedTiles.construct bounds tilesize).tilebounds_.miny ∨
        (BoundedTiles.construct bounds tilesize).tilebounds_.maxy <
          ((BoundedTiles.construct bounds tilesize).Center t).y) ∨
        (((BoundedTiles.construct bounds tilesize).Center t).x <
          (BoundedTiles.construct bounds tilesize).tilebounds_.minx ∨
        (BoundedTiles.construct bounds tilesize).tilebounds_.maxx <
          ((BoundedTiles.construct bounds tilesize).Center t).x) := by
      by_cases hxx : ((BoundedTiles.construct bounds tilesize).Center t).x ≤ bounds.maxx
      · have hyy : ¬ ((BoundedTiles.construct bounds tilesize).Center t).y ≤ bounds.maxy :=
          fun hyy => hout ⟨hxx, hyy⟩
        exact Or.inl (Or.inr (not_le.mp hyy))
      · exact Or.inr (Or.inr (not_le.mp hxx))
    have hneg := TileId_outside (BoundedTiles.construct bounds tilesize) _ _ hcase
    unfold BoundedTiles.TileIdOf at h
    rw [hneg] at h
    omega
  obtain ⟨-, hc, hq⟩ := Center_isFloat j bounds tilesize hts hx hy hb hs t h0 ht
  refine ⟨hiff, fun hw hh => ?_, ?_, hc, hq⟩
  · obtain ⟨h1, h2⟩ := Center_inside_of_multiple bounds tilesize hts hx hy t h0 ht hw hh
    exact TileId_Center_inside bounds tilesize hts hx hy t h0 ht h1 h2
  · by_cases hin : ((BoundedTiles.construct bounds tilesize).Center t).x ≤ bounds.maxx ∧
        ((BoundedTiles.construct bounds tilesize).Center t).y ≤ bounds.maxy
    · rw [hiff.mpr hin]
      omega
    · have hcase : (((BoundedTiles.construct bounds tilesize).Center t).y <
            (BoundedTiles.construct bounds tilesize).tilebounds_.miny ∨
          (BoundedTiles.construct bounds tilesize).tilebounds_.maxy <
            ((BoundedTiles.construct bounds tilesize).Center t).y) ∨
          (((BoundedTiles.construct bounds tilesize).Center t).x <
            (BoundedTiles.construct bounds tilesize).tilebounds_.minx ∨
          (BoundedTiles.construct bounds tilesize).tilebounds_.maxx <
            ((BoundedTiles.construct bounds tilesize).Center t).x) := by
        by_cases hxx : ((BoundedTiles.construct bounds tilesize).Center t).x ≤ bounds.maxx
        · have hyy : ¬ ((BoundedTiles.construct bounds tilesize).Center t).y ≤ bounds.maxy :=
            fun hyy => hin ⟨hxx, hyy⟩
          exact Or.inl (Or.inr (not_le.mp hyy))
        · exact Or.inr (Or.inr (not_le.mp hxx))
      have hneg := TileId_outside (BoundedTiles.construct bounds tilesize) _ _ hcase
      unfold BoundedTiles.TileIdOf
      rw [hneg]
      decide

/-- C17, amended, on the world tiling with tiles of 4 degrees, whose width 360
and height 180 are 90 and 45 tile sizes, at the last tile 4049. -/
theorem TileId_Center_spec_witness :
    (0 : Int) ≤ 4049 ∧ 4049 < worldTiling4.TileCount ∧
      worldTiling4.TileIdOf (worldTiling4.Center 4049) = 4049 := by
  obtain ⟨hcols, hrows, hcount⟩ := worldTiling4_counts
  have ht : (4049 : Int) < worldTiling4.TileCount := by
    unfold Tiles.TileCount
    rw [hcols, hrows]
    decide
  exact ⟨by decide, ht,
    (TileId_Center_spec 0 { minx := -180, miny := -90, maxx := 180, maxy := 90 } 4
      (by norm_num) (by norm_num) (by norm_num) world_box_onGrid
      (by simpa using onGrid_int 4 (by decide) (by decide)) hcount 4049 (by decide) ht).2.1
      ⟨90, by norm_num⟩ ⟨45, by norm_num⟩⟩

/-! ## Claim C20: the tile list of a box -/

theorem tiling8_counts :
    tiling8.ncolumns_ = 2 ∧ tiling8.nrows_ = 2 ∧ tiling8.nsubdivisions_ = 2 ∧
      tiling8.subdivision_size_ = 2 ∧
      tiling8.tilebounds_ = { minx := 0, miny := 0, maxx := 8, maxy := 8 } ∧
      tiling8.tilesize_ = 4 := by
  refine ⟨?_, ?_, rfl, ?_, rfl, rfl⟩
  · simp only [tiling8, BoundedTiles.construct]
    rw [Int.ceil_eq_iff]
    norm_num
  · simp only [tiling8, BoundedTiles.construct]
    rw [Int.ceil_eq_iff]
    norm_num
  · simp only [tiling8, BoundedTiles.construct]
    norm_num

theorem truncInt_eq (q : ℚ) (k : Int) (h0 : 0 ≤ q) (h1 : (k : ℚ) ≤ q) (h2 : q < (k : ℚ) + 1) :
    truncInt q = k := by
  rw [truncInt_of_nonneg q h0, Int.floor_eq_iff]
  exact ⟨h1, h2⟩

theorem tiling8_TileId (x y : ℚ) (hx0 : 0 ≤ x) (hx : x < 4) (hy0 : 0 ≤ y) (hy : y < 4) :
    tiling8.TileIdOf { x := x, y := y } = 0 := by
  obtain ⟨hc, hr, -, -, hb, hs⟩ := tiling8_counts
  unfold BoundedTiles.TileIdOf
  have hts : 0 < tiling8.tilesize_ := by rw [hs]; norm_num
  have hrow := Row_inside tiling8 hts y (by rw [hb]; exact hy0) (by rw [hb]; show y ≤ 8; linarith)
  have hcol := Col_inside tiling8 hts x (by rw [hb]; exact hx0) (by rw [hb]; show x ≤ 8; linarith)
  rw [TileId_inside tiling8 y x (by rw [hb]; exact hy0) (by rw [hb]; show y ≤ 8; linarith)
    (by rw [hb]; exact hx0) (by rw [hb]; show x ≤ 8; linarith), hrow, hcol, hb, hs, hc]
  have e1 : ¬ y = 8 := by intro h; linarith
  have e2 : ¬ x = 8 := by intro h; linarith
  simp only [e1, e2, if_false, sub_zero]
  have f1 : ⌊y / 4⌋ = 0 := by
    rw [Int.floor_eq_iff]
    constructor
    · simp only [Int.cast_zero]
      exact div_nonneg hy0 (by norm_num)
    · simp only [Int.cast_zero, zero_add]
      rw [div_lt_one (by norm_num)]
      exact hy
  have f2 : ⌊x / 4⌋ = 0 := by
    rw [Int.floor_eq_iff]
    constructor
    · simp only [Int.cast_zero]
      exact div_nonneg hx0 (by norm_num)
    · simp only [Int.cast_zero, zero_add]
      rw [div_lt_one (by norm_num)]
      exact hx
  rw [f1, f2]
  norm_num

theorem tiling8_segment (isLeft : Point2 → Point2 → Point2 → ℚ)
    (segmentIntersects : Point2 → Point2 → Bool) (fuel : Nat) (u v : Point2)
    (acc : List (Int × Nat)) (x_start y_start x_end y_end : Int)
    (hu : tiling8.TileIdOf u ≠ -1) (hv : tiling8.TileIdOf v ≠ -1)
    (h1 : truncInt (u.x / 8 * 2 * 2) = x_start) (h2 : truncInt (u.y / 8 * 2 * 2) = y_start)
    (h3 : truncInt (v.x / 8 * 2 * 2) = x_end) (h4 : truncInt (v.y / 8 * 2 * 2) = y_end) :
    intersectSegment tiling8 isLeft segmentIntersects fuel u v acc =
      intersectLoop tiling8 (isLeft u v)
        (min (if x_start > x_end then x_start else x_end) 3)
        (min (if y_start > y_end then y_start else y_end) 3) fuel
        (if x_start > x_end then x_end else x_start)
        (if y_start > y_end then y_end else y_start) acc := by
  obtain ⟨hc, hr, hn, -, hb, -⟩ := tiling8_counts
  unfold intersectSegment
  have hcond : ¬ ((tiling8.TileIdOf u = -1 ∨ tiling8.TileIdOf v = -1) ∧
      segmentIntersects u v = false) := by
    rintro ⟨h | h, -⟩
    · exact hu h
    · exact hv h
  rw [if_neg hcond, hb, hc, hr, hn]
  simp only [AABB2.Width, AABB2.Height, sub_zero, Int.cast_ofNat, Nat.cast_ofNat]
  rw [h1, h2, h3, h4]
  by_cases hx : x_start > x_end <;> by_cases hy : y_start > y_end <;> simp [hx, hy]

theorem intersectLoop_stops (T : BoundedTiles) (isLeft : Point2 → ℚ) (fuel : Nat)
    (x y x_end y_end : Int) (acc : List (Int × Nat))
    (hsub : toUInt16 (y.tmod T.nsubdivisions_ * T.nsubdivisions_ + x.tmod T.nsubdivisions_) <
      T.nsubdivisions_ * T.nsubdivisions_)
    (hstepy : x = x_end ∨ y + 1 = y_end) (hstepx : x + 1 = x_end ∨ y = y_end) :
    intersectLoop T isLeft x_end y_end fuel x y acc =
      some (.ok (acc ++ [(y.tdiv T.nsubdivisions_ * T.ncolumns_ + x.tdiv T.nsubdivisions_,
        toUInt16 (y.tmod T.nsubdivisions_ * T.nsubdivisions_ + x.tmod T.nsubdivisions_))])) := by
  rw [intersectLoop]
  simp only [ge_iff_le, if_neg (not_le.mpr hsub)]
  by_cases hl : isLeft { x := T.tilebounds_.minx + T.subdivision_size_ * x,
                         y := T.tilebounds_.miny + T.subdivision_size_ * y } < 0
  · have hcond : ¬ (x ≠ x_end ∧ y + 1 ≠ y_end) := by
      rintro ⟨h1, h2⟩
      rcases hstepy with h | h
      · exact h1 h
      · exact h2 h
    simp only [hl, if_true, if_neg hcond]
  · have hcond : ¬ (x + 1 ≠ x_end ∧ y ≠ y_end) := by
      rintro ⟨h1, h2⟩
      rcases hstepx with h | h
      · exact h1 h
      · exact h2 h
    simp only [hl, if_false, if_neg hcond]

theorem tiling8_point (isLeft : Point2 → Point2 → Point2 → ℚ)
    (segmentIntersects : Point2 → Point2 → Bool) (fuel : Nat) (u : Point2)
    (acc : List (Int × Nat)) (x y : Int) (hu : tiling8.TileIdOf u ≠ -1)
    (h1 : truncInt (u.x / 8 * 2 * 2) = x) (h2 : truncInt (u.y / 8 * 2 * 2) = y)
    (hx : 0 ≤ x ∧ x ≤ 3) (hy : 0 ≤ y ∧ y ≤ 3) :
    intersectSegment tiling8 isLeft segmentIntersects fuel u u acc =
      some (.ok (acc ++ [(y.tdiv 2 * 2 + x.tdiv 2, toUInt16 (y.tmod 2 * 2 + x.tmod 2))])) := by
  obtain ⟨hc, -, hn, -, -, -⟩ := tiling8_counts
  rw [tiling8_segment isLeft segmentIntersects fuel u u acc x y x y hu hu h1 h2 h1 h2]
  simp only [gt_iff_lt, lt_self_iff_false, if_false]
  have hsub : toUInt16 (y.tmod 2 * 2 + x.tmod 2) < 4 := by
    obtain ⟨a, b⟩ := hx
    obtain ⟨c, d⟩ := hy
    interval_cases x <;> interval_cases y <;> decide
  have := intersectLoop_stops tiling8 (isLeft u u) fuel x y (min x 3) (min y 3) acc
    (by rw [hn]; exact hsub) (Or.inl (by omega)) (Or.inr (by omega))
  rw [hn, hc] at this
  exact this

/-! ## Claim C21: the subdivisions along a polyline -/

/-- C21 fails on the code. On the tiling of the box (0, 0) to (8, 8) with two
by two tiles of two by two subdivisions, for every `IsLeft`, the polyline of
the single point (3, 1) gives the subdivision 1 of tile 0, and that of (1, 3)
the subdivision 2 of tile 0; the polyline from u = (3, 1) to v = (1, 3),
however, gives the subdivision 0, where the walk starts after the two
coordinates were ordered one by one, and, from the last point taken with
itself, the subdivision 2, but not the subdivision 1 that contains u. On the
polyline (1, 1), (3, 3), (1, 1) every walk stops after its first record, as
soon as one coordinate has reached its end, and the subdivision 3 that
contains (3, 3) is not recorded. -/
theorem Intersect_misses_end_cells (isLeft : Point2 → Point2 → Point2 → ℚ)
    (segmentIntersects : Point2 → Point2 → Bool) (fuel : Nat) :
    tiling8.Intersect isLeft segmentIntersects fuel [{ x := 3, y := 1 }] =
        some (.ok [(0, 1)]) ∧
      tiling8.Intersect isLeft segmentIntersects fuel [{ x := 1, y := 3 }] =
        some (.ok [(0, 2)]) ∧
      tiling8.Intersect isLeft segmentIntersects fuel [{ x := 3, y := 1 }, { x := 1, y := 3 }] =
        some (.ok [(0, 0), (0, 2)]) ∧
      ((0, 1) : Int × Nat) ∉ [((0, 0) : Int × Nat), (0, 2)] ∧
      tiling8.Intersect isLeft segmentIntersects fuel [{ x := 3, y := 3 }] =
        some (.ok [(0, 3)]) ∧
      tiling8.Intersect isLeft segmentIntersects fuel
          [{ x := 1, y := 1 }, { x := 3, y := 3 }, { x := 1, y := 1 }] =
        some (.ok [(0, 0), (0, 0), (0, 0)]) ∧
      ((0, 3) : Int × Nat) ∉ [((0, 0) : Int × Nat), (0, 0), (0, 0)] := by
  obtain ⟨hc, -, hn, -, -, -⟩ := tiling8_counts
  have t31 : tiling8.TileIdOf { x := 3, y := 1 } ≠ -1 := by
    rw [tiling8_TileId 3 1 (by norm_num) (by norm_num) (by norm_num) (by norm_num)]
    decide
  have t13 : tiling8.TileIdOf { x := 1, y := 3 } ≠ -1 := by
    rw [tiling8_TileId 1 3 (by norm_num) (by norm_num) (by norm_num) (by norm_num)]
    decide
  have t11 : tiling8.TileIdOf { x := 1, y := 1 } ≠ -1 := by
    rw [tiling8_TileId 1 1 (by norm_num) (by norm_num) (by norm_num) (by norm_num)]
    decide
  have t33 : tiling8.TileIdOf { x := 3, y := 3 } ≠ -1 := by
    rw [tiling8_TileId 3 3 (by norm_num) (by norm_num) (by norm_num) (by norm_num)]
    decide
  have c1 : truncInt ((1 : ℚ) / 8 * 2 * 2) = 0 :=
    truncInt_eq _ 0 (by norm_num) (by norm_num) (by norm_num)
  have c3 : truncInt ((3 : ℚ) / 8 * 2 * 2) = 1 :=
    truncInt_eq _ 1 (by norm_num) (by norm_num) (by norm_num)
  have p31 : ∀ acc, intersectSegment tiling8 isLeft segmentIntersects fuel
      { x := 3, y := 1 } { x := 3, y := 1 } acc = some (.ok (acc ++ [(0, 1)])) := fun acc =>
    tiling8_point isLeft segmentIntersects fuel _ acc 1 0 t31 c3 c1 (by decide) (by decide)
  have p13 : ∀ acc, intersectSegment tiling8 isLeft segmentIntersects fuel
      { x := 1, y := 3 } { x := 1, y := 3 } acc = some (.ok (acc ++ [(0, 2)])) := fun acc =>
    tiling8_point isLeft segmentIntersects fuel _ acc 0 1 t13 c1 c3 (by decide) (by decide)
  have p33 : ∀ acc, intersectSegment tiling8 isLeft segmentIntersects fuel
      { x := 3, y := 3 } { x := 3, y := 3 } acc = some (.ok (acc ++ [(0, 3)])) := fun acc =>
    tiling8_point isLeft segmentIntersects fuel _ acc 1 1 t33 c3 c3 (by decide) (by decide)
  have p11 : ∀ acc, intersectSegment tiling8 isLeft segmentIntersects fuel
      { x := 1, y := 1 } { x := 1, y := 1 } acc = some (.ok (acc ++ [(0, 0)])) := fun acc =>
    tiling8_point isLeft segmentIntersects fuel _ acc 0 0 t11 c1 c1 (by decide) (by decide)
  have hstop : ∀ acc, intersectLoop tiling8 (isLeft { x := 3, y := 1 } { x := 1, y := 3 })
        1 1 fuel 0 0 acc = some (.ok (acc ++ [(0, 0)])) := fun acc => by
    have := intersectLoop_stops tiling8 (isLeft { x := 3, y := 1 } { x := 1, y := 3 }) fuel
      0 0 1 1 acc (by rw [hn]; decide) (Or.inr (by decide)) (Or.inl (by decide))
    rw [hn, hc] at this
    exact this
  have s31 : ∀ acc, intersectSegment tiling8 isLeft segmentIntersects fuel
      { x := 3, y := 1 } { x := 1, y := 3 } acc = some (.ok (acc ++ [(0, 0)])) := fun acc => by
    rw [tiling8_segment isLeft segmentIntersects fuel _ _ acc 1 0 0 1 t31 t13 c3 c1 c1 c3]
    exact hstop acc
  have hstop2 : ∀ (f : Point2 → ℚ) acc, intersectLoop tiling8 f 1 1 fuel 0 0 acc =
      some (.ok (acc ++ [(0, 0)])) := fun f acc => by
    have := intersectLoop_stops tiling8 f fuel 0 0 1 1 acc (by rw [hn]; decide)
      (Or.inr (by decide)) (Or.inl (by decide))
    rw [hn, hc] at this
    exact this
  have s13 : ∀ acc, intersectSegment tiling8 isLeft segmentIntersects fuel
      { x := 1, y := 1 } { x := 3, y := 3 } acc = some (.ok (acc ++ [(0, 0)])) := fun acc => by
    rw [tiling8_segment isLeft segmentIntersects fuel _ _ acc 0 0 1 1 t11 t33 c1 c1 c3 c3]
    exact hstop2 _ acc
  have s31b : ∀ acc, intersectSegment tiling8 isLeft segmentIntersects fuel
      { x := 3, y := 3 } { x := 1, y := 1 } acc = some (.ok (acc ++ [(0, 0)])) := fun acc => by
    rw [tiling8_segment isLeft segmentIntersects fuel _ _ acc 1 1 0 0 t33 t11 c3 c3 c1 c1]
    exact hstop2 _ acc
  refine ⟨?_, ?_, ?_, by decide, ?_, ?_, by decide⟩
  · simp only [BoundedTiles.Intersect, segments, intersectSegments, p31, List.nil_append]
  · simp only [BoundedTiles.Intersect, segments, intersectSegments, p13, List.nil_append]
  · simp only [BoundedTiles.Intersect, segments, intersectSegments, s31, p13, List.nil_append,
      List.singleton_append]
  · simp only [BoundedTiles.Intersect, segments, intersectSegments, p33, List.nil_append]
  · simp only [BoundedTiles.Intersect, segments, intersectSegments, s13, s31b, p11,
      List.nil_append, List.singleton_append, List.cons_append]

/-! ## Claims C25, C26 and C30: construction, the disc and the world tiling -/

/-- C25 as stated fails: the constructor called with the world box, the tile
size -4 and 0 subdivisions yields a tiling, with -90 columns and -45 rows; so
it does with the tile size 4 on a box without width and height, with 0 columns
and 0 rows. -/
theorem construct_unchecked :
    (BoundedTiles.construct world_box (-4) 0).ncolumns_ = -90 ∧
      (BoundedTiles.construct world_box (-4) 0).nrows_ = -45 ∧
      (BoundedTiles.construct world_box (-4) 0).tilesize_ = -4 ∧
      (BoundedTiles.construct world_box (-4) 0).nsubdivisions_ = 0 ∧
      (BoundedTiles.construct { minx := 1, miny := 1, maxx := 1, maxy := 1 } 4 5).ncolumns_ = 0 ∧
      (BoundedTiles.construct { minx := 1, miny := 1, maxx := 1, maxy := 1 } 4 5).nrows_ = 0 := by
  refine ⟨?_, ?_, rfl, rfl, ?_, ?_⟩
  · simp only [BoundedTiles.construct, world_box]
    rw [Int.ceil_eq_iff]
    norm_num
  · simp only [BoundedTiles.construct, world_box]
    rw [Int.ceil_eq_iff]
    norm_num
  · simp only [BoundedTiles.construct]
    norm_num
  · simp only [BoundedTiles.construct]
    norm_num

/-- C25, amended: the constructor checks none of its arguments and never
fails. For every box and every tile size other than zero on a binary grid
(`onGrid`), a negative tile size and a box without width or height included,
and for every number of subdivisions, zero included, it yields the tiling with
these bounds, tile size and subdivisions whose column and row counts are the
ceilings of width and height over the tile size. The `float` arithmetic of the
code gives these counts: the width and the height are held exactly, and every
value within the rounding error of 24 bits of the quotient, equal to the
quotient when this is an integer, has the same ceiling. -/
theorem construct_spec (j : Nat) (bounds : AABB2) (tilesize : ℚ) (subdivisions : Nat)
    (hb : bounds.onGrid j) (hs : onGrid j tilesize) (hne : tilesize ≠ 0) :
    (BoundedTiles.construct bounds tilesize subdivisions).tilebounds_ = bounds ∧
      (BoundedTiles.construct bounds tilesize subdivisions).tilesize_ = tilesize ∧
      (BoundedTiles.construct bounds tilesize subdivisions).nsubdivisions_ = subdivisions ∧
      (isFloat bounds.Width ∧ isFloat bounds.Height) ∧
      (BoundedTiles.construct bounds tilesize subdivisions).ncolumns_ =
        ⌈bounds.Width / tilesize⌉ ∧
      (BoundedTiles.construct bounds tilesize subdivisions).nrows_ =
        ⌈bounds.Height / tilesize⌉ ∧
      (∀ q : ℚ, |q - bounds.Width / tilesize| ≤ |bounds.Width / tilesize| / 16777216 →
        ((∃ n : Int, bounds.Width / tilesize = n) → q = bounds.Width / tilesize) →
        ⌈q⌉ = (BoundedTiles.construct bounds tilesize subdivisions).ncolumns_) ∧
      (∀ q : ℚ, |q - bounds.Height / tilesize| ≤ |bounds.Height / tilesize| / 16777216 →
        ((∃ n : Int, bounds.Height / tilesize = n) → q = bounds.Height / tilesize) →
        ⌈q⌉ = (BoundedTiles.construct bounds tilesize subdivisions).nrows_) := by
  refine ⟨rfl, rfl, rfl, ⟨?_, ?_⟩, rfl, rfl, ?_, ?_⟩
  · exact onGrid_sub_isFloat j _ _ hb.2.2.1 hb.1
  · exact onGrid_sub_isFloat j _ _ hb.2.2.2 hb.2.1
  · intro q hnear hexact
    exact (grid_count_stable j bounds.minx bounds.maxx tilesize hb.1 hb.2.2.1 hs hne q hnear
      hexact).2
  · intro q hnear hexact
    exact (grid_count_stable j bounds.miny bounds.maxy tilesize hb.2.1 hb.2.2.2 hs hne q hnear
      hexact).2

/-- C25, amended, at the world box with the tile size -4 and no subdivision:
the constructor yields the tiling with -90 columns and -45 rows. -/
theorem construct_spec_witness :
    (BoundedTiles.construct world_box (-4) 0).tilebounds_ = world_box ∧
      (BoundedTiles.construct world_box (-4) 0).tilesize_ = -4 ∧
      (BoundedTiles.construct world_box (-4) 0).nsubdivisions_ = 0 ∧
      (BoundedTiles.construct world_box (-4) 0).ncolumns_ = ⌈world_box.Width / (-4 : ℚ)⌉ ∧
      (BoundedTiles.construct world_box (-4) 0).nrows_ = ⌈world_box.Height / (-4 : ℚ)⌉ ∧
      ⌈world_box.Width / (-4 : ℚ)⌉ = -90 ∧ ⌈world_box.Height / (-4 : ℚ)⌉ = -45 := by
  have h := construct_spec 0 world_box (-4) 0
    ⟨⟨by decide, -180, by norm_num [world_box], by decide, by decide⟩,
      ⟨by decide, -90, by norm_num [world_box], by decide, by decide⟩,
      ⟨by decide, 180, by norm_num [world_box], by decide, by decide⟩,
      ⟨by decide, 90, by norm_num [world_box], by decide, by decide⟩⟩
    ⟨by decide, -4, by norm_num, by decide, by decide⟩ (by norm_num)
  refine ⟨h.1, h.2.1, h.2.2.1, h.2.2.2.2.1, h.2.2.2.2.2.1, ?_, ?_⟩
  · rw [Int.ceil_eq_iff]
    norm_num [AABB2.Width, world_box]
  · rw [Int.ceil_eq_iff]
    norm_num [AABB2.Height, world_box]

theorem scenarioTiling_counts :
    scenarioTiling.ncolumns_ = 90 ∧ scenarioTiling.nrows_ = 45 := by
  constructor
  · simp only [scenarioTiling, BoundedTiles.construct, world_box]
    rw [Int.ceil_eq_iff]
    norm_num
  · simp only [scenarioTiling, BoundedTiles.construct, world_box]
    rw [Int.ceil_eq_iff]
    norm_num

theorem scenarioTiling_origin : scenarioTiling.TileId 0 0 = 2025 := by
  have hcols := scenarioTiling_counts.1
  have hb : scenarioTiling.tilebounds_ = world_box := rfl
  have hs : scenarioTiling.tilesize_ = 4 := rfl
  have hts : 0 < scenarioTiling.tilesize_ := by rw [hs]; norm_num
  rw [TileId_inside scenarioTiling 0 0 (by rw [hb]; norm_num [world_box])
      (by rw [hb]; norm_num [world_box]) (by rw [hb]; norm_num [world_box])
      (by rw [hb]; norm_num [world_box]),
    Row_inside scenarioTiling hts 0 (by rw [hb]; norm_num [world_box])
      (by rw [hb]; norm_num [world_box]),
    Col_inside scenarioTiling hts 0 (by rw [hb]; norm_num [world_box])
      (by rw [hb]; norm_num [world_box]), hb, hs, hcols]
  have f1 : ⌊((0 : ℚ) - world_box.miny) / 4⌋ = 22 := by
    rw [Int.floor_eq_iff]
    norm_num [world_box]
  have f2 : ⌊((0 : ℚ) - world_box.minx) / 4⌋ = 45 := by
    rw [Int.floor_eq_iff]
    norm_num [world_box]
  rw [f1, f2, if_neg (by norm_num [world_box]), if_neg (by norm_num [world_box])]
  norm_num

theorem scenarioTiling_Center (t : Int) (h0 : 0 ≤ t) :
    scenarioTiling.Center t =
      { x := -180 + ((t % 90 : Int) : ℚ) * 4 + 2, y := -90 + ((t / 90 : Int) : ℚ) * 4 + 2 } := by
  have hcols := scenarioTiling_counts.1
  obtain ⟨hx, hy⟩ := Center_eq scenarioTiling t h0 (by rw [hcols]; decide)
  have hb : scenarioTiling.tilebounds_ = world_box := rfl
  have hs : scenarioTiling.tilesize_ = 4 := rfl
  rw [hb, hs, hcols] at hx hy
  have e : scenarioTiling.Center t =
      { x := (scenarioTiling.Center t).x, y := (scenarioTiling.Center t).y } := rfl
  rw [e, hx, hy]
  norm_num [world_box]

/-- C26 fails on the code: `Intersect(center, radius)` returns the empty map
for every tiling, centre and radius, its body being commented out; for the
centre (0, 0) and the radius 1 on the world tiling of 4 degree tiles with 5
subdivisions, the tile 2025 of the centre has no subdivision in the result. -/
theorem IntersectCircle_empty :
    (∀ (T : BoundedTiles) (center : Point2) (radius : ℚ),
        T.IntersectCircle center radius = []) ∧
      scenarioTiling.TileIdOf { x := 0, y := 0 } = 2025 ∧
      (0 : ℚ) ≤ 1 ∧
      ∀ subdivision : Nat,
        ((2025 : Int), subdivision) ∉ scenarioTiling.IntersectCircle { x := 0, y := 0 } 1 :=
  ⟨fun _ _ _ => rfl, scenarioTiling_origin, by norm_num, fun _ => List.not_mem_nil _⟩

/-- C30 as stated fails: on the world tiling with tiles of 4 degrees and 5
subdivisions `TileId(0.0, 0.0)` is 2025, row 22 and column 45, not 2070, and
the centre of the tile 2070, row 23 and column 0, is (-178, 4), not (2, 2). -/
theorem scenarioB_as_stated :
    scenarioTiling.TileId 0 0 = 2025 ∧ scenarioTiling.TileId 0 0 ≠ 2070 ∧
      scenarioTiling.Center 2070 = { x := -178, y := 4 } ∧
      scenarioTiling.Center 2070 ≠ { x := 2, y := 2 } := by
  have hc : scenarioTiling.Center 2070 = { x := -178, y := 4 } := by
    rw [scenarioTiling_Center 2070 (by decide)]
    have e1 : (2070 : Int) % 90 = 0 := by decide
    have e2 : (2070 : Int) / 90 = 23 := by decide
    rw [e1, e2]
    norm_num
  refine ⟨scenarioTiling_origin, ?_, hc, ?_⟩
  · rw [scenarioTiling_origin]
    decide
  · rw [hc]
    intro h
    have := congrArg Point2.x h
    norm_num at this

/-- C30, amended: the world tiling with tiles of 4 degrees and 5 subdivisions
has 90 columns and 45 rows, `TileId(0.0, 0.0)` is `22 * 90 + 45 = 2025`, and
the centre of the tile 2025 is (2, 0). -/
theorem scenarioB_tiling :
    scenarioTiling.tilebounds_ = world_box ∧ scenarioTiling.tilesize_ = 4 ∧
      scenarioTiling.nsubdivisions_ = 5 ∧
      scenarioTiling.ncolumns_ = 90 ∧ scenarioTiling.nrows_ = 45 ∧
      scenarioTiling.TileId 0 0 = 22 * 90 + 45 ∧
      scenarioTiling.Center 2025 = { x := 2, y := 0 } := by
  refine ⟨rfl, rfl, rfl, scenarioTiling_counts.1, scenarioTiling_counts.2, ?_, ?_⟩
  · rw [scenarioTiling_origin]
    decide
  · rw [scenarioTiling_Center 2025 (by decide)]
    have e1 : (2025 : Int) % 90 = 45 := by decide
    have e2 : (2025 : Int) / 90 = 22 := by decide
    rw [e1, e2]
    norm_num

/-! ## Claims C27 and C28: opening a tile -/

/-- C27: for every header, file size and record sizes, the section pointers
that the constructor sets are, in the order nodes, directed edges, transit
departures, transit stops, transit routes, transit transfers, access
restrictions, signs, admins, edge cells, the size of the header plus the sum of
`count * sizeof(record)` over the sections before; the edge-info region starts
at `edgeinfo_offset` and the text list at `textlist_offset`, and their sizes
are the unsigned differences `textlist_offset - edgeinfo_offset` and
`filesize - textlist_offset`, the plain differences whenever these are not
negative. The constructor yields this layout whenever the file opens. -/
theorem layout_spec (sz : RecordSizes) (header : GraphTileHeader) (filesize : Nat) :
    (GraphTile.layout sz header filesize).sections =
        (List.range 10).map (specSectionBase sz header) ∧
      (GraphTile.layout sz header filesize).edgeinfo_ = header.edgeinfo_offset ∧
      (GraphTile.layout sz header filesize).textlist_ = header.textlist_offset ∧
      (GraphTile.layout sz header filesize).edgeinfo_size_ =
        toSizeT ((header.textlist_offset : Int) - header.edgeinfo_offset) ∧
      (GraphTile.layout sz header filesize).textlist_size_ =
        toSizeT ((filesize : Int) - header.textlist_offset) ∧
      (header.edgeinfo_offset ≤ header.textlist_offset →
        header.textlist_offset < 18446744073709551616 →
        (GraphTile.layout sz header filesize).edgeinfo_size_ =
          header.textlist_offset - header.edgeinfo_offset) ∧
      (header.textlist_offset ≤ filesize → filesize < 18446744073709551616 →
        (GraphTile.layout sz header filesize).textlist_size_ =
          filesize - header.textlist_offset) ∧
      (∀ (Is_Valid : GraphId → Bool) (files : List Char → Option (GraphTileHeader × Nat))
          (hierarchy : TileHierarchy) (graphid : GraphId) (suffix : List Char),
        Is_Valid graphid = true → FileSuffix graphid.Tile_Base hierarchy = .ok suffix →
        files (hierarchy.tile_dir ++ '/' :: suffix) = some (header, filesize) →
        GraphTile.load sz Is_Valid files hierarchy graphid =
          .ok (some (GraphTile.layout sz header filesize))) := by
  refine ⟨?_, rfl, rfl, rfl, rfl, ?_, ?_, ?_⟩
  · have hr : List.range 10 = [0, 1, 2, 3, 4, 5, 6, 7, 8, 9] := by decide
    rw [hr]
    simp only [GraphTile.layout, TileLayout.sections, specSectionBase, specSectionSizes,
      List.map_cons, List.map_nil, List.take, List.sum_cons, List.sum_nil]
    simp only [Nat.add_zero, Nat.add_assoc]
  · intro h1 h2
    simp only [GraphTile.layout, toSizeT]
    omega
  · intro h1 h2
    simp only [GraphTile.layout, toSizeT]
    omega
  · intro Is_Valid files hierarchy graphid suffix hv hs hf
    simp [GraphTile.load, hv, hs, hf]

/-- C27 at a header with two nodes, three directed edges, one sign and one
admin and a file of 640 bytes, with the record sizes of the specification. -/
theorem layout_spec_witness :
    (GraphTile.layout exampleSizes exampleHeader 640).sections =
        [264, 328, 424, 424, 424, 424, 424, 424, 436, 452] ∧
      (GraphTile.layout exampleSizes exampleHeader 640).sections =
        (List.range 10).map (specSectionBase exampleSizes exampleHeader) ∧
      (GraphTile.layout exampleSizes exampleHeader 640).edgeinfo_size_ = 100 ∧
      (GraphTile.layout exampleSizes exampleHeader 640).textlist_size_ = 40 :=
  ⟨by decide, (layout_spec exampleSizes exampleHeader 640).1, by decide, by decide⟩

/-- C28 as stated fails: the file of the tile 49 of level 0 has 264 bytes, the
size of the header alone, and its header records a file size of 4096 and five
nodes; the constructor does not fail but loads the tile, with `size_` 264 and a
node section from byte 264 to byte 424, past the end of the file. -/
theorem load_short_file :
    shortFileSystem "/data/valhalla/0/000/049.gph".toList = some (shortFileHeader, 264) ∧
      shortFileHeader.file_size ≠ 264 ∧
      GraphTile.load exampleSizes (fun _ => true) shortFileSystem exampleHierarchy
          { tileid := 49, level := 0, id := 0 } =
        .ok (some (GraphTile.layout exampleSizes shortFileHeader 264)) ∧
      (GraphTile.layout exampleSizes shortFileHeader 264).size_ = 264 ∧
      (GraphTile.layout exampleSizes shortFileHeader 264).nodes_ = 264 ∧
      264 < (GraphTile.layout exampleSizes shortFileHeader 264).nodes_ +
        shortFileHeader.nodecount * exampleSizes.NodeInfo := by
  decide

/-- C28, amended: the constructor compares neither the file size with the
header nor the section offsets with the file size. For an invalid graph id the
tile is not loaded; for a valid one the error of `FileSuffix` (a level that
does not exist) passes through, a file that cannot be opened leaves the tile
not loaded, and every file that opens is loaded, with `size_` the file size and
the layout derived from its header. -/
theorem load_spec (sz : RecordSizes) (Is_Valid : GraphId → Bool)
    (files : List Char → Option (GraphTileHeader × Nat)) (hierarchy : TileHierarchy)
    (graphid : GraphId) :
    (Is_Valid graphid = false →
        GraphTile.load sz Is_Valid files hierarchy graphid = .ok none) ∧
      (Is_Valid graphid = true → ∀ e, FileSuffix graphid.Tile_Base hierarchy = .error e →
        GraphTile.load sz Is_Valid files hierarchy graphid = .error e) ∧
      (Is_Valid graphid = true → ∀ suffix,
        FileSuffix graphid.Tile_Base hierarchy = .ok suffix →
        files (hierarchy.tile_dir ++ '/' :: suffix) = none →
        GraphTile.load sz Is_Valid files hierarchy graphid = .ok none) ∧
      (Is_Valid graphid = true → ∀ suffix header filesize,
        FileSuffix graphid.Tile_Base hierarchy = .ok suffix →
        files (hierarchy.tile_dir ++ '/' :: suffix) = some (header, filesize) →
        GraphTile.load sz Is_Valid files hierarchy graphid =
            .ok (some (GraphTile.layout sz header filesize)) ∧
          (GraphTile.layout sz header filesize).size_ = filesize) := by
  refine ⟨fun hv => ?_, fun hv e he => ?_, fun hv suffix hs hf => ?_,
    fun hv suffix header filesize hs hf => ⟨?_, rfl⟩⟩
  · simp [GraphTile.load, hv]
  · simp [GraphTile.load, hv, he]
  · simp [GraphTile.load, hv, hs, hf]
  · simp [GraphTile.load, hv, hs, hf]

/-! ## Lemmas: the incidents of an edge -/

theorem partitionPoint_spec (pred : Nat → Bool) (fuel : Nat) :
    ∀ first len, len ≤ fuel →
      (∀ i j, first ≤ i → i ≤ j → j < first + len → pred j = true → pred i = true) →
      first ≤ partitionPoint pred fuel first len ∧
        partitionPoint pred fuel first len ≤ first + len ∧
        (∀ i, first ≤ i → i < partitionPoint pred fuel first len → pred i = true) ∧
        (∀ i, partitionPoint pred fuel first len ≤ i → i < first + len → pred i = false) := by
  induction fuel with
  | zero =>
    intro first len hlen _
    simp only [partitionPoint]
    exact ⟨le_refl _, by omega, fun i h1 h2 => by omega, fun i h1 h2 => by omega⟩
  | succ fuel ih =>
    intro first len hlen hmono
    rw [partitionPoint]
    by_cases hpos : len > 0
    · simp only [hpos, if_true]
      have hhalf : len / 2 < len := Nat.div_lt_self hpos (by decide)
      by_cases hp : pred (first + len / 2) = true
      · simp only [hp, if_true]
        obtain ⟨h1, h2, h3, h4⟩ := ih (first + len / 2 + 1) (len - len / 2 - 1) (by omega)
          (fun i j hi hij hj => hmono i j (by omega) hij (by omega))
        refine ⟨by omega, by omega, fun i hi1 hi2 => ?_, fun i hi1 hi2 => h4 i hi1 (by omega)⟩
        by_cases hle : i ≤ first + len / 2
        · exact hmono i (first + len / 2) hi1 hle (by omega) hp
        · exact h3 i (by omega) hi2
      · simp only [hp, Bool.false_eq_true, if_false]
        obtain ⟨h1, h2, h3, h4⟩ := ih first (len / 2) (by omega)
          (fun i j hi hij hj => hmono i j hi hij (by omega))
        refine ⟨h1, by omega, h3, fun i hi1 hi2 => ?_⟩
        by_cases hlt : i < first + len / 2
        · exact h4 i hi1 hlt
        · cases hpi : pred i with
          | false => rfl
          | true => exact absurd (hmono (first + len / 2) i (by omega) (by omega) hi2 hpi) hp
    · simp only [hpos, if_false]
      exact ⟨le_refl _, by omega, fun i h1 h2 => by omega, fun i h1 h2 => by omega⟩

theorem equal_range_spec (buffer : Nat → traffic.Incident) (count e : Nat)
    (hs : ∀ i j, i ≤ j → j < count → (buffer i).edge_index ≤ (buffer j).edge_index) :
    (traffic.equal_range buffer count e).1 ≤ (traffic.equal_range buffer count e).2 ∧
      (traffic.equal_range buffer count e).2 ≤ count ∧
      ∀ i, i < count → ((buffer i).edge_index = e ↔
        (traffic.equal_range buffer count e).1 ≤ i ∧
          i < (traffic.equal_range buffer count e).2) := by
  obtain ⟨l1, l2, l3, l4⟩ := partitionPoint_spec
    (fun i => decide ((buffer i).edge_index < e)) count 0 count (le_refl _)
    (fun i j _ hij hj hp => by
      have := hs i j hij (by omega)
      simp only [decide_eq_true_eq] at hp ⊢
      omega)
  obtain ⟨u1, u2, u3, u4⟩ := partitionPoint_spec
    (fun i => decide (¬ e < (buffer i).edge_index)) count 0 count (le_refl _)
    (fun i j _ hij hj hp => by
      have := hs i j hij (by omega)
      simp only [decide_eq_true_eq] at hp ⊢
      omega)
  unfold traffic.equal_range
  simp only
  generalize partitionPoint (fun i => decide ((buffer i).edge_index < e)) count 0 count = lb at *
  generalize partitionPoint (fun i => decide (¬ e < (buffer i).edge_index)) count 0 count = ub at *
  simp only [Nat.zero_add] at l2 l4 u2 u4
  simp only [decide_eq_true_eq, decide_eq_false_iff_not, not_not, not_lt] at l3 l4 u3 u4
  refine ⟨?_, u2, fun i hi => ⟨fun h => ⟨?_, ?_⟩, fun h => ?_⟩⟩
  · by_contra hlt
    have a := l3 _ (Nat.zero_le _) (not_le.mp hlt)
    have b := u4 _ (le_refl _) (by omega)
    omega
  · by_contra hlt
    have := l3 i (Nat.zero_le _) (not_le.mp hlt)
    omega
  · by_contra hge
    have := u4 i (not_lt.mp hge) hi
    omega
  · have a := l4 i h.1 hi
    have b := u3 i (Nat.zero_le _) h.2
    omega

theorem filter_range_eq_run (p : Nat → Bool) (count lb ub : Nat) (h1 : lb ≤ ub)
    (h2 : ub ≤ count) (h : ∀ i, i < count → (p i = true ↔ lb ≤ i ∧ i < ub)) :
    (List.range count).filter p = List.range' lb (ub - lb) := by
  have hsplit : List.range' lb (count - lb) =
      List.range' lb (ub - lb) ++ List.range' ub (count - ub) := by
    have a := List.range'_append lb (ub - lb) (count - ub) 1
    simp only [Nat.one_mul] at a
    have e1 : lb + (ub - lb) = ub := by omega
    rw [e1] at a
    rw [a]
    congr 1
    omega
  have f1 : ∀ i, i < lb → p i = false := by
    intro i hi
    cases hp : p i with
    | false => rfl
    | true =>
      have := (h i (by omega)).1 hp
      omega
  have f2 : (List.range' lb (ub - lb)).filter p = List.range' lb (ub - lb) := by
    rw [List.filter_eq_self]
    intro i hi
    rw [List.mem_range'_1] at hi
    exact (h i (by omega)).2 ⟨hi.1, by omega⟩
  have f3 : (List.range' ub (count - ub)).filter p = [] := by
    rw [List.filter_eq_nil_iff]
    intro i hi hp
    rw [List.mem_range'_1] at hi
    have := (h i (by omega)).1 hp
    omega
  rw [filter_range_split p count lb (by omega) f1, hsplit, List.filter_append, f2, f3,
    List.append_nil]

theorem equal_range_filter (buffer : Nat → traffic.Incident) (count e : Nat)
    (hs : ∀ i j, i ≤ j → j < count → (buffer i).edge_index ≤ (buffer j).edge_index) :
    List.range' (traffic.equal_range buffer count e).1
        ((traffic.equal_range buffer count e).2 - (traffic.equal_range buffer count e).1) =
      (List.range count).filter (fun i => decide ((buffer i).edge_index = e)) := by
  obtain ⟨h1, h2, h3⟩ := equal_range_spec buffer count e hs
  exact (filter_range_eq_run _ count _ _ h1 h2 (fun i hi => by simpa using h3 i hi)).symm

/-! ## Claim C29: traffic and incidents of an edge -/

/-- C29: for every traffic tile and edge `e`: with a null header pointer
`getIncidentsForDirectedEdge(e)` returns the empty list and
`getTrafficForDirectedEdge(e)` the speed whose fields are all 0; with a header,
for `e` below the edge count: the list is empty when `has_incident` of the
speed of `e` is clear, and else it is the incidents of the active buffer,
buffer 0 with its count when `active_incident_buffer == 0` and buffer 1 with
its count otherwise, whose `edge_index` is `e`, in storage order, provided the
buffer is sorted by `edge_index`. The incidents returned are copies whose
fields other than the spare bits are those of the records. -/
theorem getIncidentsForDirectedEdge_spec (tile : traffic.Tile) (e : Nat) :
    (tile.header = none →
        tile.getIncidentsForDirectedEdge e = some [] ∧
          tile.getTrafficForDirectedEdge e =
            some { speed_kmh := 0, congestion_level := 0, is_scale := 0, age := 0,
                   has_incident := 0 }) ∧
      (∀ header, tile.header = some header → e < header.directed_edge_count →
        (tile.speeds e).has_incident = 0 → tile.getIncidentsForDirectedEdge e = some []) ∧
      (∀ header, tile.header = some header → e < header.directed_edge_count →
        (tile.speeds e).has_incident ≠ 0 → header.active_incident_buffer = 0 →
        (∀ i j, i ≤ j → j < tile.incident_count_0 →
          (tile.incidents_0 i).edge_index ≤ (tile.incidents_0 j).edge_index) →
        tile.getIncidentsForDirectedEdge e =
          some (((List.range tile.incident_count_0).filter
              (fun i => decide ((tile.incidents_0 i).edge_index = e))).map
            (fun i => traffic.Incident.ofVolatile (tile.incidents_0 i)))) ∧
      (∀ header, tile.header = some header → e < header.directed_edge_count →
        (tile.speeds e).has_incident ≠ 0 → header.active_incident_buffer ≠ 0 →
        (∀ i j, i ≤ j → j < tile.incident_count_1 →
          (tile.incidents_1 i).edge_index ≤ (tile.incidents_1 j).edge_index) →
        tile.getIncidentsForDirectedEdge e =
          some (((List.range tile.incident_count_1).filter
              (fun i => decide ((tile.incidents_1 i).edge_index = e))).map
            (fun i => traffic.Incident.ofVolatile (tile.incidents_1 i)))) ∧
      (∀ r : traffic.Incident,
        (traffic.Incident.ofVolatile r).edge_index = r.edge_index ∧
          (traffic.Incident.ofVolatile r).incident_type = r.incident_type ∧
          (traffic.Incident.ofVolatile r).start_location = r.start_location ∧
          (traffic.Incident.ofVolatile r).length = r.length) := by
  refine ⟨fun hnull => ?_, fun header hh he h0 => ?_, fun header hh he h1 ha hs => ?_,
    fun header hh he h1 ha hs => ?_, fun r => ⟨rfl, rfl, rfl, rfl⟩⟩
  · constructor
    · simp [traffic.Tile.getIncidentsForDirectedEdge, hnull]
    · simp [traffic.Tile.getTrafficForDirectedEdge, hnull, traffic.Speed.default]
  · simp [traffic.Tile.getIncidentsForDirectedEdge, hh, he, h0]
  · simp only [traffic.Tile.getIncidentsForDirectedEdge, hh, he, h1, ha, if_true, if_false]
    rw [equal_range_filter tile.incidents_0 tile.incident_count_0 e hs]
  · simp only [traffic.Tile.getIncidentsForDirectedEdge, hh, he, h1, ha, if_true, if_false]
    rw [equal_range_filter tile.incidents_1 tile.incident_count_1 e hs]

/-- C29 at the tile whose active buffer 1 holds incidents for the edges 1, 2, 2
and 3, and the edge 2: the two incidents of the edge 2 in buffer 1 are
returned, and not the one of buffer 0. -/
theorem getIncidentsForDirectedEdge_spec_witness :
    trafficTile.getIncidentsForDirectedEdge 2 = some [incidentOf 2 2, incidentOf 2 3] ∧
      trafficTile.getIncidentsForDirectedEdge 2 =
        some (((List.range trafficTile.incident_count_1).filter
            (fun i => decide ((trafficTile.incidents_1 i).edge_index = 2))).map
          (fun i => traffic.Incident.ofVolatile (trafficTile.incidents_1 i))) :=
  ⟨by decide,
    (getIncidentsForDirectedEdge_spec trafficTile 2).2.2.2.1
      { tile_id := 7, directed_edge_count := 4, incident_buffer_size := 8,
        active_incident_buffer := 1, last_update := 0 }
      rfl (by decide) (by decide) (by decide)
      (fun i j hij hj => by
        have hj4 : j < 4 := hj
        interval_cases j <;> interval_cases i <;> decide)⟩

/-! ## Lemmas: the colouring always returns -/

theorem visitNeighbor_measure (c y : Nat) (hc : c ≠ 0) (st : ConnectivityMap × List Nat) :
    zeros (visitNeighbor c y st).1 + (visitNeighbor c y st).2.length ≤ zeros st.1 + st.2.length ∧
      (visitNeighbor c y st).1.map Prod.fst = st.1.map Prod.fst := by
  obtain ⟨m, q⟩ := st
  by_cases h : mapFind m y = some 0
  · rw [visitNeighbor_zero c y m q h]
    have := zeros_mapSet_lt m y c hc h
    simp only [List.length_append, List.length_singleton]
    exact ⟨by omega, mapSet_keys m y c⟩
  · rw [visitNeighbor_other c y m q h]
    exact ⟨le_refl _, rfl⟩

theorem floodLoop_total (T : Tiles) (c : Nat) (hc : c ≠ 0) (fuel : Nat) :
    ∀ (m : ConnectivityMap) (q : List Nat), zeros m + q.length ≤ fuel →
      ∃ m', floodLoop T c fuel m q = some m' ∧ m'.map Prod.fst = m.map Prod.fst := by
  induction fuel with
  | zero =>
    intro m q hf
    have hq : q = [] := List.eq_nil_of_length_eq_zero (by omega)
    subst hq
    exact ⟨m, by simp [floodLoop], rfl⟩
  | succ fuel ih =>
    intro m q hf
    cases q with
    | nil => exact ⟨m, by simp [floodLoop], rfl⟩
    | cons x q =>
      have hstep : floodLoop T c (fuel + 1) m (x :: q) =
          floodLoop T c fuel
            (visitNeighbor c (toUInt32 (T.BottomNeighbor (toInt32 x)))
              (visitNeighbor c (toUInt32 (T.TopNeighbor (toInt32 x)))
                (visitNeighbor c (toUInt32 (T.RightNeighbor (toInt32 x)))
                  (visitNeighbor c (toUInt32 (T.LeftNeighbor (toInt32 x))) (m, q))))).1
            (visitNeighbor c (toUInt32 (T.BottomNeighbor (toInt32 x)))
              (visitNeighbor c (toUInt32 (T.TopNeighbor (toInt32 x)))
                (visitNeighbor c (toUInt32 (T.RightNeighbor (toInt32 x)))
                  (visitNeighbor c (toUInt32 (T.LeftNeighbor (toInt32 x))) (m, q))))).2 := by
        rw [floodLoop]
      rw [hstep]
      generalize hs1 : visitNeighbor c (toUInt32 (T.LeftNeighbor (toInt32 x))) (m, q) = s1
      have a1 := visitNeighbor_measure c (toUInt32 (T.LeftNeighbor (toInt32 x))) hc (m, q)
      rw [hs1] at a1
      simp only at a1
      generalize hs2 : visitNeighbor c (toUInt32 (T.RightNeighbor (toInt32 x))) s1 = s2
      have a2 := visitNeighbor_measure c (toUInt32 (T.RightNeighbor (toInt32 x))) hc s1
      rw [hs2] at a2
      generalize hs3 : visitNeighbor c (toUInt32 (T.TopNeighbor (toInt32 x))) s2 = s3
      have a3 := visitNeighbor_measure c (toUInt32 (T.TopNeighbor (toInt32 x))) hc s2
      rw [hs3] at a3
      generalize hs4 : visitNeighbor c (toUInt32 (T.BottomNeighbor (toInt32 x))) s3 = s4
      have a4 := visitNeighbor_measure c (toUInt32 (T.BottomNeighbor (toInt32 x))) hc s3
      rw [hs4] at a4
      simp only [List.length_cons] at hf
      obtain ⟨m', hm', hk'⟩ := ih s4.1 s4.2 (by omega)
      exact ⟨m', hm', by rw [hk', a4.2, a3.2, a2.2, a1.2]⟩

theorem colorLoop_total (T : Tiles) (ks : List Nat) :
    ∀ (c : Nat) (m : ConnectivityMap), 1 ≤ c →
      ∃ m', colorLoop T ks c m = some m' ∧ m'.map Prod.fst = m.map Prod.fst := by
  induction ks with
  | nil =>
    intro c m _
    exact ⟨m, by simp [colorLoop], rfl⟩
  | cons k rest ih =>
    intro c m hc
    by_cases h0 : mapFind m k = some 0
    · have hlt := zeros_mapSet_lt m k c (by omega) h0
      have hle := zeros_le_length m
      obtain ⟨m1, hm1, hk1⟩ := floodLoop_total T c (by omega) m.length (mapSet m k c) [k]
        (by simp only [List.length_singleton]; omega)
      obtain ⟨m', hm', hk'⟩ := ih (c + 1) m1 (by omega)
      refine ⟨m', ?_, ?_⟩
      · rw [colorLoop_cons_zero T k rest c m h0, hm1]
        exact hm'
      · rw [hk', hk1, mapSet_keys]
    · obtain ⟨m', hm', hk'⟩ := ih c m hc
      exact ⟨m', by rw [colorLoop_cons_other T k rest c m h0]; exact hm', hk'⟩

theorem ColorMap_total (T : Tiles) (m : ConnectivityMap) :
    ∃ m', T.ColorMap m = some m' ∧ m'.map Prod.fst = m.map Prod.fst :=
  colorLoop_total T (m.map Prod.fst) 1 m (le_refl 1)

/-! ## Lemmas: the image of a level -/

theorem to_image_eq (cm : connectivity_map_t) (hierarchy_level : Nat)
    (level : ConnectivityMap) (bbox : TileLevel)
    (hl : cm.colors.lookup hierarchy_level = some level)
    (hb : cm.tile_hierarchy.levels.lookup (cm.tile_level hierarchy_level) = some bbox) :
    cm.to_image hierarchy_level =
      .ok ((List.range (toSizeT (bbox.tiles.nrows_ * bbox.tiles.ncolumns_))).map
        (fun i => get_color level (i % 4294967296))) := by
  unfold connectivity_map_t.to_image
  rw [hl]
  simp only [hb]
  congr 1
  apply List.map_congr_left
  intro i _
  unfold get_color
  cases mapFind level (i % 4294967296) <;> rfl

theorem get_color_level (cm : connectivity_map_t) (hierarchy_level tileid : Nat)
    (level : ConnectivityMap) (hl : cm.colors.lookup hierarchy_level = some level) :
    cm.get_color { tileid := tileid, level := hierarchy_level, id := 0 } =
      get_color level tileid := by
  unfold connectivity_map_t.get_color get_color
  simp only [hl]

/-! ## Claim C22: the image of a level -/

/-- C22: for every connectivity map and every level that has a map of colours
and whose tiling, for the transit level that of the level below it, is in the
hierarchy with counts that are not negative and a tile count below `2^31` (the
product `nrows() * ncolumns()` of the code is an `int32_t`),
`to_image(level)` returns an array of `ncolumns * nrows` entries whose entry
`i` is `get_color` of the tile `i` of the level: 0 when the tile has no entry,
its colour when it has one; so it is at the index `row * ncolumns + column` for
the tile of a row and a column. -/
theorem to_image_spec (cm : connectivity_map_t) (hierarchy_level : Nat)
    (level : ConnectivityMap) (bbox : TileLevel)
    (hl : cm.colors.lookup hierarchy_level = some level)
    (hb : cm.tile_hierarchy.levels.lookup (cm.tile_level hierarchy_level) = some bbox)
    (hc : 0 ≤ bbox.tiles.ncolumns_) (hr : 0 ≤ bbox.tiles.nrows_)
    (hN : bbox.tiles.ncolumns_ * bbox.tiles.nrows_ < 2147483648) :
    ∃ image, cm.to_image hierarchy_level = .ok image ∧
      image.length = bbox.tiles.ncolumns_.toNat * bbox.tiles.nrows_.toNat ∧
      (∀ i, i < image.length →
        image[i]? = some (cm.get_color { tileid := i, level := hierarchy_level, id := 0 })) ∧
      (∀ i, i < image.length → mapFind level i = none → image[i]? = some 0) ∧
      (∀ i color, i < image.length → mapFind level i = some color →
        image[i]? = some color) ∧
      (∀ row column, row < bbox.tiles.nrows_.toNat → column < bbox.tiles.ncolumns_.toNat →
        image[row * bbox.tiles.ncolumns_.toNat + column]? =
          some (cm.get_color { tileid := row * bbox.tiles.ncolumns_.toNat + column,
                               level := hierarchy_level, id := 0 })) ∧
      (hierarchy_level = cm.transit_level → 0 < cm.transit_level →
        cm.transit_level < 4294967296 →
        cm.tile_level hierarchy_level = cm.transit_level - 1) := by
  have hsize : toSizeT (bbox.tiles.nrows_ * bbox.tiles.ncolumns_) =
      bbox.tiles.ncolumns_.toNat * bbox.tiles.nrows_.toNat := by
    have h0 : 0 ≤ bbox.tiles.ncolumns_ * bbox.tiles.nrows_ := mul_nonneg hc hr
    have e : bbox.tiles.nrows_ * bbox.tiles.ncolumns_ =
        ((bbox.tiles.ncolumns_.toNat * bbox.tiles.nrows_.toNat : Nat) : Int) := by
      push_cast
      rw [Int.toNat_of_nonneg hc, Int.toNat_of_nonneg hr, Int.mul_comm]
    have hlt : ((bbox.tiles.ncolumns_.toNat * bbox.tiles.nrows_.toNat : Nat) : Int)
        < 4294967296 := by
      rw [← e, Int.mul_comm]
      omega
    unfold toSizeT
    rw [e]
    omega
  have hlt32 : bbox.tiles.ncolumns_.toNat * bbox.tiles.nrows_.toNat < 4294967296 := by
    have h0 : 0 ≤ bbox.tiles.ncolumns_ * bbox.tiles.nrows_ := mul_nonneg hc hr
    have e : ((bbox.tiles.ncolumns_.toNat * bbox.tiles.nrows_.toNat : Nat) : Int) =
        bbox.tiles.ncolumns_ * bbox.tiles.nrows_ := by
      push_cast
      rw [Int.toNat_of_nonneg hc, Int.toNat_of_nonneg hr]
    omega
  have hget : ∀ i, i < bbox.tiles.ncolumns_.toNat * bbox.tiles.nrows_.toNat →
      ((List.range (toSizeT (bbox.tiles.nrows_ * bbox.tiles.ncolumns_))).map
        (fun i => get_color level (i % 4294967296)))[i]? = some (get_color level i) := by
    intro i hi
    rw [hsize, List.getElem?_map, List.getElem?_range hi]
    simp only [Option.map_some']
    rw [Nat.mod_eq_of_lt (by omega)]
  refine ⟨_, to_image_eq cm hierarchy_level level bbox hl hb, ?_, ?_, ?_, ?_, ?_, ?_⟩
  · rw [List.length_map, List.length_range, hsize]
  · intro i hi
    rw [List.length_map, List.length_range, hsize] at hi
    rw [hget i hi, get_color_level cm hierarchy_level i level hl]
  · intro i hi hnone
    rw [List.length_map, List.length_range, hsize] at hi
    rw [hget i hi]
    simp [get_color, hnone]
  · intro i color hi hsome
    rw [List.length_map, List.length_range, hsize] at hi
    rw [hget i hi]
    simp [get_color, hsome]
  · intro row column hrow hcol
    have hi : row * bbox.tiles.ncolumns_.toNat + column <
        bbox.tiles.ncolumns_.toNat * bbox.tiles.nrows_.toNat := by
      have h1 : (row + 1) * bbox.tiles.ncolumns_.toNat ≤
          bbox.tiles.nrows_.toNat * bbox.tiles.ncolumns_.toNat :=
        Nat.mul_le_mul_right _ hrow
      have h2 : (row + 1) * bbox.tiles.ncolumns_.toNat =
          row * bbox.tiles.ncolumns_.toNat + bbox.tiles.ncolumns_.toNat := by ring
      have h3 := Nat.mul_comm bbox.tiles.nrows_.toNat bbox.tiles.ncolumns_.toNat
      omega
    rw [hget _ hi, get_color_level cm hierarchy_level _ level hl]
  · intro ht h0 h32
    unfold connectivity_map_t.tile_level toUInt32
    rw [if_pos ht]
    omega

/-- C22 at level 1 of a map that holds the neighbouring tiles 1 and 2 of the
4 x 2 tiling with the colour 1 of their component: the image has 8 entries,
the colour 1 at the indices 1 and 2 and 0 elsewhere. -/
theorem to_image_spec_witness :
    pairMap.to_image 1 = .ok [0, 1, 1, 0, 0, 0, 0, 0] ∧
      ∃ image, pairMap.to_image 1 = .ok image ∧
        image.length = 4 * 2 ∧
        (∀ i, i < image.length →
          image[i]? = some (pairMap.get_color { tileid := i, level := 1, id := 0 })) := by
  refine ⟨by decide, ?_⟩
  obtain ⟨image, h1, h2, h3, -⟩ := to_image_spec pairMap 1 [(1, 1), (2, 1)]
    { level := 1,
      tiles := { ncolumns_ := 4, nrows_ := 2, tilebounds_ := world_box, tilesize_ := 90 } }
    rfl rfl (by decide) (by decide) (by decide)
  exact ⟨image, h1, h2, h3⟩

/-! ## Lemmas: the levels of the connectivity map -/

theorem levelColors_total (hierarchy : TileHierarchy) (transit_level : Nat) (scan : LevelScan)
    (tile_level : Nat) (last : Nat × TileLevel) (hlast : hierarchy.levels.getLast? = some last)
    (hlev : tile_level ≠ transit_level → ∃ l, hierarchy.levels.lookup tile_level = some l) :
    ∃ m, levelColors hierarchy transit_level scan tile_level = some m := by
  unfold levelColors
  simp only
  split_ifs with hthrown ht
  · exact ⟨_, rfl⟩
  · simp only [hlast, Option.map_some']
    obtain ⟨m', hm', -⟩ := ColorMap_total last.2.tiles.toTiles _
    exact ⟨m', hm'⟩
  · obtain ⟨l, hl⟩ := hlev ht
    simp only [hl]
    obtain ⟨m', hm', -⟩ := ColorMap_total l.tiles.toTiles _
    exact ⟨m', hm'⟩

theorem levelColors_missing (hierarchy : TileHierarchy) (transit_level tile_level : Nat)
    (last : Nat × TileLevel) (hlast : hierarchy.levels.getLast? = some last)
    (hlev : tile_level ≠ transit_level → ∃ l, hierarchy.levels.lookup tile_level = some l) :
    levelColors hierarchy transit_level .missing tile_level = some [] := by
  unfold levelColors
  simp only [Bool.false_eq_true, if_false]
  by_cases ht : tile_level = transit_level
  · simp only [ht, if_true, hlast, Option.map_some']
    rfl
  · obtain ⟨l, hl⟩ := hlev ht
    simp only [ht, if_false, hl]
    rfl

theorem levelColors_failing (hierarchy : TileHierarchy) (transit_level tile_level : Nat)
    (paths : List (List Char)) :
    levelColors hierarchy transit_level (.failing paths) tile_level =
      some (scanTiles hierarchy paths []).1 := by
  unfold levelColors
  simp only [if_true]

theorem buildColors_spec (hierarchy : TileHierarchy) (transit_level : Nat)
    (disk : Nat → LevelScan) (ls : List Nat)
    (h : ∀ l, l ∈ ls → ∃ m, levelColors hierarchy transit_level (disk l) l = some m) :
    ∃ colors, buildColors hierarchy transit_level disk ls = some colors ∧
      (∀ l, l ∈ ls → colors.lookup l = levelColors hierarchy transit_level (disk l) l) ∧
      (∀ l, l ∉ ls → colors.lookup l = none) := by
  induction ls with
  | nil => exact ⟨[], rfl, fun l hl => absurd hl (List.not_mem_nil l), fun l _ => rfl⟩
  | cons a rest ih =>
    obtain ⟨m, hm⟩ := h a (List.mem_cons_self _ _)
    obtain ⟨colors, hc, h1, h2⟩ := ih (fun l hl => h l (List.mem_cons_of_mem _ hl))
    refine ⟨(a, m) :: colors, by simp only [buildColors, hm, hc], fun l hl => ?_, fun l hl => ?_⟩
    · by_cases hla : l = a
      · subst hla
        simp [List.lookup, hm]
      · have hne : (l == a) = false := by simpa using hla
        simp only [List.lookup, hne]
        rcases List.mem_cons.mp hl with h | h
        · exact absurd h hla
        · exact h1 l h
    · have hla : l ≠ a := fun e => hl (e ▸ List.mem_cons_self _ _)
      have hne : (l == a) = false := by simpa using hla
      simp only [List.lookup, hne]
      exact h2 l (fun hmem => hl (List.mem_cons_of_mem _ hmem))

theorem to_image_error_iff (cm : connectivity_map_t) (lvl : Nat) :
    cm.to_image lvl = .error .noConnectivityMapForLevel ↔ cm.colors.lookup lvl = none := by
  unfold connectivity_map_t.to_image
  cases h1 : cm.colors.lookup lvl with
  | none => simp
  | some level =>
    cases h2 : cm.tile_hierarchy.levels.lookup (cm.tile_level lvl) with
    | none => simp
    | some bbox => simp

theorem to_geojson_error_iff (cm : connectivity_map_t)
    (iterate : List (Nat × List Point2) → List (Nat × List Point2)) (lvl : Nat) :
    cm.to_geojson iterate lvl = .error .noConnectivityMapForLevel ↔
      cm.colors.lookup lvl = none := by
  unfold connectivity_map_t.to_geojson
  cases h1 : cm.colors.lookup lvl with
  | none => simp
  | some level =>
    cases h2 : cm.tile_hierarchy.levels.lookup (cm.tile_level lvl) with
    | none => simp
    | some bbox => simp

theorem construct_result (hierarchy : TileHierarchy) (disk : Nat → LevelScan)
    (last : Nat × TileLevel) (hlast : hierarchy.levels.getLast? = some last)
    (hlevels : ∀ lvl, lvl ≤ last.2.level → ∃ l, hierarchy.levels.lookup lvl = some l) :
    ∃ cm, connectivity_map_t.construct hierarchy disk = some cm ∧
      cm.tile_hierarchy = hierarchy ∧ cm.transit_level = last.2.level + 1 ∧
      (∀ lvl, lvl ≤ cm.transit_level →
        cm.colors.lookup lvl = levelColors hierarchy cm.transit_level (disk lvl) lvl) ∧
      (∀ lvl, cm.transit_level < lvl → cm.colors.lookup lvl = none) := by
  have hlev : ∀ l, l ∈ List.range (last.2.level + 1 + 1) →
      (l ≠ last.2.level + 1 → ∃ lv, hierarchy.levels.lookup l = some lv) := by
    intro l hl hne
    rw [List.mem_range] at hl
    exact hlevels l (by omega)
  obtain ⟨colors, hc, h1, h2⟩ := buildColors_spec hierarchy (last.2.level + 1) disk
    (List.range (last.2.level + 1 + 1))
    (fun l hl => levelColors_total hierarchy _ (disk l) l last hlast (hlev l hl))
  refine ⟨{ tile_hierarchy := hierarchy, transit_level := last.2.level + 1, colors := colors },
    ?_, rfl, rfl, fun lvl hl => h1 lvl (List.mem_range.mpr (by simp only at hl; omega)),
    fun lvl hl => h2 lvl (fun hmem => by
      rw [List.mem_range] at hmem
      simp only at hl
      omega)⟩
  unfold connectivity_map_t.construct
  simp only [hlast, hc]

/-! ## Claim C24: levels without a directory -/

/-- C24 as stated fails: on a disk without a directory for level 0, the
constructor for the hierarchy of the levels 0 and 1 builds the map
`smallMap`, whose colours hold the empty map under level 0; `to_image(0)`
returns the two zeros of the 2 x 1 tiling and `to_geojson(0)` the empty
collection, and none throws. -/
theorem construct_missing_level :
    smallDisk 0 = .missing ∧
      connectivity_map_t.construct smallHierarchy smallDisk = some smallMap ∧
      smallMap.colors.lookup 0 = some [] ∧
      smallMap.to_image 0 = .ok [0, 0] ∧
      smallMap.to_geojson id 0 = .ok [] :=
  ⟨rfl, rfl, rfl, by decide, by decide⟩

/-- C24, amended: for every hierarchy whose levels from 0 to its last level
are all present and every disk, the constructor returns, the transit level is
the last level plus 1, and the colours have an entry exactly for the levels 0
to the transit level: the empty map for a level without a directory, and the
tiles inserted before the failure, not coloured, for a level whose scan throws.
`to_image` and `to_geojson` throw "No connectivity map for level" exactly for
the levels above the transit level. -/
theorem connectivity_map_levels (hierarchy : TileHierarchy) (disk : Nat → LevelScan)
    (last : Nat × TileLevel) (hlast : hierarchy.levels.getLast? = some last)
    (hlevels : ∀ lvl, lvl ≤ last.2.level → ∃ l, hierarchy.levels.lookup lvl = some l) :
    ∃ cm, connectivity_map_t.construct hierarchy disk = some cm ∧
      cm.transit_level = last.2.level + 1 ∧
      (∀ lvl, (∃ m, cm.colors.lookup lvl = some m) ↔ lvl ≤ cm.transit_level) ∧
      (∀ lvl, lvl ≤ cm.transit_level → disk lvl = .missing →
        cm.colors.lookup lvl = some []) ∧
      (∀ lvl paths, lvl ≤ cm.transit_level → disk lvl = .failing paths →
        cm.colors.lookup lvl = some (scanTiles hierarchy paths []).1) ∧
      (∀ lvl, cm.to_image lvl = .error .noConnectivityMapForLevel ↔
        cm.transit_level < lvl) ∧
      (∀ iterate lvl, cm.to_geojson iterate lvl = .error .noConnectivityMapForLevel ↔
        cm.transit_level < lvl) := by
  obtain ⟨cm, hcm, hh, ht, h1, h2⟩ := construct_result hierarchy disk last hlast hlevels
  have hlev : ∀ lvl, lvl ≤ cm.transit_level →
      (lvl ≠ cm.transit_level → ∃ l, hierarchy.levels.lookup lvl = some l) := by
    intro lvl hle hne
    exact hlevels lvl (by omega)
  have hsome : ∀ lvl, (∃ m, cm.colors.lookup lvl = some m) ↔ lvl ≤ cm.transit_level := by
    intro lvl
    constructor
    · rintro ⟨m, hm⟩
      by_contra hgt
      rw [h2 lvl (by omega)] at hm
      exact Option.noConfusion hm
    · intro hle
      obtain ⟨m, hm⟩ := levelColors_total hierarchy cm.transit_level (disk lvl) lvl last hlast
        (hlev lvl hle)
      exact ⟨m, by rw [h1 lvl hle, hm]⟩
  have hnone : ∀ lvl, cm.colors.lookup lvl = none ↔ cm.transit_level < lvl := by
    intro lvl
    constructor
    · intro hn
      by_contra hle
      obtain ⟨m, hm⟩ := (hsome lvl).2 (by omega)
      rw [hn] at hm
      exact Option.noConfusion hm
    · exact h2 lvl
  refine ⟨cm, hcm, ht, hsome, fun lvl hle hmiss => ?_, fun lvl paths hle hfail => ?_,
    fun lvl => ?_, fun iterate lvl => ?_⟩
  · rw [h1 lvl hle, hmiss]
    exact levelColors_missing hierarchy cm.transit_level lvl last hlast (hlev lvl hle)
  · rw [h1 lvl hle, hfail]
    exact levelColors_failing hierarchy cm.transit_level lvl paths
  · rw [to_image_error_iff, hnone]
  · rw [to_geojson_error_iff, hnone]

/-- C24, amended, at the hierarchy of the levels 0 and 1 on the disk without a
directory for level 0. -/
theorem connectivity_map_levels_witness :
    ∃ cm, connectivity_map_t.construct smallHierarchy smallDisk = some cm ∧
      cm.transit_level = 2 ∧
      (∀ lvl, (∃ m, cm.colors.lookup lvl = some m) ↔ lvl ≤ cm.transit_level) ∧
      (∀ lvl, lvl ≤ cm.transit_level → smallDisk lvl = .missing →
        cm.colors.lookup lvl = some []) ∧
      (∀ lvl, cm.to_image lvl = .error .noConnectivityMapForLevel ↔
        cm.transit_level < lvl) := by
  obtain ⟨cm, h1, h2, h3, h4, -, h6, -⟩ := connectivity_map_levels smallHierarchy smallDisk
    (1, { level := 1,
          tiles := { ncolumns_ := 4, nrows_ := 2, tilebounds_ := world_box, tilesize_ := 90 } })
    rfl
    (fun lvl hl => by
      have hl1 : lvl ≤ 1 := hl
      interval_cases lvl
      · exact ⟨_, rfl⟩
      · exact ⟨_, rfl⟩)
  exact ⟨cm, h1, h2, h3, h4, h6⟩

/-! ## Lemmas: regions and arities -/

theorem regionsInsert_lookup (r : List (Nat × List Point2)) (c : Nat) (p : Point2) (c' : Nat) :
    (regionsInsert r c p).lookup c' =
      if c' = c then some ((r.lookup c).getD [] ++ [p]) else r.lookup c' := by
  induction r with
  | nil =>
    by_cases h : c' = c
    · subst h
      simp [regionsInsert, List.lookup]
    · have hne : (c' == c) = false := by simpa using h
      simp [regionsInsert, List.lookup, hne, h]
  | cons e rest ih =>
    obtain ⟨a, ps⟩ := e
    rw [regionsInsert]
    by_cases hac : a = c
    · subst hac
      simp only [if_true]
      by_cases h : c' = a
      · subst h
        simp [List.lookup]
      · have hne : (c' == a) = false := by simpa using h
        simp [List.lookup, hne, h]
    · simp only [hac, if_false]
      by_cases h : c' = a
      · subst h
        have hne : ¬ c' = c := hac
        simp [List.lookup, hne]
      · have hne : (c' == a) = false := by simpa using h
        have hca : (c == a) = false := by simpa using (fun e : c = a => hac e.symm)
        simp only [List.lookup, hne, hca]
        exact ih

theorem regionsInsert_keys (r : List (Nat × List Point2)) (c : Nat) (p : Point2) :
    (regionsInsert r c p).map Prod.fst =
      if c ∈ r.map Prod.fst then r.map Prod.fst else r.map Prod.fst ++ [c] := by
  induction r with
  | nil => simp [regionsInsert]
  | cons e rest ih =>
    obtain ⟨a, ps⟩ := e
    rw [regionsInsert]
    by_cases hac : a = c
    · subst hac
      simp
    · have hca : ¬ c = a := fun e => hac e.symm
      simp only [hac, if_false, List.map_cons, ih, List.mem_cons, hca, false_or]
      split_ifs <;> simp

theorem regionsInsert_nodup (r : List (Nat × List Point2)) (c : Nat) (p : Point2)
    (h : (r.map Prod.fst).Nodup) : ((regionsInsert r c p).map Prod.fst).Nodup := by
  rw [regionsInsert_keys]
  split_ifs with hc
  · exact h
  · rw [List.nodup_append]
    refine ⟨h, List.nodup_singleton c, ?_⟩
    intro x hx hx2
    rw [List.mem_singleton] at hx2
    subst hx2
    exact hc hx

theorem lookup_of_mem_nodup (r : List (Nat × List Point2)) (c : Nat) (ps : List Point2)
    (hn : (r.map Prod.fst).Nodup) (h : (c, ps) ∈ r) : r.lookup c = some ps := by
  induction r with
  | nil => exact absurd h (List.not_mem_nil _)
  | cons e rest ih =>
    obtain ⟨a, qs⟩ := e
    simp only [List.map_cons, List.nodup_cons] at hn
    rcases List.mem_cons.mp h with h1 | h1
    · simp only [Prod.mk.injEq] at h1
      obtain ⟨rfl, rfl⟩ := h1
      simp [List.lookup]
    · have hne : c ≠ a := by
        intro e
        subst e
        exact hn.1 (List.mem_map.mpr ⟨(c, ps), h1, rfl⟩)
      have hb : (c == a) = false := by simpa using hne
      simp only [List.lookup, hb]
      exact ih hn.2 h1

theorem mem_of_lookup (r : List (Nat × List Point2)) (c : Nat) (ps : List Point2)
    (h : r.lookup c = some ps) : (c, ps) ∈ r := by
  induction r with
  | nil => simp [List.lookup] at h
  | cons e rest ih =>
    obtain ⟨a, qs⟩ := e
    by_cases hca : c = a
    · subst hca
      simp only [List.lookup, beq_self_eq_true, Option.some.injEq] at h
      subst h
      exact List.mem_cons_self _ _
    · have hb : (c == a) = false := by simpa using hca
      simp only [List.lookup, hb] at h
      exact List.mem_cons_of_mem _ (ih h)

theorem regions_fold (center : Nat → Point2) (rest pre : List (Nat × Nat))
    (acc : List (Nat × List Point2)) (hn : (acc.map Prod.fst).Nodup)
    (hl : ∀ c, acc.lookup c =
      if pre.filter (fun tile => tile.2 = c) = [] then none
      else some ((pre.filter (fun tile => tile.2 = c)).map (fun tile => center tile.1))) :
    ((rest.foldl (fun regions tile => regionsInsert regions tile.2 (center tile.1)) acc).map
        Prod.fst).Nodup ∧
    ∀ c, (rest.foldl (fun regions tile => regionsInsert regions tile.2 (center tile.1)) acc).lookup c =
      if (pre ++ rest).filter (fun tile => tile.2 = c) = [] then none
      else some (((pre ++ rest).filter (fun tile => tile.2 = c)).map (fun tile => center tile.1)) := by
  induction rest generalizing pre acc with
  | nil =>
    simp only [List.foldl, List.append_nil]
    exact ⟨hn, hl⟩
  | cons t rest ih =>
    have h := ih (pre ++ [t]) (regionsInsert acc t.2 (center t.1))
      (regionsInsert_nodup acc t.2 (center t.1) hn) (by
        intro c
        rw [regionsInsert_lookup, List.filter_append]
        by_cases hc : c = t.2
        · subst hc
          have hf : [t].filter (fun tile => decide (tile.2 = t.2)) = [t] := by simp
          rw [hl t.2, hf]
          by_cases he : pre.filter (fun tile => decide (tile.2 = t.2)) = []
          · simp [he]
          · simp [he]
        · have hc2 : ¬ t.2 = c := fun e => hc e.symm
          have hf : [t].filter (fun tile => decide (tile.2 = c)) = [] := by simp [hc2]
          rw [hf, List.append_nil, if_neg hc]
          exact hl c)
    have e : pre ++ t :: rest = pre ++ [t] ++ rest := by simp
    simp only [List.foldl]
    rw [e]
    exact h

theorem aritiesInsert_perm (a : List (Nat × Nat)) (s c : Nat) :
    (aritiesInsert a s c).Perm ((s, c) :: a) := by
  induction a with
  | nil => exact List.Perm.refl _
  | cons e rest ih =>
    obtain ⟨s', c'⟩ := e
    rw [aritiesInsert]
    split_ifs with h
    · exact List.Perm.refl _
    · exact ((List.Perm.cons _ ih).trans (List.Perm.swap _ _ _))

theorem aritiesInsert_sorted (a : List (Nat × Nat)) (s c : Nat)
    (h : a.Pairwise (fun x y => y.1 ≤ x.1)) :
    (aritiesInsert a s c).Pairwise (fun x y => y.1 ≤ x.1) := by
  induction a with
  | nil => simp [aritiesInsert]
  | cons e rest ih =>
    obtain ⟨s', c'⟩ := e
    rw [List.pairwise_cons] at h
    rw [aritiesInsert]
    split_ifs with hs
    · rw [List.pairwise_cons]
      refine ⟨?_, List.pairwise_cons.mpr h⟩
      intro y hy
      rcases List.mem_cons.mp hy with hy1 | hy1
      · subst hy1
        exact Nat.le_of_lt hs
      · have := h.1 y hy1
        simp only at this ⊢
        omega
    · rw [List.pairwise_cons]
      refine ⟨?_, ih h.2⟩
      intro y hy
      rcases List.mem_cons.mp ((aritiesInsert_perm rest s c).mem_iff.mp hy) with hy1 | hy1
      · subst hy1
        simp only
        omega
      · exact h.1 y hy1

theorem arities_fold (l : List (Nat × List Point2)) (acc : List (Nat × Nat))
    (h : acc.Pairwise (fun x y => y.1 ≤ x.1)) :
    (l.foldl (fun arities region => aritiesInsert arities region.2.length region.1) acc).Perm
        (acc ++ l.map (fun region => (region.2.length, region.1))) ∧
    (l.foldl (fun arities region => aritiesInsert arities region.2.length region.1) acc).Pairwise
        (fun x y => y.1 ≤ x.1) := by
  induction l generalizing acc with
  | nil => simpa using h
  | cons r rest ih =>
    obtain ⟨h1, h2⟩ := ih (aritiesInsert acc r.2.length r.1) (aritiesInsert_sorted _ _ _ h)
    refine ⟨?_, h2⟩
    simp only [List.foldl, List.map_cons]
    refine h1.trans ?_
    refine (List.Perm.append_right _ (aritiesInsert_perm acc r.2.length r.1)).trans ?_
    exact (List.perm_middle).symm

/-! ## C23: the GeoJSON projection of the connectivity map -/

/-- C23: equal-sized components are not emitted by ascending colour. The
transit level of `smallMap` has the two components 1 and 2 of one tile each;
when the region map is iterated with colour 2 first (an order the hash map may
have), the feature of colour 2 precedes the feature of colour 1, and with the
opposite iteration order it follows it. -/
theorem to_geojson_ties_follow_iteration :
    smallMap.colors.lookup 2 = some [(0, 1), (2, 2)] ∧
    (smallMap.to_geojson List.reverse 2).map
        (fun fs => fs.map (fun f => (f.color, f.coordinates.length))) = .ok [(2, 1), (1, 1)] ∧
    (smallMap.to_geojson id 2).map
        (fun fs => fs.map (fun f => (f.color, f.coordinates.length))) = .ok [(1, 1), (2, 1)] :=
  ⟨rfl, by decide, by decide⟩

/-- C23 (amended): for a level with an entry in the colours mapping whose
tiling is in the hierarchy, and for every iteration order of the region map,
`to_geojson` returns features with pairwise distinct colours, one for each colour
that some tile of the level has, each holding exactly the centres of the tiles
of that colour, and ordered by descending number of points. -/
theorem to_geojson_spec (cm : connectivity_map_t)
    (iterate : List (Nat × List Point2) → List (Nat × List Point2)) (lvl : Nat)
    (level : ConnectivityMap) (bbox : TileLevel)
    (hiter : ∀ l, (iterate l).Perm l)
    (hlevel : cm.colors.lookup lvl = some level)
    (hbbox : cm.tile_hierarchy.levels.lookup (cm.tile_level lvl) = some bbox) :
    ∃ features, cm.to_geojson iterate lvl = .ok features ∧
      (features.map (fun f => f.color)).Nodup ∧
      (∀ c, c ∈ features.map (fun f => f.color) ↔ ∃ tile, (tile, c) ∈ level) ∧
      (∀ f ∈ features, f.coordinates = componentCentres bbox.tiles level f.color) ∧
      features.Pairwise (fun f g => g.coordinates.length ≤ f.coordinates.length) := by
  unfold connectivity_map_t.to_geojson
  rw [hlevel]
  simp only
  rw [hbbox]
  simp only
  refine ⟨_, rfl, ?_⟩
  obtain ⟨rn, rl⟩ := regions_fold (fun t => bbox.tiles.Center (toInt32 t)) level [] [] (by simp)
    (by intro c; simp [List.lookup])
  simp only [List.nil_append] at rn rl
  generalize level.foldl
    (fun regions tile => regionsInsert regions tile.2 (bbox.tiles.Center (toInt32 tile.1))) [] =
    regions at rn rl ⊢
  obtain ⟨ap, as⟩ := arities_fold (iterate regions) [] List.Pairwise.nil
  simp only [List.nil_append] at ap
  generalize (iterate regions).foldl
    (fun arities region => aritiesInsert arities region.2.length region.1) [] = arities at ap as ⊢
  have hmem : ∀ c ps, (c, ps) ∈ regions →
      (∃ tile, (tile, c) ∈ level) ∧ ps = componentCentres bbox.tiles level c := by
    intro c ps h
    have h1 := lookup_of_mem_nodup regions c ps rn h
    rw [rl c] at h1
    by_cases he : level.filter (fun tile => decide (tile.2 = c)) = []
    · rw [if_pos he] at h1
      exact absurd h1 (by simp)
    · rw [if_neg he] at h1
      refine ⟨?_, (Option.some.inj h1).symm⟩
      obtain ⟨t, ht⟩ := List.exists_mem_of_ne_nil _ he
      rw [List.mem_filter] at ht
      have e : t.2 = c := by simpa using ht.2
      exact ⟨t.1, by rw [← e]; exact ht.1⟩
  have hkey : ∀ a ∈ arities, ∃ ps, (a.2, ps) ∈ regions ∧ a.1 = ps.length := by
    intro a ha
    obtain ⟨r, hr, e⟩ := List.mem_map.mp (ap.mem_iff.mp ha)
    refine ⟨r.2, ?_, ?_⟩
    · rw [← e]
      exact (hiter regions).mem_iff.mp hr
    · rw [← e]
  have hcoord : ∀ a ∈ arities,
      (regions.lookup a.2).getD [] = componentCentres bbox.tiles level a.2 ∧
      a.1 = ((regions.lookup a.2).getD []).length := by
    intro a ha
    obtain ⟨ps, h1, h2⟩ := hkey a ha
    rw [lookup_of_mem_nodup regions a.2 ps rn h1]
    exact ⟨(hmem a.2 ps h1).2, h2⟩
  have hcolors : (arities.map
      (fun arity => ({ color := arity.2, coordinates := (regions.lookup arity.2).getD [] } :
        Feature))).map (fun f => f.color) = arities.map Prod.snd := by
    rw [List.map_map]
    rfl
  have hperm : (arities.map Prod.snd).Perm (regions.map Prod.fst) := by
    have h1 := ap.map Prod.snd
    rw [List.map_map] at h1
    exact h1.trans ((hiter regions).map Prod.fst)
  refine ⟨?_, ?_, ?_, ?_⟩
  · rw [hcolors]
    exact hperm.nodup_iff.mpr rn
  · intro c
    rw [hcolors, hperm.mem_iff]
    constructor
    · intro h
      obtain ⟨r, hr, e⟩ := List.mem_map.mp h
      exact (hmem c r.2 (by rw [← e]; exact hr)).1
    · rintro ⟨tile, ht⟩
      have he : level.filter (fun t => decide (t.2 = c)) ≠ [] := by
        intro e
        have : (tile, c) ∈ level.filter (fun t => decide (t.2 = c)) :=
          List.mem_filter.mpr ⟨ht, by simp⟩
        rw [e] at this
        exact List.not_mem_nil _ this
      have h1 := rl c
      rw [if_neg he] at h1
      exact List.mem_map.mpr ⟨_, mem_of_lookup regions c _ h1, rfl⟩
  · intro f hf
    obtain ⟨a, ha, e⟩ := List.mem_map.mp hf
    rw [← e]
    exact (hcoord a ha).1
  · rw [List.pairwise_map]
    refine as.imp_of_mem ?_
    intro a b ha hb hab
    have h1 := (hcoord a ha).2
    have h2 := (hcoord b hb).2
    simp only
    omega

theorem to_geojson_spec_witness :
    ∃ features, smallMap.to_geojson id 1 = .ok features ∧
      (features.map (fun f => f.color)).Nodup ∧
      (∀ c, c ∈ features.map (fun f => f.color) ↔
        ∃ tile, (tile, c) ∈ [(0, 1), (2, 2), (5, 2), (6, 2)]) ∧
      (∀ f ∈ features, f.coordinates =
        componentCentres { ncolumns_ := 4, nrows_ := 2, tilebounds_ := world_box, tilesize_ := 90 }
          [(0, 1), (2, 2), (5, 2), (6, 2)] f.color) ∧
      features.Pairwise (fun f g => g.coordinates.length ≤ f.coordinates.length) :=
  to_geojson_spec smallMap id 1 [(0, 1), (2, 2), (5, 2), (6, 2)]
    { level := 1,
      tiles := { ncolumns_ := 4, nrows_ := 2, tilebounds_ := world_box, tilesize_ := 90 } }
    (fun l => List.Perm.refl l) rfl rfl

/-! ## Claim C31: scenario C -/

theorem TileBounds_congr (T T' : BoundedTiles) (h1 : T.toTiles = T'.toTiles)
    (h2 : T.tilebounds_ = T'.tilebounds_) (h3 : T.tilesize_ = T'.tilesize_) (t : Int) :
    T.TileBounds t = T'.TileBounds t := by
  simp only [BoundedTiles.TileBounds, BoundedTiles.Base, h1, h2, h3]

theorem checkNeighbor_congr (T T' : BoundedTiles) (h1 : T.toTiles = T'.toTiles)
    (h2 : T.tilebounds_ = T'.tilebounds_) (h3 : T.tilesize_ = T'.tilesize_)
    (boundingbox : AABB2) (neighbor : Int) (st : List Int × List Int) :
    checkNeighbor T boundingbox neighbor st = checkNeighbor T' boundingbox neighbor st := by
  simp only [checkNeighbor, TileBounds_congr T T' h1 h2 h3]

theorem tileListLoop_congr (T T' : BoundedTiles) (h1 : T.toTiles = T'.toTiles)
    (h2 : T.tilebounds_ = T'.tilebounds_) (h3 : T.tilesize_ = T'.tilesize_)
    (boundingbox : AABB2) (fuel : Nat) :
    ∀ checklist visited tilelist,
      tileListLoop T boundingbox fuel checklist visited tilelist =
        tileListLoop T' boundingbox fuel checklist visited tilelist := by
  induction fuel with
  | zero =>
    intro checklist visited tilelist
    cases checklist <;> simp [tileListLoop]
  | succ fuel ih =>
    intro checklist visited tilelist
    cases checklist with
    | nil => simp [tileListLoop]
    | cons t rest =>
      simp only [tileListLoop, checkNeighbor_congr T T' h1 h2 h3, h1, ih]

theorem TileList_congr (T T' : BoundedTiles) (h1 : T.toTiles = T'.toTiles)
    (h2 : T.tilebounds_ = T'.tilebounds_) (h3 : T.tilesize_ = T'.tilesize_)
    (boundingbox : AABB2) : T.TileList boundingbox = T'.TileList boundingbox := by
  have hid : T.TileIdOf boundingbox.Center = T'.TileIdOf boundingbox.Center := by
    simp only [BoundedTiles.TileIdOf, BoundedTiles.TileId, BoundedTiles.Row, BoundedTiles.Col,
      h1, h2, h3]
  simp only [BoundedTiles.TileList, hid, h1, tileListLoop_congr T T' h1 h2 h3]

theorem scenarioC_box_tiles (t : Int) (h0 : 0 ≤ t) :
    AABB2.Intersects { minx := -1, miny := -1, maxx := 1, maxy := 1 }
        ((BoundedTiles.construct world_box 4).TileBounds t) = true ↔ (t = 2024 ∨ t = 2025) := by
  have hc : (BoundedTiles.construct world_box 4).ncolumns_ = 90 := scenarioTiling_counts.1
  have hb : (BoundedTiles.construct world_box 4).tilebounds_ = world_box := rfl
  have hs : (BoundedTiles.construct world_box 4).tilesize_ = 4 := rfl
  unfold BoundedTiles.TileBounds
  rw [Base_eq _ t h0 (by rw [hc]; decide), hc, hb, hs]
  have hdec : t = 90 * (t / 90) + t % 90 ∧ 0 ≤ t % 90 ∧ t % 90 < 90 := by omega
  generalize t / 90 = r at hdec ⊢
  generalize t % 90 = c at hdec ⊢
  obtain ⟨ht, hc0, hc1⟩ := hdec
  simp only [AABB2.Intersects, world_box]
  by_cases hin : (44 ≤ c ∧ c ≤ 45) ∧ r = 22
  · obtain ⟨⟨a1, a2⟩, a3⟩ := hin
    have b1 : (44 : ℚ) ≤ (c : ℚ) := by exact_mod_cast a1
    have b2 : (c : ℚ) ≤ 45 := by exact_mod_cast a2
    have b3 : (r : ℚ) = 22 := by exact_mod_cast a3
    have hno : ¬ ((-1 : ℚ) > -180 + (c : ℚ) * 4 + 4 ∨ (1 : ℚ) < -180 + (c : ℚ) * 4 ∨
        (-1 : ℚ) > -90 + (r : ℚ) * 4 + 4 ∨ (1 : ℚ) < -90 + (r : ℚ) * 4) := by
      rw [b3]
      rintro (h | h | h | h) <;> linarith
    rw [if_neg hno]
    constructor
    · intro _
      omega
    · intro _
      rfl
  · have hyes : ((-1 : ℚ) > -180 + (c : ℚ) * 4 + 4 ∨ (1 : ℚ) < -180 + (c : ℚ) * 4 ∨
        (-1 : ℚ) > -90 + (r : ℚ) * 4 + 4 ∨ (1 : ℚ) < -90 + (r : ℚ) * 4) := by
      have hcases : c ≤ 43 ∨ 46 ≤ c ∨ r ≤ 21 ∨ 23 ≤ r := by omega
      rcases hcases with h | h | h | h
      · have b : (c : ℚ) ≤ 43 := by exact_mod_cast h
        exact Or.inl (by linarith)
      · have b : (46 : ℚ) ≤ (c : ℚ) := by exact_mod_cast h
        exact Or.inr (Or.inl (by linarith))
      · have b : (r : ℚ) ≤ 21 := by exact_mod_cast h
        exact Or.inr (Or.inr (Or.inl (by linarith)))
      · have b : (23 : ℚ) ≤ (r : ℚ) := by exact_mod_cast h
        exact Or.inr (Or.inr (Or.inr (by linarith)))
    rw [if_pos hyes]
    constructor
    · intro h
      exact absurd h (by decide)
    · intro h
      exfalso
      omega

theorem scenarioC_result :
    ∃ out, scenarioTiling.TileList { minx := -1, miny := -1, maxx := 1, maxy := 1 } = some out ∧
      out.Nodup ∧ ∀ t, t ∈ out ↔ (t = 2024 ∨ t = 2025) := by
  have hc : (BoundedTiles.construct world_box 4).ncolumns_ = 90 := scenarioTiling_counts.1
  have hr : (BoundedTiles.construct world_box 4).nrows_ = 45 := scenarioTiling_counts.2
  have hN : (BoundedTiles.construct world_box 4).TileCount = 4050 := by
    unfold Tiles.TileCount
    rw [hc, hr]
    decide
  obtain ⟨out, h1, h2, h3⟩ := TileList_result world_box 4 (by norm_num)
    (by norm_num [world_box]) (by norm_num [world_box]) (by rw [hN]; decide)
    { minx := -1, miny := -1, maxx := 1, maxy := 1 } (by norm_num) (by norm_num)
    (by norm_num [AABB2.Center, world_box]) (by norm_num [AABB2.Center, world_box])
  refine ⟨out, ?_, h2, ?_⟩
  · rw [← h1]
    exact TileList_congr scenarioTiling (BoundedTiles.construct world_box 4) rfl rfl rfl _
  · intro t
    rw [h3 t, hN]
    constructor
    · rintro ⟨a, -, c⟩
      exact (scenarioC_box_tiles t a).mp c
    · intro h
      have h0 : 0 ≤ t := by omega
      exact ⟨h0, by omega, (scenarioC_box_tiles t h0).mpr h⟩

/-- C31 fails as stated: over the world tiling with tiles of 4 degrees and 5
subdivisions, `TileList` of the box (-1, -1) to (1, 1) returns a list that
holds neither the tile of column 44 and row 23 nor the tile of column 45 and
row 23: their bounds start at latitude 2 and do not intersect the box. -/
theorem scenarioC_as_stated :
    ∃ out, scenarioTiling.TileList { minx := -1, miny := -1, maxx := 1, maxy := 1 } = some out ∧
      scenarioTiling.toTiles.TileId 44 23 ∉ out ∧ scenarioTiling.toTiles.TileId 45 23 ∉ out ∧
      (scenarioTiling.TileBounds (scenarioTiling.toTiles.TileId 44 23)).miny = 2 ∧
      (scenarioTiling.TileBounds (scenarioTiling.toTiles.TileId 45 23)).miny = 2 := by
  obtain ⟨out, h1, -, h3⟩ := scenarioC_result
  have hc := scenarioTiling_counts.1
  have e1 : scenarioTiling.toTiles.TileId 44 23 = 2114 := by
    unfold Tiles.TileId
    rw [hc]
    decide
  have e2 : scenarioTiling.toTiles.TileId 45 23 = 2115 := by
    unfold Tiles.TileId
    rw [hc]
    decide
  have hb : ∀ t : Int, 0 ≤ t → (scenarioTiling.TileBounds t).miny
      = -90 + ((t / 90 : Int) : ℚ) * 4 := by
    intro t h0
    unfold BoundedTiles.TileBounds
    rw [Base_eq _ t h0 (by rw [hc]; decide), hc]
    rfl
  refine ⟨out, h1, ?_, ?_, ?_, ?_⟩
  · rw [e1, h3]
    decide
  · rw [e2, h3]
    decide
  · rw [e1, hb 2114 (by decide)]
    have e : (2114 : Int) / 90 = 23 := by decide
    rw [e]
    norm_num
  · rw [e2, hb 2115 (by decide)]
    have e : (2115 : Int) / 90 = 23 := by decide
    rw [e]
    norm_num

/-- C31, amended: over the world tiling with tiles of 4 degrees and 5
subdivisions, `TileList` of the box (-1, -1) to (1, 1) returns, without
duplicates, exactly the two tiles of row 22 in the columns 44 and 45, the tiles
2024 and 2025. -/
theorem scenarioC_TileList :
    ∃ out, scenarioTiling.TileList { minx := -1, miny := -1, maxx := 1, maxy := 1 } = some out ∧
      out.Nodup ∧ out.length = 2 ∧
      (∀ t, t ∈ out ↔
        (t = scenarioTiling.toTiles.TileId 44 22 ∨ t = scenarioTiling.toTiles.TileId 45 22)) ∧
      scenarioTiling.toTiles.TileId 44 22 = 2024 ∧
      scenarioTiling.toTiles.TileId 45 22 = 2025 := by
  obtain ⟨out, h1, h2, h3⟩ := scenarioC_result
  have hc := scenarioTiling_counts.1
  have e1 : scenarioTiling.toTiles.TileId 44 22 = 2024 := by
    unfold Tiles.TileId
    rw [hc]
    decide
  have e2 : scenarioTiling.toTiles.TileId 45 22 = 2025 := by
    unfold Tiles.TileId
    rw [hc]
    decide
  refine ⟨out, h1, h2, ?_, ?_, e1, e2⟩
  · have hperm : out.Perm [2024, 2025] := by
      rw [List.perm_ext_iff_of_nodup h2 (by decide)]
      intro t
      rw [h3 t]
      simp
    exact hperm.length_eq
  · intro t
    rw [e1, e2]
    exact h3 t

/-! ## Claim C33: the centre of a tile lies in its bounds -/

/-- C34 fails as stated: the widths of the members of `TransitDeparture` do
not add up to 24 bytes, and neither do the widths that the claim lists, which
are the same widths in another order. -/
theorem TransitDeparture_not_24_bytes :
    TransitDeparture.fieldWidths.sum ≠ 8 * 24 ∧
      [32, 32, 32, 25, 7, 32, 17, 15, 64].sum ≠ 8 * 24 ∧
      TransitDeparture.fieldWidths.Perm [32, 32, 32, 25, 7, 32, 17, 15, 64] := by
  refine ⟨by decide, by decide, by decide⟩

/-- C34, amended: the members of `TransitDeparture` have the widths that the
claim lists (line id 32, trip id 32, route id 32, block id 25, day-of-week mask
7, headsign offset 32, departure time 17, elapsed time 15, days bitmap 64
bits), the two pairs of bit fields fill one 32-bit unit each, and the widths
add up to 256 bits, which is 32 bytes. -/
theorem TransitDeparture_field_widths :
    TransitDeparture.fieldWidths.Perm [32, 32, 32, 25, 7, 32, 17, 15, 64] ∧
      TransitDeparture.fieldWidths.sum = 8 * 32 ∧
      TransitDeparture.fieldWidths.get? 4 = some 25 ∧
      TransitDeparture.fieldWidths.get? 5 = some 7 ∧ 25 + 7 = 32 ∧
      TransitDeparture.fieldWidths.get? 7 = some 17 ∧
      TransitDeparture.fieldWidths.get? 8 = some 15 ∧ 17 + 15 = 32 := by
  refine ⟨by decide, by decide, rfl, rfl, rfl, rfl, rfl, rfl⟩

/-! ## Claims C36 and C37: the walk at the maximum edges -/

theorem tiling8_TileId_edge (y : ℚ) (hy0 : 4 ≤ y) (hy : y ≤ 8) :
    tiling8.TileIdOf { x := 8, y := y } = 3 := by
  obtain ⟨hc, hr, -, -, hb, hs⟩ := tiling8_counts
  unfold BoundedTiles.TileIdOf
  have hts : 0 < tiling8.tilesize_ := by rw [hs]; norm_num
  have hrow := Row_inside tiling8 hts y (by rw [hb]; show (0 : ℚ) ≤ y; linarith)
    (by rw [hb]; exact hy)
  have hcol := Col_inside tiling8 hts 8 (by rw [hb]; show (0 : ℚ) ≤ 8; norm_num)
    (by rw [hb])
  rw [TileId_inside tiling8 y 8 (by rw [hb]; show (0 : ℚ) ≤ y; linarith) (by rw [hb]; exact hy)
    (by rw [hb]; show (0 : ℚ) ≤ 8; norm_num) (by rw [hb]), hrow, hcol, hb, hs, hc, hr]
  simp only [if_true, sub_zero]
  by_cases e : y = 8
  · simp only [e, if_true]
    decide
  · simp only [e, if_false]
    have f : ⌊y / 4⌋ = 1 := by
      rw [Int.floor_eq_iff]
      have hlt : y < 8 := lt_of_le_of_ne hy e
      constructor
      · rw [le_div_iff₀ (by norm_num)]
        norm_num
        linarith
      · rw [div_lt_iff₀ (by norm_num)]
        norm_num
        linarith
    rw [f]
    decide

theorem subdivision_in_range (n : Nat) (hn : 0 < n) (x y : Int) (hx : 0 ≤ x) (hy : 0 ≤ y) :
    toUInt16 (y.tmod n * n + x.tmod n) < n * n := by
  have hn0 : (0 : Int) ≤ (n : Int) := Int.natCast_nonneg n
  have hnpos : (0 : Int) < (n : Int) := by exact_mod_cast hn
  rw [Int.tmod_eq_emod hy hn0, Int.tmod_eq_emod hx hn0]
  have a0 := Int.emod_nonneg y (ne_of_gt hnpos)
  have a1 := Int.emod_lt_of_pos y hnpos
  have b0 := Int.emod_nonneg x (ne_of_gt hnpos)
  have b1 := Int.emod_lt_of_pos x hnpos
  generalize y % (n : Int) = a at a0 a1
  generalize x % (n : Int) = b at b0 b1
  have hv0 : 0 ≤ a * n + b := by nlinarith
  have hv1 : a * n + b < (n : Int) * n := by nlinarith
  unfold toUInt16
  have hle : (a * n + b) % 65536 ≤ a * n + b := emod_le_self_of_nonneg _ 65536 hv0 (by decide)
  have hm0 : 0 ≤ (a * n + b) % 65536 := Int.emod_nonneg _ (by decide)
  have : (((a * n + b) % 65536).toNat : Int) < ((n * n : Nat) : Int) := by
    rw [Int.toNat_of_nonneg hm0]
    push_cast
    omega
  exact_mod_cast this

theorem intersectLoop_past_end (T : BoundedTiles) (isLeft : Point2 → ℚ) (x_end y_end : Int)
    (hn : 0 < T.nsubdivisions_) (fuel : Nat) :
    ∀ (x y : Int) (acc : List (Int × Nat)), 0 ≤ x → 0 ≤ y → x_end < x → y_end < y →
      intersectLoop T isLeft x_end y_end fuel x y acc = none := by
  induction fuel with
  | zero =>
    intro x y acc hx hy hxe hye
    rw [intersectLoop]
    simp only [ge_iff_le, if_neg (not_le.mpr (subdivision_in_range _ hn x y hx hy))]
    by_cases hl : isLeft { x := T.tilebounds_.minx + T.subdivision_size_ * x,
                           y := T.tilebounds_.miny + T.subdivision_size_ * y } < 0
    · have hcond : x ≠ x_end ∧ y + 1 ≠ y_end := ⟨by omega, by omega⟩
      simp only [hl, if_true, if_pos hcond]
    · have hcond : x + 1 ≠ x_end ∧ y ≠ y_end := ⟨by omega, by omega⟩
      simp only [hl, if_false, if_pos hcond]
  | succ fuel ih =>
    intro x y acc hx hy hxe hye
    rw [intersectLoop]
    simp only [ge_iff_le, if_neg (not_le.mpr (subdivision_in_range _ hn x y hx hy))]
    by_cases hl : isLeft { x := T.tilebounds_.minx + T.subdivision_size_ * x,
                           y := T.tilebounds_.miny + T.subdivision_size_ * y } < 0
    · have hcond : x ≠ x_end ∧ y + 1 ≠ y_end := ⟨by omega, by omega⟩
      simp only [hl, if_true, if_pos hcond]
      exact ih x (y + 1) _ hx (by omega) hxe (by omega)
    · have hcond : x + 1 ≠ x_end ∧ y ≠ y_end := ⟨by omega, by omega⟩
      simp only [hl, if_false, if_pos hcond]
      exact ih (x + 1) y _ (by omega) hy (by omega) hye

/-- C36 fails on the code. On the tiling of the box (0, 0) to (8, 8) with two
by two tiles of two by two subdivisions, the point (8, 8), the maximum corner
of the bounds, is inside them (`TileId` gives the tile 3), and for the polyline
of this single point the walk never ends, whatever `IsLeft` is: its start is
the global subdivision (4, 4), its end, clamped to the last subdivision, is
(3, 3), each step increases one coordinate of the start, and the loop goes on
while both coordinates differ from their end. No number of steps suffices. -/
theorem Intersect_max_corner_no_return (isLeft : Point2 → Point2 → Point2 → ℚ)
    (segmentIntersects : Point2 → Point2 → Bool) (fuel : Nat) :
    tiling8.TileIdOf { x := 8, y := 8 } = 3 ∧
      tiling8.Intersect isLeft segmentIntersects fuel [{ x := 8, y := 8 }] = none := by
  obtain ⟨hc, -, hn, -, -, -⟩ := tiling8_counts
  have ht := tiling8_TileId_edge 8 (by norm_num) (by norm_num)
  have t88 : tiling8.TileIdOf { x := 8, y := 8 } ≠ -1 := by
    rw [ht]
    decide
  have c8 : truncInt ((8 : ℚ) / 8 * 2 * 2) = 4 :=
    truncInt_eq _ 4 (by norm_num) (by norm_num) (by norm_num)
  refine ⟨ht, ?_⟩
  unfold BoundedTiles.Intersect
  simp only [segments, intersectSegments]
  rw [tiling8_segment isLeft segmentIntersects fuel _ _ [] 4 4 4 4 t88 t88 c8 c8 c8 c8]
  have e : min (if (4 : Int) > 4 then (4 : Int) else 4) 3 = 3 := by decide
  have e2 : (if (4 : Int) > 4 then (4 : Int) else 4) = 4 := by decide
  rw [e, e2]
  rw [intersectLoop_past_end tiling8 _ 3 3 (by rw [hn]; decide) fuel 4 4 [] (by decide)
    (by decide) (by decide) (by decide)]

/-- C37 fails on the code. On the tiling of the box (0, 0) to (8, 8) with two
by two tiles of two by two subdivisions, which has the tiles 0 to 3, the point
(8, 7) on the maximum edge is inside the bounds (`TileId` gives the tile 3).
For the polyline of this single point, with an `IsLeft` that is 0 for the
segment from the point to itself (as a cross product with the zero vector
is), the result is the subdivision 2 of the tile 4, which is not a tile of
the tiling: the start column 4 of the walk is not clamped. -/
theorem Intersect_tile_out_of_range (isLeft : Point2 → Point2 → Point2 → ℚ)
    (segmentIntersects : Point2 → Point2 → Bool) (fuel : Nat)
    (h : isLeft { x := 8, y := 7 } { x := 8, y := 7 } { x := 8, y := 6 } = 0) :
    tiling8.TileIdOf { x := 8, y := 7 } = 3 ∧ tiling8.TileCount = 4 ∧
      tiling8.Intersect isLeft segmentIntersects fuel [{ x := 8, y := 7 }] =
        some (.ok [(4, 2)]) := by
  obtain ⟨hc, hr, hn, hss, hb, -⟩ := tiling8_counts
  have ht := tiling8_TileId_edge 7 (by norm_num) (by norm_num)
  have t87 : tiling8.TileIdOf { x := 8, y := 7 } ≠ -1 := by
    rw [ht]
    decide
  have c8 : truncInt ((8 : ℚ) / 8 * 2 * 2) = 4 :=
    truncInt_eq _ 4 (by norm_num) (by norm_num) (by norm_num)
  have c7 : truncInt ((7 : ℚ) / 8 * 2 * 2) = 3 :=
    truncInt_eq _ 3 (by norm_num) (by norm_num) (by norm_num)
  refine ⟨ht, ?_, ?_⟩
  · unfold Tiles.TileCount
    rw [hc, hr]
    decide
  · unfold BoundedTiles.Intersect
    simp only [segments, intersectSegments]
    rw [tiling8_segment isLeft segmentIntersects fuel _ _ [] 4 3 4 3 t87 t87 c8 c7 c8 c7]
    have e : min (if (4 : Int) > 4 then (4 : Int) else 4) 3 = 3 := by decide
    have e2 : (if (4 : Int) > 4 then (4 : Int) else 4) = 4 := by decide
    have e3 : min (if (3 : Int) > 3 then (3 : Int) else 3) 3 = 3 := by decide
    have e4 : (if (3 : Int) > 3 then (3 : Int) else 3) = 3 := by decide
    rw [e, e2, e3, e4]
    have hcorner : Point2.mk (tiling8.tilebounds_.minx + tiling8.subdivision_size_ * ((4 : Int) : ℚ))
        (tiling8.tilebounds_.miny + tiling8.subdivision_size_ * ((3 : Int) : ℚ)) =
        { x := 8, y := 6 } := by
      rw [hb, hss]
      norm_num
    have hloop : intersectLoop tiling8 (isLeft { x := 8, y := 7 } { x := 8, y := 7 }) 3 3 fuel 4 3 []
        = some (.ok [(4, 2)]) := by
      rw [intersectLoop]
      simp only [hcorner, h, hn, hc, lt_self_iff_false, if_false, Nat.cast_ofNat]
      have hsub : ¬ (toUInt16 (Int.tmod 3 2 * 2 + Int.tmod 4 2) ≥ 2 * 2) := by decide
      have hcond : ¬ ((4 : Int) + 1 ≠ 3 ∧ (3 : Int) ≠ 3) := by decide
      rw [if_neg hsub, if_neg hcond]
      decide
    rw [hloop]

/-- C37's failure on an `IsLeft` that is 0 everywhere. -/
theorem Intersect_tile_out_of_range_witness :
    tiling8.TileIdOf { x := 8, y := 7 } = 3 ∧ tiling8.TileCount = 4 ∧
      tiling8.Intersect (fun _ _ _ => 0) (fun _ _ => true) 0 [{ x := 8, y := 7 }] =
        some (.ok [(4, 2)]) :=
  Intersect_tile_out_of_range (fun _ _ _ => 0) (fun _ _ => true) 0 rfl

/-! ## Claim C35: the reads of the sorted lookups -/

theorem scanReads_reads_count (key : Nat → Nat) (idx count : Nat) (fuel : Nat) :
    ∀ mid, (∀ i, mid ≤ i → i < count → key i = idx) → mid ≤ count → count - mid ≤ fuel →
      count ∈ scanReads key idx count fuel mid := by
  induction fuel with
  | zero =>
    intro mid _ hm hf
    have e : mid = count := by omega
    subst e
    rw [scanReads]
    simp
  | succ fuel ih =>
    intro mid h hm hf
    rw [scanReads]
    by_cases hlt : mid < count
    · have hk : key mid = idx := h mid (le_refl mid) hlt
      simp only [hk, hlt, and_self, if_true]
      exact List.mem_cons_of_mem _
        (ih (mid + 1) (fun i hi hic => h i (by omega) hic) (by omega) (by omega))
    · have e : mid = count := by omega
      subst e
      simp

theorem scanReads_le_count (key : Nat → Nat) (idx count : Nat) (fuel : Nat) :
    ∀ mid, mid ≤ count → ∀ i, i ∈ scanReads key idx count fuel mid → i ≤ count := by
  induction fuel with
  | zero =>
    intro mid hm i hi
    rw [scanReads] at hi
    split_ifs at hi <;> simp at hi <;> omega
  | succ fuel ih =>
    intro mid hm i hi
    rw [scanReads] at hi
    split_ifs at hi with hc
    · simp only [List.mem_cons] at hi
      rcases hi with hi | hi
      · omega
      · exact ih (mid + 1) (by omega) i hi
    · simp at hi
      omega

/-- C35 fails on the code: the forward loops test `arr[mid].key == idx` before
`mid < count`, so they read the record at index `count` whenever the matching
run ends at the last record. On the tile with the signs of the edges 7, 7, 12
(count 3), `GetSigns(12)` reads `signs_` at the indices 1, 2, 1, 2 and 3; on the
tile with one access restriction, of edge 7, `GetAccessRestrictions(7)` reads
the indices 0, 0 and 1; on the tile with five transfers, the last from stop 8,
`GetTransfers(8)` and `GetTransfer(8, 6)` read the indices 2, 3, 4, 3, 4 and 5.
In general the forward loop started in a run that extends to the last record
reads the index `count`, and never an index beyond it. -/
theorem sorted_lookups_read_past_end :
    (signTile.header_.signcount = 3 ∧ GetSigns_reads signTile 12 = [1, 2, 1, 2, 3]) ∧
      (restrictionTile.header_.access_restriction_count = 1 ∧
        GetAccessRestrictions_reads restrictionTile 7 = [0, 0, 1]) ∧
      (transitTile.header_.transfercount = 5 ∧
        GetTransfers_reads transitTile 8 = [2, 3, 4, 3, 4, 5] ∧
        GetTransfer_reads transitTile 8 6 = [2, 3, 4, 3, 4, 5]) ∧
      (∀ (key : Nat → Nat) (idx count fuel mid : Nat),
        (∀ i, mid ≤ i → i < count → key i = idx) → mid ≤ count → count - mid ≤ fuel →
          count ∈ scanReads key idx count fuel mid ∧
            ∀ i, i ∈ scanReads key idx count fuel mid → i ≤ count) :=
  ⟨⟨rfl, by decide⟩, ⟨rfl, by decide⟩, ⟨rfl, by decide, by decide⟩,
    fun key idx count fuel mid h hm hf =>
      ⟨scanReads_reads_count key idx count fuel mid h hm hf,
        scanReads_le_count key idx count fuel mid hm⟩⟩

/-! ## Claim C39: the edge filter and the surface test -/

theorem construct_type_cases (bicycle_type : List Char) (cycling_speed : Option ℚ) (ntd : ℚ) :
    ((BicycleCost.construct bicycle_type cycling_speed ntd).bicycletype_ = .kRoad ∧
        (BicycleCost.construct bicycle_type cycling_speed ntd).minimal_allowed_surface_
          = Surface.kCompacted ∧
        (BicycleCost.construct bicycle_type cycling_speed ntd).surface_speed_factor_
          = kRoadSurfaceSpeedFactors) ∨
      ((BicycleCost.construct bicycle_type cycling_speed ntd).bicycletype_ = .kHybrid ∧
        (BicycleCost.construct bicycle_type cycling_speed ntd).minimal_allowed_surface_
          = Surface.kDirt ∧
        (BicycleCost.construct bicycle_type cycling_speed ntd).surface_speed_factor_
          = kHybridSurfaceSpeedFactors) ∨
      ((BicycleCost.construct bicycle_type cycling_speed ntd).bicycletype_ = .kCross ∧
        (BicycleCost.construct bicycle_type cycling_speed ntd).minimal_allowed_surface_
          = Surface.kGravel ∧
        (BicycleCost.construct bicycle_type cycling_speed ntd).surface_speed_factor_
          = kCrossSurfaceSpeedFactors) ∨
      ((BicycleCost.construct bicycle_type cycling_speed ntd).bicycletype_ = .kMountain ∧
        (BicycleCost.construct bicycle_type cycling_speed ntd).minimal_allowed_surface_
          = Surface.kPath ∧
        (BicycleCost.construct bicycle_type cycling_speed ntd).surface_speed_factor_
          = kMountainSurfaceSpeedFactors) := by
  unfold BicycleCost.construct
  simp only []
  generalize (if bicycle_type = "Cross".toList then BicycleType.kCross
    else if bicycle_type = "Hybrid".toList ∨ bicycle_type = "City".toList then BicycleType.kHybrid
    else if bicycle_type = "Mountain".toList then BicycleType.kMountain
    else BicycleType.kRoad) = ty
  cases ty <;> simp

/-- C39 fails on the code for the mountain bicycle. The costing built for the
type "Mountain" has the minimal allowed surface `kPath`, and for the edge of
surface `kPath` with bicycle access that is no transition the surface test of
`Allowed` accepts the edge (`Allowed` returns true for a predecessor without
restrictions), while the filter of `GetFilter` excludes it. For every costing
and every edge with bicycle forward access that is no transition, the filter
excludes the edge iff the surface is rougher than the minimal allowed surface
or the type is mountain and the surface is `kPath`. -/
theorem GetFilter_mountain_path :
    (BicycleCost.construct "Mountain".toList none 0).bicycletype_ = .kMountain ∧
      (BicycleCost.construct "Mountain".toList none 0).minimal_allowed_surface_ = Surface.kPath ∧
      (bicycleEdge Surface.kPath 6).surface = Surface.kPath ∧
      (bicycleEdge Surface.kPath 6).trans_up = false ∧
      (bicycleEdge Surface.kPath 6).trans_down = false ∧
      (bicycleEdge Surface.kPath 6).forwardaccess &&& kBicycleAccess ≠ 0 ∧
      (BicycleCost.construct "Mountain".toList none 0).Allowed (bicycleEdge Surface.kPath 6)
        { opp_local_idx := 1, restrictions := 0, distance := 0 } = true ∧
      (BicycleCost.construct "Mountain".toList none 0).GetFilter (bicycleEdge Surface.kPath 6)
        = true ∧
      (∀ (bicycle_type : List Char) (cycling_speed : Option ℚ) (ntd : ℚ) (edge : DirectedEdge),
        edge.trans_up = false → edge.trans_down = false →
        edge.forwardaccess &&& kBicycleAccess ≠ 0 →
        ((BicycleCost.construct bicycle_type cycling_speed ntd).GetFilter edge = true ↔
          (¬ edge.surface ≤
              (BicycleCost.construct bicycle_type cycling_speed ntd).minimal_allowed_surface_ ∨
            ((BicycleCost.construct bicycle_type cycling_speed ntd).bicycletype_ = .kMountain ∧
              edge.surface = Surface.kPath)))) := by
  refine ⟨rfl, rfl, rfl, rfl, rfl, by decide, by decide, by decide, ?_⟩
  intro bicycle_type cycling_speed ntd edge h1 h2 h3
  unfold BicycleCost.GetFilter
  simp only [h1, h2, h3, ne_eq, not_false_eq_true, and_self, if_true]
  rcases construct_type_cases bicycle_type cycling_speed ntd with
    ⟨a, b, -⟩ | ⟨a, b, -⟩ | ⟨a, b, -⟩ | ⟨a, b, -⟩
  · rw [a, b]
    simp only [Surface.kCompacted, Surface.kPath, decide_eq_true_eq]
    constructor
    · intro h
      exact Or.inl (by omega)
    · rintro (h | ⟨h, -⟩)
      · omega
      · exact absurd h (by decide)
  · rw [a, b]
    simp only [Surface.kDirt, Surface.kPath, decide_eq_true_eq]
    constructor
    · intro h
      exact Or.inl (by omega)
    · rintro (h | ⟨h, -⟩)
      · omega
      · exact absurd h (by decide)
  · rw [a, b]
    simp only [Surface.kGravel, Surface.kPath, decide_eq_true_eq]
    constructor
    · intro h
      exact Or.inl (by omega)
    · rintro (h | ⟨h, -⟩)
      · omega
      · exact absurd h (by decide)
  · rw [a, b]
    simp only [Surface.kPath, decide_eq_true_eq]
    constructor
    · intro h
      by_cases e : edge.surface = 6
      · exact Or.inr ⟨trivial, e⟩
      · exact Or.inl (by omega)
    · rintro (h | ⟨-, h⟩)
      · omega
      · omega

/-! ## Claim C40: the index into the table of speed factors -/

theorem construct_speed_range (bicycle_type : List Char) (cycling_speed : Option ℚ) (ntd : ℚ) :
    5 ≤ (BicycleCost.construct bicycle_type cycling_speed ntd).speed_ ∧
      (BicycleCost.construct bicycle_type cycling_speed ntd).speed_ ≤ 60 := by
  unfold BicycleCost.construct
  simp only []
  generalize (if bicycle_type = "Cross".toList then BicycleType.kCross
    else if bicycle_type = "Hybrid".toList ∨ bicycle_type = "City".toList then BicycleType.kHybrid
    else if bicycle_type = "Mountain".toList then BicycleType.kMountain
    else BicycleType.kRoad) = ty
  have hd : 5 ≤ kDefaultCyclingSpeed ty ∧ kDefaultCyclingSpeed ty ≤ 60 := by
    cases ty <;> norm_num [kDefaultCyclingSpeed]
  generalize cycling_speed.getD (kDefaultCyclingSpeed ty) = speed
  unfold kMinCyclingSpeed kMaxCyclingSpeed
  split_ifs with h
  · exact hd
  · push_neg at h
    exact h

theorem construct_road_speed (speed : ℚ) (h5 : 5 ≤ speed) (h60 : speed ≤ 60) :
    (BicycleCost.construct "Road".toList (some speed) 0).speed_ = speed ∧
      (BicycleCost.construct "Road".toList (some speed) 0).surface_speed_factor_ =
        kRoadSurfaceSpeedFactors := by
  have hno : ¬ (speed < 5 ∨ speed > 60) := by
    rintro (h | h) <;> linarith
  constructor
  · simp [BicycleCost.construct, kMinCyclingSpeed, kMaxCyclingSpeed, hno]
  · simp [BicycleCost.construct]

theorem construct_table_length (bicycle_type : List Char) (cycling_speed : Option ℚ) (ntd : ℚ) :
    (BicycleCost.construct bicycle_type cycling_speed ntd).speedfactor_.length = 100 := by
  simp [BicycleCost.construct]

/-- C40 fails on the code. The constructor accepts the cycling speed 60 (every
costing has a speed from 5 to 60) and builds a table of 100 speed factors; for
a road bicycle with this speed and an edge of smooth paved surface (0) and the
steepest descent (weighted grade 0, factor 2.5) the speed is 150 and
`EdgeCost` reads `speedfactor_` at the index 150, past the table. With the
accepted speed 40 the index is 100, the first one past the table. -/
theorem EdgeCost_index_past_table :
    (∀ (bicycle_type : List Char) (cycling_speed : Option ℚ) (ntd : ℚ),
        kMinCyclingSpeed ≤ (BicycleCost.construct bicycle_type cycling_speed ntd).speed_ ∧
          (BicycleCost.construct bicycle_type cycling_speed ntd).speed_ ≤ kMaxCyclingSpeed ∧
          (BicycleCost.construct bicycle_type cycling_speed ntd).speedfactor_.length = 100) ∧
      (BicycleCost.construct "Road".toList (some 60) 0).speed_ = 60 ∧
      (BicycleCost.construct "Road".toList (some 60) 0).EdgeCost_index (bicycleEdge 0 0) = 150 ∧
      (BicycleCost.construct "Road".toList (some 60) 0).EdgeCost_secs (bicycleEdge 0 0) = none ∧
      (BicycleCost.construct "Road".toList (some 40) 0).speed_ = 40 ∧
      (BicycleCost.construct "Road".toList (some 40) 0).EdgeCost_index (bicycleEdge 0 0) = 100 ∧
      (BicycleCost.construct "Road".toList (some 40) 0).EdgeCost_secs (bicycleEdge 0 0) = none := by
  obtain ⟨s60, f60⟩ := construct_road_speed 60 (by norm_num) (by norm_num)
  obtain ⟨s40, f40⟩ := construct_road_speed 40 (by norm_num) (by norm_num)
  have i60 : (BicycleCost.construct "Road".toList (some 60) 0).EdgeCost_index (bicycleEdge 0 0)
      = 150 := by
    unfold BicycleCost.EdgeCost_index BicycleCost.EdgeCost_speed
    rw [s60, f60]
    have e : truncInt ((60 : ℚ) * kRoadSurfaceSpeedFactors.getD (bicycleEdge 0 0).surface 0 *
        kGradeBasedSpeedFactor.getD (bicycleEdge 0 0).weighted_grade 0 + 0.5) = 150 :=
      truncInt_eq _ 150
        (by norm_num [kRoadSurfaceSpeedFactors, kGradeBasedSpeedFactor, bicycleEdge])
        (by norm_num [kRoadSurfaceSpeedFactors, kGradeBasedSpeedFactor, bicycleEdge])
        (by norm_num [kRoadSurfaceSpeedFactors, kGradeBasedSpeedFactor, bicycleEdge])
    rw [e]
    decide
  have i40 : (BicycleCost.construct "Road".toList (some 40) 0).EdgeCost_index (bicycleEdge 0 0)
      = 100 := by
    unfold BicycleCost.EdgeCost_index BicycleCost.EdgeCost_speed
    rw [s40, f40]
    have e : truncInt ((40 : ℚ) * kRoadSurfaceSpeedFactors.getD (bicycleEdge 0 0).surface 0 *
        kGradeBasedSpeedFactor.getD (bicycleEdge 0 0).weighted_grade 0 + 0.5) = 100 :=
      truncInt_eq _ 100
        (by norm_num [kRoadSurfaceSpeedFactors, kGradeBasedSpeedFactor, bicycleEdge])
        (by norm_num [kRoadSurfaceSpeedFactors, kGradeBasedSpeedFactor, bicycleEdge])
        (by norm_num [kRoadSurfaceSpeedFactors, kGradeBasedSpeedFactor, bicycleEdge])
    rw [e]
    decide
  have hsteps : ¬ (bicycleEdge 0 0).use = Use.kSteps := by decide
  refine ⟨?_, s60, i60, ?_, s40, i40, ?_⟩
  · intro bicycle_type cycling_speed ntd
    obtain ⟨a, b⟩ := construct_speed_range bicycle_type cycling_speed ntd
    exact ⟨a, b, construct_table_length bicycle_type cycling_speed ntd⟩
  · unfold BicycleCost.EdgeCost_secs
    rw [if_neg hsteps, i60, List.get?_eq_none.mpr (by rw [construct_table_length]; decide)]
  · unfold BicycleCost.EdgeCost_secs
    rw [if_neg hsteps, i40, List.get?_eq_none.mpr (by rw [construct_table_length])]

/-! ## Claim C38: the slots of the grid range query -/

theorem grid13_construct :
    GridRangeQuery.construct { minx := 0, miny := 0, maxx := 1, maxy := 3 } 1 1 = .ok grid13 := by
  have c1 : ⌈((1 : ℚ) - 0) / min ((1 : ℚ) - 0) 1⌉ = 1 := by
    rw [Int.ceil_eq_iff]
    norm_num
  have c2 : ⌈((3 : ℚ) - 0) / min ((3 : ℚ) - 0) 1⌉ = 3 := by
    rw [Int.ceil_eq_iff]
    norm_num
  unfold GridRangeQuery.construct
  simp only [AABB2.Width, AABB2.Height, c1, c2]
  norm_num [grid13]
  rfl

theorem grid32_construct :
    GridRangeQuery.construct { minx := 0, miny := 0, maxx := 3, maxy := 2 } 1 1 = .ok grid32 := by
  have c1 : ⌈((3 : ℚ) - 0) / min ((3 : ℚ) - 0) 1⌉ = 3 := by
    rw [Int.ceil_eq_iff]
    norm_num
  have c2 : ⌈((2 : ℚ) - 0) / min ((2 : ℚ) - 0) 1⌉ = 2 := by
    rw [Int.ceil_eq_iff]
    norm_num
  unfold GridRangeQuery.construct
  simp only [AABB2.Width, AABB2.Height, c1, c2]
  norm_num [grid32]
  rfl

theorem unit_grid_coordinates (g : GridRangeQuery) (hx : g.bbox_.minx = 0) (hy : g.bbox_.miny = 0)
    (hw : g.cell_width_ = 1) (hh : g.cell_height_ = 1) (p : Point2) (i j : Int)
    (h0 : 0 ≤ p.x) (h1 : 0 ≤ p.y) (hi : (i : ℚ) ≤ p.x ∧ p.x < (i : ℚ) + 1)
    (hj : (j : ℚ) ≤ p.y ∧ p.y < (j : ℚ) + 1) :
    g.GridCoordinates p = (i, j) := by
  unfold GridRangeQuery.GridCoordinates
  simp only [hx, hy, hw, hh, sub_zero, div_one]
  rw [truncInt_eq p.x i h0 hi.1 hi.2, truncInt_eq p.y j h1 hj.1 hj.2]

theorem grid13_point : grid13.GridCoordinates { x := 1 / 2, y := 5 / 2 } = (0, 2) :=
  unit_grid_coordinates grid13 rfl rfl rfl rfl _ 0 2 (by norm_num) (by norm_num)
    (by norm_num) (by norm_num)

theorem grid32_point_20 : grid32.GridCoordinates { x := 5 / 2, y := 1 / 2 } = (2, 0) :=
  unit_grid_coordinates grid32 rfl rfl rfl rfl _ 2 0 (by norm_num) (by norm_num)
    (by norm_num) (by norm_num)

theorem grid32_point_01 : grid32.GridCoordinates { x := 1 / 2, y := 3 / 2 } = (0, 1) :=
  unit_grid_coordinates grid32 rfl rfl rfl rfl _ 0 1 (by norm_num) (by norm_num)
    (by norm_num) (by norm_num)

theorem AddLineSegment_point (g : GridRangeQuery)
    (Intersect : LineSegment → LineSegment → Option Point2)
    (DistanceSquared : Point2 → Point2 → ℚ) (fuel edgeid : Nat) (p : Point2) (i j : Int)
    (hc : g.bbox_.Contains p = true) (hij : g.GridCoordinates p = (i, j)) :
    g.AddLineSegment Intersect DistanceSquared fuel edgeid (p, p) =
      some (g.ItemsInCell_push_back i j edgeid) := by
  unfold GridRangeQuery.AddLineSegment InteriorLineSegment
  simp only [if_true, hc, hij]

/-- C38 fails on the code: the constructor sets `num_rows_` from the width of
the box and `num_cols_` from its height, while a cell `(i, j)`, with `i` along
the width, is stored in the slot `i + j * num_cols_`. For the box (0, 0) to
(1, 3) with unit cells there are 3 slots, and the point (1/2, 5/2) inside the
box has the cell (0, 2) and the slot 6, outside `items_`; adding the segment of
this single point writes outside the vector. For the box (0, 0) to (3, 2) with
unit cells the cells (2, 0) and (0, 1) of the points (5/2, 1/2) and (1/2, 3/2)
share the slot 2; after the segment of the single point (5/2, 1/2) was added
with the key 7, the query of the range (1/5, 6/5) to (4/5, 9/5) returns the
key 7, although the cell (2, 0) of the segment does not intersect the range. -/
theorem grid_cells_share_slot (Intersect : LineSegment → LineSegment → Option Point2)
    (DistanceSquared : Point2 → Point2 → ℚ) (fuel : Nat) :
    (GridRangeQuery.construct { minx := 0, miny := 0, maxx := 1, maxy := 3 } 1 1 = .ok grid13 ∧
        grid13.bbox_.Contains { x := 1 / 2, y := 5 / 2 } = true ∧
        grid13.GridCoordinates { x := 1 / 2, y := 5 / 2 } = (0, 2) ∧
        grid13.slot 0 2 = 6 ∧ grid13.items_.length = 3 ∧
        grid13.GetItemsInCell 0 2 = none ∧
        grid13.AddLineSegment Intersect DistanceSquared fuel 7
          ({ x := 1 / 2, y := 5 / 2 }, { x := 1 / 2, y := 5 / 2 }) = some none) ∧
      (GridRangeQuery.construct { minx := 0, miny := 0, maxx := 3, maxy := 2 } 1 1 = .ok grid32 ∧
        grid32.GridCoordinates { x := 5 / 2, y := 1 / 2 } = (2, 0) ∧
        grid32.GridCoordinates { x := 1 / 2, y := 3 / 2 } = (0, 1) ∧
        grid32.slot 2 0 = 2 ∧ grid32.slot 0 1 = 2 ∧
        grid32.AddLineSegment Intersect DistanceSquared fuel 7
            ({ x := 5 / 2, y := 1 / 2 }, { x := 5 / 2, y := 1 / 2 }) =
          some (some { grid32 with items_ := [[], [], [7], [], [], []] }) ∧
        GridRangeQuery.Query { grid32 with items_ := [[], [], [7], [], [], []] }
            { minx := 1 / 5, miny := 6 / 5, maxx := 4 / 5, maxy := 9 / 5 } = some [7] ∧
        AABB2.Intersects { minx := 1 / 5, miny := 6 / 5, maxx := 4 / 5, maxy := 9 / 5 }
          (grid32.CellBoundingBox 2 0) = false) := by
  refine ⟨⟨grid13_construct, ?_, grid13_point, by decide, rfl, by decide, ?_⟩,
    ⟨grid32_construct, grid32_point_20, grid32_point_01, by decide, by decide, ?_, ?_, ?_⟩⟩
  · norm_num [AABB2.Contains, grid13]
  · rw [AddLineSegment_point grid13 Intersect DistanceSquared fuel 7 _ 0 2
      (by norm_num [AABB2.Contains, grid13]) grid13_point]
    rfl
  · rw [AddLineSegment_point grid32 Intersect DistanceSquared fuel 7 _ 2 0
      (by norm_num [AABB2.Contains, grid32]) grid32_point_20]
    rfl
  · have h1 : GridRangeQuery.GridCoordinates { grid32 with items_ := [[], [], [7], [], [], []] }
        { x := 1 / 5, y := 6 / 5 } = (0, 1) :=
      unit_grid_coordinates _ rfl rfl rfl rfl _ 0 1 (by norm_num) (by norm_num)
        (by norm_num) (by norm_num)
    have h2 : GridRangeQuery.GridCoordinates { grid32 with items_ := [[], [], [7], [], [], []] }
        { x := 4 / 5, y := 9 / 5 } = (0, 1) :=
      unit_grid_coordinates _ rfl rfl rfl rfl _ 0 1 (by norm_num) (by norm_num)
        (by norm_num) (by norm_num)
    unfold GridRangeQuery.Query
    simp only [h1, h2]
    decide
  · norm_num [AABB2.Intersects, GridRangeQuery.CellBoundingBox, grid32]

/-! ## Claim C32: scenario F -/

theorem visitNeighbor_keeps (c y : Nat) (st : ConnectivityMap × List Nat) (z v : Nat)
    (hv : v ≠ 0) (h : mapFind st.1 z = some v) :
    mapFind (visitNeighbor c y st).1 z = some v := by
  obtain ⟨m, q⟩ := st
  by_cases h0 : mapFind m y = some 0
  · rw [visitNeighbor_zero c y m q h0]
    simp only
    rw [mapFind_mapSet]
    have hzy : ¬ z = y := by
      intro e
      subst e
      simp only at h
      rw [h0] at h
      exact hv (Option.some.inj h).symm
    rw [if_neg hzy]
    exact h
  · rw [visitNeighbor_other c y m q h0]
    exact h

theorem visits_keep (c : Nat) (l : List Nat) :
    ∀ (st : ConnectivityMap × List Nat) (z v : Nat), v ≠ 0 → mapFind st.1 z = some v →
      mapFind (l.foldl (fun st y => visitNeighbor c y st) st).1 z = some v := by
  induction l with
  | nil =>
    intro st z v _ h
    exact h
  | cons y rest ih =>
    intro st z v hv h
    simp only [List.foldl]
    exact ih _ z v hv (visitNeighbor_keeps c y st z v hv h)

theorem floodLoop_keeps (T : Tiles) (c : Nat) (fuel : Nat) :
    ∀ (m : ConnectivityMap) (q : List Nat) (m' : ConnectivityMap),
      floodLoop T c fuel m q = some m' →
      ∀ z v, v ≠ 0 → mapFind m z = some v → mapFind m' z = some v := by
  induction fuel with
  | zero =>
    intro m q m' h z v _ hz
    cases q with
    | nil =>
      simp only [floodLoop, Option.some.injEq] at h
      rw [← h]
      exact hz
    | cons x q => simp [floodLoop] at h
  | succ fuel ih =>
    intro m q m' h z v hv hz
    cases q with
    | nil =>
      simp only [floodLoop, Option.some.injEq] at h
      rw [← h]
      exact hz
    | cons x q =>
      rw [floodLoop_step] at h
      exact ih _ _ m' h z v hv (visits_keep c (neighborKeys T x) (m, q) z v hv hz)

theorem colorLoop_keeps (T : Tiles) (ks : List Nat) :
    ∀ (c : Nat) (m m' : ConnectivityMap), colorLoop T ks c m = some m' →
      ∀ z v, v ≠ 0 → mapFind m z = some v → mapFind m' z = some v := by
  induction ks with
  | nil =>
    intro c m m' h z v _ hz
    simp only [colorLoop, Option.some.injEq] at h
    rw [← h]
    exact hz
  | cons k rest ih =>
    intro c m m' h z v hv hz
    by_cases h0 : mapFind m k = some 0
    · rw [colorLoop_cons_zero T k rest c m h0] at h
      cases hf : floodLoop T c m.length (mapSet m k c) [k] with
      | none =>
        rw [hf] at h
        simp at h
      | some m1 =>
        rw [hf] at h
        simp only [Option.bind] at h
        have hzk : ¬ z = k := by
          intro e
          subst e
          rw [h0] at hz
          exact hv (Option.some.inj hz).symm
        have h1 : mapFind (mapSet m k c) z = some v := by
          rw [mapFind_mapSet, if_neg hzk]
          exact hz
        exact ih (c + 1) m1 m' h z v hv (floodLoop_keeps T c _ _ _ m1 hf z v hv h1)
    · rw [colorLoop_cons_other T k rest c m h0] at h
      exact ih c m m' h z v hv hz

theorem ColorMap_first (T : Tiles) (k : Nat) (rest m' : ConnectivityMap)
    (h : T.ColorMap ((k, 0) :: rest) = some m') : mapFind m' k = some 1 := by
  unfold Tiles.ColorMap at h
  simp only [List.map_cons] at h
  have h0 : mapFind ((k, 0) :: rest) k = some 0 := by simp [mapFind]
  rw [colorLoop_cons_zero T k _ 1 _ h0] at h
  cases hf : floodLoop T 1 ((k, 0) :: rest).length (mapSet ((k, 0) :: rest) k 1) [k] with
  | none =>
    rw [hf] at h
    simp at h
  | some m1 =>
    rw [hf] at h
    simp only [Option.bind] at h
    have h1 : mapFind (mapSet ((k, 0) :: rest) k 1) k = some 1 := by
      rw [mapFind_mapSet, if_pos rfl, h0]
      rfl
    exact colorLoop_keeps T _ 2 m1 m' h k 1 (by decide)
      (floodLoop_keeps T 1 _ _ _ m1 hf k 1 (by decide) h1)

/-- C32 fails as stated: the colours depend on the order of iteration. On the
world tiling of 4 degree tiles, the tiles 100 and 101 are neighbours, 191 is a
neighbour of 101 and 500 is a neighbour of none of them; when the map is
iterated with the tile 500 first, `ColorMap` gives the colour 1 to the tile 500
and the colour 2 to the tiles 100, 101 and 191. -/
theorem scenarioF_isolated_first :
    101 ∈ neighborKeys tiling4 100 ∧ 191 ∈ neighborKeys tiling4 101 ∧
      (∀ x, x ∈ [100, 101, 191] → 500 ∉ neighborKeys tiling4 x ∧ x ∉ neighborKeys tiling4 500) ∧
      tiling4.ColorMap [(500, 0), (100, 0), (101, 0), (191, 0)] =
        some [(500, 1), (100, 2), (101, 2), (191, 2)] := by
  refine ⟨by decide, by decide, by decide, by decide⟩

/-- C32, amended: for every tiling (with a positive column count and a tile
count that fits `int32_t`), every four distinct tiles t0, t1, t2, t3 of the
tiling where t1 is a neighbour of t0, t3 is a neighbour of t1 and t2 is a
neighbour of none of them, and every iteration order of the map
{t0:0, t1:0, t2:0, t3:0}, `ColorMap` returns and gives one colour to t0, t1 and
t3 and another to t2; the two colours are 1 and 2, and the colour 1 goes to the
component of the tile that is iterated first: the result is
{t0:1, t1:1, t3:1, t2:2} unless t2 is iterated first, and
{t0:2, t1:2, t3:2, t2:1} when it is. -/
theorem ColorMap_scenarioF (T : Tiles) (hn : 0 < T.ncolumns_)
    (hN : T.ncolumns_ * T.nrows_ < 2147483648) (t0 t1 t2 t3 : Nat)
    (hrange : ∀ x, x ∈ [t0, t1, t2, t3] → (x : Int) < T.ncolumns_ * T.nrows_)
    (hdistinct : [t0, t1, t2, t3].Nodup)
    (h01 : t1 ∈ neighborKeys T t0) (h13 : t3 ∈ neighborKeys T t1)
    (hiso : ∀ x, x ∈ [t0, t1, t3] → t2 ∉ neighborKeys T x)
    (m : ConnectivityMap) (hperm : m.Perm [(t0, 0), (t1, 0), (t2, 0), (t3, 0)]) :
    ∃ m' c c2, T.ColorMap m = some m' ∧
      mapFind m' t0 = some c ∧ mapFind m' t1 = some c ∧ mapFind m' t3 = some c ∧
      mapFind m' t2 = some c2 ∧
      ((m.head?.map Prod.fst = some t2 ∧ c = 2 ∧ c2 = 1) ∨
        (m.head?.map Prod.fst ≠ some t2 ∧ c = 1 ∧ c2 = 2)) := by
  have hmem : ∀ e, e ∈ m ↔ e ∈ [(t0, 0), (t1, 0), (t2, 0), (t3, 0)] := fun e => hperm.mem_iff
  have hkeysP : (m.map Prod.fst).Perm [t0, t1, t2, t3] := hperm.map Prod.fst
  have hk : ∀ x, x ∈ m.map Prod.fst ↔ x ∈ [t0, t1, t2, t3] := fun x => hkeysP.mem_iff
  have hkeys : ∀ e, e ∈ m → (e.1 : Int) < T.ncolumns_ * T.nrows_ := by
    intro e he
    exact hrange e.1 ((hk e.1).mp (List.mem_map.mpr ⟨e, he, rfl⟩))
  have hzero : ∀ e, e ∈ m → e.2 = 0 := by
    intro e he
    have := (hmem e).mp he
    simp only [List.mem_cons, List.mem_singleton, List.not_mem_nil, or_false] at this
    rcases this with h | h | h | h <;> rw [h]
  obtain ⟨m', c', hm', hc', hJ, hks⟩ := ColorMap_core T m hn hN hkeys hzero
  have k0 : t0 ∈ m.map Prod.fst := (hk t0).mpr (by simp)
  have k1 : t1 ∈ m.map Prod.fst := (hk t1).mpr (by simp)
  have k2 : t2 ∈ m.map Prod.fst := (hk t2).mpr (by simp)
  have k3 : t3 ∈ m.map Prod.fst := (hk t3).mpr (by simp)
  obtain ⟨v0, f0, p0, l0⟩ := hks t0 k0
  obtain ⟨v2, f2, p2, l2⟩ := hks t2 k2
  have f1 : mapFind m' t1 = some v0 := hJ.closed t0 v0 f0 (by omega) t1 h01 k1
  have f3 : mapFind m' t3 = some v0 := hJ.closed t1 v0 f1 (by omega) t3 h13 k3
  have hreach : ∀ b, Connected T (m.map Prod.fst) t0 b → b = t0 ∨ b = t1 ∨ b = t3 := by
    intro b hb
    induction hb with
    | refl => exact Or.inl rfl
    | @tail b d _ hstep ih =>
      obtain ⟨-, hc, hcn⟩ := hstep
      have hb3 : b ∈ [t0, t1, t3] := by
        rcases ih with h | h | h <;> simp [h]
      have hc4 := (hk d).mp hc
      simp only [List.mem_cons, List.mem_singleton, List.not_mem_nil, or_false] at hc4
      rcases hc4 with h | h | h | h
      · exact Or.inl h
      · exact Or.inr (Or.inl h)
      · rw [h] at hcn
        exact absurd hcn (hiso b hb3)
      · exact Or.inr (Or.inr h)
  have hnd := hdistinct
  simp only [List.nodup_cons, List.mem_cons, List.mem_singleton, List.not_mem_nil, or_false,
    not_or, List.nodup_nil, and_true, not_false_eq_true] at hnd
  obtain ⟨⟨n01, n02, n03⟩, ⟨n12, n13⟩, n23⟩ := hnd
  have hne : v0 ≠ v2 := by
    intro e
    rw [← e] at f2
    rcases hreach t2 (hJ.conn t0 t2 v0 (by omega) f0 f2) with h | h | h
    · exact n02 h.symm
    · exact n12 h.symm
    · exact n23 h
  have hcol : ∀ x v, mapFind m' x = some v → v = v0 ∨ v = v2 := by
    intro x v hx
    have hxk : x ∈ m.map Prod.fst := by
      rw [← hJ.keys_eq]
      exact mapFind_some_mem m' x v hx
    have hx4 := (hk x).mp hxk
    simp only [List.mem_cons, List.mem_singleton, List.not_mem_nil, or_false] at hx4
    rcases hx4 with h | h | h | h
    · rw [h, f0] at hx
      exact Or.inl (Option.some.inj hx).symm
    · rw [h, f1] at hx
      exact Or.inl (Option.some.inj hx).symm
    · rw [h, f2] at hx
      exact Or.inr (Option.some.inj hx).symm
    · rw [h, f3] at hx
      exact Or.inl (Option.some.inj hx).symm
  have hone : 1 = v0 ∨ 1 = v2 := by
    obtain ⟨x, hx⟩ := hJ.used 1 (le_refl 1) (by omega)
    exact hcol x 1 hx
  have htwo : 2 = v0 ∨ 2 = v2 := by
    obtain ⟨x, hx⟩ := hJ.used 2 (by omega) (by omega)
    exact hcol x 2 hx
  cases m with
  | nil =>
    have := hperm.length_eq
    simp at this
  | cons e rest =>
    have he := (hmem e).mp (List.mem_cons_self e rest)
    simp only [List.mem_cons, List.mem_singleton, List.not_mem_nil, or_false] at he
    have hfirst : ∀ k, e = (k, 0) → mapFind m' k = some 1 := by
      intro k hek
      rw [hek] at hm'
      exact ColorMap_first T k rest m' hm'
    refine ⟨m', v0, v2, hm', f0, f1, f3, f2, ?_⟩
    simp only [List.head?_cons, Option.map_some']
    rcases he with h | h | h | h
    · have := hfirst t0 h
      rw [f0] at this
      have e1 : v0 = 1 := Option.some.inj this
      right
      refine ⟨?_, e1, by omega⟩
      rw [h]
      exact fun e => n02 (Option.some.inj e)
    · have := hfirst t1 h
      rw [f1] at this
      have e1 : v0 = 1 := Option.some.inj this
      right
      refine ⟨?_, e1, by omega⟩
      rw [h]
      exact fun e => n12 (Option.some.inj e)
    · have := hfirst t2 h
      rw [f2] at this
      have e1 : v2 = 1 := Option.some.inj this
      left
      refine ⟨?_, by omega, e1⟩
      rw [h]
    · have := hfirst t3 h
      rw [f3] at this
      have e1 : v0 = 1 := Option.some.inj this
      right
      refine ⟨?_, e1, by omega⟩
      rw [h]
      exact fun e => n23 (Option.some.inj e).symm

/-- C32, amended, at the tiles 100, 101, 500 and 191 of the world tiling of 4
degree tiles, iterated in this order. -/
theorem ColorMap_scenarioF_witness :
    ∃ m' c c2, tiling4.ColorMap scenarioMap = some m' ∧
      mapFind m' 100 = some c ∧ mapFind m' 101 = some c ∧ mapFind m' 191 = some c ∧
      mapFind m' 500 = some c2 ∧
      ((scenarioMap.head?.map Prod.fst = some 500 ∧ c = 2 ∧ c2 = 1) ∨
        (scenarioMap.head?.map Prod.fst ≠ some 500 ∧ c = 1 ∧ c2 = 2)) :=
  ColorMap_scenarioF tiling4 (by decide) (by decide) 100 101 500 191 (by decide) (by decide)
    (by decide) (by decide) (by decide) scenarioMap (by decide)

end Valhalla
